import Mathlib

/-! # ACS interpreter (`acs_intr.cpp`): shallow embedding

Machine integers are `Int`/`Nat` with explicit reduction modulo `2^32`.
A pointer into a buffer is an offset into a list, a null pointer is `none`, and
a C array of fixed size is a list of that length.
The reference-returning accessors of `ACSArray` (`getRegion`, `getBlock`,
`getPage`, `getVal`) take the action that the caller performs on the returned
reference. An index outside a table of an `ACSArray`, for which C defines no
behaviour, finds a null pointer and stores nothing.
The thread list of a script is the list of its thinkers, first thread first; a
thinker is identified by its script and its position in that list.
The instruction bodies of `ACSThinker::Think` are written with the macros of
the source, each taking the rest of the instruction as its last argument.
-/

namespace ACS

/-! ## Machine integers -/

/-- Reduction of an integer to `uint32_t`. -/
def u32 (x : Int) : Nat := (x % 4294967296).toNat

/-- Reduction of an integer to `int32_t` (two's complement). -/
def i32 (x : Int) : Int := (x + 2147483648) % 4294967296 - 2147483648

/-! ## ACSArray -/

/-- The four table sizes `ACS_ARRDATASIZE`, `ACS_REGIONSIZE`, `ACS_BLOCKSIZE`,
`ACS_PAGESIZE`. They are defined in a header that is not among the sources, so
they are parameters of the model. -/
structure ACSArrayDims where
  ACS_ARRDATASIZE : Nat
  ACS_REGIONSIZE : Nat
  ACS_BLOCKSIZE : Nat
  ACS_PAGESIZE : Nat
deriving DecidableEq, Repr

abbrev val_t := Int
/-- Type `typedef val_t page_t[ACS_PAGESIZE]`. -/
abbrev page_t := List val_t
/-- Type `typedef page_t *block_t[ACS_BLOCKSIZE]`. -/
abbrev block_t := List (Option page_t)
/-- Type `typedef block_t *region_t[ACS_REGIONSIZE]`. -/
abbrev region_t := List (Option block_t)
/-- Type `typedef region_t *arrdata_t[ACS_ARRDATASIZE]`. -/
abbrev arrdata_t := List (Option region_t)

structure ACSArray where
  arrdata : arrdata_t
deriving DecidableEq, Repr

/-- Allocation `estructalloc(page_t, 1)`: a zero-filled page. -/
def allocPage (d : ACSArrayDims) : page_t := List.replicate d.ACS_PAGESIZE 0

/-- Allocation `estructalloc(block_t, 1)`: a block of null page pointers. -/
def allocBlock (d : ACSArrayDims) : block_t := List.replicate d.ACS_BLOCKSIZE none

/-- Allocation `estructalloc(region_t, 1)`: a region of null block pointers. -/
def allocRegion (d : ACSArrayDims) : region_t := List.replicate d.ACS_REGIONSIZE none

/-- Modelled from the spec: the constructor of `ACSArray` is in a header that is
not among the sources; "all levels are null (unallocated) until first write", so
a new array has every region pointer null. -/
def ACSArray.empty (d : ACSArrayDims) : ACSArray :=
  { arrdata := List.replicate d.ACS_ARRDATASIZE none }

/-- Function `ACSArray::getRegion(addr)`: finds the region slot, allocates it when
null, and hands the region to the caller's action `f`; the possibly modified
region stays in the slot. -/
def ACSArray.getRegion {β : Type} (d : ACSArrayDims) (a : ACSArray) (addr : Nat)
    (f : region_t → region_t × β) : ACSArray × β :=
  let region : region_t :=
    match a.arrdata.getD addr none with
    | some r => r
    | none => allocRegion d
  let res := f region
  ({ arrdata := a.arrdata.set addr (some res.1) }, res.2)

/-- Function `ACSArray::getBlock(addr)`:
`getRegion(addr / ACS_REGIONSIZE)[addr % ACS_REGIONSIZE]`, allocated when null. -/
def ACSArray.getBlock {β : Type} (d : ACSArrayDims) (a : ACSArray) (addr : Nat)
    (f : block_t → block_t × β) : ACSArray × β :=
  a.getRegion d (addr / d.ACS_REGIONSIZE) (fun region =>
    let block : block_t :=
      match region.getD (addr % d.ACS_REGIONSIZE) none with
      | some b => b
      | none => allocBlock d
    let res := f block
    (region.set (addr % d.ACS_REGIONSIZE) (some res.1), res.2))

/-- Function `ACSArray::getPage(addr)`:
`getBlock(addr / ACS_BLOCKSIZE)[addr % ACS_BLOCKSIZE]`, allocated when null. -/
def ACSArray.getPage {β : Type} (d : ACSArrayDims) (a : ACSArray) (addr : Nat)
    (f : page_t → page_t × β) : ACSArray × β :=
  a.getBlock d (addr / d.ACS_BLOCKSIZE) (fun block =>
    let page : page_t :=
      match block.getD (addr % d.ACS_BLOCKSIZE) none with
      | some p => p
      | none => allocPage d
    let res := f page
    (block.set (addr % d.ACS_BLOCKSIZE) (some res.1), res.2))

/-- Function `ACSArray::getVal(addr)`, the reference behind `at` and `operator []`:
`getPage(addr / ACS_PAGESIZE)[addr % ACS_PAGESIZE]`. -/
def ACSArray.getVal {β : Type} (d : ACSArrayDims) (a : ACSArray) (addr : Nat)
    (f : val_t → val_t × β) : ACSArray × β :=
  a.getPage d (addr / d.ACS_PAGESIZE) (fun page =>
    let res := f (page.getD (addr % d.ACS_PAGESIZE) 0)
    (page.set (addr % d.ACS_PAGESIZE) res.1, res.2))

/-- Assignment through the reference: `getVal(addr) = v`. -/
def ACSArray.write (d : ACSArrayDims) (a : ACSArray) (addr : Nat) (v : val_t) : ACSArray :=
  (a.getVal d addr (fun _ => (v, ()))).1

/-- Use of the reference as a value: `getVal(addr)`; the array is returned too
because the path is allocated on the way. -/
def ACSArray.read (d : ACSArrayDims) (a : ACSArray) (addr : Nat) : ACSArray × val_t :=
  a.getVal d addr (fun v => (v, v))

/-- Function `ACSArray::clear()`: the loop over the `ACS_ARRDATASIZE` region slots; an
allocated region is freed with its blocks and pages and its slot is nulled. -/
def ACSArray.clear (d : ACSArrayDims) (a : ACSArray) : ACSArray :=
  { arrdata := (List.range d.ACS_ARRDATASIZE).foldl
      (fun arr regionItr =>
        match arr.getD regionItr none with
        | none => arr
        | some _ => arr.set regionItr none)
      a.arrdata }

/-- Shape of a page: `ACS_PAGESIZE` values. -/
def pageOk (d : ACSArrayDims) (p : page_t) : Bool := p.length == d.ACS_PAGESIZE

/-- Shape of a block: `ACS_BLOCKSIZE` slots, each null or a page. -/
def blockOk (d : ACSArrayDims) (b : block_t) : Bool :=
  b.length == d.ACS_BLOCKSIZE &&
    b.all (fun o => match o with | none => true | some p => pageOk d p)

/-- Shape of a region: `ACS_REGIONSIZE` slots, each null or a block. -/
def regionOk (d : ACSArrayDims) (r : region_t) : Bool :=
  r.length == d.ACS_REGIONSIZE &&
    r.all (fun o => match o with | none => true | some b => blockOk d b)

/-- Shape of an array: the C types of `arrdata_t` and of the levels below it. -/
def ACSArray.ok (d : ACSArrayDims) (a : ACSArray) : Bool :=
  a.arrdata.length == d.ACS_ARRDATASIZE &&
    a.arrdata.all (fun o => match o with | none => true | some r => regionOk d r)

/-- The four levels partition the unsigned 32-bit index space. -/
def ACSArrayDims.full (d : ACSArrayDims) : Prop :=
  d.ACS_ARRDATASIZE * d.ACS_REGIONSIZE * d.ACS_BLOCKSIZE * d.ACS_PAGESIZE = 4294967296

instance (d : ACSArrayDims) : Decidable d.full := by
  unfold ACSArrayDims.full; infer_instance

/-- The value a cell holds, seen without allocating: zero below a null pointer. -/
def ACSArray.peek (d : ACSArrayDims) (a : ACSArray) (i : Nat) : val_t :=
  match a.arrdata.getD (i / d.ACS_PAGESIZE / d.ACS_BLOCKSIZE / d.ACS_REGIONSIZE) none with
  | none => 0
  | some r =>
    match r.getD (i / d.ACS_PAGESIZE / d.ACS_BLOCKSIZE % d.ACS_REGIONSIZE) none with
    | none => 0
    | some b =>
      match b.getD (i / d.ACS_PAGESIZE % d.ACS_BLOCKSIZE) none with
      | none => 0
      | some p => p.getD (i % d.ACS_PAGESIZE) 0

/-- The region that `getRegion` hands out. -/
def ACSArray.regionAt (d : ACSArrayDims) (a : ACSArray) (k : Nat) : region_t :=
  match a.arrdata.getD k none with
  | some r => r
  | none => allocRegion d

/-- The block that `getBlock` hands out of a region. -/
def blockAt (d : ACSArrayDims) (r : region_t) (k : Nat) : block_t :=
  match r.getD k none with
  | some b => b
  | none => allocBlock d

/-- The page that `getPage` hands out of a block. -/
def pageAt (d : ACSArrayDims) (b : block_t) (k : Nat) : page_t :=
  match b.getD k none with
  | some p => p
  | none => allocPage d

/-- A history of accesses through `getVal`: `(i, some v)` is the assignment
`getVal(i) = v`, `(i, none)` a use of `getVal(i)` as a value. -/
def ACSArray.run (d : ACSArrayDims) (a : ACSArray) : List (Nat × Option val_t) → ACSArray
  | [] => a
  | (i, some v) :: rest => ACSArray.run d (a.write d i v) rest
  | (i, none) :: rest => ACSArray.run d (a.read d i).1 rest

/-! ## Strings -/

/-- Class `ACSString::Data`: the `l` chars that the pointer `s` designates. A `char` is
kept as its integer value. -/
structure ACSString.Data where
  s : List Int
deriving DecidableEq, Repr

/-- The length field `l` of `ACSString::Data`. -/
def ACSString.Data.l (data : ACSString.Data) : Nat := data.s.length

/-- Class `ACSString`: key data, the script of that name if any (as module and script
index), the C length and the handle. -/
structure ACSString where
  data : ACSString.Data
  script : Option (Nat × Nat) := none
  length : Nat
  number : Nat
deriving DecidableEq, Repr

/-- The bytes in memory behind an interned string: `AddString` copies the `l`
chars and stores a NUL after them (`str[l] = 0`). -/
def ACSString.mem (str : ACSString) : List Int := str.data.s ++ [0]

/-- Function `strlen` on the memory of a C string: the number of chars before the first
NUL. -/
def strlen (s : List Int) : Nat := (s.takeWhile (fun c => c != 0)).length

/-- Function `ACSStringHashKey::HashCode`: `hash = hash * 5 + *itr` over the `l` chars,
in `unsigned int`. -/
def ACSStringHashKey.HashCode (input : ACSString.Data) : Nat :=
  input.s.foldl (fun hash c => u32 ((hash : Int) * 5 + c)) 0

/-- Function `ACSStringHashKey::Compare`:
`first.l == second.l && !memcmp(first.s, second.s, first.l)`. -/
def ACSStringHashKey.Compare (first second : ACSString.Data) : Bool :=
  first.l == second.l && (first.s.take first.l == second.s.take first.l)

/-! ## ACSArray::copyString and ACSArray::print -/

/-- The `while(*string)` loop of `ACSArray::copyString`. The result is the array,
the final `offset`, and `false` when the loop left through `return false`.
The list is the memory from `string` on; it ends with the NUL that closes the
interned string, and the end of the list is read as that NUL. -/
def copyStringLoop (d : ACSArrayDims) :
    List Int → ACSArray → Nat → Nat → ACSArray × Nat × Bool
  | [], a, offset, _ => (a, offset, true)
  | c :: string, a, offset, length =>
    if c = 0 then (a, offset, true)
    else if offset = length then (a, offset, false)
    else copyStringLoop d string (a.write d offset c) ((offset + 1) % 4294967296) length

/-- Function `ACSArray::copyString(offset, length, strnum, stroff)` over the global string
array (`GlobalNumStrings` is its length). -/
def ACSArray.copyString (d : ACSArrayDims) (GlobalStrings : List ACSString) (a : ACSArray)
    (offset length strnum stroff : Nat) : ACSArray × Bool :=
  if strnum ≥ GlobalStrings.length then (a, false)
  else
    match GlobalStrings[strnum]? with
    | none => (a, false)
    | some str =>
      if stroff > str.data.l then (a, false)
      else
        let string := str.mem.drop stroff
        let length := (length + offset) % 4294967296
        let r := copyStringLoop d string a offset length
        if r.2.2 = false then (r.1, false)
        else if r.2.1 ≠ length then (r.1.write d r.2.1 0, true)
        else (r.1, false)

/-- The conversion `(char)` of a cell value, as the byte that is kept. -/
def toByte (v : Int) : Int := v % 256

/-- The loop of `ACSArray::print`, `length` being the end offset. The first
argument bounds the number of rounds; `print` passes the number of cells, after
which `offset == length` holds. -/
def printLoop (d : ACSArrayDims) :
    Nat → ACSArray → List Int → Nat → Nat → ACSArray × List Int
  | 0, a, printBuffer, _, _ => (a, printBuffer)
  | fuel + 1, a, printBuffer, offset, length =>
    if offset = length then (a, printBuffer)
    else
      let r := a.read d offset
      let val := toByte r.2
      if val = 0 then (r.1, printBuffer)
      else printLoop d fuel r.1 (printBuffer ++ [val]) ((offset + 1) % 4294967296) length

/-- Function `ACSArray::print(printBuffer, offset, length)`; the buffer is the list of
bytes appended so far. -/
def ACSArray.print (d : ACSArrayDims) (a : ACSArray) (printBuffer : List Int)
    (offset length : Nat) : ACSArray × List Int :=
  printLoop d length a printBuffer offset ((length + offset) % 4294967296)

/-- Consecutive assignments `getVal(offset++) = c` for the chars of a list. -/
def ACSArray.writeMany (d : ACSArrayDims) : ACSArray → Nat → List Int → ACSArray
  | a, _, [] => a
  | a, offset, c :: cs =>
    ACSArray.writeMany d (a.write d offset c) ((offset + 1) % 4294967296) cs

/-- The chars that `copyString` transfers: those from `stroff` up to the first NUL. -/
def ACSString.tail (str : ACSString) (stroff : Nat) : List Int :=
  (str.mem.drop stroff).takeWhile (fun c => c != 0)

/-! ## The global string table -/

/-- Modelled from the spec: `EHashTable` is a class template that is not among the
sources. The global table "interns strings by exact byte content"; it is taken as
a chained hash table over the key class `ACSStringHashKey` of the source:
`objectForKey` walks the chain numbered `HashCode(key) % numChains` and returns
the first object whose key `Compare`s equal, `addObject` links the object at the
head of the chain of its own key. -/
structure EHashTable where
  chains : List (List ACSString)
deriving DecidableEq, Repr

/-- The number of chains of the table. -/
def EHashTable.numChains (t : EHashTable) : Nat := t.chains.length

/-- A table of `n` empty chains. -/
def EHashTable.init (n : Nat) : EHashTable := { chains := List.replicate n [] }

/-- Lookup: `acsStrings.objectForKey(data)`. -/
def EHashTable.objectForKey (t : EHashTable) (key : ACSString.Data) : Option ACSString :=
  (t.chains.getD (ACSStringHashKey.HashCode key % t.numChains) []).find?
    (fun o => ACSStringHashKey.Compare o.data key)

/-- Insertion: `acsStrings.addObject(string)`. -/
def EHashTable.addObject (t : EHashTable) (o : ACSString) : EHashTable :=
  { chains := t.chains.set (ACSStringHashKey.HashCode o.data % t.numChains)
      (o :: t.chains.getD (ACSStringHashKey.HashCode o.data % t.numChains) []) }

/-- The statics `ACSModule::GlobalStrings` (its first `GlobalNumStrings` entries)
and `acsStrings`. -/
structure StringTable where
  GlobalStrings : List ACSString
  acsStrings : EHashTable
deriving DecidableEq, Repr

/-- Static `ACSModule::GlobalNumStrings`. -/
def StringTable.GlobalNumStrings (st : StringTable) : Nat := st.GlobalStrings.length

/-- The string table before any string is interned, with `n` hash chains. -/
def StringTable.init (n : Nat) : StringTable :=
  { GlobalStrings := [], acsStrings := EHashTable.init n }

/-- Function `ACSModule::AddString(s, l)`, `s` being the `l` chars passed. The lookup
`acsScriptsByName.objectForKey` that fills the `script` field is the parameter
`scriptByName` (null when that table is not initialised). -/
def ACSModule.AddString (scriptByName : List Int → Option (Nat × Nat)) (st : StringTable)
    (s : List Int) : StringTable × Nat :=
  let data : ACSString.Data := { s := s }
  match st.acsStrings.objectForKey data with
  | some string => (st, string.number)
  | none =>
    let string : ACSString :=
      { data := { s := s }
        script := scriptByName (s.takeWhile (fun c => c != 0))
        length := strlen (s ++ [0])
        number := st.GlobalNumStrings }
    ({ GlobalStrings := st.GlobalStrings ++ [string]
       acsStrings := st.acsStrings.addObject string }, string.number)

/-- A sequence of `AddString` calls, first to last. -/
def ACSModule.AddStrings (scriptByName : List Int → Option (Nat × Nat)) :
    StringTable → List (List Int) → StringTable
  | st, [] => st
  | st, s :: rest =>
    ACSModule.AddStrings scriptByName (ACSModule.AddString scriptByName st s).1 rest

/-- What holds of every string table that `AddString` calls produce: each chain
holds global strings of its own hash code, each global string is in its chain and
its `number` is its index, and no two global strings have the same key. -/
def StringTable.Inv (st : StringTable) : Prop :=
  0 < st.acsStrings.numChains ∧
  (∀ (k : Nat) (o : ACSString), o ∈ st.acsStrings.chains.getD k [] →
    ACSStringHashKey.HashCode o.data % st.acsStrings.numChains = k ∧ o ∈ st.GlobalStrings) ∧
  (∀ o : ACSString, o ∈ st.GlobalStrings →
    o ∈ st.acsStrings.chains.getD
      (ACSStringHashKey.HashCode o.data % st.acsStrings.numChains) []) ∧
  (∀ (i : Nat) (o : ACSString), st.GlobalStrings[i]? = some o → o.number = i) ∧
  (∀ o1 o2 : ACSString, o1 ∈ st.GlobalStrings → o2 ∈ st.GlobalStrings →
    o1.data = o2.data → o1 = o2)

/-! ## Threads, scripts, modules -/

/-- Script states for `sreg`. -/
inductive ACSState where
  | ACS_STATE_STOPPED
  | ACS_STATE_RUNNING
  | ACS_STATE_SUSPEND
  | ACS_STATE_WAITTAG
  | ACS_STATE_WAITSCRIPTNUMBER
  | ACS_STATE_WAITSCRIPTNAME
  | ACS_STATE_WAITPOLY
  | ACS_STATE_TERMINATE
deriving DecidableEq, Repr

open ACSState

/-- Type `acs_call_t`, a call frame: the saved `ip` (module whose code it points
into, and offset), the saved `numLocals` and the saved module `vm`. -/
structure acs_call_t where
  ip : Int := 0
  ipVM : Nat := 0
  numLocals : Int := 0
  vm : Nat := 0
deriving DecidableEq, Repr

/-- Class `ACSThinker`, the fields that the interpreter loop and the thread list use.
`script` is the pointer to the script as (module index in `acsVMs`, index in that
module's `scripts`); `vm` is a module index; the pointer `ip` is the module
`ipVM` whose code it points into and the offset `ip` in that code; `locals` is
the offset `locals - localvar`, `callPtr` the offset `callPtr - calls`; `stack`,
`localvar` and `calls` are the allocated buffers (`numStack`, `numLocalvar` and
`numCalls` are their lengths); `line` and `trigger` are handles of host
objects (`line` the index in `lines`). `printStack` holds the `numPrints`
pointers to print buffers (null is `none`, a buffer is its chars), `printPtr`
is the offset `printPtr - printStack`, and `printBuffer`, which points to a
buffer of `printStack` or is null, is the index of that buffer. -/
structure ACSThinker where
  ip : Int := 0
  stack : List Int := []
  stackPtr : Int := 0
  localvar : List Int := []
  locals : Int := 0
  numLocals : Int := 0
  sreg : ACSState := ACS_STATE_STOPPED
  sdata : Int := 0
  delay : Int := 0
  script : Nat × Nat := (0, 0)
  vm : Nat := 0
  ipVM : Nat := 0
  calls : List acs_call_t := []
  callPtr : Nat := 0
  line : Option Nat := none
  lineSide : Int := 0
  trigger : Option Nat := none
  triggerSwizzle : Int := 0
  printStack : List (Option (List Int)) := []
  printPtr : Nat := 0
  printBuffer : Option Nat := none
deriving DecidableEq, Repr

/-- Class `ACSScript`: number, name (null when the script is numbered only), entry
point `codePtr` (an offset into the code of its module `vm`), argument and
variable counts, and the list of its running threads, first thread first. -/
structure ACSScript where
  number : Int := 0
  name : Option (List Int) := none
  codePtr : Int := 0
  numArgs : Nat := 0
  numVars : Nat := 0
  threads : List ACSThinker := []
  vm : Nat := 0
deriving DecidableEq, Repr

/-- Class `ACSFunc`: a function with its argument count, the count of its further
local variables, its entry point `codePtr` (an offset into the code of its module
`vm`) and its global number. -/
structure ACSFunc where
  number : Nat := 0
  numArgs : Nat := 0
  numVars : Nat := 0
  codePtr : Int := 0
  vm : Nat := 0
deriving DecidableEq, Repr

/-- Class `ACSModule`: code, scripts, map variables and arrays. `mapvtab[i]` and
`mapatab[i]` point into the variables and arrays of some module; a pointer is the
pair (module index, slot index). `funcptrs` holds the `numFuncs` function
pointers of the module (null is `none`), `jumps` the `codePtr` of each of its
`numJumps` jump targets. -/
structure ACSModule where
  id : Nat := 0
  code : List Int := []
  scripts : List ACSScript := []
  mapvars : List Int := []
  mapvtab : List (Nat × Nat) := []
  maparrs : List ACSArray := []
  mapatab : List (Nat × Nat) := []
  funcptrs : List (Option ACSFunc) := []
  jumps : List Int := []
deriving DecidableEq, Repr

/-- The kinds of deferred action, `ACSDeferred::type`. -/
inductive ACSDeferred.Type where
  | EXECUTE_NUMBER
  | EXECUTE_NAME
  | SUSPEND_NUMBER
  | SUSPEND_NAME
  | TERMINATE_NUMBER
  | TERMINATE_NAME
deriving DecidableEq, Repr

/-- Class `ACSDeferred`, a pending action, with the fields that the sources use:
`name` is null for an action on a numbered script, `argv` holds the `argc`
argument values. -/
structure ACSDeferred where
  type : ACSDeferred.Type := ACSDeferred.Type.EXECUTE_NUMBER
  number : Int := 0
  name : Option (List Int) := none
  mapnum : Int := 0
  flags : Nat := 0
  argv : List Int := []
deriving DecidableEq, Repr

/-- The statics of `acs_intr.cpp` that the interpreter reads and writes, with
the text that `doom_printf` has put out. `deferred` is the list
`ACSDeferred::list` in the order in which `dllNext` runs through it. -/
structure ACSWorld where
  acsVMs : List ACSModule := []
  ACSworldvars : List Int := []
  ACSworldarrs : List ACSArray := []
  ACSglobalvars : List Int := []
  ACSglobalarrs : List ACSArray := []
  GlobalStrings : List ACSString := []
  printed : List String := []
  deferred : List ACSDeferred := []
deriving DecidableEq, Repr

/-- Function `doom_printf`: the message is put out. -/
def doom_printf (w : ACSWorld) (msg : String) : ACSWorld :=
  { w with printed := w.printed ++ [msg] }

/-- Read of `buf[i]` through a pointer at offset `i`; `none` outside the buffer,
where C defines no behaviour. -/
def memAt (buf : List Int) (i : Int) : Option Int :=
  if 0 ≤ i then buf[i.toNat]? else none

/-- Store `buf[i] = v` through a pointer at offset `i`; `none` outside the
buffer. -/
def memSet (buf : List Int) (i : Int) (v : Int) : Option (List Int) :=
  if 0 ≤ i ∧ i.toNat < buf.length then some (buf.set i.toNat v) else none

/-- The script that a thread points to. -/
def ACSWorld.scriptAt (w : ACSWorld) (ref : Nat × Nat) : Option ACSScript :=
  match w.acsVMs[ref.1]? with
  | some m => m.scripts[ref.2]?
  | none => none

/-- Replaces the thread list of one script. -/
def ACSWorld.setThreads (w : ACSWorld) (ref : Nat × Nat) (ts : List ACSThinker) : ACSWorld :=
  match w.acsVMs[ref.1]? with
  | some m =>
    match m.scripts[ref.2]? with
    | some s =>
      let s1 : ACSScript := { s with threads := ts }
      let m1 : ACSModule := { m with scripts := m.scripts.set ref.2 s1 }
      { w with acsVMs := w.acsVMs.set ref.1 m1 }
    | none => w
  | none => w

/-- The thread list of one script (empty for a dangling pointer). -/
def ACSWorld.threadsOf (w : ACSWorld) (ref : Nat × Nat) : List ACSThinker :=
  match w.scriptAt ref with
  | some s => s.threads
  | none => []

/-! ## Thread removal and completion wake-up -/

/-- Function `ACS_removeThread`: unlinks the thread, which is the `k`-th of its script's
list. -/
def ACS_removeThread (w : ACSWorld) (thread : ACSThinker) (k : Nat) : ACSWorld :=
  w.setThreads thread.script ((w.threadsOf thread.script).eraseIdx k)

/-- Function `tolower` on a char, as `strcasecmp` applies it. -/
def tolower (c : Int) : Int := if 65 ≤ c ∧ c ≤ 90 then c + 32 else c

/-- Test `!strcasecmp(a, b)` on two C strings given up to their NUL. -/
def strcaseeq (a b : List Int) : Bool := a.map tolower == b.map tolower

/-- Modelled from the spec: `ACSModule::GetString` is declared in a header that is
not among the sources; a string is "referenced only by global handle", so the
handle designates the chars of that global string up to its NUL, and a handle
that designates none gives the empty string. -/
def ACSModule.GetString (GlobalStrings : List ACSString) (strnum : Int) : List Int :=
  match GlobalStrings[u32 strnum]? with
  | some str => str.mem.takeWhile (fun c => c != 0)
  | none => []

/-- The body of the innermost loop of `ACS_scriptFinished` for one thread `th`,
the finished script having number `number` and name `name`. -/
def ACS_scriptFinished.wake (GlobalStrings : List ACSString) (number : Int)
    (name : Option (List Int)) (th : ACSThinker) : ACSThinker :=
  if th.sreg = ACS_STATE_WAITSCRIPTNUMBER ∧ th.sdata = number then
    { th with sreg := ACS_STATE_RUNNING, sdata := 0 }
  else if th.sreg = ACS_STATE_WAITSCRIPTNAME ∧ name.isSome = true ∧
      strcaseeq (ACSModule.GetString GlobalStrings th.sdata) (name.getD []) = true then
    { th with sreg := ACS_STATE_RUNNING, sdata := 0 }
  else th

/-- The three nested loops of `ACS_scriptFinished`: over all modules, over the
scripts of each, over the threads of each script. -/
def ACS_scriptFinished.loops (w : ACSWorld) (number : Int) (name : Option (List Int)) :
    ACSWorld :=
  let wake := ACS_scriptFinished.wake w.GlobalStrings number name
  { w with acsVMs := w.acsVMs.map (fun vm =>
      { vm with scripts := vm.scripts.map (fun s =>
          { s with threads := s.threads.map wake }) }) }

/-- Function `ACS_scriptFinished(thread)`: nothing while the script of `thread` still has
threads; else the loops that wake the threads waiting on it. -/
def ACS_scriptFinished (w : ACSWorld) (thread : ACSThinker) : ACSWorld :=
  match w.scriptAt thread.script with
  | none => w
  | some script =>
    if script.threads ≠ [] then w
    else ACS_scriptFinished.loops w script.number script.name

/-- Function `ACS_stopScript(thread)`, `thread` being the `k`-th of its script's list:
the thread is unlinked, waiting scripts are notified, and the thinker is removed
(its print buffers are freed with it). -/
def ACS_stopScript (w : ACSWorld) (thread : ACSThinker) (k : Nat) : ACSWorld :=
  ACS_scriptFinished (ACS_removeThread w thread k) thread

/-! ## The interpreter loop `ACSThinker::Think` -/

/-- The state inside one call of `ACSThinker::Think`: the statics, the object
`this` with its position in the thread list of its script, and the locals `ip`
(the module `ipVM` whose code it points into, and the offset in that code), `stp`
(as offset into `this->stack`) and `count`. -/
structure Exec where
  w : ACSWorld
  this : ACSThinker
  thisIdx : Nat := 0
  ip : Int
  stp : Int
  count : Int := 0
  ipVM : Nat := 0
deriving DecidableEq, Repr

/-- Where control goes after an instruction: to the next instruction, to one of
the labels `action_endscript` and `action_stop`; `undefined` stands for an access
outside a buffer or an arithmetic overflow that C leaves undefined, `outOfFuel`
for a loop that was cut by the bound given to the model. -/
inductive Outcome where
  | NEXTOP (e : Exec)
  | action_endscript (e : Exec)
  | action_stop (e : Exec)
  | undefined
  | outOfFuel
deriving DecidableEq, Repr

/-- The code buffer that `ip` points into. -/
def Exec.code (e : Exec) : List Int :=
  match e.w.acsVMs[e.ipVM]? with
  | some m => m.code
  | none => []

/-- Macro `IPNEXT()`: `*ip++`, then the rest `k` of the instruction. -/
def IPNEXT (e : Exec) (k : Int → Exec → Outcome) : Outcome :=
  match memAt e.code e.ip with
  | some v => k v { e with ip := e.ip + 1 }
  | none => Outcome.undefined

/-- Macro `IPCURR()`: `*ip`. -/
def IPCURR (e : Exec) (k : Int → Exec → Outcome) : Outcome :=
  match memAt e.code e.ip with
  | some v => k v e
  | none => Outcome.undefined

/-- Macro `POP()`: `*--stp`. -/
def POP (e : Exec) (k : Int → Exec → Outcome) : Outcome :=
  match memAt e.this.stack (e.stp - 1) with
  | some v => k v { e with stp := e.stp - 1 }
  | none => Outcome.undefined

/-- Macro `PEEK()`: `*(stp-1)`. -/
def PEEK (e : Exec) (k : Int → Exec → Outcome) : Outcome :=
  match memAt e.this.stack (e.stp - 1) with
  | some v => k v e
  | none => Outcome.undefined

/-- Macro `DECSTP()`: `--stp`. -/
def DECSTP (e : Exec) : Exec := { e with stp := e.stp - 1 }

/-- Macro `BRANCH_COUNT()`: `if(++count > 500000)` the runaway message and
`goto action_endscript`; else the rest `k`. -/
def BRANCH_COUNT (e : Exec) (k : Exec → Outcome) : Outcome :=
  if e.count + 1 > 500000 then
    Outcome.action_endscript
      { e with count := e.count + 1,
               w := doom_printf e.w "ACS Error: terminated runaway script" }
  else k { e with count := e.count + 1 }

/-- Macro `BRANCHOP(TARGET)`: `ip = vm->code + (TARGET); BRANCH_COUNT();`. -/
def BRANCHOP (e : Exec) (TARGET : Int) (k : Exec → Outcome) : Outcome :=
  BRANCH_COUNT { e with ip := TARGET, ipVM := e.this.vm } k

/-- The `for(;;)` loop of `BRANCH_CASETABLE`. `tbl` is the offset of the first
pair in the code, `caseBegin` and `caseEnd` count pairs from there, so that
`(*caseItr)[0]` is `code[tbl + 2*caseItr]` and `(*caseItr)[1]` the word after
it. The first argument bounds the number of rounds. -/
def caseSearch : Nat → Exec → Int → Int → Int → Outcome
  | 0, _, _, _, _ => Outcome.outOfFuel
  | fuel + 1, e, tbl, caseBegin, caseEnd =>
    let temp := caseEnd - caseBegin
    let caseItr := caseBegin + Int.tdiv temp 2
    match memAt e.code (tbl + 2 * caseItr) with
    | some value =>
      PEEK e (fun top e =>
        if value = top then
          match memAt e.code (tbl + 2 * caseItr + 1) with
          | some target => BRANCHOP (DECSTP e) target Outcome.NEXTOP
          | none => Outcome.undefined
        else if temp = 1 then Outcome.NEXTOP e
        else if value < top then caseSearch fuel e tbl caseItr caseEnd
        else caseSearch fuel e tbl caseBegin caseItr)
    | none => Outcome.undefined

/-- Instruction `OPCODE(BRANCH_CASETABLE)`, entered with `ip` behind the opcode word. -/
def op_BRANCH_CASETABLE (fuel : Nat) (e : Exec) : Outcome :=
  IPNEXT e (fun temp e =>
    let tbl := e.ip
    let e := { e with ip := tbl + 2 * temp }
    if temp ≠ 0 then caseSearch fuel e tbl 0 temp
    else Outcome.NEXTOP e)

/-! ## The DIV and MOD instruction groups -/

/-- C `a / b` on `int32_t`: the quotient truncated toward zero; `none` where C
defines no result (zero divisor, or `INT_MIN / -1`). -/
def c_div (a b : Int) : Option Int :=
  if b = 0 ∨ (a = -2147483648 ∧ b = -1) then none else some (Int.tdiv a b)

/-- C `a % b` on `int32_t`, the remainder of the truncated division; `none`
where C defines no result. -/
def c_mod (a b : Int) : Option Int :=
  if b = 0 ∨ (a = -2147483648 ∧ b = -1) then none else some (Int.tmod a b)

/-- Macro `DIV_CHECK(VAL)`: when the value is zero, the message and
`goto action_endscript`; else the rest `k`. -/
def DIV_CHECK (VAL : Int) (e : Exec) (k : Exec → Outcome) : Outcome :=
  if VAL = 0 then
    Outcome.action_endscript { e with w := doom_printf e.w "ACS Error: divide by zero" }
  else k e

/-- Read-modify-write of `buf[i]` by `g`. -/
def modifyMem (buf : List Int) (i : Int) (g : Int → Option Int) : Option (List Int) :=
  match memAt buf i with
  | some x =>
    match g x with
    | some y => memSet buf i y
    | none => none
  | none => none

/-- Read-modify-write of the cell `addr` of the array `arrs[i]` by `g`,
through `getVal`. -/
def modifyArr (d : ACSArrayDims) (arrs : List ACSArray) (i : Nat) (addr : Nat)
    (g : Int → Option Int) : Option (List ACSArray) :=
  match arrs[i]? with
  | some arr =>
    let r := arr.getVal d addr (fun x => ((g x).getD x, g x))
    match r.2 with
    | some _ => some (arrs.set i r.1)
    | none => none
  | none => none

/-- The eight operand forms of an instruction group. -/
inductive OperandForm where
  | STACK
  | LOCALVAR
  | MAPVAR
  | WORLDVAR
  | GLOBALVAR
  | MAPARR
  | WORLDARR
  | GLOBALARR
deriving DecidableEq, Repr

/-- The current module `vm` of the running thread. -/
def Exec.vm (e : Exec) : Option ACSModule := e.w.acsVMs[e.this.vm]?

/-- The lvalue of each operand form, as written in `DIVOP_GROUP`, updated by `g`;
then `NEXTOP()`:
`STACK_AT(1)`, `this->locals[IPNEXT()]`, `*vm->mapvtab[IPNEXT()]`,
`ACSworldvars[IPNEXT()]`, `ACSglobalvars[IPNEXT()]`,
`vm->mapatab[IPNEXT()]->at(POP())`, `ACSworldarrs[IPNEXT()][POP()]`,
`ACSglobalarrs[IPNEXT()][POP()]`. -/
def updateOperand (d : ACSArrayDims) (g : Int → Option Int) : OperandForm → Exec → Outcome
  | OperandForm.STACK, e =>
    match modifyMem e.this.stack (e.stp - 1) g with
    | some st => Outcome.NEXTOP { e with this := { e.this with stack := st } }
    | none => Outcome.undefined
  | OperandForm.LOCALVAR, e =>
    IPNEXT e (fun idx e =>
      match modifyMem e.this.localvar (e.this.locals + idx) g with
      | some lv => Outcome.NEXTOP { e with this := { e.this with localvar := lv } }
      | none => Outcome.undefined)
  | OperandForm.MAPVAR, e =>
    IPNEXT e (fun idx e =>
      match e.vm with
      | some vm =>
        match (if 0 ≤ idx then vm.mapvtab[idx.toNat]? else none) with
        | some ptr =>
          match e.w.acsVMs[ptr.1]? with
          | some m =>
            match modifyMem m.mapvars ptr.2 g with
            | some mv =>
              let m1 : ACSModule := { m with mapvars := mv }
              let w1 : ACSWorld := { e.w with acsVMs := e.w.acsVMs.set ptr.1 m1 }
              Outcome.NEXTOP { e with w := w1 }
            | none => Outcome.undefined
          | none => Outcome.undefined
        | none => Outcome.undefined
      | none => Outcome.undefined)
  | OperandForm.WORLDVAR, e =>
    IPNEXT e (fun idx e =>
      match modifyMem e.w.ACSworldvars idx g with
      | some wv =>
        let w1 : ACSWorld := { e.w with ACSworldvars := wv }
        Outcome.NEXTOP { e with w := w1 }
      | none => Outcome.undefined)
  | OperandForm.GLOBALVAR, e =>
    IPNEXT e (fun idx e =>
      match modifyMem e.w.ACSglobalvars idx g with
      | some gv =>
        let w1 : ACSWorld := { e.w with ACSglobalvars := gv }
        Outcome.NEXTOP { e with w := w1 }
      | none => Outcome.undefined)
  | OperandForm.MAPARR, e =>
    IPNEXT e (fun idx e =>
      POP e (fun addr e =>
        match e.vm with
        | some vm =>
          match (if 0 ≤ idx then vm.mapatab[idx.toNat]? else none) with
          | some ptr =>
            match e.w.acsVMs[ptr.1]? with
            | some m =>
              match modifyArr d m.maparrs ptr.2 (u32 addr) g with
              | some ma =>
                let m1 : ACSModule := { m with maparrs := ma }
                let w1 : ACSWorld := { e.w with acsVMs := e.w.acsVMs.set ptr.1 m1 }
                Outcome.NEXTOP { e with w := w1 }
              | none => Outcome.undefined
            | none => Outcome.undefined
          | none => Outcome.undefined
        | none => Outcome.undefined))
  | OperandForm.WORLDARR, e =>
    IPNEXT e (fun idx e =>
      POP e (fun addr e =>
        match (if 0 ≤ idx then modifyArr d e.w.ACSworldarrs idx.toNat (u32 addr) g else none) with
        | some wa =>
          let w1 : ACSWorld := { e.w with ACSworldarrs := wa }
          Outcome.NEXTOP { e with w := w1 }
        | none => Outcome.undefined))
  | OperandForm.GLOBALARR, e =>
    IPNEXT e (fun idx e =>
      POP e (fun addr e =>
        match (if 0 ≤ idx then modifyArr d e.w.ACSglobalarrs idx.toNat (u32 addr) g else none) with
        | some ga =>
          let w1 : ACSWorld := { e.w with ACSglobalarrs := ga }
          Outcome.NEXTOP { e with w := w1 }
        | none => Outcome.undefined))

/-- Macro `DIVOP_EQ(VAR, OP)`: `DIV_CHECK(temp = POP()); (VAR) OP temp`. -/
def DIVOP_EQ (d : ACSArrayDims) (VAR : OperandForm) (OP : Int → Int → Option Int)
    (e : Exec) : Outcome :=
  POP e (fun temp e =>
    DIV_CHECK temp e (fun e => updateOperand d (fun x => OP x temp) VAR e))

/-- Macro `DIVOP_GROUP(NAME, OP)`: the instruction `NAME_form` for each operand form. -/
def DIVOP_GROUP (d : ACSArrayDims) (OP : Int → Int → Option Int) (form : OperandForm)
    (e : Exec) : Outcome :=
  DIVOP_EQ d form OP e

/-- Instruction `OPCODE(DIVX_STACK)`:
`DIV_CHECK(temp = POP()); STACK_AT(1) = FixedDiv(STACK_AT(1), temp);`.
`FixedDiv` is defined outside the sources and is a parameter. -/
def op_DIVX_STACK (d : ACSArrayDims) (FixedDiv : Int → Int → Int) (e : Exec) : Outcome :=
  POP e (fun temp e =>
    DIV_CHECK temp e (fun e =>
      updateOperand d (fun x => some (FixedDiv x temp)) OperandForm.STACK e))

/-- The seventeen dividing instructions: `DIV_*`, `MOD_*` and `DIVX_STACK`. -/
inductive DivOpcode where
  | DIV (form : OperandForm)
  | MOD (form : OperandForm)
  | DIVX_STACK
deriving DecidableEq, Repr

/-- The instruction body of a dividing opcode. -/
def DivOpcode.exec (d : ACSArrayDims) (FixedDiv : Int → Int → Int) :
    DivOpcode → Exec → Outcome
  | DivOpcode.DIV form, e => DIVOP_GROUP d c_div form e
  | DivOpcode.MOD form, e => DIVOP_GROUP d c_mod form e
  | DivOpcode.DIVX_STACK, e => op_DIVX_STACK d FixedDiv e

/-- The labels at the end of `ACSThinker::Think`: `action_endscript` stops the
script, `action_stop` copies `ip` and `stp` back into the thinker. An outcome
that is no label gives `none`. -/
def Outcome.finish : Outcome → Option ACSWorld
  | Outcome.action_endscript e => some (ACS_stopScript e.w e.this e.thisIdx)
  | Outcome.action_stop e =>
    some (e.w.setThreads e.this.script
      ((e.w.threadsOf e.this.script).set e.thisIdx
        { e.this with ip := e.ip, ipVM := e.ipVM, stackPtr := e.stp }))
  | _ => none

/-! ## The ADD, SUB and MUL instruction groups and NEGATE -/

/-- The compound assignments `+=`, `-=` and `*=` on `int32_t`, the operators of
`BINOP_GROUP(ADD, +=)`, `BINOP_GROUP(SUB, -=)` and `BINOP_GROUP(MUL, *=)`: the
new value of the left side. The result is reduced to 32 bits in two's
complement, which is what the machine instructions compute; C itself defines
no result when the sum, difference or product leaves the range of `int32_t`. -/
inductive BinOp where
  | ADD
  | SUB
  | MUL
deriving DecidableEq, Repr

/-- The value that `x OP temp` stores in `x`. -/
def BinOp.eval : BinOp → Int → Int → Int
  | BinOp.ADD, x, temp => i32 (x + temp)
  | BinOp.SUB, x, temp => i32 (x - temp)
  | BinOp.MUL, x, temp => i32 (x * temp)

/-- Macro `BINOP_GROUP(NAME, OP)`, the instruction `NAME_form` for each operand
form: `ST_BINOP_EQ(OP)`, which is `temp = POP(); STACK_AT(1) OP temp`, for the
stack; `lvalue OP POP()` for a variable; `AR_BINOP(VAR, OP)`, which is
`temp = POP(); (VAR)[POP()] OP temp`, for an array. -/
def BINOP_GROUP (d : ACSArrayDims) (OP : BinOp) (form : OperandForm) (e : Exec) : Outcome :=
  POP e (fun temp e => updateOperand d (fun x => some (OP.eval x temp)) form e)

/-- Instruction `OPCODE(NEGATE_STACK)`: `STACK_AT(1) = -STACK_AT(1)`, the result
reduced to 32 bits like the results of `BinOp.eval`. -/
def op_NEGATE_STACK (d : ACSArrayDims) (e : Exec) : Outcome :=
  updateOperand d (fun x => some (i32 (-x))) OperandForm.STACK e

/-! ## Save archives and the archiving of an `ACSArray` -/

/-- Modelled from the spec: class `SaveArchive` is declared in a header that is
not among the sources. The state is "persisted" as a "byte-exact
representation" that a load reads back; the model keeps, in place of the
bytes, the sequence of the values that `<<` has written, one item for each
value: an integer of any width, a `bool`, a state of `sreg`, or the text of a
string. An archive in saving mode is the list of items written; an archive in
loading mode is the list of items not yet read. -/
inductive SaveItem where
  | word (v : Int)
  | flag (b : Bool)
  | state (s : ACSState)
  | text (s : List Int)
deriving DecidableEq, Repr

/-- Modelled from the spec: loading `arc << x` for an integer `x`: the value and the rest of the archive;
`none` when the next item is no integer. -/
def SaveItem.readWord : List SaveItem → Option (Int × List SaveItem)
  | SaveItem.word v :: s => some (v, s)
  | _ => none

/-- Modelled from the spec: loading `arc << x` for a `bool`. -/
def SaveItem.readFlag : List SaveItem → Option (Bool × List SaveItem)
  | SaveItem.flag b :: s => some (b, s)
  | _ => none

/-- Modelled from the spec: loading `arc << x` for a state of `sreg`. -/
def SaveItem.readState : List SaveItem → Option (ACSState × List SaveItem)
  | SaveItem.state st :: s => some (st, s)
  | _ => none

/-- Modelled from the spec: loading of the text of a string. -/
def SaveItem.readText : List SaveItem → Option (List Int × List SaveItem)
  | SaveItem.text t :: s => some (t, s)
  | _ => none

/-- A loop `for(itr = table, end = itr + n; itr != end; ++itr)` of an archive
function in saving mode, over the slots listed: `f` archives a slot. -/
def archiveTable.save {α : Type} (f : α → List SaveItem) (dflt : α) :
    List Nat → List α → List SaveItem
  | [], _ => []
  | i :: rest, table => f (table.getD i dflt) ++ archiveTable.save f dflt rest table

/-- The same loop in loading mode: `f` archives a slot, which then holds what `f`
gives. -/
def archiveTable.load {α : Type} (f : α → List SaveItem → Option (α × List SaveItem))
    (dflt : α) : List Nat → List α → List SaveItem → Option (List α × List SaveItem)
  | [], table, s => some (table, s)
  | i :: rest, table, s =>
    match f (table.getD i dflt) s with
    | some (x, s1) => archiveTable.load f dflt rest (table.set i x) s1
    | none => none

/-- Function `ACSArray::archiveVal` in saving mode: `arc << *val`. -/
def ACSArray.archiveVal.save (val : val_t) : List SaveItem := [SaveItem.word val]

/-- Function `ACSArray::archiveVal` in loading mode. -/
def ACSArray.archiveVal.load (_val : val_t) (s : List SaveItem) :
    Option (val_t × List SaveItem) :=
  SaveItem.readWord s

/-- Function `ACSArray::archivePage` in saving mode: every value of the page. -/
def ACSArray.archivePage.save (d : ACSArrayDims) (page : page_t) : List SaveItem :=
  archiveTable.save ACSArray.archiveVal.save 0 (List.range d.ACS_PAGESIZE) page

/-- Function `ACSArray::archivePage` in loading mode. -/
def ACSArray.archivePage.load (d : ACSArrayDims) (page : page_t) (s : List SaveItem) :
    Option (page_t × List SaveItem) :=
  archiveTable.load ACSArray.archiveVal.load 0 (List.range d.ACS_PAGESIZE) page s

/-- Function `ACSArray::archiveBlock` in saving mode: for every page slot
`hasPage`, and the page when there is one. -/
def ACSArray.archiveBlock.save (d : ACSArrayDims) (block : block_t) : List SaveItem :=
  archiveTable.save
    (fun pageItr : Option page_t =>
      match pageItr with
      | some page => SaveItem.flag true :: ACSArray.archivePage.save d page
      | none => [SaveItem.flag false])
    none (List.range d.ACS_BLOCKSIZE) block

/-- Function `ACSArray::archiveBlock` in loading mode: `hasPage` is read for every
page slot; when it is set the slot gets a new page, which is then archived;
else the slot stays as it is. -/
def ACSArray.archiveBlock.load (d : ACSArrayDims) (block : block_t) (s : List SaveItem) :
    Option (block_t × List SaveItem) :=
  archiveTable.load
    (fun (pageItr : Option page_t) s =>
      match SaveItem.readFlag s with
      | some (true, s1) =>
        match ACSArray.archivePage.load d (allocPage d) s1 with
        | some (page, s2) => some (some page, s2)
        | none => none
      | some (false, s1) => some (pageItr, s1)
      | none => none)
    none (List.range d.ACS_BLOCKSIZE) block s

/-- Function `ACSArray::archiveRegion` in saving mode. -/
def ACSArray.archiveRegion.save (d : ACSArrayDims) (region : region_t) : List SaveItem :=
  archiveTable.save
    (fun blockItr : Option block_t =>
      match blockItr with
      | some block => SaveItem.flag true :: ACSArray.archiveBlock.save d block
      | none => [SaveItem.flag false])
    none (List.range d.ACS_REGIONSIZE) region

/-- Function `ACSArray::archiveRegion` in loading mode. -/
def ACSArray.archiveRegion.load (d : ACSArrayDims) (region : region_t) (s : List SaveItem) :
    Option (region_t × List SaveItem) :=
  archiveTable.load
    (fun (blockItr : Option block_t) s =>
      match SaveItem.readFlag s with
      | some (true, s1) =>
        match ACSArray.archiveBlock.load d (allocBlock d) s1 with
        | some (block, s2) => some (some block, s2)
        | none => none
      | some (false, s1) => some (blockItr, s1)
      | none => none)
    none (List.range d.ACS_REGIONSIZE) region s

/-- Function `ACSArray::archiveArrdata` in saving mode. -/
def ACSArray.archiveArrdata.save (d : ACSArrayDims) (arrdata : arrdata_t) : List SaveItem :=
  archiveTable.save
    (fun regionItr : Option region_t =>
      match regionItr with
      | some region => SaveItem.flag true :: ACSArray.archiveRegion.save d region
      | none => [SaveItem.flag false])
    none (List.range d.ACS_ARRDATASIZE) arrdata

/-- Function `ACSArray::archiveArrdata` in loading mode. -/
def ACSArray.archiveArrdata.load (d : ACSArrayDims) (arrdata : arrdata_t)
    (s : List SaveItem) : Option (arrdata_t × List SaveItem) :=
  archiveTable.load
    (fun (regionItr : Option region_t) s =>
      match SaveItem.readFlag s with
      | some (true, s1) =>
        match ACSArray.archiveRegion.load d (allocRegion d) s1 with
        | some (region, s2) => some (some region, s2)
        | none => none
      | some (false, s1) => some (regionItr, s1)
      | none => none)
    none (List.range d.ACS_ARRDATASIZE) arrdata s

/-- Function `ACSArray::archive(arc)` in saving mode: the items written. -/
def ACSArray.archive.save (d : ACSArrayDims) (a : ACSArray) : List SaveItem :=
  ACSArray.archiveArrdata.save d a.arrdata

/-- Function `ACSArray::archive(arc)` in loading mode: `clear()`, then
`archiveArrdata`; the array and the rest of the archive, `none` when the items
are not those of an array. -/
def ACSArray.archive.load (d : ACSArrayDims) (a : ACSArray) (s : List SaveItem) :
    Option (ACSArray × List SaveItem) :=
  match ACSArray.archiveArrdata.load d (a.clear d).arrdata s with
  | some (arrdata, s1) => some ({ arrdata := arrdata }, s1)
  | none => none

/-! ## Constants and host functions that are not among the sources -/

/-- Type `sector_t` of the host, with the fields that `ACS_checkTag` and the tag
search read: the tag, and the pointers `floordata` and `ceilingdata` to the
thinker that moves the floor or the ceiling (null is `none`). -/
structure sector_t where
  tag : Int := 0
  floordata : Option Nat := none
  ceilingdata : Option Nat := none
deriving DecidableEq, Repr

/-- The constants `ACS_NUM_CALLS`, `ACS_NUM_STACK`, `ACS_NUM_LOCALVARS`, `TICRATE`
and the flag bits `ACS_EXECUTE_ALWAYS`, `ACS_EXECUTE_IMMEDIATE` of the missing
headers; the host variables `sectors` and `gamemap`; and the functions that the
sources call but do not define: `FixedDiv`, `ACSModule::FindFunction`,
`P_FindSectorFromTag`, `P_NumForThinker`, the lookups in `acsScriptsByNumber`
and `acsScriptsByName` behind `FindScriptByNumber` and `FindScriptByName`, the
constructor of `ACSThinker` (as the thinker it yields), `ACSThinker::exec`, and
`Thinker::serialize`, the `Super::serialize` of `ACSThinker` (`SuperSave` gives
the items that it writes, `SuperLoad` takes the items that it reads from an
archive, none of the fields here being among those it archives).
`exec w ref k` gives the statics after `exec()` of the `k`-th thread of the
script `ref`, and `execThread w ref k` the place at which that thread then
stands in the list of its script (`none` when it has left the list). `junk`
and `junkCall` are the contents of the memory that `Z_Realloc` adds to a
buffer. -/
structure ACSEnv where
  d : ACSArrayDims
  FixedDiv : Int → Int → Int
  ACS_NUM_CALLS : Nat
  ACS_NUM_STACK : Nat
  ACS_NUM_LOCALVARS : Nat
  ACS_EXECUTE_ALWAYS : Nat
  ACS_EXECUTE_IMMEDIATE : Nat
  junk : Nat → Int
  junkCall : Nat → acs_call_t
  FindFunction : ACSWorld → Int → Option ACSFunc
  newThinker : ACSThinker
  exec : ACSWorld → Nat × Nat → Nat → ACSWorld
  execThread : ACSWorld → Nat × Nat → Nat → Option Nat
  sectors : List sector_t
  P_FindSectorFromTag : Int → Int → Int
  gamemap : Int
  TICRATE : Int
  FindScriptByNumber : ACSWorld → Int → Option (Nat × Nat)
  FindScriptByName : ACSWorld → List Int → Option (Nat × Nat)
  P_NumForThinker : Option Nat → Int
  SuperSave : ACSThinker → List SaveItem
  SuperLoad : List SaveItem → Option (List SaveItem)

/-- Resizing of a buffer by `Z_Realloc` to `n` cells: the old contents stay (as far
as they fit), added cells hold whatever `junk` gives. -/
def Z_Realloc {α : Type} (junk : Nat → α) (buf : List α) (n : Nat) : List α :=
  (buf ++ (List.range (n - buf.length)).map (fun i => junk (buf.length + i))).take n

/-! ## Stack and branching instructions -/

/-- Macro `PUSH(x)`: `*stp++ = (x)`. -/
def PUSH (e : Exec) (x : Int) (k : Exec → Outcome) : Outcome :=
  match memSet e.this.stack e.stp x with
  | some st => k { e with this := { e.this with stack := st }, stp := e.stp + 1 }
  | none => Outcome.undefined

/-- Instruction `OPCODE(NOP)`. -/
def op_NOP (e : Exec) : Outcome := Outcome.NEXTOP e

/-- Instruction `OPCODE(KILL)`: the two operands are read, the message is put out,
`goto action_endscript`. -/
def op_KILL (e : Exec) : Outcome :=
  IPNEXT e (fun opcode e =>
    IPNEXT e (fun temp e =>
      let msg := "ACS Error: KILL " ++ toString (u32 opcode) ++ "-" ++ toString temp
      Outcome.action_endscript { e with w := doom_printf e.w msg }))

/-- Instruction `OPCODE(GET_IMM)`: `PUSH(IPNEXT())`. -/
def op_GET_IMM (e : Exec) : Outcome :=
  IPNEXT e (fun v e => PUSH e v Outcome.NEXTOP)

/-- Instruction `OPCODE(STACK_DROP)`: `DECSTP()`. -/
def op_STACK_DROP (e : Exec) : Outcome := Outcome.NEXTOP (DECSTP e)

/-- Instruction `OPCODE(BRANCH_IMM)`: `BRANCHOP(IPCURR())`. -/
def op_BRANCH_IMM (e : Exec) : Outcome :=
  IPCURR e (fun target e => BRANCHOP e target Outcome.NEXTOP)

/-- Instruction `OPCODE(BRANCH_NOTZERO)`: `if(POP()) BRANCHOP(IPCURR()); else ++ip;`. -/
def op_BRANCH_NOTZERO (e : Exec) : Outcome :=
  POP e (fun v e =>
    if v ≠ 0 then IPCURR e (fun target e => BRANCHOP e target Outcome.NEXTOP)
    else Outcome.NEXTOP { e with ip := e.ip + 1 })

/-- Instruction `OPCODE(BRANCH_ZERO)`: `if(!POP()) BRANCHOP(IPCURR()); else ++ip;`. -/
def op_BRANCH_ZERO (e : Exec) : Outcome :=
  POP e (fun v e =>
    if v = 0 then IPCURR e (fun target e => BRANCHOP e target Outcome.NEXTOP)
    else Outcome.NEXTOP { e with ip := e.ip + 1 })

/-- Instruction `OPCODE(BRANCH_CASE)`: when the top of the stack equals the operand
at `op+1`, the value is taken off and control goes to the target at `op+2`; else
`ip` passes the target and the value stays. -/
def op_BRANCH_CASE (e : Exec) : Outcome :=
  PEEK e (fun top e =>
    IPNEXT e (fun v e =>
      if top = v then IPCURR (DECSTP e) (fun target e => BRANCHOP e target Outcome.NEXTOP)
      else Outcome.NEXTOP { e with ip := e.ip + 1 }))

/-- Instruction `OPCODE(BRANCH_STACK)`: `opcode = POP()` as `uint32_t`; below
`vm->numJumps` the branch is counted and `ip = vm->jumps[opcode].codePtr`, else
`ip = vm->code`. -/
def op_BRANCH_STACK (e : Exec) : Outcome :=
  POP e (fun opcode e =>
    match e.vm with
    | some vm =>
      if u32 opcode < vm.jumps.length then
        BRANCH_COUNT e (fun e =>
          match vm.jumps[u32 opcode]? with
          | some codePtr => Outcome.NEXTOP { e with ip := codePtr, ipVM := e.this.vm }
          | none => Outcome.undefined)
      else Outcome.NEXTOP { e with ip := 0, ipVM := e.this.vm }
    | none => Outcome.undefined)

/-- Instruction `OPCODE(BRANCH_RETURN)`: with no call frame `goto action_endscript`;
else the frame below `callPtr` gives back `ip`, `numLocals` and `vm`, and
`locals -= numLocals`. -/
def op_BRANCH_RETURN (e : Exec) : Outcome :=
  if e.this.callPtr = 0 then Outcome.action_endscript e
  else
    match e.this.calls[e.this.callPtr - 1]? with
    | some frame =>
      Outcome.NEXTOP
        { e with ip := frame.ip, ipVM := frame.ipVM,
                 this := { e.this with callPtr := e.this.callPtr - 1,
                                       numLocals := frame.numLocals,
                                       vm := frame.vm,
                                       locals := e.this.locals - frame.numLocals } }
    | none => Outcome.undefined

/-- Instruction `OPCODE(SCRIPT_RESTART)`: `ip = script->codePtr; BRANCH_COUNT();`. -/
def op_SCRIPT_RESTART (e : Exec) : Outcome :=
  match e.w.scriptAt e.this.script with
  | some script => BRANCH_COUNT { e with ip := script.codePtr, ipVM := script.vm } Outcome.NEXTOP
  | none => Outcome.undefined

/-- Instruction `OPCODE(SCRIPT_SUSPEND)`: `sreg = ACS_STATE_SUSPEND; goto action_stop`. -/
def op_SCRIPT_SUSPEND (e : Exec) : Outcome :=
  Outcome.action_stop { e with this := { e.this with sreg := ACS_STATE_SUSPEND } }

/-- Instruction `OPCODE(SCRIPT_TERMINATE)`: `goto action_endscript`. -/
def op_SCRIPT_TERMINATE (e : Exec) : Outcome := Outcome.action_endscript e

/-- The copy `memcpy(locals, stp - numArgs, ...)` followed by
`memset(locals + numArgs, 0, ...)`: the `numArgs` stack cells below `stp` and
`numVars` zeros are stored from offset `locals` of `localvar` on; `none` when a
cell lies outside its buffer. -/
def callWindow (stack : List Int) (stp : Int) (localvar : List Int) (locals : Int)
    (numArgs numVars : Nat) : Option (List Int) :=
  if 0 ≤ stp - numArgs ∧ stp ≤ stack.length ∧ 0 ≤ locals ∧
      locals + numArgs + numVars ≤ localvar.length then
    some (localvar.take locals.toNat ++
      ((stack.drop (stp - numArgs).toNat).take numArgs ++ List.replicate numVars 0) ++
      localvar.drop (locals.toNat + numArgs + numVars))
  else none

/-- The label `acs_op_call`, common to `BRANCH_CALL` and `BRANCH_CALL_IMM`, entered
with the function pointer `func` (null is `none`) and its index `opcode`, which
the message shows as an `int`. -/
def acs_op_call (env : ACSEnv) (func : Option ACSFunc) (opcode : Int) (e : Exec) : Outcome :=
  match func with
  | none =>
    let msg := "ACS Error: CALL out of range: " ++ toString opcode
    Outcome.action_endscript { e with w := doom_printf e.w msg }
  | some func =>
    BRANCH_COUNT e (fun e =>
      -- Ensure there's enough space for the call frame.
      let calls :=
        if e.this.callPtr ≥ e.this.calls.length then
          Z_Realloc env.junkCall e.this.calls (e.this.calls.length + env.ACS_NUM_CALLS)
        else e.this.calls
      -- Ensure there's enough stack space.
      let stackPtr := e.stp
      let stack :=
        if u32 ((e.this.stack.length : Int) - stackPtr) < env.ACS_NUM_STACK then
          Z_Realloc env.junk e.this.stack (u32 (stackPtr + env.ACS_NUM_STACK * 2))
        else e.this.stack
      -- Ensure there's enough local variable space.
      let temp : Nat := func.numArgs + func.numVars
      let localvar :=
        if e.this.locals + e.this.numLocals + temp ≥ e.this.localvar.length then
          Z_Realloc env.junk e.this.localvar
            (e.this.localvar.length + (temp * 2 + env.ACS_NUM_LOCALVARS))
        else e.this.localvar
      -- Create return frame.
      if e.this.callPtr < calls.length then
        let frame : acs_call_t :=
          { ip := e.ip, ipVM := e.ipVM, numLocals := e.this.numLocals, vm := e.this.vm }
        -- Read arguments and clear local variables.
        let locals := e.this.locals + e.this.numLocals
        match callWindow stack e.stp localvar locals func.numArgs func.numVars with
        | some lv =>
          Outcome.NEXTOP
            { e with ip := func.codePtr, ipVM := func.vm,
                     stp := e.stp - func.numArgs,
                     this := { e.this with calls := calls.set e.this.callPtr frame,
                                           callPtr := e.this.callPtr + 1,
                                           stack := stack,
                                           stackPtr := stackPtr,
                                           localvar := lv,
                                           locals := locals,
                                           numLocals := (func.numVars + func.numArgs : Nat),
                                           vm := func.vm } }
        | none => Outcome.undefined
      else Outcome.undefined)

/-- Instruction `OPCODE(BRANCH_CALL)`: `opcode = POP(); func = FindFunction(opcode)`. -/
def op_BRANCH_CALL (env : ACSEnv) (e : Exec) : Outcome :=
  POP e (fun opcode e => acs_op_call env (env.FindFunction e.w (u32 opcode)) opcode e)

/-- Instruction `OPCODE(BRANCH_CALL_IMM)`: `opcode = IPNEXT()`;
`func = opcode < vm->numFuncs ? vm->funcptrs[opcode] : NULL`. -/
def op_BRANCH_CALL_IMM (env : ACSEnv) (e : Exec) : Outcome :=
  IPNEXT e (fun opcode e =>
    match e.vm with
    | some vm =>
      let func : Option ACSFunc :=
        if u32 opcode < vm.funcptrs.length then (vm.funcptrs[u32 opcode]?).join else none
      acs_op_call env func opcode e
    | none => Outcome.undefined)

/-! ## The dispatch loop and the prologue of `ACSThinker::Think` -/

/-- The instructions whose bodies are embedded; `other n` stands for the `n`-th of
the remaining ones. -/
inductive Opcode where
  | NOP
  | KILL
  | GET_IMM
  | STACK_DROP
  | DIVOP (op : DivOpcode)
  | BINOP (op : BinOp) (form : OperandForm)
  | NEGATE_STACK
  | BRANCH_CALL
  | BRANCH_CALL_IMM
  | BRANCH_CASE
  | BRANCH_CASETABLE
  | BRANCH_IMM
  | BRANCH_NOTZERO
  | BRANCH_RETURN
  | BRANCH_STACK
  | BRANCH_ZERO
  | SCRIPT_RESTART
  | SCRIPT_SUSPEND
  | SCRIPT_TERMINATE
  | other (n : Nat)
deriving DecidableEq, Repr

/-- The build of the dispatch: the numbering of the instructions (`acs_op.h` is not
among the sources; `none` for a word that numbers no instruction), the bodies of
the instructions that are not embedded, and whether `COMPGOTO` is defined. -/
structure Dispatch where
  decode : Int → Option Opcode
  otherOp : Nat → Exec → Outcome
  COMPGOTO : Bool

/-- The body of an instruction. The bound is for the loop of `BRANCH_CASETABLE`. -/
def Opcode.exec (env : ACSEnv) (dis : Dispatch) (fuel : Nat) : Opcode → Exec → Outcome
  | Opcode.NOP, e => op_NOP e
  | Opcode.KILL, e => op_KILL e
  | Opcode.GET_IMM, e => op_GET_IMM e
  | Opcode.STACK_DROP, e => op_STACK_DROP e
  | Opcode.DIVOP op, e => op.exec env.d env.FixedDiv e
  | Opcode.BINOP op form, e => BINOP_GROUP env.d op form e
  | Opcode.NEGATE_STACK, e => op_NEGATE_STACK env.d e
  | Opcode.BRANCH_CALL, e => op_BRANCH_CALL env e
  | Opcode.BRANCH_CALL_IMM, e => op_BRANCH_CALL_IMM env e
  | Opcode.BRANCH_CASE, e => op_BRANCH_CASE e
  | Opcode.BRANCH_CASETABLE, e => op_BRANCH_CASETABLE fuel e
  | Opcode.BRANCH_IMM, e => op_BRANCH_IMM e
  | Opcode.BRANCH_NOTZERO, e => op_BRANCH_NOTZERO e
  | Opcode.BRANCH_RETURN, e => op_BRANCH_RETURN e
  | Opcode.BRANCH_STACK, e => op_BRANCH_STACK e
  | Opcode.BRANCH_ZERO, e => op_BRANCH_ZERO e
  | Opcode.SCRIPT_RESTART, e => op_SCRIPT_RESTART e
  | Opcode.SCRIPT_SUSPEND, e => op_SCRIPT_SUSPEND e
  | Opcode.SCRIPT_TERMINATE, e => op_SCRIPT_TERMINATE e
  | Opcode.other n, e => dis.otherOp n e

/-- One round of the dispatch: the opcode word is fetched and its instruction body
runs. A word that numbers no instruction reaches the `default` case (message and
`goto action_endscript`), which does not exist under `COMPGOTO`. -/
def Think.step (env : ACSEnv) (dis : Dispatch) (fuel : Nat) (e : Exec) : Outcome :=
  IPNEXT e (fun opcode e =>
    match dis.decode opcode with
    | some op => op.exec env dis fuel e
    | none =>
      if dis.COMPGOTO then Outcome.undefined
      else
        Outcome.action_endscript { e with w := doom_printf e.w "ACS Error: unknown opcode" })

/-- The loop "run opcodes until a terminating instruction is reached", cut after
`fuel` instructions. -/
def Think.loop (env : ACSEnv) (dis : Dispatch) : Nat → Exec → Outcome
  | 0, _ => Outcome.outOfFuel
  | fuel + 1, e =>
    match Think.step env dis fuel e with
    | Outcome.NEXTOP e1 => Think.loop env dis fuel e1
    | out => out

/-- The loop of `ACS_checkTag` for the tag `tag`, entered with `secnum`:
`while((secnum = P_FindSectorFromTag(tag, secnum)) >= 0)`, returning false at the
first sector found that has `floordata` or `ceilingdata`, true when the search is
over. `none` stands for a sector number outside `sectors` and for the loop cut
by the bound in the first argument. -/
def ACS_checkTag.loop (env : ACSEnv) (tag : Int) : Nat → Int → Option Bool
  | 0, _ => none
  | fuel + 1, secnum =>
    let secnum := env.P_FindSectorFromTag tag secnum
    if secnum ≥ 0 then
      match env.sectors[secnum.toNat]? with
      | some sec =>
        if sec.floordata.isSome ∨ sec.ceilingdata.isSome then some false
        else ACS_checkTag.loop env tag fuel secnum
      | none => none
    else some true

/-- Function `ACS_checkTag(th)`: true if the script should start running again,
false if it needs to keep waiting. The loop is cut after one more round than
there are sectors: `P_FindSectorFromTag` depends on the tag and the sector it is
given only, so a search that takes more rounds has come back to a sector and
never ends. -/
def ACS_checkTag (env : ACSEnv) (th : ACSThinker) : Option Bool :=
  ACS_checkTag.loop env th.sdata (env.sectors.length + 1) (-1)

/-- How the prologue of `Think` ends: with `return` (and the statics as they are
then), or at the dispatch loop with the locals set up; `undefined` when
`ACS_checkTag` gives no result. -/
inductive ThinkStart where
  | returned (w : ACSWorld)
  | run (e : Exec)
  | undefined
deriving DecidableEq, Repr

/-- The delay check of `Think`, for the thinker `this` at position `k` of its
script's list: `if(this->delay) { --this->delay; return; }`, else the loop starts
with `ip = this->ip`, `stp = this->stack + this->stackPtr`, `count = 0`. -/
def Think.delayCheck (w : ACSWorld) (this : ACSThinker) (k : Nat) : ThinkStart :=
  if this.delay ≠ 0 then
    ThinkStart.returned
      (w.setThreads this.script
        ((w.threadsOf this.script).set k { this with delay := this.delay - 1 }))
  else
    ThinkStart.run
      { w := w, this := this, thisIdx := k, ip := this.ip, ipVM := this.ipVM,
        stp := this.stackPtr, count := 0 }

/-- The prologue of `ACSThinker::Think`: the switch on `sreg`, then the delay
check. -/
def Think.begin (env : ACSEnv) (w : ACSWorld) (this : ACSThinker) (k : Nat) : ThinkStart :=
  match this.sreg with
  | ACS_STATE_WAITTAG =>
    match ACS_checkTag env this with
    | some false => ThinkStart.returned w
    | some true => Think.delayCheck w { this with sreg := ACS_STATE_RUNNING } k
    | none => ThinkStart.undefined
  | ACS_STATE_RUNNING => Think.delayCheck w this k
  | ACS_STATE_TERMINATE => ThinkStart.returned (ACS_stopScript w this k)
  | _ => ThinkStart.returned w

/-- Function `ACSThinker::Think` for the `k`-th thread of the script `ref`, the loop
cut after `fuel` instructions: the statics when it returns, `none` when the loop
was cut, met an undefined access, or there is no such thread. -/
def ACSThinker.Think (env : ACSEnv) (dis : Dispatch) (fuel : Nat) (w : ACSWorld)
    (ref : Nat × Nat) (k : Nat) : Option ACSWorld :=
  match (w.threadsOf ref)[k]? with
  | none => none
  | some this =>
    match Think.begin env w this k with
    | ThinkStart.returned w1 => some w1
    | ThinkStart.run e => (Think.loop env dis fuel e).finish
    | ThinkStart.undefined => none

/-! ## Starting, stopping and suspending scripts -/

/-- Function `ACS_addThread`: the thinker becomes the first of its script's thread
list. -/
def ACS_addThread (w : ACSWorld) (thread : ACSThinker) : ACSWorld :=
  w.setThreads thread.script (thread :: w.threadsOf thread.script)

/-- The first loop of `ACS_ExecuteScript` over the threads of the script: a
suspended thread is set running and `foundScripts` becomes true. The result is
the thread list and `foundScripts`. -/
def ACS_ExecuteScript.restart : List ACSThinker → Bool → List ACSThinker × Bool
  | [], foundScripts => ([], foundScripts)
  | itr :: rest, foundScripts =>
    if itr.sreg = ACS_STATE_SUSPEND then
      let r := ACS_ExecuteScript.restart rest true
      ({ itr with sreg := ACS_STATE_RUNNING } :: r.1, r.2)
    else
      let r := ACS_ExecuteScript.restart rest foundScripts
      (itr :: r.1, r.2)

/-- The loop `for(i = 0; i < script->numArgs; ++i) locals[i] = i < argc ? argv[i] : 0`
of `ACS_ExecuteScript`, from `i` on with `n` rounds left, on the buffer behind
`locals`; `none` when a store lies outside the buffer. `argv` is the list of the
`argc` values passed. -/
def ACS_ExecuteScript.copyArgs (argv : List Int) : Nat → Nat → List Int → Option (List Int)
  | 0, _, localvar => some localvar
  | n + 1, i, localvar =>
    match memSet localvar i (if i < argv.length then argv.getD i 0 else 0) with
    | some lv => ACS_ExecuteScript.copyArgs argv n (i + 1) lv
    | none => none

/-- Function `ACS_ExecuteScript(script, flags, argv, argc, trigger, line, lineSide,
thread)`. `script` is the script pointer (null is `none`), `flags` the bit
pattern of the flags, `argv` the `argc` values. The result is the statics, the
returned `bool`, what `*thread` points to (null is `none`; the new thread is
given as it is before `exec()` runs it) and the place at which that thread
stands in the list of its script when the function returns (`none` when it is
not in the list any more); `none` stands for a store outside the buffer of
local variables or a dangling script pointer. Threads are values here, so the
new thread enters the list of its script with `sreg` and `sdata` already set,
which the source sets right after `ACS_addThread`. -/
def ACS_ExecuteScript.go (env : ACSEnv) (w : ACSWorld) (script : Option (Nat × Nat))
    (flags : Nat) (argv : List Int) (trigger : Option Nat) (line : Option Nat)
    (lineSide : Int) : Option (ACSWorld × Bool × Option ACSThinker × Option Nat) :=
  match script with
  | none => some (w, false, none, none)
  | some ref =>
    match w.scriptAt ref with
    | none => none
    | some s =>
      let r := ACS_ExecuteScript.restart s.threads false
      let w1 := w.setThreads ref r.1
      if flags &&& env.ACS_EXECUTE_ALWAYS = 0 ∧ r.1 ≠ [] then some (w1, r.2, none, none)
      else
        let newThread : ACSThinker :=
          { env.newThinker with
            ip := s.codePtr
            ipVM := s.vm
            stack := List.replicate (env.ACS_NUM_STACK * 2) 0
            stackPtr := 0
            localvar := List.replicate s.numVars 0
            numLocals := s.numVars
            locals := 0
            line := line
            lineSide := lineSide
            trigger := trigger
            script := ref
            vm := s.vm }
        match ACS_ExecuteScript.copyArgs argv s.numArgs 0 newThread.localvar with
        | none => none
        | some lv =>
          let newThread : ACSThinker :=
            { newThread with localvar := lv, sreg := ACS_STATE_RUNNING, sdata := 0 }
          let w2 := ACS_addThread w1 newThread
          let w3 := if flags &&& env.ACS_EXECUTE_IMMEDIATE ≠ 0 then env.exec w2 ref 0 else w2
          let place :=
            if flags &&& env.ACS_EXECUTE_IMMEDIATE ≠ 0 then env.execThread w2 ref 0 else some 0
          some (w3, true, some newThread, place)

/-- Function `ACS_ExecuteScript`, its result without the place of the new thread:
the statics, the returned `bool` and what `*thread` points to. -/
def ACS_ExecuteScript (env : ACSEnv) (w : ACSWorld) (script : Option (Nat × Nat))
    (flags : Nat) (argv : List Int) (trigger : Option Nat) (line : Option Nat)
    (lineSide : Int) : Option (ACSWorld × Bool × Option ACSThinker) :=
  (ACS_ExecuteScript.go env w script flags argv trigger line lineSide).map
    (fun r => (r.1, r.2.1, r.2.2.1))

/-- The loop of `ACS_TerminateScript` over the threads of the script; the result
is the thread list and `ret`. -/
def ACS_TerminateScript.loop : List ACSThinker → Bool → List ACSThinker × Bool
  | [], ret => ([], ret)
  | thread :: rest, ret =>
    if thread.sreg ≠ ACS_STATE_STOPPED then
      let r := ACS_TerminateScript.loop rest true
      ({ thread with sreg := ACS_STATE_TERMINATE } :: r.1, r.2)
    else
      let r := ACS_TerminateScript.loop rest ret
      (thread :: r.1, r.2)

/-- Function `ACS_TerminateScript(script)`; a null script pointer is `none`. -/
def ACS_TerminateScript (w : ACSWorld) (script : Option (Nat × Nat)) : ACSWorld × Bool :=
  match script with
  | none => (w, false)
  | some ref =>
    let r := ACS_TerminateScript.loop (w.threadsOf ref) false
    (w.setThreads ref r.1, r.2)

/-- The loop of `ACS_SuspendScript` over the threads of the script; the result is
the thread list and `ret`. -/
def ACS_SuspendScript.loop : List ACSThinker → Bool → List ACSThinker × Bool
  | [], ret => ([], ret)
  | thread :: rest, ret =>
    if thread.sreg ≠ ACS_STATE_STOPPED ∧ thread.sreg ≠ ACS_STATE_TERMINATE then
      let r := ACS_SuspendScript.loop rest true
      ({ thread with sreg := ACS_STATE_SUSPEND } :: r.1, r.2)
    else
      let r := ACS_SuspendScript.loop rest ret
      (thread :: r.1, r.2)

/-- Function `ACS_SuspendScript(script)`; a null script pointer is `none`. -/
def ACS_SuspendScript (w : ACSWorld) (script : Option (Nat × Nat)) : ACSWorld × Bool :=
  match script with
  | none => (w, false)
  | some ref =>
    let r := ACS_SuspendScript.loop (w.threadsOf ref) false
    (w.setThreads ref r.1, r.2)

/-- The state of the locals and statics with which an instruction ends, when it
ends at the next instruction or at one of the two labels. -/
def Outcome.exec? : Outcome → Option Exec
  | Outcome.NEXTOP e => some e
  | Outcome.action_endscript e => some e
  | Outcome.action_stop e => some e
  | _ => none

/-- A small build for evaluating the definitions: two call frames, four stack
cells and four local variables per growth step, the flag bits 1 and 2, zeroed
new memory, function numbers looked up among the function pointers of all
modules, no sectors, map 1, 35 tics per second, no script found by number or
name, a zeroed new thinker, an `exec` that does nothing and a base class that
archives nothing. -/
def ACSEnv.small : ACSEnv where
  d := ACSArrayDims.mk 256 256 256 256
  FixedDiv := fun _ _ => 0
  ACS_NUM_CALLS := 2
  ACS_NUM_STACK := 4
  ACS_NUM_LOCALVARS := 4
  ACS_EXECUTE_ALWAYS := 1
  ACS_EXECUTE_IMMEDIATE := 2
  junk := fun _ => 0
  junkCall := fun _ => {}
  FindFunction := fun w n =>
    ((w.acsVMs.map (fun m => m.funcptrs)).flatten.find?
      (fun f => f.isSome && decide (((f.map (fun g => (g.number : Int))).getD 0) = n))).join
  newThinker := {}
  exec := fun w _ _ => w
  execThread := fun _ _ k => some k
  sectors := []
  P_FindSectorFromTag := fun _ _ => -1
  gamemap := 1
  TICRATE := 35
  FindScriptByNumber := fun _ _ => none
  FindScriptByName := fun _ _ => none
  P_NumForThinker := fun _ => 0
  SuperSave := fun _ => []
  SuperLoad := fun s => some s

/-! ## Deferred actions -/

/-- Modelled from the spec: the constructor of `ACSDeferred` is in a header that is
not among the sources; it links the new action into `ACSDeferred::list`. The
queue "appends a pending action", and the actions of a map are executed "in FIFO
order", so the new action is put behind the actions that are pending. -/
def ACSDeferred.new (w : ACSWorld) (a : ACSDeferred) : ACSWorld :=
  { w with deferred := w.deferred ++ [a] }

/-- Destructor `ACSDeferred::~ACSDeferred` of the `k`-th action of the list:
`link.remove()`; its name and arguments are freed with it. -/
def ACSDeferred.delete (w : ACSWorld) (k : Nat) : ACSWorld :=
  { w with deferred := w.deferred.eraseIdx k }

/-- Function `ACSDeferred::IsDeferredNumber(number, mapnum)`, as the loop over the
list from `item` on. -/
def ACSDeferred.IsDeferredNumber (env : ACSEnv) : List ACSDeferred → Int → Int → Bool
  | [], _, _ => false
  | dacs :: rest, number, mapnum =>
    if dacs.mapnum = mapnum ∧ dacs.flags &&& env.ACS_EXECUTE_ALWAYS = 0 ∧
        dacs.name = none ∧ dacs.number = number then true
    else ACSDeferred.IsDeferredNumber env rest number mapnum

/-- Function `ACSDeferred::IsDeferredName(name, mapnum)`, as the loop over the list
from `item` on. -/
def ACSDeferred.IsDeferredName (env : ACSEnv) : List ACSDeferred → List Int → Int → Bool
  | [], _, _ => false
  | dacs :: rest, name, mapnum =>
    if dacs.mapnum = mapnum ∧ dacs.flags &&& env.ACS_EXECUTE_ALWAYS = 0 ∧
        dacs.name.isSome = true ∧ strcaseeq (dacs.name.getD []) name = true then true
    else ACSDeferred.IsDeferredName env rest name mapnum

/-- Function `ACSDeferred::DeferExecuteNumber(number, mapnum, flags, argv, argc)`. -/
def ACSDeferred.DeferExecuteNumber (env : ACSEnv) (w : ACSWorld) (number mapnum : Int)
    (flags : Nat) (argv : List Int) : ACSWorld × Bool :=
  if flags &&& env.ACS_EXECUTE_ALWAYS = 0 ∧
      ACSDeferred.IsDeferredNumber env w.deferred number mapnum = true then (w, false)
  else
    (ACSDeferred.new w
      { type := ACSDeferred.Type.EXECUTE_NUMBER, number := number, name := none,
        mapnum := mapnum, flags := flags, argv := argv }, true)

/-- Function `ACSDeferred::DeferExecuteName(name, mapnum, flags, argv, argc)`. -/
def ACSDeferred.DeferExecuteName (env : ACSEnv) (w : ACSWorld) (name : List Int)
    (mapnum : Int) (flags : Nat) (argv : List Int) : ACSWorld × Bool :=
  if flags &&& env.ACS_EXECUTE_ALWAYS = 0 ∧
      ACSDeferred.IsDeferredName env w.deferred name mapnum = true then (w, false)
  else
    (ACSDeferred.new w
      { type := ACSDeferred.Type.EXECUTE_NAME, number := -1, name := some name,
        mapnum := mapnum, flags := flags, argv := argv }, true)

/-- Function `ACSDeferred::DeferSuspendNumber(number, mapnum)`. -/
def ACSDeferred.DeferSuspendNumber (env : ACSEnv) (w : ACSWorld) (number mapnum : Int) :
    ACSWorld × Bool :=
  if ACSDeferred.IsDeferredNumber env w.deferred number mapnum = true then (w, false)
  else
    (ACSDeferred.new w
      { type := ACSDeferred.Type.SUSPEND_NUMBER, number := number, name := none,
        mapnum := mapnum, flags := 0, argv := [] }, true)

/-- Function `ACSDeferred::DeferSuspendName(name, mapnum)`. -/
def ACSDeferred.DeferSuspendName (env : ACSEnv) (w : ACSWorld) (name : List Int)
    (mapnum : Int) : ACSWorld × Bool :=
  if ACSDeferred.IsDeferredName env w.deferred name mapnum = true then (w, false)
  else
    (ACSDeferred.new w
      { type := ACSDeferred.Type.SUSPEND_NAME, number := -1, name := some name,
        mapnum := mapnum, flags := 0, argv := [] }, true)

/-- Function `ACSDeferred::DeferTerminateNumber(number, mapnum)`. -/
def ACSDeferred.DeferTerminateNumber (env : ACSEnv) (w : ACSWorld) (number mapnum : Int) :
    ACSWorld × Bool :=
  if ACSDeferred.IsDeferredNumber env w.deferred number mapnum = true then (w, false)
  else
    (ACSDeferred.new w
      { type := ACSDeferred.Type.TERMINATE_NUMBER, number := number, name := none,
        mapnum := mapnum, flags := 0, argv := [] }, true)

/-- Function `ACSDeferred::DeferTerminateName(name, mapnum)`. -/
def ACSDeferred.DeferTerminateName (env : ACSEnv) (w : ACSWorld) (name : List Int)
    (mapnum : Int) : ACSWorld × Bool :=
  if ACSDeferred.IsDeferredName env w.deferred name mapnum = true then (w, false)
  else
    (ACSDeferred.new w
      { type := ACSDeferred.Type.TERMINATE_NAME, number := -1, name := some name,
        mapnum := mapnum, flags := 0, argv := [] }, true)

/-- Function `ACS_ExecuteScriptNumber`: the numbered script is started when `mapnum`
is 0 or the current map, else the action is deferred and `*thread` is null. The
result is as for `ACS_ExecuteScript.go`. -/
def ACS_ExecuteScriptNumber (env : ACSEnv) (w : ACSWorld) (number mapnum : Int) (flags : Nat)
    (argv : List Int) (trigger line : Option Nat) (lineSide : Int) :
    Option (ACSWorld × Bool × Option ACSThinker × Option Nat) :=
  if mapnum = 0 ∨ mapnum = env.gamemap then
    ACS_ExecuteScript.go env w (env.FindScriptByNumber w number) flags argv trigger line lineSide
  else
    let r := ACSDeferred.DeferExecuteNumber env w number mapnum flags argv
    some (r.1, r.2, none, none)

/-- Function `ACS_ExecuteScriptName`, like `ACS_ExecuteScriptNumber` for a named
script. -/
def ACS_ExecuteScriptName (env : ACSEnv) (w : ACSWorld) (name : List Int) (mapnum : Int)
    (flags : Nat) (argv : List Int) (trigger line : Option Nat) (lineSide : Int) :
    Option (ACSWorld × Bool × Option ACSThinker × Option Nat) :=
  if mapnum = 0 ∨ mapnum = env.gamemap then
    ACS_ExecuteScript.go env w (env.FindScriptByName w name) flags argv trigger line lineSide
  else
    let r := ACSDeferred.DeferExecuteName env w name mapnum flags argv
    some (r.1, r.2, none, none)

/-- Function `ACS_TerminateScriptNumber(number, mapnum)`. -/
def ACS_TerminateScriptNumber (env : ACSEnv) (w : ACSWorld) (number mapnum : Int) :
    ACSWorld × Bool :=
  if mapnum = 0 ∨ mapnum = env.gamemap then
    ACS_TerminateScript w (env.FindScriptByNumber w number)
  else ACSDeferred.DeferTerminateNumber env w number mapnum

/-- Function `ACS_TerminateScriptName(name, mapnum)`. -/
def ACS_TerminateScriptName (env : ACSEnv) (w : ACSWorld) (name : List Int) (mapnum : Int) :
    ACSWorld × Bool :=
  if mapnum = 0 ∨ mapnum = env.gamemap then
    ACS_TerminateScript w (env.FindScriptByName w name)
  else ACSDeferred.DeferTerminateName env w name mapnum

/-- Function `ACS_SuspendScriptNumber(number, mapnum)`. -/
def ACS_SuspendScriptNumber (env : ACSEnv) (w : ACSWorld) (number mapnum : Int) :
    ACSWorld × Bool :=
  if mapnum = 0 ∨ mapnum = env.gamemap then
    ACS_SuspendScript w (env.FindScriptByNumber w number)
  else ACSDeferred.DeferSuspendNumber env w number mapnum

/-- Function `ACS_SuspendScriptName(name, mapnum)`. -/
def ACS_SuspendScriptName (env : ACSEnv) (w : ACSWorld) (name : List Int) (mapnum : Int) :
    ACSWorld × Bool :=
  if mapnum = 0 ∨ mapnum = env.gamemap then
    ACS_SuspendScript w (env.FindScriptByName w name)
  else ACSDeferred.DeferSuspendName env w name mapnum

/-- The assignment `thread->delay = TICRATE` after a start, `thread` being the
pointer that the start handed back: the thread `created`, the `place`-th of
the list of its script. A null pointer assigns nothing; a thread that has left
the list is no thread of the statics any more. -/
def ACSDeferred.setDelay (env : ACSEnv) (w : ACSWorld) (created : Option ACSThinker)
    (place : Option Nat) : ACSWorld :=
  match created, place with
  | some t, some p =>
    match (w.threadsOf t.script)[p]? with
    | some th =>
      w.setThreads t.script ((w.threadsOf t.script).set p { th with delay := env.TICRATE })
    | none => w
  | _, _ => w

/-- The `switch(type)` of `ACSDeferred::execute`: the action is performed. -/
def ACSDeferred.perform (env : ACSEnv) (w : ACSWorld) (this : ACSDeferred) : Option ACSWorld :=
  match this.type with
  | ACSDeferred.Type.EXECUTE_NUMBER =>
    match ACS_ExecuteScriptNumber env w this.number this.mapnum this.flags this.argv
        none none 0 with
    | some r => some (ACSDeferred.setDelay env r.1 r.2.2.1 r.2.2.2)
    | none => none
  | ACSDeferred.Type.EXECUTE_NAME =>
    match ACS_ExecuteScriptName env w (this.name.getD []) this.mapnum this.flags this.argv
        none none 0 with
    | some r => some (ACSDeferred.setDelay env r.1 r.2.2.1 r.2.2.2)
    | none => none
  | ACSDeferred.Type.SUSPEND_NUMBER =>
    some (ACS_SuspendScriptNumber env w this.number this.mapnum).1
  | ACSDeferred.Type.SUSPEND_NAME =>
    some (ACS_SuspendScriptName env w (this.name.getD []) this.mapnum).1
  | ACSDeferred.Type.TERMINATE_NUMBER =>
    some (ACS_TerminateScriptNumber env w this.number this.mapnum).1
  | ACSDeferred.Type.TERMINATE_NAME =>
    some (ACS_TerminateScriptName env w (this.name.getD []) this.mapnum).1

/-- Function `ACSDeferred::execute()` of the `k`-th action of the list: nothing
when its map is not the current map; else the action is performed and the
object deletes itself. The result tells whether it did. -/
def ACSDeferred.execute (env : ACSEnv) (w : ACSWorld) (k : Nat) : Option (ACSWorld × Bool) :=
  match w.deferred[k]? with
  | none => none
  | some this =>
    if env.gamemap ≠ this.mapnum then some (w, false)
    else
      match ACSDeferred.perform env w this with
      | some w1 => some (ACSDeferred.delete w1 k, true)
      | none => none

/-- The loop of `ACSDeferred::ExecuteAll()`, `item` being the `i`-th action of the
list. `next` is read before `execute()`, so it is the `i+1`-th action when the
`i`-th stays and the `i`-th when that one has deleted itself (an action that is
performed can only add actions behind). The last argument and the second
component of the result list the actions that have been performed, in the
order in which they were; the first argument bounds the number of rounds. -/
def ACSDeferred.ExecuteAll.loop (env : ACSEnv) :
    Nat → ACSWorld → Nat → List ACSDeferred → Option (ACSWorld × List ACSDeferred)
  | 0, _, _, _ => none
  | fuel + 1, w, i, performed =>
    match w.deferred[i]? with
    | none => some (w, performed)
    | some item =>
      match ACSDeferred.execute env w i with
      | some (w1, true) => ACSDeferred.ExecuteAll.loop env fuel w1 i (performed ++ [item])
      | some (w1, false) => ACSDeferred.ExecuteAll.loop env fuel w1 (i + 1) performed
      | none => none

/-- Function `ACSDeferred::ExecuteAll()`: the statics afterwards, and the actions
performed in the order in which they were. -/
def ACSDeferred.ExecuteAll (env : ACSEnv) (fuel : Nat) (w : ACSWorld) :
    Option (ACSWorld × List ACSDeferred) :=
  ACSDeferred.ExecuteAll.loop env fuel w 0 []

/-- Following the words of the spec and of the claims: what a pending action asks
for, done on the current map. The script with that number or name is started by
`ACS_ExecuteScript` with the flags and arguments of the action, and the thread
that the start hands back waits for `TICRATE` tics; or the script is suspended;
or it is terminated. `none` where the start has no defined result. -/
def ACSDeferred.request (env : ACSEnv) (w : ACSWorld) (a : ACSDeferred) : Option ACSWorld :=
  match a.type with
  | ACSDeferred.Type.EXECUTE_NUMBER =>
    (ACS_ExecuteScript.go env w (env.FindScriptByNumber w a.number) a.flags a.argv
      none none 0).map (fun r => ACSDeferred.setDelay env r.1 r.2.2.1 r.2.2.2)
  | ACSDeferred.Type.EXECUTE_NAME =>
    (ACS_ExecuteScript.go env w (env.FindScriptByName w (a.name.getD [])) a.flags a.argv
      none none 0).map (fun r => ACSDeferred.setDelay env r.1 r.2.2.1 r.2.2.2)
  | ACSDeferred.Type.SUSPEND_NUMBER =>
    some (ACS_SuspendScript w (env.FindScriptByNumber w a.number)).1
  | ACSDeferred.Type.SUSPEND_NAME =>
    some (ACS_SuspendScript w (env.FindScriptByName w (a.name.getD []))).1
  | ACSDeferred.Type.TERMINATE_NUMBER =>
    some (ACS_TerminateScript w (env.FindScriptByNumber w a.number)).1
  | ACSDeferred.Type.TERMINATE_NAME =>
    some (ACS_TerminateScript w (env.FindScriptByName w (a.name.getD []))).1

/-- Following the words of the spec: a pending action is "consumed (executed and
destroyed)": what it asks for is done, and the action leaves the queue. -/
def ACSDeferred.consume (env : ACSEnv) (w : ACSWorld) (a : ACSDeferred) : Option ACSWorld :=
  (ACSDeferred.request env w a).map (fun w1 => { w1 with deferred := w1.deferred.erase a })

/-- The actions of a list consumed one after the other, the first of the list
first. -/
def ACSDeferred.consumeAll (env : ACSEnv) : List ACSDeferred → ACSWorld → Option ACSWorld
  | [], w => some w
  | a :: rest, w =>
    match ACSDeferred.consume env w a with
    | some w1 => ACSDeferred.consumeAll env rest w1
    | none => none

/-- The build `ACSEnv.small` with the scripts numbered 1 and 2 found as the first
and the second script of the first module. -/
def ACSEnv.found : ACSEnv :=
  { ACSEnv.small with
    FindScriptByNumber := fun _ number =>
      if number = 1 then some (0, 0) else if number = 2 then some (0, 1) else none }


/-! ## Saving and loading a thread -/

/-- A loop over the `count` cells from a pointer on, in saving mode: each cell is
archived with `f`, in order. The result is `none` when a cell lies outside the
buffer or `f` has no defined result on one. -/
def forCells.save {α : Type} (f : α → Option (List SaveItem)) :
    Nat → List α → Option (List SaveItem)
  | 0, _ => some []
  | _ + 1, [] => none
  | count + 1, x :: rest =>
    match f x, forCells.save f count rest with
    | some a, some b => some (a ++ b)
    | _, _ => none

/-- A loop over the `count` cells from a pointer on, in loading mode: each cell is
loaded with `f` from the archive, in order. The result is the buffer and the rest
of the archive, `none` when a cell lies outside the buffer or the archive does
not hold the element. -/
def forCells.load {α : Type} (f : α → List SaveItem → Option (α × List SaveItem)) :
    Nat → List α → List SaveItem → Option (List α × List SaveItem)
  | 0, buf, s => some (buf, s)
  | _ + 1, [], _ => none
  | count + 1, x :: rest, s =>
    match f x s with
    | some (y, s1) =>
      match forCells.load f count rest s1 with
      | some (r, s2) => some (y :: r, s2)
      | none => none
    | none => none

/-- Modelled from the spec: `P_ArchiveArray(arc, ptr, count)` is a function of the
host that is not among the sources. What is persisted of a buffer are its
"contents", so in saving mode it archives the `count` cells from `ptr` on, one
after the other, each with the `operator <<` of its type, here `f`. -/
def P_ArchiveArray.save {α : Type} (f : α → Option (List SaveItem)) (ptr : List α)
    (count : Nat) : Option (List SaveItem) :=
  forCells.save f count ptr

/-- Modelled from the spec: `P_ArchiveArray(arc, ptr, count)` in loading mode. -/
def P_ArchiveArray.load {α : Type} (f : α → List SaveItem → Option (α × List SaveItem))
    (ptr : List α) (count : Nat) (s : List SaveItem) : Option (List α × List SaveItem) :=
  forCells.load f count ptr s

/-- Function `operator << (SaveArchive &, ACSModule *&)` in saving mode:
`vmID = vm->id; arc << vmID`. -/
def ACSModule.archivePtr.save (w : ACSWorld) (vm : Nat) : Option (List SaveItem) :=
  match w.acsVMs[vm]? with
  | some m => some [SaveItem.word m.id]
  | none => none

/-- Function `operator << (SaveArchive &, ACSModule *&)` in loading mode:
`arc << vmID; vm = acsVMs[vmID]`. -/
def ACSModule.archivePtr.load (w : ACSWorld) (s : List SaveItem) :
    Option (Nat × List SaveItem) :=
  match SaveItem.readWord s with
  | some (vmID, s1) => if u32 vmID < w.acsVMs.length then some (u32 vmID, s1) else none
  | none => none

/-- Function `operator << (SaveArchive &, acs_call_t &)` in saving mode:
`ipTemp = call.ip - call.vm->code; arc << ipTemp << call.numLocals << call.vm`.
The difference is that of two pointers into the code of `call.vm`; C defines
none when `call.ip` points into other code. -/
def acs_call_t.archive.save (w : ACSWorld) (call : acs_call_t) : Option (List SaveItem) :=
  if call.ipVM = call.vm then
    match ACSModule.archivePtr.save w call.vm with
    | some vmItems =>
      some ([SaveItem.word (u32 call.ip), SaveItem.word call.numLocals] ++ vmItems)
    | none => none
  else none

/-- Function `operator << (SaveArchive &, acs_call_t &)` in loading mode; then
`call.ip = call.vm->code + ipTemp`. -/
def acs_call_t.archive.load (w : ACSWorld) (_call : acs_call_t) (s : List SaveItem) :
    Option (acs_call_t × List SaveItem) :=
  match SaveItem.readWord s with
  | some (ipTemp, s1) =>
    match SaveItem.readWord s1 with
    | some (numLocals, s2) =>
      match ACSModule.archivePtr.load w s2 with
      | some (vm, s3) =>
        some ({ ip := (u32 ipTemp : Int), ipVM := vm, numLocals := numLocals, vm := vm }, s3)
      | none => none
    | none => none
  | none => none

/-- Modelled from the spec: `qstring::archive` is a function of the host that is
not among the sources; what is persisted of a print buffer are its "contents",
here one item with the chars. Saving dereferences the pointer of the slot, so a
null slot gives `none`. -/
def qstring.archive.save (slot : Option (List Int)) : Option (List SaveItem) :=
  match slot with
  | some chars => some [SaveItem.text chars]
  | none => none

/-- The body of the loop over the print buffers in loading mode:
`*itr = new (PU_LEVEL) qstring(); (*itr)->archive(arc)`. -/
def qstring.archive.load (_slot : Option (List Int)) (s : List SaveItem) :
    Option (Option (List Int) × List SaveItem) :=
  match SaveItem.readText s with
  | some (chars, s1) => some (some chars, s1)
  | none => none

/-- Function `ACSThinker::serialize` in saving mode. The result is the thinker
(its `triggerSwizzle` is set) and the items written, in order: those of
`Super::serialize`, the fifteen basic properties, the cells of `stack` below
`stackPtr`, the cells of `localvar`, the frames of `calls` below `callPtr`, and
the print buffers below `printPtr`.

`scriptIndex = script - vm->scripts` and `ipIndex = ip - vm->code` are
differences of two pointers, which C defines only when both point into the same
array: the result is `none` when `script` is no script of the module `vm`, and
when `ip` does not point into the code of `vm`. -/
def ACSThinker.serialize.save (env : ACSEnv) (w : ACSWorld) (this : ACSThinker) :
    Option (ACSThinker × List SaveItem) :=
  if this.script.1 = this.vm then
    if this.ipVM = this.vm then
      let scriptIndex := u32 this.script.2
      let localsIndex := u32 this.locals
      let callPtrIndex := u32 this.callPtr
      let printIndex := u32 this.printPtr
      let ipIndex := u32 this.ip
      let lineIndex := match this.line with
        | some l => u32 ((l : Int) + 1)
        | none => 0
      let this1 := { this with triggerSwizzle := env.P_NumForThinker this.trigger }
      match ACSModule.archivePtr.save w this1.vm,
            P_ArchiveArray.save (fun x => some [SaveItem.word x]) this1.stack
              this1.stackPtr.toNat,
            P_ArchiveArray.save (fun x => some [SaveItem.word x]) this1.localvar
              this1.localvar.length,
            P_ArchiveArray.save (acs_call_t.archive.save w) this1.calls callPtrIndex,
            forCells.save qstring.archive.save this1.printPtr this1.printStack with
      | some vmItems, some stackItems, some localvarItems, some callItems, some printItems =>
        some (this1, env.SuperSave this ++
          (SaveItem.word ipIndex :: SaveItem.word this1.stackPtr ::
           SaveItem.word this1.localvar.length :: SaveItem.word localsIndex ::
           SaveItem.word this1.numLocals :: SaveItem.state this1.sreg ::
           SaveItem.word this1.sdata :: SaveItem.word callPtrIndex ::
           SaveItem.word printIndex :: SaveItem.word scriptIndex ::
           (vmItems ++ (SaveItem.word this1.delay :: SaveItem.word this1.triggerSwizzle ::
           SaveItem.word lineIndex :: SaveItem.word this1.lineSide ::
           (stackItems ++ (localvarItems ++ (callItems ++ printItems)))))))
      | _, _, _, _, _ => none
    else none
  else none

/-- Function `ACSThinker::serialize` in loading mode, on the thinker `this` that
the archive has constructed. The buffers are allocated zeroed
(`estructalloctag`) at the sizes that the loaded indices give; `printBuffer` is
read from the slot below `printPtr` right after the allocation; then the cells,
frames and print buffers are loaded and the thread is added to the list of its
script. The result is the world, the thinker and the rest of the archive;
`none` when the archive does not hold the items, or a module or script index
lies outside its table. -/
def ACSThinker.serialize.load (env : ACSEnv) (w : ACSWorld) (this : ACSThinker)
    (s : List SaveItem) : Option (ACSWorld × ACSThinker × List SaveItem) :=
  match env.SuperLoad s with
  | none => none
  | some s =>
  match SaveItem.readWord s with
  | none => none
  | some (ipIndex, s) =>
  match SaveItem.readWord s with
  | none => none
  | some (stackPtr, s) =>
  match SaveItem.readWord s with
  | none => none
  | some (numLocalvar, s) =>
  match SaveItem.readWord s with
  | none => none
  | some (localsIndex, s) =>
  match SaveItem.readWord s with
  | none => none
  | some (numLocals, s) =>
  match SaveItem.readState s with
  | none => none
  | some (sreg, s) =>
  match SaveItem.readWord s with
  | none => none
  | some (sdata, s) =>
  match SaveItem.readWord s with
  | none => none
  | some (callPtrIndex, s) =>
  match SaveItem.readWord s with
  | none => none
  | some (printIndex, s) =>
  match SaveItem.readWord s with
  | none => none
  | some (scriptIndex, s) =>
  match ACSModule.archivePtr.load w s with
  | none => none
  | some (vm, s) =>
  match SaveItem.readWord s with
  | none => none
  | some (delay, s) =>
  match SaveItem.readWord s with
  | none => none
  | some (triggerSwizzle, s) =>
  match SaveItem.readWord s with
  | none => none
  | some (lineIndex, s) =>
  match SaveItem.readWord s with
  | none => none
  | some (lineSide, s) =>
  let printStack : List (Option (List Int)) := List.replicate (u32 printIndex) none
  let this1 : ACSThinker :=
    { this with
      stackPtr := stackPtr, numLocals := numLocals, sreg := sreg, sdata := sdata,
      vm := vm, delay := delay, triggerSwizzle := triggerSwizzle, lineSide := lineSide,
      script := (vm, u32 scriptIndex),
      localvar := List.replicate numLocalvar.toNat 0,
      locals := (u32 localsIndex : Int),
      calls := List.replicate (u32 callPtrIndex) {},
      callPtr := u32 callPtrIndex,
      printStack := printStack,
      printPtr := u32 printIndex,
      printBuffer :=
        if u32 printIndex ≠ 0 then
          match printStack[u32 printIndex - 1]? with
          | some (some _) => some (u32 printIndex - 1)
          | _ => none
        else none,
      ip := (u32 ipIndex : Int), ipVM := vm,
      line := if u32 lineIndex ≠ 0 then some (u32 lineIndex - 1) else none,
      stack := List.replicate (u32 (stackPtr + env.ACS_NUM_STACK)) 0 }
  match P_ArchiveArray.load (fun _ s => SaveItem.readWord s) this1.stack this1.stackPtr.toNat s with
  | none => none
  | some (stack, s) =>
  match P_ArchiveArray.load (fun _ s => SaveItem.readWord s) this1.localvar numLocalvar.toNat s with
  | none => none
  | some (localvar, s) =>
  match P_ArchiveArray.load (acs_call_t.archive.load w) this1.calls (u32 callPtrIndex) s with
  | none => none
  | some (calls, s) =>
  match forCells.load qstring.archive.load this1.printPtr this1.printStack s with
  | none => none
  | some (printStack, s) =>
  let this2 : ACSThinker :=
    { this1 with stack := stack, localvar := localvar, calls := calls,
                 printStack := printStack }
  match w.scriptAt this2.script with
  | some _ => some (ACS_addThread w this2, this2, s)
  | none => none


/-- The representation invariant of a thread that the indices of
`ACSThinker::serialize` rely on: the offsets of `ip`, `locals`, `callPtr`,
`printPtr`, `script` and `line` fit the `uint32_t` that holds them, `stackPtr`,
`callPtr` and `printPtr` lie within their buffers, `numStack` of the loaded
thread fits its type, `script` points to a script, and every live frame holds a
code offset and a module of `acsVMs`, of which there are no more than an index
can tell apart. -/
def ACSThinker.wellFormed (env : ACSEnv) (w : ACSWorld) (this : ACSThinker) : Prop :=
  (0 ≤ this.ip ∧ this.ip < 4294967296) ∧
  (0 ≤ this.stackPtr ∧ this.stackPtr.toNat ≤ this.stack.length ∧
    this.stackPtr + env.ACS_NUM_STACK < 4294967296) ∧
  (0 ≤ this.locals ∧ this.locals < 4294967296) ∧
  (this.callPtr ≤ this.calls.length ∧ this.callPtr < 4294967296) ∧
  (this.printPtr ≤ this.printStack.length ∧ this.printPtr < 4294967296) ∧
  (this.script.2 < 4294967296 ∧ (w.scriptAt this.script).isSome = true) ∧
  (∀ l, this.line = some l → l + 1 < 4294967296) ∧
  w.acsVMs.length ≤ 4294967296 ∧
  (∀ c ∈ this.calls.take this.callPtr,
    0 ≤ c.ip ∧ c.ip < 4294967296 ∧ c.vm < w.acsVMs.length)

/-! ## The code translations of the environment -/

/-- One call `addCodeDataACS0(code, {args, stackArgC, addCallFunc(ACS_CF_...)})` of
the constructor of `ACSEnvironment`: the number of the bytecode in a lump of the
ACS0 format, the format of its arguments in the code, the number of arguments
that it takes from the stack, and the name of the function that is called for
it (without `ACS_CF_`). -/
structure CodeDataACS0 where
  code : Nat
  args : String
  stackArgC : Nat
  func : String
deriving DecidableEq, Repr

/-- The calls of `addCodeDataACS0` in the constructor `ACSEnvironment::ACSEnvironment`,
in their order; the calls that are commented out are left out. Each call
registers the translation of the bytecode with that number. -/
def ACSEnvironment.codeDataACS0 : List CodeDataACS0 :=
  [CodeDataACS0.mk 57 "" 2 "Random",
   CodeDataACS0.mk 58 "WW" 0 "Random",
   CodeDataACS0.mk 59 "" 1 "ThingCount",
   CodeDataACS0.mk 60 "W" 0 "ThingCount",
   CodeDataACS0.mk 61 "" 1 "WaitSector",
   CodeDataACS0.mk 62 "W" 0 "WaitSector",
   CodeDataACS0.mk 63 "" 1 "WaitPolyObj",
   CodeDataACS0.mk 64 "W" 0 "WaitPolyObj",
   CodeDataACS0.mk 65 "" 2 "ChangeCeil",
   CodeDataACS0.mk 66 "WWS" 0 "ChangeCeil",
   CodeDataACS0.mk 67 "" 2 "ChangeFloor",
   CodeDataACS0.mk 68 "WWS" 0 "ChangeFloor",
   CodeDataACS0.mk 80 "" 0 "LineSide",
   CodeDataACS0.mk 83 "" 0 "ClrLineSpec",
   CodeDataACS0.mk 86 "" 0 "EndPrint",
   CodeDataACS0.mk 90 "" 0 "PlayerCount",
   CodeDataACS0.mk 91 "" 0 "GameType",
   CodeDataACS0.mk 92 "" 0 "GameSkill",
   CodeDataACS0.mk 93 "" 0 "Timer",
   CodeDataACS0.mk 94 "" 2 "SectorSound",
   CodeDataACS0.mk 95 "" 2 "AmbientSound",
   CodeDataACS0.mk 96 "" 1 "SoundSeq",
   CodeDataACS0.mk 97 "" 4 "SetLineTex",
   CodeDataACS0.mk 98 "" 2 "SetLineBlock",
   CodeDataACS0.mk 99 "" 7 "SetLineSpec",
   CodeDataACS0.mk 100 "" 3 "ThingSound",
   CodeDataACS0.mk 101 "" 0 "EndPrintBold",
   CodeDataACS0.mk 102 "" 2 "ActivatorSound",
   CodeDataACS0.mk 103 "" 2 "AmbientSoundLoc",
   CodeDataACS0.mk 104 "" 2 "SetLineBlockMon",
   CodeDataACS0.mk 120 "" 0 "ActivatorHealth",
   CodeDataACS0.mk 121 "" 0 "ActivatorArmor",
   CodeDataACS0.mk 122 "" 0 "ActivatorFrags",
   CodeDataACS0.mk 131 "" 0 "PrintName",
   CodeDataACS0.mk 132 "" 2 "SetMusic",
   CodeDataACS0.mk 135 "" 0 "SinglePlayer",
   CodeDataACS0.mk 138 "" 1 "SetGravity",
   CodeDataACS0.mk 139 "W" 0 "SetGravity",
   CodeDataACS0.mk 149 "" 6 "SpawnPoint",
   CodeDataACS0.mk 150 "WSWWWWW" 0 "SpawnPoint",
   CodeDataACS0.mk 151 "" 4 "SpawnSpot",
   CodeDataACS0.mk 152 "WSWWW" 0 "SpawnSpot",
   CodeDataACS0.mk 153 "" 3 "SetMusic",
   CodeDataACS0.mk 154 "WSWW" 0 "SetMusic",
   CodeDataACS0.mk 155 "" 3 "SetMusicLoc",
   CodeDataACS0.mk 156 "WSWW" 0 "SetMusicLoc",
   CodeDataACS0.mk 174 "BB" 0 "Random",
   CodeDataACS0.mk 180 "" 7 "SetThingSpec",
   CodeDataACS0.mk 196 "" 1 "GetThingX",
   CodeDataACS0.mk 197 "" 1 "GetThingY",
   CodeDataACS0.mk 198 "" 1 "GetThingZ",
   CodeDataACS0.mk 220 "" 1 "Sin",
   CodeDataACS0.mk 221 "" 1 "Cos",
   CodeDataACS0.mk 222 "" 2 "ATan2",
   CodeDataACS0.mk 245 "" 3 "SetThingProp",
   CodeDataACS0.mk 246 "" 2 "GetThingProp",
   CodeDataACS0.mk 247 "" 0 "PlayerNumber",
   CodeDataACS0.mk 248 "" 0 "ActivatorTID",
   CodeDataACS0.mk 250 "" 0 "GetScreenW",
   CodeDataACS0.mk 251 "" 0 "GetScreenH",
   CodeDataACS0.mk 252 "" 7 "ThingMissile",
   CodeDataACS0.mk 255 "" 1 "GetCVar",
   CodeDataACS0.mk 258 "" 0 "LineOffsetY",
   CodeDataACS0.mk 259 "" 1 "GetThingFloorZ",
   CodeDataACS0.mk 260 "" 1 "GetThingAngle",
   CodeDataACS0.mk 261 "" 3 "GetSectorFloorZ",
   CodeDataACS0.mk 262 "" 3 "GetSectorCeilZ",
   CodeDataACS0.mk 264 "" 0 "ActivatorSigil",
   CodeDataACS0.mk 265 "" 1 "GetLevelProp",
   CodeDataACS0.mk 270 "" 0 "EndLog",
   CodeDataACS0.mk 276 "" 2 "SetThingAngle",
   CodeDataACS0.mk 280 "" 7 "SpawnMissile",
   CodeDataACS0.mk 281 "" 1 "GetSectorLight",
   CodeDataACS0.mk 292 "" 1 "GetThingCeilZ",
   CodeDataACS0.mk 293 "" 5 "SetThingPos",
   CodeDataACS0.mk 288 "" 2 "ThingCountStr",
   CodeDataACS0.mk 289 "" 3 "SpawnSpotAng",
   CodeDataACS0.mk 328 "" 5 "SectorDamage",
   CodeDataACS0.mk 329 "" 3 "ReplaceTex",
   CodeDataACS0.mk 331 "" 1 "GetThingPitch",
   CodeDataACS0.mk 332 "" 2 "SetThingPitch",
   CodeDataACS0.mk 334 "" 3 "SetThingState",
   CodeDataACS0.mk 335 "" 3 "ThingDamage",
   CodeDataACS0.mk 338 "" 2 "ChkThingCeilTex",
   CodeDataACS0.mk 339 "" 2 "ChkThingFloorTex",
   CodeDataACS0.mk 340 "" 1 "GetThingLight",
   CodeDataACS0.mk 342 "" 3 "ThingCountSec",
   CodeDataACS0.mk 343 "" 3 "ThingCountSecStr",
   CodeDataACS0.mk 347 "" 2 "GetPlayerInput",
   CodeDataACS0.mk 348 "" 1 "ClassifyThing"]

/-- What a comment of the constructor says of a range of numbers that it leaves
out. -/
inductive CodeRange.Kind where
  | internal
  | unused
deriving DecidableEq, Repr

/-- A comment `// lo-hi: ACSVM internal codes.` or `// lo-hi: Unused codes.` of the
constructor. -/
structure CodeRange where
  lo : Nat
  hi : Nat
  kind : CodeRange.Kind
deriving DecidableEq, Repr

/-- The ranges of numbers that the comments between the calls of `addCodeDataACS0`
reserve, in their order. -/
def ACSEnvironment.reservedCodes : List CodeRange :=
  [CodeRange.mk 0 56 CodeRange.Kind.internal,
   CodeRange.mk 69 79 CodeRange.Kind.internal,
   CodeRange.mk 81 82 CodeRange.Kind.internal,
   CodeRange.mk 84 85 CodeRange.Kind.internal,
   CodeRange.mk 87 89 CodeRange.Kind.internal,
   CodeRange.mk 105 118 CodeRange.Kind.unused,
   CodeRange.mk 123 123 CodeRange.Kind.unused,
   CodeRange.mk 136 137 CodeRange.Kind.internal,
   CodeRange.mk 157 157 CodeRange.Kind.internal,
   CodeRange.mk 163 164 CodeRange.Kind.unused,
   CodeRange.mk 167 173 CodeRange.Kind.internal,
   CodeRange.mk 175 179 CodeRange.Kind.internal,
   CodeRange.mk 181 189 CodeRange.Kind.internal,
   CodeRange.mk 203 217 CodeRange.Kind.internal,
   CodeRange.mk 218 219 CodeRange.Kind.unused,
   CodeRange.mk 225 243 CodeRange.Kind.internal,
   CodeRange.mk 253 253 CodeRange.Kind.internal,
   CodeRange.mk 256 257 CodeRange.Kind.internal,
   CodeRange.mk 263 263 CodeRange.Kind.internal,
   CodeRange.mk 273 275 CodeRange.Kind.internal,
   CodeRange.mk 277 279 CodeRange.Kind.unused,
   CodeRange.mk 291 325 CodeRange.Kind.internal,
   CodeRange.mk 330 330 CodeRange.Kind.internal,
   CodeRange.mk 349 361 CodeRange.Kind.internal,
   CodeRange.mk 363 380 CodeRange.Kind.internal]

/-- Whether the number `n` lies in a range that a comment reserves. -/
def ACSEnvironment.isReserved (n : Nat) : Bool :=
  ACSEnvironment.reservedCodes.any (fun r => decide (r.lo ≤ n ∧ n ≤ r.hi))

/-! ## The stack of print buffers -/

/-- The assignment `printBuffer = *p` for the slot `i` of `printStack`: the pointer
read is null, or the buffer of that slot; `none` when the slot lies outside the
array. -/
def ACSThinker.readPrintSlot (this : ACSThinker) (i : Nat) : Option ACSThinker :=
  match this.printStack[i]? with
  | some (some _) => some { this with printBuffer := some i }
  | some none => some { this with printBuffer := none }
  | none => none

/-- Function `ACSThinker::popPrint`: `printPtr` goes down by one unless it is at the
base of the array, and `printBuffer` is read from the slot below the new
`printPtr`, or from the slot at `printPtr` when that is the base. -/
def ACSThinker.popPrint (this : ACSThinker) : Option ACSThinker :=
  if this.printPtr ≠ 0 then
    let this := { this with printPtr := this.printPtr - 1 }
    if this.printPtr ≠ 0 then this.readPrintSlot (this.printPtr - 1)
    else this.readPrintSlot this.printPtr
  else this.readPrintSlot this.printPtr

/-- Function `ACSThinker::pushPrint`. `ACS_NUM_PRINTS` is a constant of a header that
is not among the sources. With `printPtr` at the end of the array, the array
grows by `ACS_NUM_PRINTS` slots, which are nullified; the slot at `printPtr`
gets a new empty buffer when it is null and has its buffer cleared when not;
`printPtr` goes up by one and `printBuffer` is that buffer. The result is
`none` when the slot lies outside the array. -/
def ACSThinker.pushPrint (ACS_NUM_PRINTS : Nat) (this : ACSThinker) : Option ACSThinker :=
  let printIndex := u32 (this.printPtr : Int)
  -- Make room for the new buffer.
  let printStack :=
    if printIndex = this.printStack.length then
      this.printStack ++ List.replicate ACS_NUM_PRINTS none
    else this.printStack
  match printStack[this.printPtr]? with
  | some _ =>
    some { this with printStack := printStack.set this.printPtr (some []),
                     printPtr := this.printPtr + 1,
                     printBuffer := some this.printPtr }
  | none => none

/-! ## The window of local variables and the call frames -/

/-- The predicate on a thread that the window of local variables ends inside the
buffer `localvar` (`locals` being the offset of the window, `numLocals` its
size) and that `callPtr` lies within the allocated call frames. -/
def ACSThinker.windowOk (this : ACSThinker) : Prop :=
  this.locals + this.numLocals ≤ this.localvar.length ∧ this.callPtr ≤ this.calls.length

/-- The predicate on a thread that its window is behind the windows of its callers:
no window size is negative, and `locals` is the sum of the window sizes that the
call frames below `callPtr` hold. -/
def ACSThinker.framesOk (this : ACSThinker) : Prop :=
  0 ≤ this.numLocals ∧ (∀ c ∈ this.calls.take this.callPtr, 0 ≤ c.numLocals) ∧
  this.locals = ((this.calls.take this.callPtr).map (fun c => c.numLocals)).sum

/-! ## Loading the modules of a level -/

/-- Type `ACSVM::ModuleName` as `getModuleName` builds it: the string `s`, the
directory `p` (a handle; null is `none`) and the lump number `i` as a `size_t`. A
module is identified by its name. -/
structure ModuleName where
  s : List Int
  p : Option Nat
  i : Nat
deriving DecidableEq, Repr

/-- A thread of the map scope, as far as loading goes: its delay. -/
structure ACSThread where
  delay : Int := 0
deriving DecidableEq, Repr

/-- Class `ACSVM::MapScope`, as far as loading goes: whether it is active, the
modules that were added to it, and its active threads. -/
structure MapScope where
  active : Bool := false
  modules : List ModuleName := []
  threadActive : List ACSThread := []
deriving DecidableEq, Repr

/-- A message of `ACSEnvironment::loadModule` put out by `doom_printf`:
"failed to load ACS module: 'name': what". -/
structure LoadMessage where
  name : List Int
  what : String
deriving DecidableEq, Repr

/-- The object `ACSenv`, as far as loading goes: its directory `dir` (null is
`none`), its count `errors`, its map scope `map`, the modules that the library
holds as loaded, and the messages put out. The type of `errors` is declared in a
header that is not among the sources; it is taken wide enough for the count of
the modules that a directory can name. -/
structure ACSEnvironment where
  dir : Option Nat := none
  errors : Nat := 0
  map : MapScope := {}
  loaded : List ModuleName := []
  printed : List LoadMessage := []
deriving DecidableEq, Repr

/-- The functions of the library and of the host that loading calls, which are not
among the sources: `SIZE_MAX`, `gamemap` and `TICRATE`; `ectype::isSpace`;
`dir->checkNumForName(str, lumpinfo_t::ns_acs)`, a lump number or -1; the
contents of the lumps named LOADACS that the `WadChainIterator` goes through
and that pass `testLump(lumpinfo_t::ns_global)`, in its order;
`hub->reset()` followed by `hub->getMapScope(gamemap)`, the map scope;
`Module::readBytecode` on the data of the lump, which gives the environment
afterwards and, when it throws `ReadError`, the text of the error;
`MapScope::addModules` and `MapScope::scriptStartType(ScriptType::Open, {})`. -/
structure LoadHost where
  SIZE_MAX : Nat
  gamemap : Int
  TICRATE : Int
  isSpace : Int → Bool
  checkNumForName : Nat → List Int → Int
  loadacs : Nat → List (List Int)
  getMapScope : ACSEnvironment → Int → MapScope
  readBytecode : ACSEnvironment → ModuleName → ACSEnvironment × Option String
  addModules : MapScope → List ModuleName → MapScope
  scriptStartType : MapScope → MapScope

/-- The conversion `static_cast<size_t>(lump)` of an `int`. -/
def LoadHost.size_t (h : LoadHost) (x : Int) : Nat := (x % ((h.SIZE_MAX : Int) + 1)).toNat

/-- Function `ACSEnvironment::getModuleName(str, len)`; `str` is given by its `len`
chars. Without a directory the lump number is `SIZE_MAX`. -/
def ACSEnvironment.getModuleName (h : LoadHost) (env : ACSEnvironment) (str : List Int) :
    ModuleName :=
  match env.dir with
  | none => { s := str, p := none, i := h.SIZE_MAX }
  | some dir => { s := str, p := some dir, i := h.size_t (h.checkNumForName dir str) }

/-- Function `ACSEnvironment::loadModule(module)`. The result is the environment
and, when `ReadError` is thrown, its text: "bad lump" for the lump number
`SIZE_MAX`; "failed import" when `readBytecode` has thrown, after `++errors` and
the message. -/
def ACSEnvironment.loadModule (h : LoadHost) (env : ACSEnvironment) (module : ModuleName) :
    ACSEnvironment × Option String :=
  if module.i = h.SIZE_MAX then (env, some "ACSEnvironment::loadModule: bad lump")
  else
    match h.readBytecode env module with
    | (env1, none) => (env1, none)
    | (env1, some what) =>
      ({ env1 with errors := env1.errors + 1,
                   printed := env1.printed ++ [{ name := module.s, what := what }] },
        some "failed import")

/-- Modelled from the spec: `ACSVM::Environment::getModule` is code of the library,
which is not among the sources. It gives the module of that name; a module that
the library does not hold as loaded is loaded by `loadModule` and is held as
loaded when that returns; "on any structural inconsistency" the load fails as a
whole and the error is "propagated to the caller". The result is the
environment and the module, `none` when `ReadError` is thrown. -/
def ACSEnvironment.getModule (h : LoadHost) (env : ACSEnvironment) (name : ModuleName) :
    ACSEnvironment × Option ModuleName :=
  if name ∈ env.loaded then (env, some name)
  else
    match ACSEnvironment.loadModule h env name with
    | (env1, none) => ({ env1 with loaded := env1.loaded ++ [name] }, some name)
    | (env1, some _) => (env1, none)

/-- Function `ACS_loadModule(modules, name)`: the module is added to `modules`,
unless `getModule` throws `ReadError`, which is caught. The state is `ACSenv` and
the collection `modules`. -/
def ACS_loadModule (h : LoadHost) (st : ACSEnvironment × List ModuleName) (name : ModuleName) :
    ACSEnvironment × List ModuleName :=
  match ACSEnvironment.getModule h st.1 name with
  | (env1, some module) => (env1, st.2 ++ [module])
  | (env1, none) => (env1, st.2)

/-- The loop "Read a name" of `ACS_loadModules`:
`while(lumpItr != lumpEnd && nameItr != nameEnd && !isSpace(*lumpItr))
*nameItr++ = *lumpItr++`, with room for `room` more chars in `lumpname`. The
result is the chars stored and the rest of the lump. -/
def ACS_loadModules.readName (isSpace : Int → Bool) : Nat → List Int → List Int × List Int
  | 0, lumpItr => ([], lumpItr)
  | _ + 1, [] => ([], [])
  | room + 1, c :: rest =>
    if isSpace c then ([], c :: rest)
    else
      let r := ACS_loadModules.readName isSpace room rest
      (c :: r.1, r.2)

/-- The C string that a char array holds: its chars before the first NUL. -/
def cstr (buf : List Int) : List Int := buf.takeWhile (fun c => c != 0)

/-- The loop `for(;;)` of `ACS_loadModules` on the chars from `lumpItr` to `lumpEnd`.
`load` stands for `ACS_loadModule(modules, ACSenv.getModuleName(lumpname))` on a
state: the array `lumpname`, which holds the chars stored and the NUL written
behind them, is passed as a C string, so the name ends before the first NUL in
the array. The first argument bounds the number of rounds. -/
def ACS_loadModules.loop {σ : Type} (isSpace : Int → Bool) (load : σ → List Int → σ) :
    Nat → List Int → σ → Option σ
  | 0, _, _ => none
  | fuel + 1, lumpItr, st =>
    -- Discard any whitespace.
    let lumpItr := lumpItr.dropWhile isSpace
    if lumpItr = [] then some st
    else
      -- Read a name.
      let r := ACS_loadModules.readName isSpace 8 lumpItr
      let lumpname := r.1 ++ [0]
      -- Discard excess letters.
      let lumpItr := r.2.dropWhile (fun c => !isSpace c)
      ACS_loadModules.loop isSpace load fuel lumpItr (load st (cstr lumpname))

/-- Function `ACS_loadModules(modules, dir, lump)` on the content of the lump. Each
round of the loop takes at least one char, so one round more than there are
chars ends the loop. -/
def ACS_loadModules (h : LoadHost) (st : ACSEnvironment × List ModuleName)
    (content : List Int) : Option (ACSEnvironment × List ModuleName) :=
  ACS_loadModules.loop h.isSpace
    (fun st lumpname => ACS_loadModule h st (ACSEnvironment.getModuleName h st.1 lumpname))
    (content.length + 1) content st

/-- The string "BEHAVIOR" of `strBEHAVIOR`. -/
def strBEHAVIOR : List Int := [66, 69, 72, 65, 86, 73, 79, 82]

/-- The loop of `ACS_LoadLevelScript` over the lumps named LOADACS. -/
def ACS_LoadLevelScript.loadacs (h : LoadHost) :
    List (List Int) → ACSEnvironment × List ModuleName →
      Option (ACSEnvironment × List ModuleName)
  | [], st => some st
  | content :: rest, st =>
    match ACS_loadModules h st content with
    | some st1 => ACS_LoadLevelScript.loadacs h rest st1
    | none => none

/-- The environment with which `ACS_LoadLevelScript(dir, lump)` starts to load:
`ACSenv.dir = dir`, the hub reset, the map scope of the current map fetched and
set active, `ACSenv.errors = 0`. -/
def ACS_LoadLevelScript.enter (h : LoadHost) (env : ACSEnvironment) (dir : Nat) :
    ACSEnvironment :=
  let env := { env with dir := some dir }
  let env := { env with map := { h.getMapScope env h.gamemap with active := true } }
  { env with errors := 0 }

/-- The part "Load modules for map" of `ACS_LoadLevelScript(dir, lump)`: the level
script, if any, then the modules that the lumps named LOADACS name. The result
is `ACSenv` and the collection `modules`. -/
def ACS_LoadLevelScript.load (h : LoadHost) (env : ACSEnvironment) (dir : Nat) (lump : Int) :
    Option (ACSEnvironment × List ModuleName) :=
  let env := ACS_LoadLevelScript.enter h env dir
  let st : ACSEnvironment × List ModuleName :=
    if lump ≠ -1 then
      ACS_loadModule h (env, []) { s := strBEHAVIOR, p := some dir, i := h.size_t lump }
    else (env, [])
  ACS_LoadLevelScript.loadacs h (h.loadacs dir) st

/-- Function `ACS_LoadLevelScript(dir, lump)`: after the loads it returns when there
were errors; else the modules are added to the map scope, the open scripts are
started and every active thread gets the delay `TICRATE`. -/
def ACS_LoadLevelScript (h : LoadHost) (env : ACSEnvironment) (dir : Nat) (lump : Int) :
    Option ACSEnvironment :=
  match ACS_LoadLevelScript.load h env dir lump with
  | none => none
  | some (env, modules) =>
    -- If any errors, give up loading level script.
    if env.errors ≠ 0 then some env
    else
      -- Finish adding modules to map scope.
      let map := h.addModules env.map modules
      -- Start open scripts.
      let map := h.scriptStartType map
      -- Set all started threads to delay for one second, as in Hexen.
      let map :=
        { map with threadActive := map.threadActive.map (fun thread =>
            { thread with delay := h.TICRATE }) }
      some { env with map := map }

/-- Following the words of the claim: the maximal runs of non-whitespace chars of
a lump, in the order in which they appear: the pieces between whitespace chars
that are not empty. -/
def maximalRuns (isSpace : Int → Bool) (content : List Int) : List (List Int) :=
  (content.splitOnP isSpace).filter (fun run => decide (run ≠ []))

/-- The names that `ACS_LoadLevelScript(dir, lump)` requests, in order: that of the
level script, if any, then for each lump named LOADACS the names that
`getModuleName` makes, with the directory `dir`, of the C string in the first 8
chars of each run of non-whitespace chars. -/
def ACS_LoadLevelScript.requests (h : LoadHost) (dir : Nat) (lump : Int) : List ModuleName :=
  (if lump ≠ -1 then [{ s := strBEHAVIOR, p := some dir, i := h.size_t lump }] else []) ++
  ((h.loadacs dir).map (fun content =>
    (maximalRuns h.isSpace content).map (fun run =>
      ACSEnvironment.getModuleName h { dir := some dir } (cstr (run.take 8))))).flatten

/-! ## One instruction, as the branch counter sees it -/

/-- What an instruction that begins with the branch counter at `c` may do to it. It
leaves the counter as it is, wherever it ends; or it counts one branch within the
limit, `c < 500000`, and goes on with the counter at `c + 1` to the next
instruction (or into an undefined access); or it counts one branch beyond the
limit, `500000 ≤ c`, which ends it at `action_endscript` with the counter at
`c + 1` and the runaway message put out. -/
def Outcome.counts (c : Int) (out : Outcome) : Prop :=
  (∀ e1 : Exec, out.exec? = some e1 → e1.count = c) ∨
  (c < 500000 ∧
    (out = Outcome.undefined ∨ ∃ e1 : Exec, out = Outcome.NEXTOP e1 ∧ e1.count = c + 1)) ∨
  (500000 ≤ c ∧ ∃ x : Exec, x.count = c ∧
    out = Outcome.action_endscript
      { x with count := x.count + 1,
               w := doom_printf x.w "ACS Error: terminated runaway script" })

/-! ## One instruction, as the progress of the step sees it -/

/-- The code buffers of the modules. -/
def ACSWorld.codes (w : ACSWorld) : List (List Int) := w.acsVMs.map (fun m => m.code)

/-- A state inside the instruction that began in the state `e0`, before any
transfer of control: the counter, the number of call frames, the module of
`ip` and the code buffers are those of `e0`, and `ip` lies behind the opcode
word. -/
def Exec.inside (e0 e : Exec) : Prop :=
  e.count = e0.count ∧ e.this.callPtr = e0.this.callPtr ∧ e.ipVM = e0.ipVM ∧
  e0.ip < e.ip ∧ e.w.codes = e0.w.codes

/-- How the instruction that began in the state `e0` may end. It ends the step: at
one of the two labels, or in an access that C leaves undefined. Or it goes on to
the next instruction with the code buffers as they were, and then a branch has
been counted within the limit; or the counter is as before and a call frame has
been given back; or counter, call frames and module are as before and `ip` has
moved forward; or `ip` is at offset 0 of a module. -/
def Outcome.progress (e0 : Exec) (out : Outcome) : Prop :=
  out = Outcome.undefined ∨ (∃ e1 : Exec, out = Outcome.action_endscript e1) ∨
  (∃ e1 : Exec, out = Outcome.action_stop e1) ∨
  ∃ e1 : Exec, out = Outcome.NEXTOP e1 ∧ e1.w.codes = e0.w.codes ∧
    ((e0.count < 500000 ∧ e1.count = e0.count + 1) ∨
     (e1.count = e0.count ∧ e1.this.callPtr < e0.this.callPtr) ∨
     (e1.count = e0.count ∧ e1.this.callPtr = e0.this.callPtr ∧ e1.ipVM = e0.ipVM ∧
       e0.ip < e1.ip) ∨
     e1.ip = 0)

/-- The step is over: the dispatch loop has been left for one of the two labels, or
in an access that C leaves undefined. -/
def Outcome.ends (out : Outcome) : Prop :=
  out = Outcome.undefined ∨ (∃ e1 : Exec, out = Outcome.action_endscript e1) ∨
  ∃ e1 : Exec, out = Outcome.action_stop e1

/-! # Theorems -/

/-! ## ACSArray: lemmas -/

theorem getD_set_self {α : Type} (l : List α) (k : Nat) (x dflt : α) (h : k < l.length) :
    (l.set k x).getD k dflt = x := by
  simp [List.getD_eq_getElem?_getD, List.getElem?_set, h]

theorem getD_set_other {α : Type} (l : List α) (k j : Nat) (x dflt : α) (h : k ≠ j) :
    (l.set k x).getD j dflt = l.getD j dflt := by
  simp [List.getD_eq_getElem?_getD, List.getElem?_set, h]

theorem getD_replicate_self {α : Type} (n k : Nat) (x : α) :
    (List.replicate n x).getD k x = x := by
  simp [List.getD_eq_getElem?_getD, List.getElem?_replicate]
  split <;> simp

theorem dims_pos {d : ACSArrayDims} (h : d.full) :
    0 < d.ACS_ARRDATASIZE ∧ 0 < d.ACS_REGIONSIZE ∧ 0 < d.ACS_BLOCKSIZE ∧ 0 < d.ACS_PAGESIZE := by
  unfold ACSArrayDims.full at h
  refine ⟨?_, ?_, ?_, ?_⟩ <;> (apply Nat.pos_of_ne_zero; intro h0; simp [h0] at h)

theorem top_index_lt {d : ACSArrayDims} (h : d.full) {i : Nat} (hi : i < 4294967296) :
    i / d.ACS_PAGESIZE / d.ACS_BLOCKSIZE / d.ACS_REGIONSIZE < d.ACS_ARRDATASIZE := by
  obtain ⟨_, hr, hb, hp⟩ := dims_pos h
  unfold ACSArrayDims.full at h
  rw [Nat.div_lt_iff_lt_mul hr, Nat.div_lt_iff_lt_mul hb, Nat.div_lt_iff_lt_mul hp, h]
  exact hi

theorem index_split (i P B R : Nat) :
    i = ((i / P / B / R * R + i / P / B % R) * B + i / P % B) * P + i % P := by
  have h1 := Nat.div_add_mod i P
  have h2 := Nat.div_add_mod (i / P) B
  have h3 := Nat.div_add_mod (i / P / B) R
  rw [Nat.mul_comm] at h1 h2 h3
  rw [h3, h2, h1]

theorem index_inj {i j P B R : Nat}
    (h4 : i / P / B / R = j / P / B / R) (h3 : i / P / B % R = j / P / B % R)
    (h2 : i / P % B = j / P % B) (h1 : i % P = j % P) : i = j := by
  rw [index_split i P B R, index_split j P B R, h4, h3, h2, h1]

theorem mem_of_getD_some {α : Type} {l : List (Option α)} {k : Nat} {x : α}
    (h : l.getD k none = some x) : some x ∈ l := by
  rw [List.getD_eq_getElem?_getD] at h
  cases hk : l[k]? with
  | none => simp [hk] at h
  | some y =>
    simp [hk] at h
    subst h
    exact List.getElem?_mem hk

theorem ok_length {d : ACSArrayDims} {a : ACSArray} (h : a.ok d = true) :
    a.arrdata.length = d.ACS_ARRDATASIZE := by
  simp [ACSArray.ok] at h; exact h.1

theorem ok_region {d : ACSArrayDims} {a : ACSArray} (h : a.ok d = true) {k : Nat} {r : region_t}
    (hr : a.arrdata.getD k none = some r) : regionOk d r = true := by
  simp only [ACSArray.ok, Bool.and_eq_true, List.all_eq_true] at h
  exact h.2 _ (mem_of_getD_some hr)

theorem regionOk_length {d : ACSArrayDims} {r : region_t} (h : regionOk d r = true) :
    r.length = d.ACS_REGIONSIZE := by
  simp [regionOk] at h; exact h.1

theorem ok_block {d : ACSArrayDims} {r : region_t} (h : regionOk d r = true) {k : Nat}
    {b : block_t} (hb : r.getD k none = some b) : blockOk d b = true := by
  simp only [regionOk, Bool.and_eq_true, List.all_eq_true] at h
  exact h.2 _ (mem_of_getD_some hb)

theorem blockOk_length {d : ACSArrayDims} {b : block_t} (h : blockOk d b = true) :
    b.length = d.ACS_BLOCKSIZE := by
  simp [blockOk] at h; exact h.1

theorem ok_page {d : ACSArrayDims} {b : block_t} (h : blockOk d b = true) {k : Nat}
    {p : page_t} (hp : b.getD k none = some p) : pageOk d p = true := by
  simp only [blockOk, Bool.and_eq_true, List.all_eq_true] at h
  exact h.2 _ (mem_of_getD_some hp)

theorem pageOk_length {d : ACSArrayDims} {p : page_t} (h : pageOk d p = true) :
    p.length = d.ACS_PAGESIZE := by
  simp [pageOk] at h; exact h

theorem allocPage_ok (d : ACSArrayDims) : pageOk d (allocPage d) = true := by
  simp [pageOk, allocPage]

theorem allocBlock_ok (d : ACSArrayDims) : blockOk d (allocBlock d) = true := by
  simp [blockOk, allocBlock]

theorem allocRegion_ok (d : ACSArrayDims) : regionOk d (allocRegion d) = true := by
  simp [regionOk, allocRegion]

theorem regionAt_ok {d : ACSArrayDims} {a : ACSArray} (h : a.ok d = true) (k : Nat) :
    regionOk d (a.regionAt d k) = true := by
  unfold ACSArray.regionAt
  split
  · next r hr => exact ok_region h hr
  · exact allocRegion_ok d

theorem blockAt_ok {d : ACSArrayDims} {r : region_t} (h : regionOk d r = true) (k : Nat) :
    blockOk d (blockAt d r k) = true := by
  unfold blockAt
  split
  · next b hb => exact ok_block h hb
  · exact allocBlock_ok d

theorem pageAt_ok {d : ACSArrayDims} {b : block_t} (h : blockOk d b = true) (k : Nat) :
    pageOk d (pageAt d b k) = true := by
  unfold pageAt
  split
  · next p hp => exact ok_page h hp
  · exact allocPage_ok d

/-- Peek in terms of the handed-out levels. -/
theorem peek_eq (d : ACSArrayDims) (a : ACSArray) (i : Nat) :
    a.peek d i =
      (pageAt d (blockAt d (a.regionAt d (i / d.ACS_PAGESIZE / d.ACS_BLOCKSIZE / d.ACS_REGIONSIZE))
        (i / d.ACS_PAGESIZE / d.ACS_BLOCKSIZE % d.ACS_REGIONSIZE))
        (i / d.ACS_PAGESIZE % d.ACS_BLOCKSIZE)).getD (i % d.ACS_PAGESIZE) 0 := by
  unfold ACSArray.peek ACSArray.regionAt blockAt pageAt
  cases h1 : a.arrdata.getD (i / d.ACS_PAGESIZE / d.ACS_BLOCKSIZE / d.ACS_REGIONSIZE) none with
  | none =>
    simp [allocRegion, allocBlock, allocPage, getD_replicate_self]
  | some r =>
    simp only
    cases h2 : r.getD (i / d.ACS_PAGESIZE / d.ACS_BLOCKSIZE % d.ACS_REGIONSIZE) none with
    | none => simp [allocBlock, allocPage, getD_replicate_self]
    | some b =>
      simp only
      cases h3 : b.getD (i / d.ACS_PAGESIZE % d.ACS_BLOCKSIZE) none with
      | none => simp [allocPage, getD_replicate_self]
      | some p => rfl

/-- What `getVal` does, level by level. -/
theorem getVal_eq {β : Type} (d : ACSArrayDims) (a : ACSArray) (i : Nat) (f : val_t → val_t × β) :
    a.getVal d i f =
      (let iA := i / d.ACS_PAGESIZE / d.ACS_BLOCKSIZE / d.ACS_REGIONSIZE
       let iR := i / d.ACS_PAGESIZE / d.ACS_BLOCKSIZE % d.ACS_REGIONSIZE
       let iB := i / d.ACS_PAGESIZE % d.ACS_BLOCKSIZE
       let iP := i % d.ACS_PAGESIZE
       let region := a.regionAt d iA
       let block := blockAt d region iR
       let page := pageAt d block iB
       let res := f (page.getD iP 0)
       ({ arrdata := a.arrdata.set iA (some (region.set iR (some (block.set iB
            (some (page.set iP res.1)))))) }, res.2)) := by
  rfl

theorem regionAt_set (d : ACSArrayDims) (a : ACSArray) (k j : Nat) (r : region_t)
    (hk : k < a.arrdata.length) :
    ACSArray.regionAt d { arrdata := a.arrdata.set k (some r) } j =
      if j = k then r else a.regionAt d j := by
  unfold ACSArray.regionAt
  by_cases h : j = k
  · subst h; rw [getD_set_self _ _ _ _ hk, if_pos rfl]
  · rw [getD_set_other _ _ _ _ _ (Ne.symm h), if_neg h]

theorem blockAt_set (d : ACSArrayDims) (r : region_t) (k j : Nat) (b : block_t)
    (hk : k < r.length) :
    blockAt d (r.set k (some b)) j = if j = k then b else blockAt d r j := by
  unfold blockAt
  by_cases h : j = k
  · subst h; rw [getD_set_self _ _ _ _ hk, if_pos rfl]
  · rw [getD_set_other _ _ _ _ _ (Ne.symm h), if_neg h]

theorem pageAt_set (d : ACSArrayDims) (b : block_t) (k j : Nat) (p : page_t)
    (hk : k < b.length) :
    pageAt d (b.set k (some p)) j = if j = k then p else pageAt d b j := by
  unfold pageAt
  by_cases h : j = k
  · subst h; rw [getD_set_self _ _ _ _ hk, if_pos rfl]
  · rw [getD_set_other _ _ _ _ _ (Ne.symm h), if_neg h]

theorem getVal_snd {β : Type} (d : ACSArrayDims) (a : ACSArray) (i : Nat)
    (f : val_t → val_t × β) : (a.getVal d i f).2 = (f (a.peek d i)).2 := by
  rw [getVal_eq, peek_eq]

theorem peek_getVal {β : Type} {d : ACSArrayDims} (hfull : d.full) {a : ACSArray}
    (hok : a.ok d = true) {i : Nat} (hi : i < 4294967296) (f : val_t → val_t × β) (j : Nat) :
    (a.getVal d i f).1.peek d j = if j = i then (f (a.peek d i)).1 else a.peek d j := by
  obtain ⟨_, hr, hb, hp⟩ := dims_pos hfull
  have hA : i / d.ACS_PAGESIZE / d.ACS_BLOCKSIZE / d.ACS_REGIONSIZE < a.arrdata.length := by
    rw [ok_length hok]; exact top_index_lt hfull hi
  have hRok := regionAt_ok hok (i / d.ACS_PAGESIZE / d.ACS_BLOCKSIZE / d.ACS_REGIONSIZE)
  have hBok := blockAt_ok hRok (i / d.ACS_PAGESIZE / d.ACS_BLOCKSIZE % d.ACS_REGIONSIZE)
  have hPok := pageAt_ok hBok (i / d.ACS_PAGESIZE % d.ACS_BLOCKSIZE)
  have hR : i / d.ACS_PAGESIZE / d.ACS_BLOCKSIZE % d.ACS_REGIONSIZE <
      (a.regionAt d (i / d.ACS_PAGESIZE / d.ACS_BLOCKSIZE / d.ACS_REGIONSIZE)).length := by
    rw [regionOk_length hRok]; exact Nat.mod_lt _ hr
  have hB : i / d.ACS_PAGESIZE % d.ACS_BLOCKSIZE <
      (blockAt d (a.regionAt d (i / d.ACS_PAGESIZE / d.ACS_BLOCKSIZE / d.ACS_REGIONSIZE))
        (i / d.ACS_PAGESIZE / d.ACS_BLOCKSIZE % d.ACS_REGIONSIZE)).length := by
    rw [blockOk_length hBok]; exact Nat.mod_lt _ hb
  have hP : i % d.ACS_PAGESIZE <
      (pageAt d (blockAt d (a.regionAt d (i / d.ACS_PAGESIZE / d.ACS_BLOCKSIZE / d.ACS_REGIONSIZE))
        (i / d.ACS_PAGESIZE / d.ACS_BLOCKSIZE % d.ACS_REGIONSIZE))
        (i / d.ACS_PAGESIZE % d.ACS_BLOCKSIZE)).length := by
    rw [pageOk_length hPok]; exact Nat.mod_lt _ hp
  rw [getVal_eq]
  simp only
  rw [peek_eq d _ j, regionAt_set d a _ _ _ hA]
  by_cases h4 : j / d.ACS_PAGESIZE / d.ACS_BLOCKSIZE / d.ACS_REGIONSIZE =
      i / d.ACS_PAGESIZE / d.ACS_BLOCKSIZE / d.ACS_REGIONSIZE
  · rw [if_pos h4, blockAt_set d _ _ _ _ hR]
    by_cases h3 : j / d.ACS_PAGESIZE / d.ACS_BLOCKSIZE % d.ACS_REGIONSIZE =
        i / d.ACS_PAGESIZE / d.ACS_BLOCKSIZE % d.ACS_REGIONSIZE
    · rw [if_pos h3, pageAt_set d _ _ _ _ hB]
      by_cases h2 : j / d.ACS_PAGESIZE % d.ACS_BLOCKSIZE = i / d.ACS_PAGESIZE % d.ACS_BLOCKSIZE
      · rw [if_pos h2]
        by_cases h1 : j % d.ACS_PAGESIZE = i % d.ACS_PAGESIZE
        · have hji : j = i := index_inj h4 h3 h2 h1
          subst hji
          rw [if_pos rfl, getD_set_self _ _ _ _ hP, peek_eq]
        · have hji : j ≠ i := fun e => h1 (by rw [e])
          rw [if_neg hji, getD_set_other _ _ _ _ _ (Ne.symm h1), peek_eq d a j, h4, h3, h2]
      · have hji : j ≠ i := fun e => h2 (by rw [e])
        rw [if_neg h2, if_neg hji, peek_eq d a j, h4, h3]
    · have hji : j ≠ i := fun e => h3 (by rw [e])
      rw [if_neg h3, if_neg hji, peek_eq d a j, h4]
  · have hji : j ≠ i := fun e => h4 (by rw [e])
    rw [if_neg h4, if_neg hji, peek_eq d a j]

theorem set_all_ok {α : Type} (p : Option α → Bool) (l : List (Option α)) (k : Nat) (x : Option α)
    (hl : l.all p = true) (hx : p x = true) : (l.set k x).all p = true := by
  rw [List.all_eq_true] at hl ⊢
  intro y hy
  rcases List.mem_or_eq_of_mem_set hy with h | h
  · exact hl y h
  · subst h; exact hx

theorem ok_getVal {β : Type} {d : ACSArrayDims} {a : ACSArray}
    (hok : a.ok d = true) (i : Nat) (f : val_t → val_t × β) :
    (a.getVal d i f).1.ok d = true := by
  have hRok := regionAt_ok hok (i / d.ACS_PAGESIZE / d.ACS_BLOCKSIZE / d.ACS_REGIONSIZE)
  have hBok := blockAt_ok hRok (i / d.ACS_PAGESIZE / d.ACS_BLOCKSIZE % d.ACS_REGIONSIZE)
  have hPok := pageAt_ok hBok (i / d.ACS_PAGESIZE % d.ACS_BLOCKSIZE)
  rw [getVal_eq]
  simp only [ACSArray.ok, Bool.and_eq_true, List.length_set, beq_iff_eq]
  refine ⟨ok_length hok, set_all_ok _ _ _ _ ?_ ?_⟩
  · simp only [ACSArray.ok, Bool.and_eq_true] at hok; exact hok.2
  · simp only [regionOk, Bool.and_eq_true, List.length_set, beq_iff_eq]
    refine ⟨regionOk_length hRok, set_all_ok _ _ _ _ ?_ ?_⟩
    · simp only [regionOk, Bool.and_eq_true] at hRok; exact hRok.2
    · simp only [blockOk, Bool.and_eq_true, List.length_set, beq_iff_eq]
      refine ⟨blockOk_length hBok, set_all_ok _ _ _ _ ?_ ?_⟩
      · simp only [blockOk, Bool.and_eq_true] at hBok; exact hBok.2
      · simp only [pageOk, List.length_set, beq_iff_eq]
        exact pageOk_length hPok

theorem empty_ok (d : ACSArrayDims) : (ACSArray.empty d).ok d = true := by
  simp [ACSArray.ok, ACSArray.empty]

theorem peek_empty (d : ACSArrayDims) (i : Nat) : (ACSArray.empty d).peek d i = 0 := by
  unfold ACSArray.peek ACSArray.empty
  simp only
  rw [getD_replicate_self]

/-! ## ACSArray: claims -/

theorem ok_write {d : ACSArrayDims} {a : ACSArray} (hok : a.ok d = true) (i : Nat) (v : val_t) :
    (a.write d i v).ok d = true :=
  ok_getVal hok i _

theorem ok_read {d : ACSArrayDims} {a : ACSArray} (hok : a.ok d = true) (i : Nat) :
    (a.read d i).1.ok d = true :=
  ok_getVal hok i _

theorem read_snd (d : ACSArrayDims) (a : ACSArray) (i : Nat) : (a.read d i).2 = a.peek d i :=
  getVal_snd d a i _

theorem peek_write {d : ACSArrayDims} (hfull : d.full) {a : ACSArray} (hok : a.ok d = true)
    {i : Nat} (hi : i < 4294967296) (v : val_t) (j : Nat) :
    (a.write d i v).peek d j = if j = i then v else a.peek d j :=
  peek_getVal hfull hok hi _ j

theorem peek_read {d : ACSArrayDims} (hfull : d.full) {a : ACSArray} (hok : a.ok d = true)
    {i : Nat} (hi : i < 4294967296) (j : Nat) :
    (a.read d i).1.peek d j = a.peek d j := by
  unfold ACSArray.read
  rw [peek_getVal hfull hok hi _ j]
  split
  · next h => rw [h]
  · rfl

theorem clear_fold (l : arrdata_t) (m : Nat) (hm : m ≤ l.length) :
    (List.range m).foldl
      (fun arr regionItr =>
        match arr.getD regionItr none with
        | none => arr
        | some _ => arr.set regionItr none) l
      = List.replicate m none ++ l.drop m := by
  induction m with
  | zero => simp
  | succ m ih =>
    have hlt : m < l.length := hm
    rw [List.range_succ, List.foldl_append, ih (Nat.le_of_lt hlt)]
    simp only [List.foldl_cons, List.foldl_nil]
    have hdrop : l.drop m = l[m] :: l.drop (m + 1) := List.drop_eq_getElem_cons hlt
    have hget : (List.replicate m none ++ l.drop m).getD m none = l[m] := by
      rw [List.getD_eq_getElem?_getD, List.getElem?_append_right (by simp)]
      simp [List.getElem?_eq_getElem hlt]
    have hrep : List.replicate (m + 1) (none : Option region_t) ++ l.drop (m + 1)
        = List.replicate m none ++ (none :: l.drop (m + 1)) := by
      rw [List.replicate_succ', List.append_assoc]; rfl
    rw [hget, hrep]
    cases hlm : l[m] with
    | none => simp only; rw [hdrop, hlm]
    | some r =>
      simp only
      rw [List.set_append_right _ _ (by simp)]
      simp only [List.length_replicate, Nat.sub_self]
      rw [hdrop]
      rfl

theorem clear_eq_empty {d : ACSArrayDims} {a : ACSArray}
    (hlen : a.arrdata.length = d.ACS_ARRDATASIZE) : a.clear d = ACSArray.empty d := by
  unfold ACSArray.clear ACSArray.empty
  rw [clear_fold _ _ (Nat.le_of_eq hlen.symm), ← hlen, List.drop_length, List.append_nil]

theorem run_ok {d : ACSArrayDims} (h : List (Nat × Option val_t)) :
    ∀ (a : ACSArray), a.ok d = true → (a.run d h).ok d = true := by
  induction h with
  | nil => intro a ha; exact ha
  | cons x rest ih =>
    intro a ha
    obtain ⟨i, o⟩ := x
    cases o with
    | none => exact ih _ (ok_read ha i)
    | some v => exact ih _ (ok_write ha i v)

theorem peek_run {d : ACSArrayDims} (hfull : d.full) (j : Nat) (h : List (Nat × Option val_t)) :
    ∀ (a : ACSArray), a.ok d = true →
      (∀ x ∈ h, x.1 < 4294967296 ∧ (x.2 ≠ none → x.1 ≠ j)) →
      (a.run d h).peek d j = a.peek d j := by
  induction h with
  | nil => intro a _ _; rfl
  | cons x rest ih =>
    intro a ha hx
    obtain ⟨i, o⟩ := x
    have hi := hx (i, o) (List.mem_cons_self _ _)
    have hrest : ∀ x ∈ rest, x.1 < 4294967296 ∧ (x.2 ≠ none → x.1 ≠ j) :=
      fun x hxr => hx x (List.mem_cons_of_mem _ hxr)
    cases o with
    | none =>
      show ((a.read d i).1.run d rest).peek d j = _
      rw [ih _ (ok_read ha i) hrest, peek_read hfull ha hi.1]
    | some v =>
      show ((a.write d i v).run d rest).peek d j = _
      rw [ih _ (ok_write ha i v) hrest, peek_write hfull ha hi.1]
      have hne : j ≠ i := fun e => hi.2 (by simp) e.symm
      rw [if_neg hne]

/-- C3: for every array, every unsigned 32-bit index `i` and every value `v`, reading cell
`i` after writing `v` to cell `i` through the allocating `getVal` path returns `v`. -/
theorem C3_read_after_write (d : ACSArrayDims) (hfull : d.full) (a : ACSArray)
    (hok : a.ok d = true) (i : Nat) (hi : i < 4294967296) (v : val_t) :
    ((a.write d i v).read d i).2 = v := by
  rw [read_snd, peek_write hfull hok hi, if_pos rfl]

theorem C3_read_after_write_witness :
    (ACSArrayDims.mk 256 256 256 256).full ∧
    (ACSArray.empty (ACSArrayDims.mk 256 256 256 256)).ok (ACSArrayDims.mk 256 256 256 256) = true ∧
    (4294967295 : Nat) < 4294967296 ∧
    (((ACSArray.empty (ACSArrayDims.mk 256 256 256 256)).write
        (ACSArrayDims.mk 256 256 256 256) 4294967295 (-7)).read
        (ACSArrayDims.mk 256 256 256 256) 4294967295).2 = -7 :=
  ⟨by decide, empty_ok _, by decide,
    C3_read_after_write _ (by decide) _ (empty_ok _) 4294967295 (by decide) (-7)⟩

/-- C4: writing any value to cell `i` leaves the value read at every cell `j ≠ i`
unchanged, for all unsigned 32-bit `i`, `j`; hence after any history of accesses that
never writes cell `j`, started at construction or at `clear()`, cell `j` reads 0. -/
theorem C4_write_frame (d : ACSArrayDims) (hfull : d.full) (a : ACSArray)
    (hok : a.ok d = true) (i j : Nat) (hi : i < 4294967296) (hij : i ≠ j) (v : val_t)
    (h : List (Nat × Option val_t))
    (hh : ∀ x ∈ h, x.1 < 4294967296 ∧ (x.2 ≠ none → x.1 ≠ j)) :
    ((a.write d i v).read d j).2 = (a.read d j).2 ∧
    (((ACSArray.empty d).run d h).read d j).2 = 0 ∧
    ((((a.clear d).run d h)).read d j).2 = 0 := by
  refine ⟨?_, ?_, ?_⟩
  · rw [read_snd, read_snd, peek_write hfull hok hi, if_neg (Ne.symm hij)]
  · rw [read_snd, peek_run hfull j h _ (empty_ok d) hh, peek_empty]
  · rw [clear_eq_empty (ok_length hok), read_snd, peek_run hfull j h _ (empty_ok d) hh,
      peek_empty]

theorem C4_write_frame_witness :
    (ACSArrayDims.mk 256 256 256 256).full ∧
    (ACSArray.empty (ACSArrayDims.mk 256 256 256 256)).ok (ACSArrayDims.mk 256 256 256 256) = true ∧
    (65536 : Nat) < 4294967296 ∧ (65536 : Nat) ≠ 0 ∧
    (∀ x ∈ [((1 : Nat), some (5 : val_t)), (0, none), (256, some 9)],
      x.1 < 4294967296 ∧ (x.2 ≠ none → x.1 ≠ 0)) ∧
    ((((ACSArray.empty (ACSArrayDims.mk 256 256 256 256)).write
        (ACSArrayDims.mk 256 256 256 256) 65536 3).read
        (ACSArrayDims.mk 256 256 256 256) 0).2 =
      ((ACSArray.empty (ACSArrayDims.mk 256 256 256 256)).read
        (ACSArrayDims.mk 256 256 256 256) 0).2 ∧
     (((ACSArray.empty (ACSArrayDims.mk 256 256 256 256)).run (ACSArrayDims.mk 256 256 256 256)
        [(1, some 5), (0, none), (256, some 9)]).read
        (ACSArrayDims.mk 256 256 256 256) 0).2 = 0 ∧
     ((((ACSArray.empty (ACSArrayDims.mk 256 256 256 256)).clear
        (ACSArrayDims.mk 256 256 256 256)).run (ACSArrayDims.mk 256 256 256 256)
        [(1, some 5), (0, none), (256, some 9)]).read
        (ACSArrayDims.mk 256 256 256 256) 0).2 = 0) :=
  ⟨by decide, empty_ok _, by decide, by decide, by decide,
    C4_write_frame _ (by decide) _ (empty_ok _) 65536 0 (by decide) (by decide) 3
      [(1, some 5), (0, none), (256, some 9)] (by decide)⟩

/-- C5: after `clear()` every entry of the top-level region table is null, so reading
any index returns 0, whatever the array held before. -/
theorem C5_clear (d : ACSArrayDims) (a : ACSArray)
    (hlen : a.arrdata.length = d.ACS_ARRDATASIZE) :
    (a.clear d).arrdata.length = d.ACS_ARRDATASIZE ∧
    (∀ o ∈ (a.clear d).arrdata, o = none) ∧
    ∀ i : Nat, ((a.clear d).read d i).2 = 0 := by
  rw [clear_eq_empty hlen]
  refine ⟨by simp [ACSArray.empty], ?_, ?_⟩
  · intro o ho
    simp only [ACSArray.empty] at ho
    exact (List.mem_replicate.mp ho).2
  · intro i
    rw [read_snd, peek_empty]

theorem C5_clear_witness :
    (((ACSArray.empty (ACSArrayDims.mk 4 4 4 4)).write (ACSArrayDims.mk 4 4 4 4) 77 5).arrdata.length
      = (ACSArrayDims.mk 4 4 4 4).ACS_ARRDATASIZE) ∧
    ((((ACSArray.empty (ACSArrayDims.mk 4 4 4 4)).write (ACSArrayDims.mk 4 4 4 4) 77 5).clear
        (ACSArrayDims.mk 4 4 4 4)).arrdata.length = (ACSArrayDims.mk 4 4 4 4).ACS_ARRDATASIZE ∧
     (∀ o ∈ (((ACSArray.empty (ACSArrayDims.mk 4 4 4 4)).write (ACSArrayDims.mk 4 4 4 4) 77 5).clear
        (ACSArrayDims.mk 4 4 4 4)).arrdata, o = none) ∧
     ∀ i : Nat, ((((ACSArray.empty (ACSArrayDims.mk 4 4 4 4)).write (ACSArrayDims.mk 4 4 4 4) 77 5).clear
        (ACSArrayDims.mk 4 4 4 4)).read (ACSArrayDims.mk 4 4 4 4) i).2 = 0) :=
  ⟨by decide, C5_clear _ _ (by decide)⟩

/-! ## copyString and print -/

theorem writeMany_ok {d : ACSArrayDims} (cs : List Int) :
    ∀ (a : ACSArray) (offset : Nat), a.ok d = true → (a.writeMany d offset cs).ok d = true := by
  induction cs with
  | nil => intro a _ h; exact h
  | cons c cs ih => intro a offset h; exact ih _ _ (ok_write h offset c)

theorem peek_writeMany {d : ACSArrayDims} (hfull : d.full) (cs : List Int) :
    ∀ (a : ACSArray) (offset : Nat), a.ok d = true → offset < 4294967296 →
      cs.length ≤ 4294967296 → ∀ j : Nat, j < 4294967296 →
      (a.writeMany d offset cs).peek d j =
        if (j + 4294967296 - offset) % 4294967296 < cs.length
        then cs.getD ((j + 4294967296 - offset) % 4294967296) 0
        else a.peek d j := by
  induction cs with
  | nil => intro a offset _ _ _ j _; simp [ACSArray.writeMany]
  | cons c cs ih =>
    intro a offset hok ho hlen j hj
    have hlen1 : cs.length + 1 ≤ 4294967296 := hlen
    show ((a.write d offset c).writeMany d ((offset + 1) % 4294967296) cs).peek d j = _
    rw [ih _ _ (ok_write hok offset c) (Nat.mod_lt _ (by decide)) (by omega) j hj,
      peek_write hfull hok ho]
    by_cases hjo : j = offset
    · subst hjo
      have h0 : (j + 4294967296 - j) % 4294967296 = 0 := by omega
      have h1 : ¬ (j + 4294967296 - (j + 1) % 4294967296) % 4294967296 < cs.length := by omega
      rw [if_neg h1, if_pos rfl, h0]
      simp
    · have hk : (j + 4294967296 - offset) % 4294967296 =
          (j + 4294967296 - (offset + 1) % 4294967296) % 4294967296 + 1 := by omega
      rw [hk, if_neg hjo]
      simp only [List.length_cons, Nat.add_lt_add_iff_right, List.getD_cons_succ]

theorem copyStringLoop_eq (d : ACSArrayDims) (string : List Int) :
    ∀ (a : ACSArray) (offset r : Nat), offset < 4294967296 → r < 4294967296 →
      copyStringLoop d string a offset ((r + offset) % 4294967296) =
        if r < (string.takeWhile (fun c => c != 0)).length
        then (a.writeMany d offset ((string.takeWhile (fun c => c != 0)).take r),
              (r + offset) % 4294967296, false)
        else (a.writeMany d offset (string.takeWhile (fun c => c != 0)),
              ((string.takeWhile (fun c => c != 0)).length + offset) % 4294967296, true) := by
  induction string with
  | nil =>
    intro a offset r ho _
    simp [copyStringLoop, ACSArray.writeMany, Nat.mod_eq_of_lt ho]
  | cons c string ih =>
    intro a offset r ho hr
    by_cases hc : c = 0
    · subst hc
      simp [copyStringLoop, ACSArray.writeMany, Nat.mod_eq_of_lt ho]
    · have hc1 : (c != 0) = true := by simp [hc]
      rw [copyStringLoop, if_neg hc, List.takeWhile_cons, hc1]
      simp only [if_true, List.length_cons]
      cases r with
      | zero =>
        have h0 : offset = (0 + offset) % 4294967296 := by omega
        rw [if_pos h0]
        simp [ACSArray.writeMany, Nat.mod_eq_of_lt ho]
      | succ r =>
        have h1 : ¬ offset = (r + 1 + offset) % 4294967296 := by omega
        have h2 : (r + 1 + offset) % 4294967296 = (r + (offset + 1) % 4294967296) % 4294967296 := by
          omega
        rw [if_neg h1, h2, ih _ _ _ (Nat.mod_lt _ (by decide)) (by omega)]
        have h3 : ((string.takeWhile (fun c => c != 0)).length + (offset + 1) % 4294967296)
            % 4294967296 = ((string.takeWhile (fun c => c != 0)).length + 1 + offset)
            % 4294967296 := by omega
        rw [h3]
        simp only [Nat.add_lt_add_iff_right, List.take_succ_cons, ACSArray.writeMany]

/-- The outcome of `copyString` on a valid handle and source offset. -/
theorem copyString_valid (d : ACSArrayDims) (G : List ACSString) (a : ACSArray)
    (offset length strnum stroff : Nat) (ho : offset < 4294967296) (hl : length < 4294967296)
    (str : ACSString) (hstr : G[strnum]? = some str) (hoff : stroff ≤ str.data.l) :
    a.copyString d G offset length strnum stroff =
      if length < (str.tail stroff).length then
        (a.writeMany d offset ((str.tail stroff).take length), false)
      else if length = (str.tail stroff).length then
        (a.writeMany d offset (str.tail stroff), false)
      else
        ((a.writeMany d offset (str.tail stroff)).write d
          (((str.tail stroff).length + offset) % 4294967296) 0, true) := by
  have hlt : strnum < G.length := by
    rcases List.getElem?_eq_some.mp hstr with ⟨h, _⟩; exact h
  unfold ACSArray.copyString
  rw [if_neg (by omega), hstr]
  simp only
  rw [if_neg (by omega), copyStringLoop_eq d _ a offset length ho hl]
  unfold ACSString.tail
  by_cases h1 : length < ((str.mem.drop stroff).takeWhile (fun c => c != 0)).length
  · simp [h1]
  · rw [if_neg h1, if_neg h1]
    simp only [Bool.true_eq_false, if_false]
    by_cases h2 : length = ((str.mem.drop stroff).takeWhile (fun c => c != 0)).length
    · rw [if_pos h2, if_neg (by rw [← h2]; simp)]
    · rw [if_neg h2, if_pos]
      have h3 : ((str.mem.drop stroff).takeWhile (fun c => c != 0)).length < length := by omega
      omega

theorem copyString_none (d : ACSArrayDims) (G : List ACSString) (a : ACSArray)
    (offset length strnum stroff : Nat) (h : G[strnum]? = none) :
    a.copyString d G offset length strnum stroff = (a, false) := by
  unfold ACSArray.copyString
  rw [h]
  split <;> rfl

theorem copyString_badoff (d : ACSArrayDims) (G : List ACSString) (a : ACSArray)
    (offset length strnum stroff : Nat) (str : ACSString) (h : G[strnum]? = some str)
    (hoff : str.data.l < stroff) :
    a.copyString d G offset length strnum stroff = (a, false) := by
  unfold ACSArray.copyString
  rw [h]
  simp only
  rw [if_pos hoff]
  split <;> rfl

/-- C6: `copyString(destOffset, maxLength, handle, srcOffset)` returns true exactly when
the handle is below the number of interned strings, `srcOffset` is at most the string's
length and the number `n` of chars from `srcOffset` up to the first NUL is below
`maxLength`; then cells `destOffset .. destOffset+n-1` hold those chars in order, cell
`destOffset+n` holds 0 and every other cell reads as before (offsets modulo 2^32). -/
theorem C6_copyString (d : ACSArrayDims) (hfull : d.full) (a : ACSArray) (hok : a.ok d = true)
    (G : List ACSString) (offset length strnum stroff : Nat)
    (ho : offset < 4294967296) (hl : length < 4294967296) :
    ((a.copyString d G offset length strnum stroff).2 = true ↔
      ∃ str, G[strnum]? = some str ∧ stroff ≤ str.data.l ∧
        (str.tail stroff).length < length) ∧
    ((a.copyString d G offset length strnum stroff).2 = true →
      ∀ str, G[strnum]? = some str →
        (∀ k, k < (str.tail stroff).length →
          ((a.copyString d G offset length strnum stroff).1.read d
            ((offset + k) % 4294967296)).2 = (str.tail stroff).getD k 0) ∧
        ((a.copyString d G offset length strnum stroff).1.read d
          ((offset + (str.tail stroff).length) % 4294967296)).2 = 0 ∧
        (∀ j, j < 4294967296 →
          (∀ k, k ≤ (str.tail stroff).length → j ≠ (offset + k) % 4294967296) →
          ((a.copyString d G offset length strnum stroff).1.read d j).2 = (a.read d j).2)) := by
  cases hstr : G[strnum]? with
  | none =>
    rw [copyString_none d G a offset length strnum stroff hstr]
    simp
  | some str =>
    by_cases hoff : str.data.l < stroff
    · rw [copyString_badoff d G a offset length strnum stroff str hstr hoff]
      refine ⟨?_, by simp⟩
      constructor
      · intro h; simp at h
      · rintro ⟨s, hs, hle, _⟩
        cases hs
        omega
    · have hoff1 : stroff ≤ str.data.l := by omega
      rw [copyString_valid d G a offset length strnum stroff ho hl str hstr hoff1]
      by_cases h1 : length < (str.tail stroff).length
      · rw [if_pos h1]
        refine ⟨?_, by simp⟩
        constructor
        · intro h; simp at h
        · rintro ⟨s, hs, _, hlt⟩
          cases hs
          omega
      · rw [if_neg h1]
        by_cases h2 : length = (str.tail stroff).length
        · rw [if_pos h2]
          refine ⟨?_, by simp⟩
          constructor
          · intro h; simp at h
          · rintro ⟨s, hs, _, hlt⟩
            cases hs
            omega
        · rw [if_neg h2]
          have hn : (str.tail stroff).length < length := by omega
          refine ⟨⟨fun _ => ⟨str, rfl, hoff1, hn⟩, fun _ => rfl⟩, ?_⟩
          intro _ s hs
          cases hs
          have hwok := writeMany_ok (str.tail stroff) a offset hok
          have hmod : ((str.tail stroff).length + offset) % 4294967296 < 4294967296 :=
            Nat.mod_lt _ (by decide)
          refine ⟨?_, ?_, ?_⟩
          · intro k hk
            have hjk : (offset + k) % 4294967296 ≠
                ((str.tail stroff).length + offset) % 4294967296 := by omega
            rw [read_snd, peek_write hfull hwok hmod, if_neg hjk,
              peek_writeMany hfull _ a offset hok ho (by omega) _ (Nat.mod_lt _ (by decide))]
            have hkk : ((offset + k) % 4294967296 + 4294967296 - offset) % 4294967296 = k := by
              omega
            rw [hkk, if_pos hk]
          · rw [read_snd, peek_write hfull hwok hmod, if_pos (by omega)]
          · intro j hj hne
            have hjn : j ≠ ((str.tail stroff).length + offset) % 4294967296 := by
              have := hne (str.tail stroff).length (Nat.le_refl _)
              omega
            rw [read_snd, read_snd, peek_write hfull hwok hmod, if_neg hjn,
              peek_writeMany hfull _ a offset hok ho (by omega) j hj]
            have hkk : ¬ (j + 4294967296 - offset) % 4294967296 < (str.tail stroff).length := by
              intro hlt
              have := hne ((j + 4294967296 - offset) % 4294967296) (Nat.le_of_lt hlt)
              omega
            rw [if_neg hkk]

theorem C6_copyString_witness :
    (ACSArrayDims.mk 256 256 256 256).full ∧
    (ACSArray.empty (ACSArrayDims.mk 256 256 256 256)).ok (ACSArrayDims.mk 256 256 256 256) = true ∧
    (4294967295 : Nat) < 4294967296 ∧ (3 : Nat) < 4294967296 ∧
    (((ACSArray.empty (ACSArrayDims.mk 256 256 256 256)).copyString
        (ACSArrayDims.mk 256 256 256 256)
        [{ data := ⟨[104, 105]⟩, length := 2, number := 0 }] 4294967295 3 0 0).2 = true ↔
      ∃ str, [({ data := ⟨[104, 105]⟩, length := 2, number := 0 } : ACSString)][0]? = some str ∧
        0 ≤ str.data.l ∧ (str.tail 0).length < 3) :=
  ⟨by decide, empty_ok _, by decide, by decide,
    (C6_copyString (ACSArrayDims.mk 256 256 256 256) (by decide) _ (empty_ok _)
      [{ data := ⟨[104, 105]⟩, length := 2, number := 0 }] 4294967295 3 0 0
      (by decide) (by decide)).1⟩

/-- C7 (as stated, refuted): with the string "ab" and `maxLength = 1`, `copyString`
returns false after it has stored 'a' in cell `destOffset`. -/
theorem C7_counterexample :
    ((ACSArray.empty (ACSArrayDims.mk 256 256 256 256)).copyString
        (ACSArrayDims.mk 256 256 256 256)
        [{ data := ⟨[97, 98]⟩, length := 2, number := 0 }] 0 1 0 0).2 = false ∧
    (((ACSArray.empty (ACSArrayDims.mk 256 256 256 256)).copyString
        (ACSArrayDims.mk 256 256 256 256)
        [{ data := ⟨[97, 98]⟩, length := 2, number := 0 }] 0 1 0 0).1.read
        (ACSArrayDims.mk 256 256 256 256) 0).2 = 97 ∧
    ((ACSArray.empty (ACSArrayDims.mk 256 256 256 256)).read
        (ACSArrayDims.mk 256 256 256 256) 0).2 = 0 := by
  decide

/-- C7 (amended): when `copyString` returns false because the handle or the source
offset is invalid, the array is unchanged; when it returns false on a valid handle and
offset, the destination range was exhausted (`maxLength ≤ n`), cells
`destOffset .. destOffset+maxLength-1` hold the first `maxLength` chars and every other
cell reads as before. -/
theorem C7_copyString_false (d : ACSArrayDims) (hfull : d.full) (a : ACSArray)
    (hok : a.ok d = true) (G : List ACSString) (offset length strnum stroff : Nat)
    (ho : offset < 4294967296) (hl : length < 4294967296)
    (hfalse : (a.copyString d G offset length strnum stroff).2 = false) :
    ((∀ str, G[strnum]? = some str → str.data.l < stroff) →
      (a.copyString d G offset length strnum stroff).1 = a) ∧
    (∀ str, G[strnum]? = some str → stroff ≤ str.data.l →
      length ≤ (str.tail stroff).length ∧
      (∀ k, k < length →
        ((a.copyString d G offset length strnum stroff).1.read d
          ((offset + k) % 4294967296)).2 = (str.tail stroff).getD k 0) ∧
      (∀ j, j < 4294967296 → (∀ k, k < length → j ≠ (offset + k) % 4294967296) →
        ((a.copyString d G offset length strnum stroff).1.read d j).2 = (a.read d j).2)) := by
  constructor
  · intro hbad
    cases hstr : G[strnum]? with
    | none => rw [copyString_none d G a offset length strnum stroff hstr]
    | some str => rw [copyString_badoff d G a offset length strnum stroff str hstr (hbad str hstr)]
  · intro str hstr hoff
    rw [copyString_valid d G a offset length strnum stroff ho hl str hstr hoff] at hfalse ⊢
    have key : ∀ (cs : List Int), cs.length = length →
        (∀ k, k < length → cs.getD k 0 = (str.tail stroff).getD k 0) →
        (∀ k, k < length →
          ((a.writeMany d offset cs).read d ((offset + k) % 4294967296)).2
            = (str.tail stroff).getD k 0) ∧
        (∀ j, j < 4294967296 → (∀ k, k < length → j ≠ (offset + k) % 4294967296) →
          ((a.writeMany d offset cs).read d j).2 = (a.read d j).2) := by
      intro cs hcs hget
      constructor
      · intro k hk
        rw [read_snd, peek_writeMany hfull _ a offset hok ho (by omega) _
          (Nat.mod_lt _ (by decide))]
        have hkk : ((offset + k) % 4294967296 + 4294967296 - offset) % 4294967296 = k := by
          omega
        rw [hkk, if_pos (by omega), hget k hk]
      · intro j hj hne
        rw [read_snd, read_snd, peek_writeMany hfull _ a offset hok ho (by omega) j hj]
        have hkk : ¬ (j + 4294967296 - offset) % 4294967296 < cs.length := by
          intro hlt
          have := hne ((j + 4294967296 - offset) % 4294967296) (by omega)
          omega
        rw [if_neg hkk]
    by_cases h1 : length < (str.tail stroff).length
    · rw [if_pos h1]
      refine ⟨Nat.le_of_lt h1, ?_⟩
      apply key
      · rw [List.length_take]; omega
      · intro k hk
        rw [List.getD_eq_getElem?_getD, List.getD_eq_getElem?_getD, List.getElem?_take_of_lt hk]
    · rw [if_neg h1] at hfalse ⊢
      by_cases h2 : length = (str.tail stroff).length
      · rw [if_pos h2]
        exact ⟨Nat.le_of_eq h2, key _ h2.symm (fun _ _ => rfl)⟩
      · rw [if_neg h2] at hfalse
        simp at hfalse

theorem C7_copyString_false_witness :
    (ACSArrayDims.mk 256 256 256 256).full ∧
    (ACSArray.empty (ACSArrayDims.mk 256 256 256 256)).ok (ACSArrayDims.mk 256 256 256 256) = true ∧
    (7 : Nat) < 4294967296 ∧ (1 : Nat) < 4294967296 ∧
    ((ACSArray.empty (ACSArrayDims.mk 256 256 256 256)).copyString
        (ACSArrayDims.mk 256 256 256 256)
        [{ data := ⟨[97, 98]⟩, length := 2, number := 0 }] 7 1 0 0).2 = false ∧
    (∀ str, [({ data := ⟨[97, 98]⟩, length := 2, number := 0 } : ACSString)][0]? = some str →
      0 ≤ str.data.l →
      1 ≤ (str.tail 0).length ∧
      (∀ k, k < 1 →
        (((ACSArray.empty (ACSArrayDims.mk 256 256 256 256)).copyString
          (ACSArrayDims.mk 256 256 256 256)
          [{ data := ⟨[97, 98]⟩, length := 2, number := 0 }] 7 1 0 0).1.read
          (ACSArrayDims.mk 256 256 256 256) ((7 + k) % 4294967296)).2 = (str.tail 0).getD k 0) ∧
      (∀ j, j < 4294967296 → (∀ k, k < 1 → j ≠ (7 + k) % 4294967296) →
        (((ACSArray.empty (ACSArrayDims.mk 256 256 256 256)).copyString
          (ACSArrayDims.mk 256 256 256 256)
          [{ data := ⟨[97, 98]⟩, length := 2, number := 0 }] 7 1 0 0).1.read
          (ACSArrayDims.mk 256 256 256 256) j).2 =
        ((ACSArray.empty (ACSArrayDims.mk 256 256 256 256)).read
          (ACSArrayDims.mk 256 256 256 256) j).2)) :=
  ⟨by decide, empty_ok _, by decide, by decide, by decide,
    (C7_copyString_false (ACSArrayDims.mk 256 256 256 256) (by decide) _ (empty_ok _)
      [{ data := ⟨[97, 98]⟩, length := 2, number := 0 }] 7 1 0 0
      (by decide) (by decide) (by decide)).2⟩

theorem printLoop_eq {d : ACSArrayDims} (hfull : d.full) (fuel : Nat) :
    ∀ (a : ACSArray) (printBuffer : List Int) (offset : Nat), a.ok d = true →
      offset < 4294967296 → fuel < 4294967296 →
      (printLoop d fuel a printBuffer offset ((fuel + offset) % 4294967296)).2 =
        printBuffer ++ ((List.range fuel).map
          (fun i => toByte (a.peek d ((offset + i) % 4294967296)))).takeWhile
            (fun b => b != 0) := by
  induction fuel with
  | zero => intro a printBuffer offset _ _ _; simp [printLoop]
  | succ fuel ih =>
    intro a printBuffer offset hok ho hf
    have hne : ¬ offset = (fuel + 1 + offset) % 4294967296 := by omega
    have hoff : offset % 4294967296 = offset := Nat.mod_eq_of_lt ho
    rw [printLoop, if_neg hne, List.range_succ_eq_map, List.map_cons, List.map_map]
    simp only [Nat.add_zero, hoff, read_snd]
    by_cases hv : toByte (a.peek d offset) = 0
    · rw [if_pos hv, List.takeWhile_cons]
      simp [hv]
    · have hend : (fuel + 1 + offset) % 4294967296 =
          (fuel + (offset + 1) % 4294967296) % 4294967296 := by omega
      rw [if_neg hv, hend, ih _ _ _ (ok_read hok offset) (Nat.mod_lt _ (by decide)) (by omega),
        List.takeWhile_cons]
      have hv1 : (toByte (a.peek d offset) != 0) = true := by simp [hv]
      rw [hv1]
      simp only [if_true, List.append_assoc, List.singleton_append]
      congr 3
      apply List.map_congr_left
      intro i _
      simp only [Function.comp, peek_read hfull hok ho]
      congr 2
      omega

/-- The bound that `print` gives to `printLoop` never cuts the loop: with `offset` at
`fuel` cells before the end offset, any larger bound gives the same result. -/
theorem printLoop_fuel (d : ACSArrayDims) (fuel : Nat) :
    ∀ (extra : Nat) (a : ACSArray) (printBuffer : List Int) (offset : Nat),
      offset < 4294967296 → fuel < 4294967296 →
      printLoop d (fuel + extra) a printBuffer offset ((fuel + offset) % 4294967296) =
        printLoop d fuel a printBuffer offset ((fuel + offset) % 4294967296) := by
  induction fuel with
  | zero =>
    intro extra a printBuffer offset ho _
    have h0 : offset = (0 + offset) % 4294967296 := by omega
    cases extra with
    | zero => rfl
    | succ extra =>
      rw [printLoop, Nat.zero_add, printLoop, if_pos h0]
  | succ fuel ih =>
    intro extra a printBuffer offset ho hf
    have hne : ¬ offset = (fuel + 1 + offset) % 4294967296 := by omega
    have hend : (fuel + 1 + offset) % 4294967296 =
        (fuel + (offset + 1) % 4294967296) % 4294967296 := by omega
    have hsucc : fuel + 1 + extra = (fuel + extra) + 1 := by omega
    rw [hsucc, printLoop, printLoop, if_neg hne, if_neg hne]
    simp only
    split
    · rfl
    · rw [hend]
      exact ih extra _ _ _ (Nat.mod_lt _ (by decide)) (by omega)

/-- C8 (as stated, refuted): a cell holding 256 is non-zero and lies within the length
bound, yet `print` stops at it and appends nothing, where the claim has it contribute
one character. -/
theorem C8_counterexample :
    (((ACSArray.empty (ACSArrayDims.mk 256 256 256 256)).write
        (ACSArrayDims.mk 256 256 256 256) 0 256).read (ACSArrayDims.mk 256 256 256 256) 0).2 ≠ 0 ∧
    (((ACSArray.empty (ACSArrayDims.mk 256 256 256 256)).write
        (ACSArrayDims.mk 256 256 256 256) 0 256).print
        (ACSArrayDims.mk 256 256 256 256) [] 0 1).2 = [] ∧
    (((List.range 1).map (fun i =>
        (((ACSArray.empty (ACSArrayDims.mk 256 256 256 256)).write
          (ACSArrayDims.mk 256 256 256 256) 0 256).read (ACSArrayDims.mk 256 256 256 256)
          ((0 + i) % 4294967296)).2)).takeWhile (fun v => v != 0)).map toByte = [0] := by
  decide

/-- C8 (amended): `print(offset, length)` appends to the print buffer the low byte of each
cell `offset, offset+1, ...` in order, stopping before the first cell whose low byte is
zero or after `length` cells, whichever comes first; every cell before that point
contributes exactly one character. -/
theorem C8_print (d : ACSArrayDims) (hfull : d.full) (a : ACSArray) (hok : a.ok d = true)
    (printBuffer : List Int) (offset length : Nat)
    (ho : offset < 4294967296) (hl : length < 4294967296) :
    (a.print d printBuffer offset length).2 =
      printBuffer ++ ((List.range length).map
        (fun i => toByte (a.read d ((offset + i) % 4294967296)).2)).takeWhile
          (fun b => b != 0) := by
  unfold ACSArray.print
  rw [printLoop_eq hfull length a printBuffer offset hok ho hl]
  simp only [read_snd]

theorem C8_print_witness :
    (ACSArrayDims.mk 256 256 256 256).full ∧
    (ACSArray.empty (ACSArrayDims.mk 256 256 256 256)).ok (ACSArrayDims.mk 256 256 256 256) = true ∧
    (5 : Nat) < 4294967296 ∧ (2 : Nat) < 4294967296 ∧
    ((ACSArray.empty (ACSArrayDims.mk 256 256 256 256)).print
        (ACSArrayDims.mk 256 256 256 256) [65] 5 2).2 =
      [65] ++ ((List.range 2).map
        (fun i => toByte ((ACSArray.empty (ACSArrayDims.mk 256 256 256 256)).read
          (ACSArrayDims.mk 256 256 256 256) ((5 + i) % 4294967296)).2)).takeWhile
          (fun b => b != 0) :=
  ⟨by decide, empty_ok _, by decide, by decide,
    C8_print (ACSArrayDims.mk 256 256 256 256) (by decide) _ (empty_ok _) [65] 5 2
      (by decide) (by decide)⟩

/-! ## String interning -/

theorem Compare_iff (first second : ACSString.Data) :
    ACSStringHashKey.Compare first second = true ↔ first = second := by
  obtain ⟨s1⟩ := first
  obtain ⟨s2⟩ := second
  simp only [ACSStringHashKey.Compare, ACSString.Data.l, Bool.and_eq_true, beq_iff_eq,
    ACSString.Data.mk.injEq]
  constructor
  · rintro ⟨hl, ht⟩
    rw [List.take_length, hl, List.take_length] at ht
    exact ht
  · intro h
    subst h
    exact ⟨rfl, rfl⟩

theorem init_inv (n : Nat) (hn : 0 < n) : (StringTable.init n).Inv := by
  refine ⟨by simp [StringTable.init, EHashTable.init, EHashTable.numChains, hn], ?_, ?_, ?_, ?_⟩
  · intro k o ho
    simp only [StringTable.init, EHashTable.init] at ho
    rw [List.getD_eq_getElem?_getD, List.getElem?_replicate] at ho
    split at ho <;> simp at ho
  · intro o ho; simp [StringTable.init] at ho
  · intro i o ho; simp [StringTable.init] at ho
  · intro o1 o2 ho; simp [StringTable.init] at ho

theorem objectForKey_some {st : StringTable} (h : st.Inv) (key : ACSString.Data) (o : ACSString) :
    st.acsStrings.objectForKey key = some o ↔ o ∈ st.GlobalStrings ∧ o.data = key := by
  obtain ⟨_, hb, hc, _, he⟩ := h
  unfold EHashTable.objectForKey
  constructor
  · intro hf
    have hmem := List.mem_of_find?_eq_some hf
    have hp := List.find?_some hf
    exact ⟨(hb _ _ hmem).2, (Compare_iff _ _).mp hp⟩
  · rintro ⟨hmem, hdata⟩
    have hin := hc o hmem
    rw [hdata] at hin
    cases hf : (st.acsStrings.chains.getD
        (ACSStringHashKey.HashCode key % st.acsStrings.numChains) []).find?
        (fun o => ACSStringHashKey.Compare o.data key) with
    | none =>
      have := List.find?_eq_none.mp hf o hin
      simp [(Compare_iff o.data key).mpr hdata] at this
    | some o2 =>
      have hmem2 := List.mem_of_find?_eq_some hf
      have hp2' := List.find?_some hf
      have hp2 := (Compare_iff _ _).mp hp2'
      rw [he o2 o (hb _ _ hmem2).2 hmem (hp2.trans hdata.symm)]

theorem objectForKey_none {st : StringTable} (h : st.Inv) (key : ACSString.Data)
    (hnone : st.acsStrings.objectForKey key = none) :
    ∀ o, o ∈ st.GlobalStrings → o.data ≠ key := by
  intro o ho hdata
  have := (objectForKey_some h key o).mpr ⟨ho, hdata⟩
  rw [hnone] at this
  cases this

theorem AddString_found (f : List Int → Option (Nat × Nat)) (st : StringTable) (s : List Int)
    (o : ACSString) (h : st.acsStrings.objectForKey { s := s } = some o) :
    ACSModule.AddString f st s = (st, o.number) := by
  unfold ACSModule.AddString
  simp only [h]

theorem AddString_new (f : List Int → Option (Nat × Nat)) (st : StringTable) (s : List Int)
    (h : st.acsStrings.objectForKey { s := s } = none) :
    ACSModule.AddString f st s =
      ({ GlobalStrings := st.GlobalStrings ++
          [{ data := { s := s }, script := f (s.takeWhile (fun c => c != 0)),
             length := strlen (s ++ [0]), number := st.GlobalNumStrings }]
         acsStrings := st.acsStrings.addObject
          { data := { s := s }, script := f (s.takeWhile (fun c => c != 0)),
            length := strlen (s ++ [0]), number := st.GlobalNumStrings } }, st.GlobalNumStrings) := by
  unfold ACSModule.AddString
  simp only [h]

theorem AddString_inv (f : List Int → Option (Nat × Nat)) {st : StringTable} (h : st.Inv)
    (s : List Int) : (ACSModule.AddString f st s).1.Inv := by
  cases hl : st.acsStrings.objectForKey { s := s } with
  | some o => rw [AddString_found f st s o hl]; exact h
  | none =>
    rw [AddString_new f st s hl]
    have hfresh := objectForKey_none h _ hl
    obtain ⟨ha, hb, hc, hd, he⟩ := h
    simp only [EHashTable.numChains] at ha hb hc
    have hk : ACSStringHashKey.HashCode { s := s } % st.acsStrings.chains.length
        < st.acsStrings.chains.length := Nat.mod_lt _ ha
    refine ⟨?_, ?_, ?_, ?_, ?_⟩
    · simpa [EHashTable.addObject, EHashTable.numChains] using ha
    · intro k o ho
      simp only [EHashTable.addObject, EHashTable.numChains, List.length_set] at ho ⊢
      by_cases hkk : ACSStringHashKey.HashCode { s := s } % st.acsStrings.chains.length = k
      · subst hkk
        rw [getD_set_self _ _ _ _ hk] at ho
        rcases List.mem_cons.mp ho with h1 | h1
        · subst h1
          exact ⟨rfl, List.mem_append_right _ (List.mem_singleton_self _)⟩
        · exact ⟨(hb _ _ h1).1, List.mem_append_left _ (hb _ _ h1).2⟩
      · rw [getD_set_other _ _ _ _ _ hkk] at ho
        exact ⟨(hb _ _ ho).1, List.mem_append_left _ (hb _ _ ho).2⟩
    · intro o ho
      simp only [EHashTable.addObject, EHashTable.numChains, List.length_set] at ho ⊢
      rcases List.mem_append.mp ho with h1 | h1
      · have hin := hc o h1
        by_cases hkk : ACSStringHashKey.HashCode { s := s } % st.acsStrings.chains.length
            = ACSStringHashKey.HashCode o.data % st.acsStrings.chains.length
        · rw [← hkk, getD_set_self _ _ _ _ hk]
          apply List.mem_cons_of_mem
          rw [← hkk] at hin
          exact hin
        · rw [getD_set_other _ _ _ _ _ hkk]
          exact hin
      · rw [List.mem_singleton] at h1
        subst h1
        simp only
        rw [getD_set_self _ _ _ _ hk]
        exact List.mem_cons_self _ _
    · intro i o ho
      simp only at ho
      by_cases hi : i < st.GlobalStrings.length
      · rw [List.getElem?_append_left hi] at ho
        exact hd i o ho
      · rw [List.getElem?_append_right (by omega)] at ho
        have hi0 : i - st.GlobalStrings.length = 0 := by
          by_contra hne
          rw [List.getElem?_eq_none (by simp; omega)] at ho
          cases ho
        rw [hi0] at ho
        simp only [List.getElem?_cons_zero, Option.some.injEq] at ho
        subst ho
        simp only [StringTable.GlobalNumStrings]
        omega
    · intro o1 o2 h1 h2 hdata
      simp only at h1 h2
      rcases List.mem_append.mp h1 with a1 | a1 <;> rcases List.mem_append.mp h2 with a2 | a2
      · exact he o1 o2 a1 a2 hdata
      · rw [List.mem_singleton] at a2
        subst a2
        exact absurd hdata (hfresh o1 a1)
      · rw [List.mem_singleton] at a1
        subst a1
        exact absurd hdata.symm (hfresh o2 a2)
      · rw [List.mem_singleton] at a1 a2
        rw [a1, a2]

/-- What one `AddString` call does to a table that satisfies the invariant. -/
theorem AddString_post (f : List Int → Option (Nat × Nat)) {st : StringTable} (h : st.Inv)
    (s : List Int) :
    (∃ t, (ACSModule.AddString f st s).1.GlobalStrings = st.GlobalStrings ++ t) ∧
    (∃ o, (ACSModule.AddString f st s).1.GlobalStrings[(ACSModule.AddString f st s).2]? = some o
      ∧ o.data = { s := s }) ∧
    ((∃ o, o ∈ st.GlobalStrings ∧ o.data = { s := s }) →
      (ACSModule.AddString f st s).1 = st) := by
  cases hl : st.acsStrings.objectForKey { s := s } with
  | some o =>
    rw [AddString_found f st s o hl]
    obtain ⟨hmem, hdata⟩ := (objectForKey_some h _ o).mp hl
    refine ⟨⟨[], by simp⟩, ⟨o, ?_, hdata⟩, fun _ => rfl⟩
    obtain ⟨i, hi⟩ := List.getElem?_of_mem hmem
    have := h.2.2.2.1 i o hi
    simp only
    rw [this]
    exact hi
  | none =>
    rw [AddString_new f st s hl]
    refine ⟨⟨_, rfl⟩, ⟨ACSString.mk { s := s } (f (s.takeWhile (fun c => c != 0)))
      (strlen (s ++ [0])) st.GlobalNumStrings, ?_, rfl⟩, ?_⟩
    · simp only [StringTable.GlobalNumStrings]
      rw [List.getElem?_append_right (Nat.le_refl _)]
      simp
    · rintro ⟨o, ho, hdata⟩
      exact absurd hdata (objectForKey_none h _ hl o ho)

theorem AddStrings_inv (f : List Int → Option (Nat × Nat)) (ss : List (List Int)) :
    ∀ st : StringTable, st.Inv → (ACSModule.AddStrings f st ss).Inv := by
  induction ss with
  | nil => intro st h; exact h
  | cons s rest ih => intro st h; exact ih _ (AddString_inv f h s)

theorem AddStrings_grow (f : List Int → Option (Nat × Nat)) (ss : List (List Int)) :
    ∀ st : StringTable, st.Inv →
      ∃ t, (ACSModule.AddStrings f st ss).GlobalStrings = st.GlobalStrings ++ t := by
  induction ss with
  | nil => intro st _; exact ⟨[], by simp [ACSModule.AddStrings]⟩
  | cons s rest ih =>
    intro st h
    obtain ⟨t1, h1⟩ := (AddString_post f h s).1
    obtain ⟨t2, h2⟩ := ih _ (AddString_inv f h s)
    refine ⟨t1 ++ t2, ?_⟩
    show (ACSModule.AddStrings f (ACSModule.AddString f st s).1 rest).GlobalStrings = _
    rw [h2, h1, List.append_assoc]

theorem getElem?_append_some {α : Type} (l t : List α) (i : Nat) (x : α)
    (h : l[i]? = some x) : (l ++ t)[i]? = some x := by
  have hi : i < l.length := (List.getElem?_eq_some.mp h).1
  rw [List.getElem?_append_left hi]
  exact h

/-- C9: in every string table reached by `AddString` calls, interning a byte sequence
again (after any further calls) returns the handle it got first and leaves the table as
it is; a byte sequence that differs in length or in a byte gets another handle; and the
handle keeps designating the same bytes after later calls. -/
theorem C9_AddString (f : List Int → Option (Nat × Nat)) (n : Nat) (hn : 0 < n)
    (before later : List (List Int)) (s s' : List Int) :
    (ACSModule.AddString f (ACSModule.AddStrings f (ACSModule.AddString f
        (ACSModule.AddStrings f (StringTable.init n) before) s).1 later) s).2
      = (ACSModule.AddString f (ACSModule.AddStrings f (StringTable.init n) before) s).2 ∧
    (ACSModule.AddString f (ACSModule.AddStrings f (ACSModule.AddString f
        (ACSModule.AddStrings f (StringTable.init n) before) s).1 later) s).1
      = ACSModule.AddStrings f (ACSModule.AddString f
        (ACSModule.AddStrings f (StringTable.init n) before) s).1 later ∧
    (s' ≠ s →
      (ACSModule.AddString f (ACSModule.AddStrings f (ACSModule.AddString f
        (ACSModule.AddStrings f (StringTable.init n) before) s).1 later) s').2
      ≠ (ACSModule.AddString f (ACSModule.AddStrings f (StringTable.init n) before) s).2) ∧
    (∃ o, (ACSModule.AddString f (ACSModule.AddStrings f (ACSModule.AddString f
        (ACSModule.AddStrings f (StringTable.init n) before) s).1 later) s').1.GlobalStrings[
          (ACSModule.AddString f (ACSModule.AddStrings f (StringTable.init n) before) s).2]?
        = some o ∧ o.data.s = s) := by
  have hst := AddStrings_inv f before _ (init_inv n hn)
  generalize ACSModule.AddStrings f (StringTable.init n) before = st at hst ⊢
  have hr := AddString_inv f hst s
  obtain ⟨o, ho, hodata⟩ := (AddString_post f hst s).2.1
  generalize ACSModule.AddString f st s = r at hr ho ⊢
  have hst2 := AddStrings_inv f later _ hr
  obtain ⟨t, ht⟩ := AddStrings_grow f later _ hr
  generalize ACSModule.AddStrings f r.1 later = st2 at hst2 ht ⊢
  have ho2 : st2.GlobalStrings[r.2]? = some o := by
    rw [ht]; exact getElem?_append_some _ _ _ _ ho
  have hmem2 : o ∈ st2.GlobalStrings := List.getElem?_mem ho2
  have hnum : o.number = r.2 := hst2.2.2.2.1 _ _ ho2
  have hsame := (AddString_post f hst2 s).2.2 ⟨o, hmem2, hodata⟩
  obtain ⟨o', ho', hodata'⟩ := (AddString_post f hst2 s).2.1
  have hst3 := AddString_inv f hst2 s'
  obtain ⟨t', ht'⟩ := (AddString_post f hst2 s').1
  obtain ⟨o3, ho3, hodata3⟩ := (AddString_post f hst2 s').2.1
  have ho4 : (ACSModule.AddString f st2 s').1.GlobalStrings[r.2]? = some o := by
    rw [ht']; exact getElem?_append_some _ _ _ _ ho2
  refine ⟨?_, hsame, ?_, ⟨o, ho4, by rw [hodata]⟩⟩
  · rw [hsame] at ho'
    have hmem' : o' ∈ st2.GlobalStrings := List.getElem?_mem ho'
    have heq : o' = o := hst2.2.2.2.2 o' o hmem' hmem2 (hodata'.trans hodata.symm)
    have hnum' := hst2.2.2.2.1 _ _ ho'
    rw [← hnum', heq, hnum]
  · intro hne heq
    rw [heq, ho4] at ho3
    cases ho3
    rw [hodata] at hodata3
    cases hodata3
    exact hne rfl

theorem C9_AddString_witness :
    0 < 4 ∧
    (ACSModule.AddString (fun _ => none) (ACSModule.AddStrings (fun _ => none)
        (ACSModule.AddString (fun _ => none)
          (ACSModule.AddStrings (fun _ => none) (StringTable.init 4) [[97], [97, 0, 98]])
          [98]).1 [[99], [97]]) [98]).2
      = (ACSModule.AddString (fun _ => none)
          (ACSModule.AddStrings (fun _ => none) (StringTable.init 4) [[97], [97, 0, 98]])
          [98]).2 ∧
    (ACSModule.AddString (fun _ => none)
        (ACSModule.AddStrings (fun _ => none) (StringTable.init 4) [[97], [97, 0, 98]])
        [98]).2 = 2 :=
  ⟨by decide,
    (C9_AddString (fun _ => none) 4 (by decide) [[97], [97, 0, 98]] [[99], [97]] [98] [97]).1,
    by decide⟩

/-! ## BRANCH_CASETABLE -/

theorem caseSearch_step (fuel : Nat) (e : Exec) (tbl caseBegin caseEnd value top : Int)
    (hv : memAt e.code (tbl + 2 * (caseBegin + Int.tdiv (caseEnd - caseBegin) 2)) = some value)
    (ht : memAt e.this.stack (e.stp - 1) = some top) :
    caseSearch (fuel + 1) e tbl caseBegin caseEnd =
      if value = top then
        match memAt e.code (tbl + 2 * (caseBegin + Int.tdiv (caseEnd - caseBegin) 2) + 1) with
        | some target => BRANCHOP (DECSTP e) target Outcome.NEXTOP
        | none => Outcome.undefined
      else if caseEnd - caseBegin = 1 then Outcome.NEXTOP e
      else if value < top then
        caseSearch fuel e tbl (caseBegin + Int.tdiv (caseEnd - caseBegin) 2) caseEnd
      else caseSearch fuel e tbl caseBegin (caseBegin + Int.tdiv (caseEnd - caseBegin) 2) := by
  rw [caseSearch]
  simp only [hv, PEEK, ht]

/-- The search finds the entry `k` of a strictly increasing table. -/
theorem caseSearch_found (e : Exec) (tbl top : Int) (n : Nat) (val tgt : Nat → Int)
    (hval : ∀ i : Nat, i < n → memAt e.code (tbl + 2 * (i : Int)) = some (val i))
    (htgt : ∀ i : Nat, i < n → memAt e.code (tbl + 2 * (i : Int) + 1) = some (tgt i))
    (hsorted : ∀ i j : Nat, i < j → j < n → val i < val j)
    (ht : memAt e.this.stack (e.stp - 1) = some top)
    (k : Nat) (hk : k < n) (hmatch : val k = top) (fuel : Nat) :
    ∀ (b c : Nat), b ≤ k → k < c → c ≤ n → c - b ≤ fuel →
      caseSearch fuel e tbl (b : Int) (c : Int) = BRANCHOP (DECSTP e) (tgt k) Outcome.NEXTOP := by
  induction fuel with
  | zero => intro b c hb hc _ hf; omega
  | succ fuel ih =>
    intro b c hb hc hcn hf
    have hmid : (b : Int) + Int.tdiv ((c : Int) - (b : Int)) 2 = ((b + (c - b) / 2 : Nat) : Int) := by
      rw [Int.tdiv_eq_ediv (by omega) (by omega)]
      omega
    have hlt : b + (c - b) / 2 < n := by omega
    rw [caseSearch_step fuel e tbl b c (val (b + (c - b) / 2)) top
      (by rw [hmid]; exact hval _ hlt) ht, hmid]
    by_cases heq : val (b + (c - b) / 2) = top
    · rw [if_pos heq]
      have hkm : b + (c - b) / 2 = k := by
        rcases Nat.lt_trichotomy (b + (c - b) / 2) k with h | h | h
        · have := hsorted _ _ h hk; omega
        · exact h
        · have := hsorted _ _ h hlt; omega
      rw [htgt _ hlt, hkm]
    · rw [if_neg heq]
      have hne : b + (c - b) / 2 ≠ k := fun h => heq (by rw [h]; exact hmatch)
      have hc1 : ¬ ((c : Int) - (b : Int) = 1) := by
        intro h1
        have : c - b = 1 := by omega
        apply hne
        rw [this]
        omega
      rw [if_neg hc1]
      by_cases hless : val (b + (c - b) / 2) < top
      · rw [if_pos hless]
        have hmk : b + (c - b) / 2 < k := by
          rcases Nat.lt_trichotomy (b + (c - b) / 2) k with h | h | h
          · exact h
          · exact absurd h hne
          · have := hsorted _ _ h hlt; omega
        exact ih _ _ (Nat.le_of_lt hmk) hc hcn (by omega)
      · rw [if_neg hless]
        have hmk : k < b + (c - b) / 2 := by
          rcases Nat.lt_trichotomy (b + (c - b) / 2) k with h | h | h
          · have := hsorted _ _ h hk; omega
          · exact absurd h hne
          · exact h
        exact ih _ _ hb hmk (by omega) (by omega)

/-- The search falls through when no entry of the table equals the tested value. -/
theorem caseSearch_none (e : Exec) (tbl top : Int) (n : Nat) (val : Nat → Int)
    (hval : ∀ i : Nat, i < n → memAt e.code (tbl + 2 * (i : Int)) = some (val i))
    (ht : memAt e.this.stack (e.stp - 1) = some top)
    (hno : ∀ i : Nat, i < n → val i ≠ top) (fuel : Nat) :
    ∀ (b c : Nat), b < c → c ≤ n → c - b ≤ fuel →
      caseSearch fuel e tbl (b : Int) (c : Int) = Outcome.NEXTOP e := by
  induction fuel with
  | zero => intro b c hb _ hf; omega
  | succ fuel ih =>
    intro b c hb hcn hf
    have hmid : (b : Int) + Int.tdiv ((c : Int) - (b : Int)) 2 = ((b + (c - b) / 2 : Nat) : Int) := by
      rw [Int.tdiv_eq_ediv (by omega) (by omega)]
      omega
    have hlt : b + (c - b) / 2 < n := by omega
    rw [caseSearch_step fuel e tbl b c (val (b + (c - b) / 2)) top
      (by rw [hmid]; exact hval _ hlt) ht, hmid, if_neg (hno _ hlt)]
    by_cases hc1 : (c : Int) - (b : Int) = 1
    · rw [if_pos hc1]
    · rw [if_neg hc1]
      have h2 : 2 ≤ c - b := by omega
      by_cases hless : val (b + (c - b) / 2) < top
      · rw [if_pos hless]
        exact ih _ _ (by omega) hcn (by omega)
      · rw [if_neg hless]
        exact ih _ _ (by omega) (by omega) (by omega)

/-- C1: for a `BRANCH_CASETABLE` whose embedded table of `n ≥ 1` pairs is strictly
increasing by value, if the value on top of the operand stack equals the value of entry
`k`, the binary search (given at least `n` rounds) finds that entry, pops the tested value
and sets `ip` to the entry's target in the code of the current module; the branch is counted, and past 500000 counted
branches the thread goes to `action_endscript` with `ip` and `stp` so set. -/
theorem C1_casetable_match (e : Exec) (n : Nat) (hn : 1 ≤ n) (val tgt : Nat → Int) (top : Int)
    (hcount : memAt e.code e.ip = some (n : Int))
    (hval : ∀ i : Nat, i < n → memAt e.code (e.ip + 1 + 2 * (i : Int)) = some (val i))
    (htgt : ∀ i : Nat, i < n → memAt e.code (e.ip + 1 + 2 * (i : Int) + 1) = some (tgt i))
    (hsorted : ∀ i j : Nat, i < j → j < n → val i < val j)
    (ht : memAt e.this.stack (e.stp - 1) = some top)
    (k : Nat) (hk : k < n) (hmatch : val k = top) (fuel : Nat) (hfuel : n ≤ fuel) :
    op_BRANCH_CASETABLE fuel e =
      if e.count + 1 > 500000 then
        Outcome.action_endscript
          { e with ip := tgt k, ipVM := e.this.vm, stp := e.stp - 1, count := e.count + 1,
                   w := doom_printf e.w "ACS Error: terminated runaway script" }
      else
        Outcome.NEXTOP
          { e with ip := tgt k, ipVM := e.this.vm, stp := e.stp - 1, count := e.count + 1 } := by
  unfold op_BRANCH_CASETABLE IPNEXT
  rw [hcount]
  simp only
  have hn0 : ((n : Int) ≠ 0) := by omega
  rw [if_pos hn0]
  have h := caseSearch_found { e with ip := e.ip + 1 + 2 * (n : Int) } (e.ip + 1) top n val tgt
    hval htgt hsorted ht k hk hmatch fuel 0 n (Nat.zero_le _) hk (Nat.le_refl _) (by omega)
  simp only [Nat.cast_zero] at h
  rw [h]
  rfl

theorem C1_casetable_match_witness :
    op_BRANCH_CASETABLE 3
        { w := { acsVMs := [{ code := [3, 10, 100, 20, 200, 30, 300, 0] }] },
          this := { stack := [7, 30], vm := 0 }, ip := 0, stp := 2, count := 41 } =
      if (41 : Int) + 1 > 500000 then
        Outcome.action_endscript
          { w := doom_printf { acsVMs := [{ code := [3, 10, 100, 20, 200, 30, 300, 0] }] }
              "ACS Error: terminated runaway script",
            this := { stack := [7, 30], vm := 0 }, ip := 300, stp := 2 - 1, count := 41 + 1 }
      else
        Outcome.NEXTOP
          { w := { acsVMs := [{ code := [3, 10, 100, 20, 200, 30, 300, 0] }] },
            this := { stack := [7, 30], vm := 0 }, ip := 300, stp := 2 - 1, count := 41 + 1 } :=
  C1_casetable_match
    { w := { acsVMs := [{ code := [3, 10, 100, 20, 200, 30, 300, 0] }] },
      this := { stack := [7, 30], vm := 0 }, ip := 0, stp := 2, count := 41 }
    3 (by decide) (fun i => [10, 20, 30].getD i 0) (fun i => [100, 200, 300].getD i 0) 30
    (by decide) (by decide) (by decide)
    (by intro i j hij hj; interval_cases j <;> interval_cases i <;> decide) (by decide)
    2 (by decide) (by decide) 3 (by decide)

/-- C2: for a `BRANCH_CASETABLE` whose table (of any length `n`, the empty one included)
has no entry equal to the value on top of the operand stack, the search loop ends within
`n` rounds, the operand stack and the branch counter are as before, and `ip` is the word
that follows the last pair of the table. -/
theorem C2_casetable_fallthrough (e : Exec) (n : Nat) (val : Nat → Int) (top : Int)
    (hcount : memAt e.code e.ip = some (n : Int))
    (hval : ∀ i : Nat, i < n → memAt e.code (e.ip + 1 + 2 * (i : Int)) = some (val i))
    (ht : memAt e.this.stack (e.stp - 1) = some top)
    (hno : ∀ i : Nat, i < n → val i ≠ top) (fuel : Nat) (hfuel : n ≤ fuel) :
    op_BRANCH_CASETABLE fuel e = Outcome.NEXTOP { e with ip := e.ip + 1 + 2 * (n : Int) } := by
  unfold op_BRANCH_CASETABLE IPNEXT
  rw [hcount]
  simp only
  by_cases hn0 : (n : Int) = 0
  · rw [if_neg (by simpa using hn0)]
  · rw [if_pos hn0]
    have h := caseSearch_none { e with ip := e.ip + 1 + 2 * (n : Int) } (e.ip + 1) top n val
      hval ht hno fuel 0 n (by omega) (Nat.le_refl _) (by omega)
    simp only [Nat.cast_zero] at h
    rw [h]

theorem C2_casetable_fallthrough_witness :
    op_BRANCH_CASETABLE 3
        { w := { acsVMs := [{ code := [3, 10, 100, 20, 200, 30, 300, 0] }] },
          this := { stack := [7, 25], vm := 0 }, ip := 0, stp := 2, count := 41 } =
      Outcome.NEXTOP
        { w := { acsVMs := [{ code := [3, 10, 100, 20, 200, 30, 300, 0] }] },
          this := { stack := [7, 25], vm := 0 }, ip := 0 + 1 + 2 * ((3 : Nat) : Int), stp := 2,
          count := 41 } :=
  C2_casetable_fallthrough
    { w := { acsVMs := [{ code := [3, 10, 100, 20, 200, 30, 300, 0] }] },
      this := { stack := [7, 25], vm := 0 }, ip := 0, stp := 2, count := 41 }
    3 (fun i => [10, 20, 30].getD i 0) 25
    (by decide) (by decide) (by decide) (by decide) 3 (by decide)

/-! ## Division by zero -/

theorem scriptAt_setThreads_same (w : ACSWorld) (ref : Nat × Nat) (ts : List ACSThinker)
    (s : ACSScript) (h : w.scriptAt ref = some s) :
    (w.setThreads ref ts).scriptAt ref = some { s with threads := ts } := by
  unfold ACSWorld.scriptAt at h
  unfold ACSWorld.setThreads ACSWorld.scriptAt
  cases hm : w.acsVMs[ref.1]? with
  | none => rw [hm] at h; cases h
  | some m =>
    rw [hm] at h
    simp only at h ⊢
    rw [h]
    simp only
    have h1 : ref.1 < w.acsVMs.length := (List.getElem?_eq_some.mp hm).1
    have h2 : ref.2 < m.scripts.length := (List.getElem?_eq_some.mp h).1
    rw [List.getElem?_set_self h1]
    simp only
    rw [List.getElem?_set_self h2]

theorem scriptAt_setThreads_other (w : ACSWorld) (ref ref' : Nat × Nat) (ts : List ACSThinker)
    (hne : ref' ≠ ref) : (w.setThreads ref ts).scriptAt ref' = w.scriptAt ref' := by
  unfold ACSWorld.setThreads
  cases hm : w.acsVMs[ref.1]? with
  | none => rfl
  | some m =>
    simp only
    cases hs : m.scripts[ref.2]? with
    | none => rfl
    | some s =>
      simp only
      unfold ACSWorld.scriptAt
      simp only
      by_cases h1 : ref.1 = ref'.1
      · have h2 : ref.2 ≠ ref'.2 := by
          intro h2
          apply hne
          exact Prod.ext h1.symm h2.symm
        have hlt : ref.1 < w.acsVMs.length := (List.getElem?_eq_some.mp hm).1
        rw [← h1, List.getElem?_set_self hlt, hm]
        simp only
        rw [List.getElem?_set_ne h2]
      · rw [List.getElem?_set_ne h1]

theorem threadsOf_loops (w : ACSWorld) (number : Int) (name : Option (List Int))
    (ref : Nat × Nat) :
    (ACS_scriptFinished.loops w number name).threadsOf ref =
      (w.threadsOf ref).map (ACS_scriptFinished.wake w.GlobalStrings number name) := by
  unfold ACS_scriptFinished.loops ACSWorld.threadsOf ACSWorld.scriptAt
  simp only [List.getElem?_map]
  cases w.acsVMs[ref.1]? with
  | none => rfl
  | some m =>
    simp only [Option.map_some', List.getElem?_map]
    cases m.scripts[ref.2]? <;> rfl

theorem setThreads_GlobalStrings (w : ACSWorld) (ref : Nat × Nat) (ts : List ACSThinker) :
    (w.setThreads ref ts).GlobalStrings = w.GlobalStrings := by
  unfold ACSWorld.setThreads
  cases w.acsVMs[ref.1]? with
  | none => rfl
  | some m =>
    simp only
    cases m.scripts[ref.2]? <;> rfl

theorem threadsOf_setThreads (w : ACSWorld) (ref ref' : Nat × Nat) (ts : List ACSThinker)
    (s : ACSScript) (h : w.scriptAt ref = some s) :
    (w.setThreads ref ts).threadsOf ref' = if ref' = ref then ts else w.threadsOf ref' := by
  unfold ACSWorld.threadsOf
  by_cases hr : ref' = ref
  · subst hr
    rw [scriptAt_setThreads_same w _ ts s h, if_pos rfl]
  · rw [scriptAt_setThreads_other w ref ref' ts hr, if_neg hr]

/-- The thread lists after `ACS_stopScript`. -/
theorem ACS_stopScript_threads (w : ACSWorld) (thread : ACSThinker) (k : Nat) (s : ACSScript)
    (h : w.scriptAt thread.script = some s) (ref : Nat × Nat) :
    (ACS_stopScript w thread k).threadsOf ref =
      (if ref = thread.script then s.threads.eraseIdx k else w.threadsOf ref).map
        (fun th =>
          if s.threads.eraseIdx k = [] then
            ACS_scriptFinished.wake w.GlobalStrings s.number s.name th
          else th) := by
  have hth : w.threadsOf thread.script = s.threads := by
    unfold ACSWorld.threadsOf; rw [h]
  have hfin : ACS_stopScript w thread k =
      if s.threads.eraseIdx k ≠ [] then w.setThreads thread.script (s.threads.eraseIdx k)
      else ACS_scriptFinished.loops (w.setThreads thread.script (s.threads.eraseIdx k))
        s.number s.name := by
    unfold ACS_stopScript ACS_scriptFinished ACS_removeThread
    rw [hth, scriptAt_setThreads_same w _ _ s h]
  rw [hfin]
  by_cases hempty : s.threads.eraseIdx k = []
  · rw [if_neg (not_not.mpr hempty), threadsOf_loops, setThreads_GlobalStrings,
      threadsOf_setThreads w _ ref _ s h]
    simp only [hempty, if_true]
  · rw [if_pos hempty, threadsOf_setThreads w _ ref _ s h]
    simp only [hempty, if_false, List.map_id']

/-- The completion wake-up leaves a thread as it is or, when the thread waits on the
finished script, sets its state register to running and its wait datum to 0. -/
theorem wake_cases (G : List ACSString) (number : Int) (name : Option (List Int))
    (th : ACSThinker) :
    ACS_scriptFinished.wake G number name th = th ∨
    (ACS_scriptFinished.wake G number name th
        = { th with sreg := ACSState.ACS_STATE_RUNNING, sdata := 0 } ∧
      ((th.sreg = ACSState.ACS_STATE_WAITSCRIPTNUMBER ∧ th.sdata = number) ∨
       (th.sreg = ACSState.ACS_STATE_WAITSCRIPTNAME ∧ name.isSome = true ∧
        strcaseeq (ACSModule.GetString G th.sdata) (name.getD []) = true))) := by
  unfold ACS_scriptFinished.wake
  split
  · next h => exact Or.inr ⟨rfl, Or.inl h⟩
  · split
    · next h => exact Or.inr ⟨rfl, Or.inr h⟩
    · exact Or.inl rfl

/-- Every dividing instruction with a zero divisor on top of the stack pops it, puts
out the message and goes to `action_endscript`. -/
theorem div_zero (d : ACSArrayDims) (FixedDiv : Int → Int → Int) (op : DivOpcode) (e : Exec)
    (htop : memAt e.this.stack (e.stp - 1) = some 0) :
    op.exec d FixedDiv e =
      Outcome.action_endscript
        { e with stp := e.stp - 1, w := doom_printf e.w "ACS Error: divide by zero" } := by
  cases op <;>
    simp [DivOpcode.exec, DIVOP_GROUP, DIVOP_EQ, op_DIVX_STACK, POP, htop, DIV_CHECK]

/-- What `ACS_stopScript` leaves as it is: the printed text, the variables and arrays,
the code of every module. -/
theorem setThreads_frame (w : ACSWorld) (ref : Nat × Nat) (ts : List ACSThinker) :
    (w.setThreads ref ts).printed = w.printed ∧
    (w.setThreads ref ts).ACSworldvars = w.ACSworldvars ∧
    (w.setThreads ref ts).ACSworldarrs = w.ACSworldarrs ∧
    (w.setThreads ref ts).ACSglobalvars = w.ACSglobalvars ∧
    (w.setThreads ref ts).ACSglobalarrs = w.ACSglobalarrs ∧
    (w.setThreads ref ts).acsVMs.map (fun m => (m.code, m.mapvars, m.maparrs)) =
      w.acsVMs.map (fun m => (m.code, m.mapvars, m.maparrs)) := by
  unfold ACSWorld.setThreads
  cases hm : w.acsVMs[ref.1]? with
  | none => exact ⟨rfl, rfl, rfl, rfl, rfl, rfl⟩
  | some m =>
    simp only
    cases hsc : m.scripts[ref.2]? with
    | none => exact ⟨rfl, rfl, rfl, rfl, rfl, rfl⟩
    | some s =>
      refine ⟨rfl, rfl, rfl, rfl, rfl, ?_⟩
      simp only
      apply List.ext_getElem?
      intro n
      rw [List.getElem?_map, List.getElem?_map, List.getElem?_set]
      by_cases hn : ref.1 = n
      · subst hn
        rw [if_pos rfl, hm]
        have hlt : ref.1 < w.acsVMs.length := (List.getElem?_eq_some.mp hm).1
        rw [if_pos hlt]
        rfl
      · rw [if_neg hn]

theorem loops_frame (w : ACSWorld) (number : Int) (name : Option (List Int)) :
    (ACS_scriptFinished.loops w number name).printed = w.printed ∧
    (ACS_scriptFinished.loops w number name).ACSworldvars = w.ACSworldvars ∧
    (ACS_scriptFinished.loops w number name).ACSworldarrs = w.ACSworldarrs ∧
    (ACS_scriptFinished.loops w number name).ACSglobalvars = w.ACSglobalvars ∧
    (ACS_scriptFinished.loops w number name).ACSglobalarrs = w.ACSglobalarrs ∧
    (ACS_scriptFinished.loops w number name).acsVMs.map (fun m => (m.code, m.mapvars, m.maparrs))
      = w.acsVMs.map (fun m => (m.code, m.mapvars, m.maparrs)) := by
  refine ⟨rfl, rfl, rfl, rfl, rfl, ?_⟩
  unfold ACS_scriptFinished.loops
  simp only [List.map_map]
  rfl

theorem ACS_stopScript_frame (w : ACSWorld) (thread : ACSThinker) (k : Nat) :
    (ACS_stopScript w thread k).printed = w.printed ∧
    (ACS_stopScript w thread k).ACSworldvars = w.ACSworldvars ∧
    (ACS_stopScript w thread k).ACSworldarrs = w.ACSworldarrs ∧
    (ACS_stopScript w thread k).ACSglobalvars = w.ACSglobalvars ∧
    (ACS_stopScript w thread k).ACSglobalarrs = w.ACSglobalarrs ∧
    (ACS_stopScript w thread k).acsVMs.map (fun m => (m.code, m.mapvars, m.maparrs)) =
      w.acsVMs.map (fun m => (m.code, m.mapvars, m.maparrs)) := by
  have h1 := setThreads_frame w thread.script ((w.threadsOf thread.script).eraseIdx k)
  unfold ACS_stopScript ACS_scriptFinished ACS_removeThread
  split
  · exact h1
  · next script _ =>
    split
    · exact h1
    · have h2 := loops_frame
        (w.setThreads thread.script ((w.threadsOf thread.script).eraseIdx k))
        script.number script.name
      exact ⟨h2.1.trans h1.1, h2.2.1.trans h1.2.1, h2.2.2.1.trans h1.2.2.1,
        h2.2.2.2.1.trans h1.2.2.2.1, h2.2.2.2.2.1.trans h1.2.2.2.2.1,
        h2.2.2.2.2.2.trans h1.2.2.2.2.2⟩

/-- C10 (as stated, refuted): thread A, the only thread of script 1, executes `DIV_STACK`
with a zero divisor while thread B of script 2 waits on script number 1; stopping A wakes
B, whose state register and wait datum change. -/
theorem C10_counterexample :
    ACSWorld.threadsOf
      { acsVMs := [{ scripts :=
          [{ number := 1, threads := [{ stack := [6, 0], script := (0, 0),
                                        sreg := ACSState.ACS_STATE_RUNNING }] },
           { number := 2, threads := [{ sreg := ACSState.ACS_STATE_WAITSCRIPTNUMBER,
                                        sdata := 1, script := (0, 1) }] }] }] }
      (0, 1)
      = [{ sreg := ACSState.ACS_STATE_WAITSCRIPTNUMBER, sdata := 1, script := (0, 1) }] ∧
    ((DivOpcode.DIV OperandForm.STACK).exec (ACSArrayDims.mk 256 256 256 256) (fun _ _ => 0)
      { w := { acsVMs := [{ scripts :=
          [{ number := 1, threads := [{ stack := [6, 0], script := (0, 0),
                                        sreg := ACSState.ACS_STATE_RUNNING }] },
           { number := 2, threads := [{ sreg := ACSState.ACS_STATE_WAITSCRIPTNUMBER,
                                        sdata := 1, script := (0, 1) }] }] }] },
        this := { stack := [6, 0], script := (0, 0), sreg := ACSState.ACS_STATE_RUNNING },
        thisIdx := 0, ip := 0, stp := 2 }).finish.map (fun w => w.threadsOf (0, 1))
      = some [{ sreg := ACSState.ACS_STATE_RUNNING, sdata := 0, script := (0, 1) }] := by
  decide

/-- C10 (amended): every `DIV_*`, `MOD_*` and `DIVX_STACK` instruction executed with a
zero divisor on top of the operand stack puts out the divide-by-zero message and stops the
script: exactly the executing thread leaves its script's thread list; every other thread
keeps its place and all its fields, except that, when no thread of the script remains,
each thread that waits on the script's number or name gets state running and wait datum 0;
variables, arrays and code are as before. -/
theorem C10_div_zero (d : ACSArrayDims) (FixedDiv : Int → Int → Int) (op : DivOpcode)
    (e : Exec) (s : ACSScript)
    (htop : memAt e.this.stack (e.stp - 1) = some 0)
    (hs : e.w.scriptAt e.this.script = some s) (hidx : e.thisIdx < s.threads.length) :
    ∃ w1 : ACSWorld, (op.exec d FixedDiv e).finish = some w1 ∧
      w1.printed = e.w.printed ++ ["ACS Error: divide by zero"] ∧
      (w1.threadsOf e.this.script).length + 1 = s.threads.length ∧
      (∀ ref : Nat × Nat, w1.threadsOf ref =
        (if ref = e.this.script then s.threads.eraseIdx e.thisIdx else e.w.threadsOf ref).map
          (fun th =>
            if s.threads.eraseIdx e.thisIdx = [] then
              ACS_scriptFinished.wake e.w.GlobalStrings s.number s.name th
            else th)) ∧
      (∀ th : ACSThinker,
        ACS_scriptFinished.wake e.w.GlobalStrings s.number s.name th = th ∨
        (ACS_scriptFinished.wake e.w.GlobalStrings s.number s.name th
            = { th with sreg := ACSState.ACS_STATE_RUNNING, sdata := 0 } ∧
          ((th.sreg = ACSState.ACS_STATE_WAITSCRIPTNUMBER ∧ th.sdata = s.number) ∨
           (th.sreg = ACSState.ACS_STATE_WAITSCRIPTNAME ∧ s.name.isSome = true ∧
            strcaseeq (ACSModule.GetString e.w.GlobalStrings th.sdata) (s.name.getD [])
              = true)))) ∧
      w1.ACSworldvars = e.w.ACSworldvars ∧ w1.ACSworldarrs = e.w.ACSworldarrs ∧
      w1.ACSglobalvars = e.w.ACSglobalvars ∧ w1.ACSglobalarrs = e.w.ACSglobalarrs ∧
      w1.acsVMs.map (fun m => (m.code, m.mapvars, m.maparrs)) =
        e.w.acsVMs.map (fun m => (m.code, m.mapvars, m.maparrs)) := by
  rw [div_zero d FixedDiv op e htop]
  have hf := ACS_stopScript_frame (doom_printf e.w "ACS Error: divide by zero") e.this e.thisIdx
  have ht := ACS_stopScript_threads (doom_printf e.w "ACS Error: divide by zero") e.this
    e.thisIdx s hs
  refine ⟨_, rfl, hf.1, ?_, ht, wake_cases _ _ _, hf.2⟩
  have h1 := ht e.this.script
  simp only [Outcome.finish] at h1 ⊢
  rw [h1, List.length_map]
  simp only [if_true]
  rw [List.length_eraseIdx, if_pos hidx]
  omega

theorem C10_div_zero_witness :
    ∃ w1 : ACSWorld,
      ((DivOpcode.MOD OperandForm.WORLDARR).exec (ACSArrayDims.mk 256 256 256 256) (fun _ _ => 0)
        { w := { acsVMs := [{ scripts :=
            [{ number := 1, threads := [{ stack := [6, 0], script := (0, 0),
                                          sreg := ACSState.ACS_STATE_RUNNING }] },
             { number := 2, threads := [{ sreg := ACSState.ACS_STATE_WAITSCRIPTNUMBER,
                                          sdata := 1, script := (0, 1) }] }] }] },
          this := { stack := [6, 0], script := (0, 0), sreg := ACSState.ACS_STATE_RUNNING },
          thisIdx := 0, ip := 0, stp := 2 }).finish = some w1 ∧
      w1.printed = [] ++ ["ACS Error: divide by zero"] :=
  (C10_div_zero (ACSArrayDims.mk 256 256 256 256) (fun _ _ => 0)
    (DivOpcode.MOD OperandForm.WORLDARR)
    { w := { acsVMs := [{ scripts :=
        [{ number := 1, threads := [{ stack := [6, 0], script := (0, 0),
                                      sreg := ACSState.ACS_STATE_RUNNING }] },
         { number := 2, threads := [{ sreg := ACSState.ACS_STATE_WAITSCRIPTNUMBER,
                                      sdata := 1, script := (0, 1) }] }] }] },
      this := { stack := [6, 0], script := (0, 0), sreg := ACSState.ACS_STATE_RUNNING },
      thisIdx := 0, ip := 0, stp := 2 }
    { number := 1, threads := [{ stack := [6, 0], script := (0, 0),
                                 sreg := ACSState.ACS_STATE_RUNNING }] }
    (by decide) (by decide) (by decide)).imp (fun _ h => ⟨h.1, h.2.1⟩)

/-! ## Return with no call frame; which branches are counted -/

/-- C14: `BRANCH_RETURN` executed with an empty call-frame stack goes to
`action_endscript` with the very state it was entered with, which is what
`SCRIPT_TERMINATE` does: no frame is read and no field of the thread is changed. The
thread is then stopped: it leaves its script's thread list (every other thread keeps its
place, threads waiting on the script being woken when it was the last), and nothing is
put out. -/
theorem C14_return_empty (e : Exec) (s : ACSScript) (h : e.this.callPtr = 0)
    (hs : e.w.scriptAt e.this.script = some s) (hidx : e.thisIdx < s.threads.length) :
    op_BRANCH_RETURN e = op_SCRIPT_TERMINATE e ∧
    op_BRANCH_RETURN e = Outcome.action_endscript e ∧
    ∃ w1 : ACSWorld, (op_BRANCH_RETURN e).finish = some w1 ∧
      w1 = ACS_stopScript e.w e.this e.thisIdx ∧
      w1.printed = e.w.printed ∧
      (w1.threadsOf e.this.script).length + 1 = s.threads.length ∧
      (∀ ref : Nat × Nat, w1.threadsOf ref =
        (if ref = e.this.script then s.threads.eraseIdx e.thisIdx else e.w.threadsOf ref).map
          (fun th =>
            if s.threads.eraseIdx e.thisIdx = [] then
              ACS_scriptFinished.wake e.w.GlobalStrings s.number s.name th
            else th)) := by
  have hr : op_BRANCH_RETURN e = Outcome.action_endscript e := by
    unfold op_BRANCH_RETURN
    rw [if_pos h]
  have ht := ACS_stopScript_threads e.w e.this e.thisIdx s hs
  refine ⟨hr, hr, _, by rw [hr]; rfl, rfl, (ACS_stopScript_frame e.w e.this e.thisIdx).1, ?_, ht⟩
  rw [ht e.this.script, List.length_map]
  simp only [if_true]
  rw [List.length_eraseIdx, if_pos hidx]
  omega

theorem C14_return_empty_witness :
    op_BRANCH_RETURN
        { w := { acsVMs := [{ scripts := [{ number := 1, threads :=
            [{ stack := [6, 0], script := (0, 0), sreg := ACSState.ACS_STATE_RUNNING }] }] }] },
          this := { stack := [6, 0], script := (0, 0), sreg := ACSState.ACS_STATE_RUNNING },
          thisIdx := 0, ip := 1, stp := 2 } =
      op_SCRIPT_TERMINATE
        { w := { acsVMs := [{ scripts := [{ number := 1, threads :=
            [{ stack := [6, 0], script := (0, 0), sreg := ACSState.ACS_STATE_RUNNING }] }] }] },
          this := { stack := [6, 0], script := (0, 0), sreg := ACSState.ACS_STATE_RUNNING },
          thisIdx := 0, ip := 1, stp := 2 } :=
  (C14_return_empty
    { w := { acsVMs := [{ scripts := [{ number := 1, threads :=
        [{ stack := [6, 0], script := (0, 0), sreg := ACSState.ACS_STATE_RUNNING }] }] }] },
      this := { stack := [6, 0], script := (0, 0), sreg := ACSState.ACS_STATE_RUNNING },
      thisIdx := 0, ip := 1, stp := 2 }
    { number := 1, threads :=
        [{ stack := [6, 0], script := (0, 0), sreg := ACSState.ACS_STATE_RUNNING }] }
    (by decide) (by decide) (by decide)).1

/-- After `BRANCH_COUNT()` the counter is one higher, whether the rest runs or the
runaway limit ends the thread, when the rest leaves the counter alone. -/
theorem BRANCH_COUNT_exec (e : Exec) (k : Exec → Outcome) (e' : Exec)
    (hk : ∀ e1 e2 : Exec, (k e1).exec? = some e2 → e2.count = e1.count)
    (h : (BRANCH_COUNT e k).exec? = some e') : e'.count = e.count + 1 := by
  unfold BRANCH_COUNT at h
  split at h
  · simp only [Outcome.exec?, Option.some.injEq] at h
    rw [← h]
  · exact hk _ _ h

theorem NEXTOP_exec (e1 e2 : Exec) (h : (Outcome.NEXTOP e1).exec? = some e2) :
    e2.count = e1.count := by
  simp only [Outcome.exec?, Option.some.injEq] at h
  rw [← h]

theorem BRANCHOP_exec (e : Exec) (target : Int) (e' : Exec)
    (h : (BRANCHOP e target Outcome.NEXTOP).exec? = some e') : e'.count = e.count + 1 :=
  BRANCH_COUNT_exec { e with ip := target, ipVM := e.this.vm } _ e' NEXTOP_exec h

/-- The search loop of `BRANCH_CASETABLE` ends with the state it was entered with, or
with the tested value taken off the stack and the branch counted. -/
theorem caseSearch_exec (fuel : Nat) (e : Exec) (tbl caseBegin caseEnd : Int) (e' : Exec)
    (h : (caseSearch fuel e tbl caseBegin caseEnd).exec? = some e') :
    e' = e ∨ (e'.stp = e.stp - 1 ∧ e'.count = e.count + 1) := by
  induction fuel generalizing caseBegin caseEnd with
  | zero => simp [caseSearch, Outcome.exec?] at h
  | succ n ih =>
    unfold caseSearch at h
    simp only at h
    split at h
    · next value hv =>
      unfold PEEK at h
      split at h
      · next top ht =>
        simp only at h
        split at h
        · split at h
          · next target _ =>
            right
            have hc := BRANCHOP_exec (DECSTP e) target e' h
            refine ⟨?_, hc⟩
            unfold BRANCHOP BRANCH_COUNT at h
            split at h <;>
              · simp only [Outcome.exec?, Option.some.injEq] at h
                rw [← h]
                rfl
          · simp [Outcome.exec?] at h
        · split at h
          · simp only [Outcome.exec?, Option.some.injEq] at h
            exact Or.inl h.symm
          · split at h
            · exact ih _ _ h
            · exact ih _ _ h
      · simp [Outcome.exec?] at h
    · simp [Outcome.exec?] at h

/-- The body of a call behind a valid function pointer counts the branch. -/
theorem acs_op_call_exec (env : ACSEnv) (f : ACSFunc) (opcode : Int) (e e' : Exec)
    (h : (acs_op_call env (some f) opcode e).exec? = some e') : e'.count = e.count + 1 := by
  unfold acs_op_call at h
  simp only at h
  refine BRANCH_COUNT_exec e _ e' ?_ h
  intro e1 e2 h2
  simp only at h2
  split_ifs at h2 <;> first
    | (simp [Outcome.exec?] at h2; done)
    | (split at h2
       · simp only [Outcome.exec?, Option.some.injEq] at h2
         rw [← h2]
       · simp [Outcome.exec?] at h2)

theorem BRANCH_COUNT_defined (e : Exec) :
    ∃ e' : Exec, (BRANCH_COUNT e Outcome.NEXTOP).exec? = some e' ∧ e'.count = e.count + 1 := by
  unfold BRANCH_COUNT
  split
  · exact ⟨_, rfl, rfl⟩
  · exact ⟨_, rfl, rfl⟩

/-- C11 (as stated, refuted): a `BRANCH_RETURN` that pops a call frame transfers control
to the saved address and leaves the branch counter at 41; a `BRANCH_STACK` whose popped
jump index 7 is not below the number of jump targets (here none) transfers control to
the start of the code and leaves the counter at 41. -/
theorem C11_counterexample :
    op_BRANCH_RETURN
        { w := { acsVMs := [{ code := [0, 0, 0, 0] }] },
          this := { calls := [{ ip := 3, numLocals := 0, vm := 0 }], callPtr := 1 },
          ip := 1, stp := 0, count := 41 } =
      Outcome.NEXTOP
        { w := { acsVMs := [{ code := [0, 0, 0, 0] }] },
          this := { calls := [{ ip := 3, numLocals := 0, vm := 0 }], callPtr := 0 },
          ip := 3, stp := 0, count := 41 } ∧
    op_BRANCH_STACK
        { w := { acsVMs := [{ code := [0, 0, 0, 0], jumps := [] }] },
          this := { stack := [7] }, ip := 3, stp := 1, count := 41 } =
      Outcome.NEXTOP
        { w := { acsVMs := [{ code := [0, 0, 0, 0], jumps := [] }] },
          this := { stack := [7] }, ip := 0, stp := 0, count := 41 } := by
  decide

/-- C11 (amended): `BRANCH_IMM`, a taken `BRANCH_ZERO` or `BRANCH_NOTZERO`, a matched
`BRANCH_CASE`, a `BRANCH_STACK` whose popped jump index is below the number of jump
targets and `SCRIPT_RESTART` end with the branch counter one higher; so do a
`BRANCH_CASETABLE` that takes the tested value off the stack (it ends otherwise behind
its table with the counter as before) and a `BRANCH_CALL` or `BRANCH_CALL_IMM` of a
valid function, whenever they end at all. `BRANCH_RETURN` leaves the counter as it
is. -/
theorem C11_counted_branches (env : ACSEnv) (fuel : Nat) (e : Exec) :
    (∀ target : Int, memAt e.code e.ip = some target →
      ∃ e' : Exec, (op_BRANCH_IMM e).exec? = some e' ∧ e'.count = e.count + 1) ∧
    (∀ target : Int, memAt e.this.stack (e.stp - 1) = some 0 →
      memAt e.code e.ip = some target →
      ∃ e' : Exec, (op_BRANCH_ZERO e).exec? = some e' ∧ e'.count = e.count + 1) ∧
    (∀ v target : Int, v ≠ 0 → memAt e.this.stack (e.stp - 1) = some v →
      memAt e.code e.ip = some target →
      ∃ e' : Exec, (op_BRANCH_NOTZERO e).exec? = some e' ∧ e'.count = e.count + 1) ∧
    (∀ v target : Int, memAt e.this.stack (e.stp - 1) = some v →
      memAt e.code e.ip = some v → memAt e.code (e.ip + 1) = some target →
      ∃ e' : Exec, (op_BRANCH_CASE e).exec? = some e' ∧ e'.count = e.count + 1) ∧
    (∀ (opcode : Int) (vm : ACSModule), memAt e.this.stack (e.stp - 1) = some opcode →
      e.vm = some vm → u32 opcode < vm.jumps.length →
      ∃ e' : Exec, (op_BRANCH_STACK e).exec? = some e' ∧ e'.count = e.count + 1) ∧
    (∀ script : ACSScript, e.w.scriptAt e.this.script = some script →
      ∃ e' : Exec, (op_SCRIPT_RESTART e).exec? = some e' ∧ e'.count = e.count + 1) ∧
    (∀ (temp : Int) (e' : Exec), memAt e.code e.ip = some temp →
      (op_BRANCH_CASETABLE fuel e).exec? = some e' →
      e' = { e with ip := e.ip + 1 + 2 * temp } ∨
        (e'.stp = e.stp - 1 ∧ e'.count = e.count + 1)) ∧
    (∀ (opcode : Int) (f : ACSFunc) (e' : Exec),
      memAt e.this.stack (e.stp - 1) = some opcode →
      env.FindFunction e.w (u32 opcode) = some f →
      (op_BRANCH_CALL env e).exec? = some e' → e'.count = e.count + 1) ∧
    (∀ (opcode : Int) (vm : ACSModule) (f : ACSFunc) (e' : Exec),
      memAt e.code e.ip = some opcode → e.vm = some vm →
      vm.funcptrs[u32 opcode]? = some (some f) →
      (op_BRANCH_CALL_IMM env e).exec? = some e' → e'.count = e.count + 1) ∧
    (∀ e' : Exec, (op_BRANCH_RETURN e).exec? = some e' → e'.count = e.count) := by
  refine ⟨?_, ?_, ?_, ?_, ?_, ?_, ?_, ?_, ?_, ?_⟩
  · intro target hc
    unfold op_BRANCH_IMM IPCURR BRANCHOP
    rw [hc]
    exact BRANCH_COUNT_defined _
  · intro target ht hc
    unfold op_BRANCH_ZERO POP
    rw [ht]
    simp only [if_true]
    unfold IPCURR BRANCHOP
    simp only [Exec.code] at hc ⊢
    rw [hc]
    exact BRANCH_COUNT_defined _
  · intro v target hv ht hc
    unfold op_BRANCH_NOTZERO POP
    rw [ht]
    simp only [ne_eq, hv, not_false_eq_true, if_true]
    unfold IPCURR BRANCHOP
    simp only [Exec.code] at hc ⊢
    rw [hc]
    exact BRANCH_COUNT_defined _
  · intro v target ht hc hc1
    unfold op_BRANCH_CASE PEEK
    rw [ht]
    unfold IPNEXT
    simp only
    rw [hc]
    simp only [if_true]
    unfold IPCURR BRANCHOP DECSTP
    simp only [Exec.code] at hc1 ⊢
    rw [hc1]
    exact BRANCH_COUNT_defined _
  · intro opcode vm ht hvm hlt
    unfold op_BRANCH_STACK POP
    rw [ht]
    simp only [Exec.vm] at hvm ⊢
    rw [hvm]
    simp only [if_pos hlt]
    unfold BRANCH_COUNT
    rw [List.getElem?_eq_getElem hlt]
    split
    · exact ⟨_, rfl, rfl⟩
    · exact ⟨_, rfl, rfl⟩
  · intro script hs
    unfold op_SCRIPT_RESTART
    rw [hs]
    exact BRANCH_COUNT_defined _
  · intro temp e' hc h
    unfold op_BRANCH_CASETABLE IPNEXT at h
    rw [hc] at h
    simp only at h
    split at h
    · rcases caseSearch_exec _ _ _ _ _ _ h with h1 | h1
      · exact Or.inl h1
      · exact Or.inr h1
    · simp only [Outcome.exec?, Option.some.injEq] at h
      exact Or.inl h.symm
  · intro opcode f e' ht hf h
    unfold op_BRANCH_CALL POP at h
    rw [ht] at h
    simp only at h
    rw [hf] at h
    exact acs_op_call_exec env f opcode { e with stp := e.stp - 1 } e' h
  · intro opcode vm f e' hc hvm hf h
    unfold op_BRANCH_CALL_IMM IPNEXT at h
    rw [hc] at h
    simp only [Exec.vm] at hvm h
    rw [hvm] at h
    simp only at h
    have hlt : u32 opcode < vm.funcptrs.length := (List.getElem?_eq_some.mp hf).1
    rw [if_pos hlt, hf] at h
    exact acs_op_call_exec env f opcode { e with ip := e.ip + 1 } e' h
  · intro e' h
    unfold op_BRANCH_RETURN at h
    split at h
    · simp only [Outcome.exec?, Option.some.injEq] at h
      rw [← h]
    · split at h
      · simp only [Outcome.exec?, Option.some.injEq] at h
        rw [← h]
      · simp [Outcome.exec?] at h

theorem C11_counted_branches_witness :
    ∃ e' : Exec,
      (op_BRANCH_IMM
        { w := { acsVMs := [{ code := [0, 3, 0, 0] }] }, this := {}, ip := 1, stp := 0,
          count := 41 }).exec? = some e' ∧
      e'.count = 41 + 1 :=
  (C11_counted_branches ACSEnv.small 0
    { w := { acsVMs := [{ code := [0, 3, 0, 0] }] }, this := {}, ip := 1, stp := 0,
      count := 41 }).1 3 (by decide)

/-! ## The runaway limit -/

theorem delayCheck_count (w : ACSWorld) (this : ACSThinker) (k : Nat) (e : Exec)
    (h : Think.delayCheck w this k = ThinkStart.run e) : e.count = 0 := by
  unfold Think.delayCheck at h
  split at h
  · cases h
  · simp only [ThinkStart.run.injEq] at h
    rw [← h]

/-- The dispatch loop is entered with the branch counter at 0. -/
theorem begin_count (env : ACSEnv) (w : ACSWorld) (this : ACSThinker) (k : Nat) (e : Exec)
    (h : Think.begin env w this k = ThinkStart.run e) : e.count = 0 := by
  unfold Think.begin at h
  split at h
  · split at h
    · cases h
    · exact delayCheck_count _ _ _ _ h
    · cases h
  · exact delayCheck_count _ _ _ _ h
  · cases h
  · cases h

theorem counts_NEXTOP (c : Int) (e : Exec) (h : e.count = c) :
    (Outcome.NEXTOP e).counts c :=
  Or.inl (fun e1 h1 => by
    simp only [Outcome.exec?, Option.some.injEq] at h1
    rw [← h1, h])

theorem counts_endscript (c : Int) (e : Exec) (h : e.count = c) :
    (Outcome.action_endscript e).counts c :=
  Or.inl (fun e1 h1 => by
    simp only [Outcome.exec?, Option.some.injEq] at h1
    rw [← h1, h])

theorem counts_stop (c : Int) (e : Exec) (h : e.count = c) :
    (Outcome.action_stop e).counts c :=
  Or.inl (fun e1 h1 => by
    simp only [Outcome.exec?, Option.some.injEq] at h1
    rw [← h1, h])

theorem counts_undefined (c : Int) : Outcome.undefined.counts c :=
  Or.inl (fun e1 h1 => by simp [Outcome.exec?] at h1)

theorem counts_outOfFuel (c : Int) : Outcome.outOfFuel.counts c :=
  Or.inl (fun e1 h1 => by simp [Outcome.exec?] at h1)

theorem IPNEXT_counts (c : Int) (e : Exec) (k : Int → Exec → Outcome) (he : e.count = c)
    (hk : ∀ (v : Int) (y : Exec), y.count = c → (k v y).counts c) :
    (IPNEXT e k).counts c := by
  unfold IPNEXT
  split
  · exact hk _ _ he
  · exact counts_undefined c

theorem IPCURR_counts (c : Int) (e : Exec) (k : Int → Exec → Outcome) (he : e.count = c)
    (hk : ∀ (v : Int) (y : Exec), y.count = c → (k v y).counts c) :
    (IPCURR e k).counts c := by
  unfold IPCURR
  split
  · exact hk _ _ he
  · exact counts_undefined c

theorem POP_counts (c : Int) (e : Exec) (k : Int → Exec → Outcome) (he : e.count = c)
    (hk : ∀ (v : Int) (y : Exec), y.count = c → (k v y).counts c) :
    (POP e k).counts c := by
  unfold POP
  split
  · exact hk _ _ he
  · exact counts_undefined c

theorem PEEK_counts (c : Int) (e : Exec) (k : Int → Exec → Outcome) (he : e.count = c)
    (hk : ∀ (v : Int) (y : Exec), y.count = c → (k v y).counts c) :
    (PEEK e k).counts c := by
  unfold PEEK
  split
  · exact hk _ _ he
  · exact counts_undefined c

theorem PUSH_counts (c : Int) (e : Exec) (x : Int) (k : Exec → Outcome) (he : e.count = c)
    (hk : ∀ y : Exec, y.count = c → (k y).counts c) :
    (PUSH e x k).counts c := by
  unfold PUSH
  split
  · exact hk _ he
  · exact counts_undefined c

theorem DIV_CHECK_counts (c : Int) (v : Int) (e : Exec) (k : Exec → Outcome)
    (he : e.count = c) (hk : ∀ y : Exec, y.count = c → (k y).counts c) :
    (DIV_CHECK v e k).counts c := by
  unfold DIV_CHECK
  split
  · exact counts_endscript c _ he
  · exact hk _ he

/-- Macro `BRANCH_COUNT()` on the counter `c`, the rest going on to the next
instruction without touching the counter. -/
theorem BRANCH_COUNT_counts (c : Int) (x : Exec) (k : Exec → Outcome) (hx : x.count = c)
    (hk : ∀ y : Exec, y.count = c + 1 →
      k y = Outcome.undefined ∨ ∃ e1 : Exec, k y = Outcome.NEXTOP e1 ∧ e1.count = c + 1) :
    (BRANCH_COUNT x k).counts c := by
  unfold BRANCH_COUNT
  split
  · exact Or.inr (Or.inr ⟨by omega, x, hx, rfl⟩)
  · exact Or.inr (Or.inl ⟨by omega, hk _ (by simp only [hx])⟩)

theorem BRANCHOP_counts (c : Int) (e : Exec) (target : Int) (he : e.count = c) :
    (BRANCHOP e target Outcome.NEXTOP).counts c := by
  unfold BRANCHOP
  exact BRANCH_COUNT_counts c _ _ he (fun y hy => Or.inr ⟨y, rfl, hy⟩)

theorem updateOperand_counts (c : Int) (d : ACSArrayDims) (g : Int → Option Int)
    (form : OperandForm) (e : Exec) (he : e.count = c) :
    (updateOperand d g form e).counts c := by
  cases form <;> simp only [updateOperand]
  · split
    · exact counts_NEXTOP c _ he
    · exact counts_undefined c
  · refine IPNEXT_counts c e _ he (fun idx y hy => ?_)
    split
    · exact counts_NEXTOP c _ hy
    · exact counts_undefined c
  · refine IPNEXT_counts c e _ he (fun idx y hy => ?_)
    repeat' split
    all_goals first
      | exact counts_NEXTOP c _ hy
      | exact counts_undefined c
  · refine IPNEXT_counts c e _ he (fun idx y hy => ?_)
    split
    · exact counts_NEXTOP c _ hy
    · exact counts_undefined c
  · refine IPNEXT_counts c e _ he (fun idx y hy => ?_)
    split
    · exact counts_NEXTOP c _ hy
    · exact counts_undefined c
  · refine IPNEXT_counts c e _ he (fun idx y hy => POP_counts c y _ hy (fun addr z hz => ?_))
    repeat' split
    all_goals first
      | exact counts_NEXTOP c _ hz
      | exact counts_undefined c
  · refine IPNEXT_counts c e _ he (fun idx y hy => POP_counts c y _ hy (fun addr z hz => ?_))
    split
    · exact counts_NEXTOP c _ hz
    · exact counts_undefined c
  · refine IPNEXT_counts c e _ he (fun idx y hy => POP_counts c y _ hy (fun addr z hz => ?_))
    split
    · exact counts_NEXTOP c _ hz
    · exact counts_undefined c

theorem caseSearch_counts (c : Int) (fuel : Nat) :
    ∀ (e : Exec) (tbl caseBegin caseEnd : Int), e.count = c →
      (caseSearch fuel e tbl caseBegin caseEnd).counts c := by
  induction fuel with
  | zero => intro e tbl caseBegin caseEnd _; exact counts_outOfFuel c
  | succ n ih =>
    intro e tbl caseBegin caseEnd he
    unfold caseSearch
    simp only
    split
    · refine PEEK_counts c e _ he (fun top y hy => ?_)
      split
      · split
        · exact BRANCHOP_counts c _ _ hy
        · exact counts_undefined c
      · split
        · exact counts_NEXTOP c _ hy
        · split
          · exact ih _ _ _ _ hy
          · exact ih _ _ _ _ hy
    · exact counts_undefined c

theorem acs_op_call_counts (c : Int) (env : ACSEnv) (func : Option ACSFunc) (opcode : Int)
    (e : Exec) (he : e.count = c) : (acs_op_call env func opcode e).counts c := by
  unfold acs_op_call
  cases func with
  | none => exact counts_endscript c _ he
  | some f =>
    simp only
    refine BRANCH_COUNT_counts c e _ he (fun y hy => ?_)
    split_ifs <;> first
      | exact Or.inl rfl
      | (split
         · exact Or.inr ⟨_, rfl, hy⟩
         · exact Or.inl rfl)

/-- Every instruction whose body is embedded does to the branch counter what
`Outcome.counts` says, and so does any other instruction that leaves the counter
alone. -/
theorem exec_counts (env : ACSEnv) (dis : Dispatch) (fuel : Nat)
    (hother : ∀ (n : Nat) (x e1 : Exec), (dis.otherOp n x).exec? = some e1 →
      e1.count = x.count)
    (op : Opcode) (c : Int) (e : Exec) (he : e.count = c) :
    (op.exec env dis fuel e).counts c := by
  cases op <;> simp only [Opcode.exec]
  case NOP => exact counts_NEXTOP c _ he
  case KILL =>
    unfold op_KILL
    exact IPNEXT_counts c e _ he (fun _ y hy =>
      IPNEXT_counts c y _ hy (fun _ z hz => counts_endscript c _ hz))
  case GET_IMM =>
    unfold op_GET_IMM
    exact IPNEXT_counts c e _ he (fun _ y hy =>
      PUSH_counts c y _ _ hy (fun z hz => counts_NEXTOP c z hz))
  case STACK_DROP => exact counts_NEXTOP c _ he
  case DIVOP op =>
    cases op <;> simp only [DivOpcode.exec]
    · unfold DIVOP_GROUP DIVOP_EQ
      exact POP_counts c e _ he (fun _ y hy =>
        DIV_CHECK_counts c _ y _ hy (fun z hz => updateOperand_counts c _ _ _ z hz))
    · unfold DIVOP_GROUP DIVOP_EQ
      exact POP_counts c e _ he (fun _ y hy =>
        DIV_CHECK_counts c _ y _ hy (fun z hz => updateOperand_counts c _ _ _ z hz))
    · unfold op_DIVX_STACK
      exact POP_counts c e _ he (fun _ y hy =>
        DIV_CHECK_counts c _ y _ hy (fun z hz => updateOperand_counts c _ _ _ z hz))
  case BINOP op form =>
    unfold BINOP_GROUP
    exact POP_counts c e _ he (fun _ y hy => updateOperand_counts c _ _ _ y hy)
  case NEGATE_STACK =>
    unfold op_NEGATE_STACK
    exact updateOperand_counts c _ _ _ e he
  case BRANCH_CALL =>
    unfold op_BRANCH_CALL
    exact POP_counts c e _ he (fun _ y hy => acs_op_call_counts c env _ _ y hy)
  case BRANCH_CALL_IMM =>
    unfold op_BRANCH_CALL_IMM
    refine IPNEXT_counts c e _ he (fun _ y hy => ?_)
    simp only
    split
    · exact acs_op_call_counts c env _ _ y hy
    · exact counts_undefined c
  case BRANCH_CASE =>
    unfold op_BRANCH_CASE
    refine PEEK_counts c e _ he (fun _ y hy => IPNEXT_counts c y _ hy (fun _ z hz => ?_))
    split
    · exact IPCURR_counts c _ _ hz (fun _ u hu => BRANCHOP_counts c u _ hu)
    · exact counts_NEXTOP c _ hz
  case BRANCH_CASETABLE =>
    unfold op_BRANCH_CASETABLE
    refine IPNEXT_counts c e _ he (fun _ y hy => ?_)
    simp only
    split
    · exact caseSearch_counts c fuel _ _ _ _ hy
    · exact counts_NEXTOP c _ hy
  case BRANCH_IMM =>
    unfold op_BRANCH_IMM
    exact IPCURR_counts c e _ he (fun _ u hu => BRANCHOP_counts c u _ hu)
  case BRANCH_NOTZERO =>
    unfold op_BRANCH_NOTZERO
    refine POP_counts c e _ he (fun _ y hy => ?_)
    split
    · exact IPCURR_counts c y _ hy (fun _ u hu => BRANCHOP_counts c u _ hu)
    · exact counts_NEXTOP c _ hy
  case BRANCH_RETURN =>
    unfold op_BRANCH_RETURN
    split
    · exact counts_endscript c _ he
    · split
      · exact counts_NEXTOP c _ he
      · exact counts_undefined c
  case BRANCH_STACK =>
    unfold op_BRANCH_STACK
    refine POP_counts c e _ he (fun _ y hy => ?_)
    split
    · split
      · refine BRANCH_COUNT_counts c y _ hy (fun z hz => ?_)
        split
        · exact Or.inr ⟨_, rfl, hz⟩
        · exact Or.inl rfl
      · exact counts_NEXTOP c _ hy
    · exact counts_undefined c
  case BRANCH_ZERO =>
    unfold op_BRANCH_ZERO
    refine POP_counts c e _ he (fun _ y hy => ?_)
    split
    · exact IPCURR_counts c y _ hy (fun _ u hu => BRANCHOP_counts c u _ hu)
    · exact counts_NEXTOP c _ hy
  case SCRIPT_RESTART =>
    unfold op_SCRIPT_RESTART
    split
    · exact BRANCH_COUNT_counts c _ _ he (fun z hz => Or.inr ⟨z, rfl, hz⟩)
    · exact counts_undefined c
  case SCRIPT_SUSPEND => exact counts_stop c _ he
  case SCRIPT_TERMINATE => exact counts_endscript c _ he
  case other n => exact Or.inl (fun e1 h1 => (hother n e e1 h1).trans he)

/-- One round of the dispatch loop does to the branch counter what `Outcome.counts`
says. -/
theorem step_counts (env : ACSEnv) (dis : Dispatch) (fuel : Nat)
    (hother : ∀ (n : Nat) (x e1 : Exec), (dis.otherOp n x).exec? = some e1 →
      e1.count = x.count)
    (e : Exec) : (Think.step env dis fuel e).counts e.count := by
  unfold Think.step
  refine IPNEXT_counts e.count e _ rfl (fun opcode y hy => ?_)
  split
  · exact exec_counts env dis fuel hother _ _ y hy
  · split
    · exact counts_undefined _
    · exact counts_endscript _ _ hy

/-- The dispatch loop, entered with the counter within the limit: when it ends at a
label the counter is not lower than it was and at most 500001, and it is 500001
only when the loop has ended at `action_endscript` by the runaway limit, the
message put out. -/
theorem loop_counts (env : ACSEnv) (dis : Dispatch)
    (hother : ∀ (n : Nat) (x e1 : Exec), (dis.otherOp n x).exec? = some e1 →
      e1.count = x.count) :
    ∀ (fuel : Nat) (e e1 : Exec), e.count ≤ 500000 →
      (Think.loop env dis fuel e).exec? = some e1 →
      e.count ≤ e1.count ∧ e1.count ≤ 500001 ∧
      (e1.count = 500001 →
        ∃ x : Exec, x.count = 500000 ∧
          Think.loop env dis fuel e = Outcome.action_endscript
            { x with count := x.count + 1,
                     w := doom_printf x.w "ACS Error: terminated runaway script" }) := by
  intro fuel
  induction fuel with
  | zero => intro e e1 _ h; simp [Think.loop, Outcome.exec?] at h
  | succ n ih =>
    intro e e1 hle h
    have hs := step_counts env dis n hother e
    unfold Think.loop at h ⊢
    cases hstep : Think.step env dis n e with
    | NEXTOP e2 =>
      rw [hstep] at h hs
      simp only at h ⊢
      have h2 : e.count ≤ e2.count ∧ e2.count ≤ 500000 := by
        rcases hs with hs | ⟨hlt, hs⟩ | ⟨_, x, _, hs⟩
        · have := hs e2 rfl
          omega
        · rcases hs with hs | ⟨e3, hs, hc⟩
          · cases hs
          · cases hs
            omega
        · cases hs
      obtain ⟨h3, h4, h5⟩ := ih e2 e1 h2.2 h
      exact ⟨by omega, h4, h5⟩
    | action_endscript e2 =>
      rw [hstep] at h hs
      simp only [Outcome.exec?, Option.some.injEq] at h
      subst h
      simp only
      rcases hs with hs | ⟨hlt, hs⟩ | ⟨hge, x, hx, hs⟩
      · have := hs e2 rfl
        exact ⟨by omega, by omega, fun h5 => by omega⟩
      · rcases hs with hs | ⟨e3, hs, hc⟩ <;> cases hs
      · have hx5 : x.count = 500000 := by omega
        have h6 : e2.count = x.count + 1 := by
          simp only [Outcome.action_endscript.injEq] at hs
          rw [hs]
        exact ⟨by omega, by omega, fun _ => ⟨x, hx5, hs⟩⟩
    | action_stop e2 =>
      rw [hstep] at h hs
      simp only [Outcome.exec?, Option.some.injEq] at h
      subst h
      simp only
      rcases hs with hs | ⟨hlt, hs⟩ | ⟨hge, x, hx, hs⟩
      · have := hs e2 rfl
        exact ⟨by omega, by omega, fun h5 => by omega⟩
      · rcases hs with hs | ⟨e3, hs, hc⟩ <;> cases hs
      · cases hs
    | undefined =>
      rw [hstep] at h
      simp [Outcome.exec?] at h
    | outOfFuel =>
      rw [hstep] at h
      simp [Outcome.exec?] at h

/-- The loop `BRANCH_IMM 0` at offset 0 of a module, run by the dispatch loop from a
counter `c` within the limit: it ends at `action_endscript` when the counter has reached
500001, with the runaway message put out. -/
theorem runaway_loop (env : ACSEnv) (dis : Dispatch) (b : Int)
    (hb : dis.decode b = some Opcode.BRANCH_IMM) (n : Nat) :
    ∀ (c fuel : Nat), c + n = 500000 → n + 1 ≤ fuel →
      Think.loop env dis fuel
        { w := { acsVMs := [{ code := [b, 0] }] }, this := {}, ip := 0, stp := 0,
          count := (c : Int) } =
      Outcome.action_endscript
        { w := doom_printf { acsVMs := [{ code := [b, 0] }] }
            "ACS Error: terminated runaway script",
          this := {}, ip := 0, stp := 0, count := 500001 } := by
  induction n with
  | zero =>
    intro c fuel hc hf
    obtain ⟨m, rfl⟩ : ∃ m, fuel = m + 1 := ⟨fuel - 1, by omega⟩
    have hc1 : c = 500000 := by omega
    subst hc1
    unfold Think.loop
    simp [Think.step, IPNEXT, Exec.code, memAt, hb, Opcode.exec, op_BRANCH_IMM, IPCURR,
      BRANCHOP, BRANCH_COUNT]
  | succ n ih =>
    intro c fuel hc hf
    obtain ⟨m, rfl⟩ : ∃ m, fuel = m + 1 := ⟨fuel - 1, by omega⟩
    have hstep : Think.step env dis m
        { w := { acsVMs := [{ code := [b, 0] }] }, this := {}, ip := 0, stp := 0,
          count := (c : Int) } =
        Outcome.NEXTOP
          { w := { acsVMs := [{ code := [b, 0] }] }, this := {}, ip := 0, stp := 0,
            count := ((c + 1 : Nat) : Int) } := by
      have hlt : ¬ ((c : Int) + 1 > 500000) := by omega
      simp [Think.step, IPNEXT, Exec.code, memAt, hb, Opcode.exec, op_BRANCH_IMM, IPCURR,
        BRANCHOP, BRANCH_COUNT, hlt]
    unfold Think.loop
    rw [hstep]
    exact ih (c + 1) m (by omega) (by omega)


/-- C12: the dispatch loop of a scheduling step is entered with the branch counter at
0, the instructions that are not embedded leaving the counter alone. Every round
of the dispatch loop, whatever the instruction, leaves the counter as it is or
counts one branch: a branch counted at a counter below 500000 raises it by one
and does not end the thread, the instruction going on to the next one; a branch
counted at 500000, the 500001st, puts out the runaway message and goes to
`action_endscript`. So whenever the loop ends at a label the counter is between
0 and 500001, and it is 500001 exactly when the loop has been ended by the
runaway limit. At that end the thread is stopped (it leaves the thread list of
its script) and `Think` returns with the statics so changed. The loop
`BRANCH_IMM 0` is ended so at its 500001st branch. -/
theorem C12_runaway_limit (env : ACSEnv) (dis : Dispatch) (w : ACSWorld) (this : ACSThinker)
    (k : Nat) (e0 : Exec)
    (hstart : Think.begin env w this k = ThinkStart.run e0)
    (hother : ∀ (n : Nat) (x e1 : Exec), (dis.otherOp n x).exec? = some e1 →
      e1.count = x.count) :
    e0.count = 0 ∧
    (∀ (fuel : Nat) (e : Exec), (Think.step env dis fuel e).counts e.count) ∧
    (∀ (fuel : Nat) (e1 : Exec), (Think.loop env dis fuel e0).exec? = some e1 →
      0 ≤ e1.count ∧ e1.count ≤ 500001 ∧
      (e1.count = 500001 ↔
        ∃ x : Exec, x.count = 500000 ∧
          Think.loop env dis fuel e0 = Outcome.action_endscript
            { x with count := x.count + 1,
                     w := doom_printf x.w "ACS Error: terminated runaway script" })) ∧
    (∀ x : Exec,
      (Outcome.action_endscript
          { x with count := x.count + 1,
                   w := doom_printf x.w "ACS Error: terminated runaway script" }).finish =
        some (ACS_stopScript (doom_printf x.w "ACS Error: terminated runaway script")
          x.this x.thisIdx) ∧
      ∀ s : ACSScript, x.w.scriptAt x.this.script = some s →
        x.thisIdx < s.threads.length →
        (ACS_stopScript (doom_printf x.w "ACS Error: terminated runaway script")
          x.this x.thisIdx).printed
            = x.w.printed ++ ["ACS Error: terminated runaway script"] ∧
        ((ACS_stopScript (doom_printf x.w "ACS Error: terminated runaway script")
          x.this x.thisIdx).threadsOf x.this.script).length + 1 = s.threads.length) ∧
    (∀ (b : Int) (fuel : Nat), dis.decode b = some Opcode.BRANCH_IMM →
      500001 ≤ fuel →
      Think.loop env dis fuel
        { w := { acsVMs := [{ code := [b, 0] }] }, this := {}, ip := 0, stp := 0, count := 0 } =
      Outcome.action_endscript
        { w := doom_printf { acsVMs := [{ code := [b, 0] }] }
            "ACS Error: terminated runaway script",
          this := {}, ip := 0, stp := 0, count := 500001 }) := by
  have h0 := begin_count env w this k e0 hstart
  refine ⟨h0, fun fuel e => step_counts env dis fuel hother e, ?_, ?_, fun b fuel hb hf =>
    runaway_loop env dis b hb 500000 0 fuel (by omega) (by omega)⟩
  · intro fuel e1 h1
    obtain ⟨h2, h3, h4⟩ := loop_counts env dis hother fuel e0 e1 (by omega) h1
    refine ⟨by omega, h3, h4, ?_⟩
    rintro ⟨x, hx, hl⟩
    rw [hl] at h1
    simp only [Outcome.exec?, Option.some.injEq] at h1
    rw [← h1]
    simp only
    omega
  · intro x
    refine ⟨rfl, ?_⟩
    intro s hs hidx
    have hf := ACS_stopScript_frame (doom_printf x.w "ACS Error: terminated runaway script")
      x.this x.thisIdx
    have ht := ACS_stopScript_threads (doom_printf x.w "ACS Error: terminated runaway script")
      x.this x.thisIdx s hs x.this.script
    refine ⟨hf.1, ?_⟩
    rw [ht, List.length_map]
    simp only [if_true]
    rw [List.length_eraseIdx, if_pos hidx]
    omega

theorem C12_runaway_limit_witness :
    (Think.step ACSEnv.small
      (Dispatch.mk (fun n => [Opcode.NOP, Opcode.GET_IMM, Opcode.BRANCH_IMM][n.toNat]?)
        (fun _ e => Outcome.NEXTOP e) false) 0
      { w := { acsVMs := [{ code := [2, 0] }] }, this := {}, ip := 0, stp := 0,
        count := 500000 }).counts 500000 ∧
    Think.loop ACSEnv.small
      (Dispatch.mk (fun n => [Opcode.NOP, Opcode.GET_IMM, Opcode.BRANCH_IMM][n.toNat]?)
        (fun _ e => Outcome.NEXTOP e) false) 500001
      { w := { acsVMs := [{ code := [2, 0] }] }, this := {}, ip := 0, stp := 0, count := 0 } =
    Outcome.action_endscript
      { w := doom_printf { acsVMs := [{ code := [2, 0] }] }
          "ACS Error: terminated runaway script",
        this := {}, ip := 0, stp := 0, count := 500001 } :=
  ⟨(C12_runaway_limit ACSEnv.small
      (Dispatch.mk (fun n => [Opcode.NOP, Opcode.GET_IMM, Opcode.BRANCH_IMM][n.toNat]?)
        (fun _ e => Outcome.NEXTOP e) false)
      { acsVMs := [{ code := [2, 0], scripts := [{ number := 1, threads :=
          [{ sreg := ACSState.ACS_STATE_RUNNING }] }] }] }
      { sreg := ACSState.ACS_STATE_RUNNING } 0
      { w := { acsVMs := [{ code := [2, 0], scripts := [{ number := 1, threads :=
          [{ sreg := ACSState.ACS_STATE_RUNNING }] }] }] },
        this := { sreg := ACSState.ACS_STATE_RUNNING }, thisIdx := 0, ip := 0, stp := 0,
        count := 0 }
      (by decide)
      (fun _ x e1 h => by
        simp only [Outcome.exec?, Option.some.injEq] at h
        rw [← h])).2.1 0
      { w := { acsVMs := [{ code := [2, 0] }] }, this := {}, ip := 0, stp := 0,
        count := 500000 },
   (C12_runaway_limit ACSEnv.small
      (Dispatch.mk (fun n => [Opcode.NOP, Opcode.GET_IMM, Opcode.BRANCH_IMM][n.toNat]?)
        (fun _ e => Outcome.NEXTOP e) false)
      { acsVMs := [{ code := [2, 0], scripts := [{ number := 1, threads :=
          [{ sreg := ACSState.ACS_STATE_RUNNING }] }] }] }
      { sreg := ACSState.ACS_STATE_RUNNING } 0
      { w := { acsVMs := [{ code := [2, 0], scripts := [{ number := 1, threads :=
          [{ sreg := ACSState.ACS_STATE_RUNNING }] }] }] },
        this := { sreg := ACSState.ACS_STATE_RUNNING }, thisIdx := 0, ip := 0, stp := 0,
        count := 0 }
      (by decide)
      (fun _ x e1 h => by
        simp only [Outcome.exec?, Option.some.injEq] at h
        rw [← h])).2.2.2.2 2 500001 (by decide) (by decide)⟩

/-! ## The end of a scheduling step (C13) -/

theorem uncounted_step1 (env : ACSEnv) (dis : Dispatch) (a b : Int)
    (ha : dis.decode a = some Opcode.GET_IMM) (fuel : Nat) (x : Int) :
    Think.step env dis fuel
        { w := { acsVMs := [{ code := [a, 7, b] }] },
          this := { stack := [x], sreg := ACSState.ACS_STATE_RUNNING }, ip := 0, stp := 0 } =
      Outcome.NEXTOP
        { w := { acsVMs := [{ code := [a, 7, b] }] },
          this := { stack := [7], sreg := ACSState.ACS_STATE_RUNNING }, ip := 2, stp := 1 } := by
  simp [Think.step, IPNEXT, Exec.code, memAt, ha, Opcode.exec, op_GET_IMM, PUSH, memSet]

theorem uncounted_step2 (env : ACSEnv) (dis : Dispatch) (a b : Int)
    (hb : dis.decode b = some Opcode.BRANCH_STACK) (fuel : Nat) :
    Think.step env dis fuel
        { w := { acsVMs := [{ code := [a, 7, b] }] },
          this := { stack := [7], sreg := ACSState.ACS_STATE_RUNNING }, ip := 2, stp := 1 } =
      Outcome.NEXTOP
        { w := { acsVMs := [{ code := [a, 7, b] }] },
          this := { stack := [7], sreg := ACSState.ACS_STATE_RUNNING }, ip := 0, stp := 0 } := by
  simp [Think.step, IPNEXT, Exec.code, memAt, hb, Opcode.exec, op_BRANCH_STACK, POP, Exec.vm]

/-- The code `GET_IMM 7; BRANCH_STACK` of a module without jump targets, entered at
its first word with room for one stack value, never leaves the dispatch loop. -/
theorem uncounted_loop (env : ACSEnv) (dis : Dispatch) (a b : Int)
    (ha : dis.decode a = some Opcode.GET_IMM) (hb : dis.decode b = some Opcode.BRANCH_STACK)
    (fuel : Nat) :
    ∀ x : Int,
      Think.loop env dis fuel
        { w := { acsVMs := [{ code := [a, 7, b] }] },
          this := { stack := [x], sreg := ACSState.ACS_STATE_RUNNING }, ip := 0, stp := 0 } =
        Outcome.outOfFuel := by
  induction fuel using Nat.strong_induction_on with
  | _ n ih =>
    intro x
    match n with
    | 0 => rfl
    | 1 =>
      unfold Think.loop
      rw [uncounted_step1 env dis a b ha]
      rfl
    | m + 2 =>
      unfold Think.loop
      rw [uncounted_step1 env dis a b ha]
      simp only
      unfold Think.loop
      rw [uncounted_step2 env dis a b hb]
      exact ih m (by omega) 7

/-- C13, counterexample: the code `GET_IMM 7; BRANCH_STACK` (the words 1, 7, 2) of a
module without jump targets, entered at its first word by a running thread with
no delay and room for one stack value. `BRANCH_STACK` takes the 7 off the stack,
which is no index of a jump target, and sets `ip` to the start of the code
without counting a branch. The dispatch loop is entered with the counter at 0
and is never left: however many instructions are allowed, the loop is still
running. -/
theorem C13_counterexample :
    Think.begin ACSEnv.small { acsVMs := [{ code := [1, 7, 2] }] }
        { stack := [0], sreg := ACSState.ACS_STATE_RUNNING } 0 =
      ThinkStart.run
        { w := { acsVMs := [{ code := [1, 7, 2] }] },
          this := { stack := [0], sreg := ACSState.ACS_STATE_RUNNING }, ip := 0, stp := 0,
          count := 0 } ∧
    ∀ fuel : Nat,
      Think.loop ACSEnv.small
        (Dispatch.mk
          (fun n =>
            if n = 1 then some Opcode.GET_IMM
            else if n = 2 then some Opcode.BRANCH_STACK
            else if n = 3 then some Opcode.KILL else none)
          (fun _ e => Outcome.NEXTOP e) false) fuel
        { w := { acsVMs := [{ code := [1, 7, 2] }] },
          this := { stack := [0], sreg := ACSState.ACS_STATE_RUNNING }, ip := 0, stp := 0,
          count := 0 } = Outcome.outOfFuel :=
  ⟨rfl, fun fuel => uncounted_loop ACSEnv.small _ 1 2 rfl rfl fuel 0⟩

theorem code_eq_codes (e : Exec) : e.code = (e.w.codes[e.ipVM]?).getD [] := by
  unfold Exec.code ACSWorld.codes
  rw [List.getElem?_map]
  cases e.w.acsVMs[e.ipVM]? <;> rfl

theorem code_mem_codes (e : Exec) (h : e.code ≠ []) : e.code ∈ e.w.codes := by
  rw [code_eq_codes] at h ⊢
  cases hc : e.w.codes[e.ipVM]? with
  | none => rw [hc] at h; exact absurd rfl h
  | some cd => exact List.mem_iff_getElem?.mpr ⟨_, hc⟩

theorem code_congr (e e1 : Exec) (hc : e1.w.codes = e.w.codes) (hv : e1.ipVM = e.ipVM) :
    e1.code = e.code := by
  rw [code_eq_codes, code_eq_codes, hc, hv]

theorem memAt_range (buf : List Int) (i v : Int) (h : memAt buf i = some v) :
    0 ≤ i ∧ i < buf.length ∧ buf[i.toNat]? = some v := by
  unfold memAt at h
  split at h
  · next h0 =>
    have hlt := (List.getElem?_eq_some.mp h).1
    exact ⟨h0, by omega, h⟩
  · cases h

/-- Replacing a module by one with the same code leaves the code buffers. -/
theorem codes_set (w : ACSWorld) (i : Nat) (m m1 : ACSModule) (hm : w.acsVMs[i]? = some m)
    (hc : m1.code = m.code) :
    ({ w with acsVMs := w.acsVMs.set i m1 } : ACSWorld).codes = w.codes := by
  unfold ACSWorld.codes
  simp only
  apply List.ext_getElem?
  intro j
  rw [List.getElem?_map, List.getElem?_map, List.getElem?_set]
  split
  · next hij =>
    subst hij
    split
    · rw [hm]
      simp [hc]
    · next hlt =>
      rw [List.getElem?_eq_none (by omega)]
  · rfl

theorem progress_NEXTOP (e0 e : Exec) (h : Exec.inside e0 e) :
    (Outcome.NEXTOP e).progress e0 :=
  Or.inr (Or.inr (Or.inr ⟨e, rfl, h.2.2.2.2,
    Or.inr (Or.inr (Or.inl ⟨h.1, h.2.1, h.2.2.1, h.2.2.2.1⟩))⟩))

theorem progress_endscript (e0 e : Exec) : (Outcome.action_endscript e).progress e0 :=
  Or.inr (Or.inl ⟨e, rfl⟩)

theorem progress_stop (e0 e : Exec) : (Outcome.action_stop e).progress e0 :=
  Or.inr (Or.inr (Or.inl ⟨e, rfl⟩))

theorem progress_undefined (e0 : Exec) : Outcome.undefined.progress e0 := Or.inl rfl

theorem IPNEXT_progress (e0 e : Exec) (k : Int → Exec → Outcome) (he : Exec.inside e0 e)
    (hk : ∀ (v : Int) (y : Exec), Exec.inside e0 y → (k v y).progress e0) :
    (IPNEXT e k).progress e0 := by
  unfold IPNEXT
  split
  · refine hk _ _ ⟨he.1, he.2.1, he.2.2.1, ?_, he.2.2.2.2⟩
    have := he.2.2.2.1
    show e0.ip < e.ip + 1
    omega
  · exact progress_undefined e0

theorem IPCURR_progress (e0 e : Exec) (k : Int → Exec → Outcome) (he : Exec.inside e0 e)
    (hk : ∀ (v : Int) (y : Exec), Exec.inside e0 y → (k v y).progress e0) :
    (IPCURR e k).progress e0 := by
  unfold IPCURR
  split
  · exact hk _ _ he
  · exact progress_undefined e0

theorem POP_progress (e0 e : Exec) (k : Int → Exec → Outcome) (he : Exec.inside e0 e)
    (hk : ∀ (v : Int) (y : Exec), Exec.inside e0 y → (k v y).progress e0) :
    (POP e k).progress e0 := by
  unfold POP
  split
  · exact hk _ _ he
  · exact progress_undefined e0

theorem PEEK_progress (e0 e : Exec) (k : Int → Exec → Outcome) (he : Exec.inside e0 e)
    (hk : ∀ (v : Int) (y : Exec), Exec.inside e0 y → (k v y).progress e0) :
    (PEEK e k).progress e0 := by
  unfold PEEK
  split
  · exact hk _ _ he
  · exact progress_undefined e0

theorem PUSH_progress (e0 e : Exec) (x : Int) (k : Exec → Outcome) (he : Exec.inside e0 e)
    (hk : ∀ y : Exec, Exec.inside e0 y → (k y).progress e0) :
    (PUSH e x k).progress e0 := by
  unfold PUSH
  split
  · exact hk _ he
  · exact progress_undefined e0

theorem DIV_CHECK_progress (e0 : Exec) (v : Int) (e : Exec) (k : Exec → Outcome)
    (he : Exec.inside e0 e) (hk : ∀ y : Exec, Exec.inside e0 y → (k y).progress e0) :
    (DIV_CHECK v e k).progress e0 := by
  unfold DIV_CHECK
  split
  · exact progress_endscript e0 _
  · exact hk _ he

/-- Macro `BRANCH_COUNT()` in the instruction that began in `e0`, the rest going on
to the next instruction without touching the counter or the code. -/
theorem BRANCH_COUNT_progress (e0 x : Exec) (k : Exec → Outcome) (hx : x.count = e0.count)
    (hw : x.w.codes = e0.w.codes)
    (hk : ∀ y : Exec, y.count = e0.count + 1 → y.w.codes = e0.w.codes →
      k y = Outcome.undefined ∨
        ∃ e1 : Exec, k y = Outcome.NEXTOP e1 ∧ e1.count = e0.count + 1 ∧
          e1.w.codes = e0.w.codes) :
    (BRANCH_COUNT x k).progress e0 := by
  unfold BRANCH_COUNT
  split
  · exact progress_endscript e0 _
  · next hlim =>
    rcases hk { x with count := x.count + 1 } (by simp only [hx]) hw with h | ⟨e1, h, hc, hcw⟩
    · rw [h]
      exact progress_undefined e0
    · rw [h]
      exact Or.inr (Or.inr (Or.inr ⟨e1, rfl, hcw, Or.inl ⟨by omega, hc⟩⟩))

theorem BRANCHOP_progress (e0 e : Exec) (target : Int) (he : Exec.inside e0 e) :
    (BRANCHOP e target Outcome.NEXTOP).progress e0 := by
  unfold BRANCHOP
  exact BRANCH_COUNT_progress e0 _ _ he.1 he.2.2.2.2 (fun y hy hw => Or.inr ⟨y, rfl, hy, hw⟩)

theorem updateOperand_progress (e0 : Exec) (d : ACSArrayDims) (g : Int → Option Int)
    (form : OperandForm) (e : Exec) (he : Exec.inside e0 e) :
    (updateOperand d g form e).progress e0 := by
  cases form <;> simp only [updateOperand]
  · split
    · exact progress_NEXTOP e0 _ he
    · exact progress_undefined e0
  · refine IPNEXT_progress e0 e _ he (fun idx y hy => ?_)
    split
    · exact progress_NEXTOP e0 _ hy
    · exact progress_undefined e0
  · refine IPNEXT_progress e0 e _ he (fun idx y hy => ?_)
    split
    · split
      · next ptr _ =>
        split
        · next m hm =>
          split
          · exact progress_NEXTOP e0 _ ⟨hy.1, hy.2.1, hy.2.2.1, hy.2.2.2.1,
              (codes_set _ _ m _ hm (by rfl)).trans hy.2.2.2.2⟩
          · exact progress_undefined e0
        · exact progress_undefined e0
      · exact progress_undefined e0
    · exact progress_undefined e0
  · refine IPNEXT_progress e0 e _ he (fun idx y hy => ?_)
    split
    · exact progress_NEXTOP e0 _ hy
    · exact progress_undefined e0
  · refine IPNEXT_progress e0 e _ he (fun idx y hy => ?_)
    split
    · exact progress_NEXTOP e0 _ hy
    · exact progress_undefined e0
  · refine IPNEXT_progress e0 e _ he (fun idx y hy =>
      POP_progress e0 y _ hy (fun addr z hz => ?_))
    split
    · split
      · next ptr _ =>
        split
        · next m hm =>
          split
          · exact progress_NEXTOP e0 _ ⟨hz.1, hz.2.1, hz.2.2.1, hz.2.2.2.1,
              (codes_set _ _ m _ hm (by rfl)).trans hz.2.2.2.2⟩
          · exact progress_undefined e0
        · exact progress_undefined e0
      · exact progress_undefined e0
    · exact progress_undefined e0
  · refine IPNEXT_progress e0 e _ he (fun idx y hy =>
      POP_progress e0 y _ hy (fun addr z hz => ?_))
    split
    · exact progress_NEXTOP e0 _ hz
    · exact progress_undefined e0
  · refine IPNEXT_progress e0 e _ he (fun idx y hy =>
      POP_progress e0 y _ hy (fun addr z hz => ?_))
    split
    · exact progress_NEXTOP e0 _ hz
    · exact progress_undefined e0

theorem acs_op_call_progress (e0 : Exec) (env : ACSEnv) (func : Option ACSFunc) (opcode : Int)
    (e : Exec) (he : Exec.inside e0 e) : (acs_op_call env func opcode e).progress e0 := by
  unfold acs_op_call
  cases func with
  | none => exact progress_endscript e0 _
  | some f =>
    refine BRANCH_COUNT_progress e0 e _ he.1 he.2.2.2.2 (fun y hy hw => ?_)
    simp only
    split_ifs <;> first
      | exact Or.inl rfl
      | (split
         · exact Or.inr ⟨_, rfl, hy, hw⟩
         · exact Or.inl rfl)

/-- The search loop of `BRANCH_CASETABLE` over a table part of at least one pair
ends within as many rounds as the part has pairs, and the result does not
depend on how many more rounds are allowed. -/
theorem caseSearch_progress (e0 : Exec) :
    ∀ (n : Nat) (e : Exec) (tbl b en : Int), Exec.inside e0 e → 1 ≤ en - b → en - b ≤ n →
      ∃ out : Outcome, (∀ f : Nat, n ≤ f → caseSearch f e tbl b en = out) ∧
        out.progress e0 := by
  intro n
  induction n with
  | zero =>
    intro e tbl b en _ h1 h2
    simp only [Nat.cast_zero] at h2
    omega
  | succ n ih =>
    intro e tbl b en he h1 h2
    simp only [Nat.cast_add, Nat.cast_one] at h2
    have hdiv : Int.tdiv (en - b) 2 = (en - b) / 2 :=
      Int.tdiv_eq_ediv (by omega) (by omega)
    have hsucc : ∀ f : Nat, n + 1 ≤ f → ∃ f', f = f' + 1 ∧ n ≤ f' :=
      fun f hf => ⟨f - 1, by omega, by omega⟩
    cases hv : memAt e.code (tbl + 2 * (b + (en - b) / 2)) with
    | none =>
      refine ⟨Outcome.undefined, fun f hf => ?_, progress_undefined e0⟩
      obtain ⟨f', rfl, _⟩ := hsucc f hf
      rw [caseSearch]
      simp only [hdiv, hv]
    | some value =>
      cases ht : memAt e.this.stack (e.stp - 1) with
      | none =>
        refine ⟨Outcome.undefined, fun f hf => ?_, progress_undefined e0⟩
        obtain ⟨f', rfl, _⟩ := hsucc f hf
        rw [caseSearch]
        simp only [hdiv, hv, PEEK, ht]
      | some top =>
        by_cases heq : value = top
        · cases hg : memAt e.code (tbl + 2 * (b + (en - b) / 2) + 1) with
          | none =>
            refine ⟨Outcome.undefined, fun f hf => ?_, progress_undefined e0⟩
            obtain ⟨f', rfl, _⟩ := hsucc f hf
            rw [caseSearch]
            simp only [hdiv, hv, PEEK, ht, if_pos heq, hg]
          | some target =>
            refine ⟨BRANCHOP (DECSTP e) target Outcome.NEXTOP, fun f hf => ?_,
              BRANCHOP_progress e0 (DECSTP e) target he⟩
            obtain ⟨f', rfl, _⟩ := hsucc f hf
            rw [caseSearch]
            simp only [hdiv, hv, PEEK, ht, if_pos heq, hg]
        · by_cases hone : en - b = 1
          · refine ⟨Outcome.NEXTOP e, fun f hf => ?_, progress_NEXTOP e0 e he⟩
            obtain ⟨f', rfl, _⟩ := hsucc f hf
            rw [caseSearch]
            simp only [hdiv, hv, PEEK, ht, if_neg heq, if_pos hone]
          · by_cases hlt : value < top
            · obtain ⟨out, hout, hp⟩ := ih e tbl (b + (en - b) / 2) en he (by omega) (by omega)
              refine ⟨out, fun f hf => ?_, hp⟩
              obtain ⟨f', rfl, hf'⟩ := hsucc f hf
              rw [caseSearch]
              simp only [hdiv, hv, PEEK, ht, if_neg heq, if_neg hone, if_pos hlt]
              exact hout f' hf'
            · obtain ⟨out, hout, hp⟩ := ih e tbl b (b + (en - b) / 2) he (by omega) (by omega)
              refine ⟨out, fun f hf => ?_, hp⟩
              obtain ⟨f', rfl, hf'⟩ := hsucc f hf
              rw [caseSearch]
              simp only [hdiv, hv, PEEK, ht, if_neg heq, if_neg hone, if_neg hlt]
              exact hout f' hf'

/-- Instruction `BRANCH_CASETABLE` with a count of cases that is not negative. -/
theorem op_BRANCH_CASETABLE_progress (e0 e : Exec) (he : Exec.inside e0 e)
    (hcase : ∀ t : Int, memAt e.code e.ip = some t → 0 ≤ t) :
    ∃ (N : Nat) (out : Outcome), (∀ f : Nat, N ≤ f → op_BRANCH_CASETABLE f e = out) ∧
      out.progress e0 := by
  cases hm : memAt e.code e.ip with
  | none =>
    refine ⟨0, Outcome.undefined, fun f _ => ?_, progress_undefined e0⟩
    unfold op_BRANCH_CASETABLE IPNEXT
    rw [hm]
  | some temp =>
    have h0 := hcase temp hm
    have hin : Exec.inside e0 { e with ip := e.ip + 1 + 2 * temp } := by
      refine ⟨he.1, he.2.1, he.2.2.1, ?_, he.2.2.2.2⟩
      have := he.2.2.2.1
      show e0.ip < e.ip + 1 + 2 * temp
      omega
    by_cases ht : temp ≠ 0
    · obtain ⟨out, hout, hp⟩ := caseSearch_progress e0 temp.toNat
        { e with ip := e.ip + 1 + 2 * temp } (e.ip + 1) 0 temp hin (by omega) (by omega)
      refine ⟨temp.toNat, out, fun f hf => ?_, hp⟩
      unfold op_BRANCH_CASETABLE IPNEXT
      rw [hm]
      simp only [if_pos ht]
      exact hout f hf
    · refine ⟨0, Outcome.NEXTOP { e with ip := e.ip + 1 + 2 * temp }, fun f _ => ?_,
        progress_NEXTOP e0 _ hin⟩
      unfold op_BRANCH_CASETABLE IPNEXT
      rw [hm]
      simp only [if_neg ht]

/-- Every embedded instruction but `BRANCH_CASETABLE` ends as `Outcome.progress` says,
and so does any other instruction that ends or goes on with counter, call frames,
module and code as they were and `ip` not moved back. -/
theorem exec_progress (env : ACSEnv) (dis : Dispatch) (fuel : Nat)
    (hother : ∀ (n : Nat) (x : Exec), dis.otherOp n x ≠ Outcome.outOfFuel ∧
      ∀ e1 : Exec, dis.otherOp n x = Outcome.NEXTOP e1 →
        e1.w.codes = x.w.codes ∧ e1.count = x.count ∧
        e1.this.callPtr = x.this.callPtr ∧ e1.ipVM = x.ipVM ∧ x.ip ≤ e1.ip)
    (op : Opcode) (hop : op ≠ Opcode.BRANCH_CASETABLE) (e0 e : Exec)
    (he : Exec.inside e0 e) : (op.exec env dis fuel e).progress e0 := by
  cases op <;> simp only [Opcode.exec]
  case NOP => exact progress_NEXTOP e0 _ he
  case KILL =>
    unfold op_KILL
    exact IPNEXT_progress e0 e _ he (fun _ y hy =>
      IPNEXT_progress e0 y _ hy (fun _ z _ => progress_endscript e0 _))
  case GET_IMM =>
    unfold op_GET_IMM
    exact IPNEXT_progress e0 e _ he (fun _ y hy =>
      PUSH_progress e0 y _ _ hy (fun z hz => progress_NEXTOP e0 z hz))
  case STACK_DROP => exact progress_NEXTOP e0 _ he
  case DIVOP op =>
    cases op <;> simp only [DivOpcode.exec]
    · unfold DIVOP_GROUP DIVOP_EQ
      exact POP_progress e0 e _ he (fun _ y hy =>
        DIV_CHECK_progress e0 _ y _ hy (fun z hz => updateOperand_progress e0 _ _ _ z hz))
    · unfold DIVOP_GROUP DIVOP_EQ
      exact POP_progress e0 e _ he (fun _ y hy =>
        DIV_CHECK_progress e0 _ y _ hy (fun z hz => updateOperand_progress e0 _ _ _ z hz))
    · unfold op_DIVX_STACK
      exact POP_progress e0 e _ he (fun _ y hy =>
        DIV_CHECK_progress e0 _ y _ hy (fun z hz => updateOperand_progress e0 _ _ _ z hz))
  case BINOP op form =>
    unfold BINOP_GROUP
    exact POP_progress e0 e _ he (fun _ y hy => updateOperand_progress e0 _ _ _ y hy)
  case NEGATE_STACK =>
    unfold op_NEGATE_STACK
    exact updateOperand_progress e0 _ _ _ e he
  case BRANCH_CALL =>
    unfold op_BRANCH_CALL
    exact POP_progress e0 e _ he (fun _ y hy => acs_op_call_progress e0 env _ _ y hy)
  case BRANCH_CALL_IMM =>
    unfold op_BRANCH_CALL_IMM
    refine IPNEXT_progress e0 e _ he (fun _ y hy => ?_)
    split
    · exact acs_op_call_progress e0 env _ _ y hy
    · exact progress_undefined e0
  case BRANCH_CASE =>
    unfold op_BRANCH_CASE
    refine PEEK_progress e0 e _ he (fun _ y hy => IPNEXT_progress e0 y _ hy (fun _ z hz => ?_))
    split
    · exact IPCURR_progress e0 _ _ hz (fun _ u hu => BRANCHOP_progress e0 u _ hu)
    · refine progress_NEXTOP e0 _ ⟨hz.1, hz.2.1, hz.2.2.1, ?_, hz.2.2.2.2⟩
      have := hz.2.2.2.1
      show e0.ip < z.ip + 1
      omega
  case BRANCH_CASETABLE => exact absurd rfl hop
  case BRANCH_IMM =>
    unfold op_BRANCH_IMM
    exact IPCURR_progress e0 e _ he (fun _ u hu => BRANCHOP_progress e0 u _ hu)
  case BRANCH_NOTZERO =>
    unfold op_BRANCH_NOTZERO
    refine POP_progress e0 e _ he (fun _ y hy => ?_)
    split
    · exact IPCURR_progress e0 y _ hy (fun _ u hu => BRANCHOP_progress e0 u _ hu)
    · refine progress_NEXTOP e0 _ ⟨hy.1, hy.2.1, hy.2.2.1, ?_, hy.2.2.2.2⟩
      have := hy.2.2.2.1
      show e0.ip < y.ip + 1
      omega
  case BRANCH_RETURN =>
    unfold op_BRANCH_RETURN
    split
    · exact progress_endscript e0 _
    · next hcp =>
      split
      · refine Or.inr (Or.inr (Or.inr ⟨_, rfl, he.2.2.2.2, Or.inr (Or.inl ⟨he.1, ?_⟩)⟩))
        have := he.2.1
        show e.this.callPtr - 1 < e0.this.callPtr
        omega
      · exact progress_undefined e0
  case BRANCH_STACK =>
    unfold op_BRANCH_STACK
    refine POP_progress e0 e _ he (fun _ y hy => ?_)
    split
    · split
      · refine BRANCH_COUNT_progress e0 y _ hy.1 hy.2.2.2.2 (fun z hz hw => ?_)
        split
        · exact Or.inr ⟨_, rfl, hz, hw⟩
        · exact Or.inl rfl
      · exact Or.inr (Or.inr (Or.inr ⟨_, rfl, hy.2.2.2.2, Or.inr (Or.inr (Or.inr rfl))⟩))
    · exact progress_undefined e0
  case BRANCH_ZERO =>
    unfold op_BRANCH_ZERO
    refine POP_progress e0 e _ he (fun _ y hy => ?_)
    split
    · exact IPCURR_progress e0 y _ hy (fun _ u hu => BRANCHOP_progress e0 u _ hu)
    · refine progress_NEXTOP e0 _ ⟨hy.1, hy.2.1, hy.2.2.1, ?_, hy.2.2.2.2⟩
      have := hy.2.2.2.1
      show e0.ip < y.ip + 1
      omega
  case SCRIPT_RESTART =>
    unfold op_SCRIPT_RESTART
    split
    · exact BRANCH_COUNT_progress e0 _ _ he.1 he.2.2.2.2
        (fun z hz hw => Or.inr ⟨z, rfl, hz, hw⟩)
    · exact progress_undefined e0
  case SCRIPT_SUSPEND => exact progress_stop e0 _
  case SCRIPT_TERMINATE => exact progress_endscript e0 _
  case other n =>
    obtain ⟨hne, hnext⟩ := hother n e
    cases hout : dis.otherOp n e with
    | NEXTOP e1 =>
      obtain ⟨h1, h2, h3, h4, h5⟩ := hnext e1 hout
      refine progress_NEXTOP e0 e1 ⟨h2.trans he.1, h3.trans he.2.1, h4.trans he.2.2.1, ?_,
        h1.trans he.2.2.2.2⟩
      have := he.2.2.2.1
      omega
    | action_endscript e1 => exact progress_endscript e0 _
    | action_stop e1 => exact progress_stop e0 _
    | undefined => exact progress_undefined e0
    | outOfFuel => exact absurd hout hne

/-- The instructions other than `BRANCH_CASETABLE` do not depend on the bound. -/
theorem exec_fuel (env : ACSEnv) (dis : Dispatch) (op : Opcode)
    (hop : op ≠ Opcode.BRANCH_CASETABLE) (f g : Nat) (e : Exec) :
    op.exec env dis f e = op.exec env dis g e := by
  cases op <;> first
    | rfl
    | exact absurd rfl hop

/-- One round of the dispatch loop in the state `e`, the case tables of the code at
`ip` having counts that are not negative: given enough rounds for the search of
a case table, the round has a result that does not depend on the bound, and it
ends as `Outcome.progress` says. -/
theorem step_progress (env : ACSEnv) (dis : Dispatch)
    (hother : ∀ (n : Nat) (x : Exec), dis.otherOp n x ≠ Outcome.outOfFuel ∧
      ∀ e1 : Exec, dis.otherOp n x = Outcome.NEXTOP e1 →
        e1.w.codes = x.w.codes ∧ e1.count = x.count ∧
        e1.this.callPtr = x.this.callPtr ∧ e1.ipVM = x.ipVM ∧ x.ip ≤ e1.ip)
    (e : Exec)
    (hwf : ∀ (j : Nat) (c t : Int), e.code[j]? = some c →
      dis.decode c = some Opcode.BRANCH_CASETABLE → e.code[j + 1]? = some t → 0 ≤ t) :
    ∃ (N : Nat) (out : Outcome), (∀ f : Nat, N ≤ f → Think.step env dis f e = out) ∧
      out.progress e ∧ ((∃ e1 : Exec, out = Outcome.NEXTOP e1) → e.ip < e.code.length) := by
  cases hm : memAt e.code e.ip with
  | none =>
    refine ⟨0, Outcome.undefined, fun f _ => ?_, progress_undefined e, fun h => ?_⟩
    · unfold Think.step IPNEXT
      rw [hm]
    · obtain ⟨e1, h⟩ := h
      cases h
  | some opcode =>
    obtain ⟨h0, hlt, hget⟩ := memAt_range _ _ _ hm
    have hin : Exec.inside e { e with ip := e.ip + 1 } :=
      ⟨rfl, rfl, rfl, by show e.ip < e.ip + 1; omega, rfl⟩
    cases hd : dis.decode opcode with
    | none =>
      by_cases hc : dis.COMPGOTO = true
      · refine ⟨0, Outcome.undefined, fun f _ => ?_, progress_undefined e, fun _ => hlt⟩
        unfold Think.step IPNEXT
        rw [hm]
        simp only [hd, hc, if_true]
      · refine ⟨0, Outcome.action_endscript
          { w := doom_printf e.w "ACS Error: unknown opcode", this := e.this,
            thisIdx := e.thisIdx, ip := e.ip + 1, stp := e.stp, count := e.count,
            ipVM := e.ipVM }, fun f _ => ?_, progress_endscript e _, fun _ => hlt⟩
        unfold Think.step IPNEXT
        rw [hm]
        simp only [hd, if_neg hc]
    | some op =>
      by_cases hop : op = Opcode.BRANCH_CASETABLE
      · subst hop
        obtain ⟨N, out, hout, hp⟩ := op_BRANCH_CASETABLE_progress e { e with ip := e.ip + 1 }
          hin (fun t ht => by
            have h3 := (memAt_range _ _ _ ht).2.2
            have hnat : (e.ip + 1).toNat = e.ip.toNat + 1 := by omega
            have h4 : e.code[e.ip.toNat + 1]? = some t := by
              rw [← hnat]
              exact h3
            exact hwf e.ip.toNat opcode t hget hd h4)
        refine ⟨N, out, fun f hf => ?_, hp, fun _ => hlt⟩
        unfold Think.step IPNEXT
        rw [hm]
        simp only [hd, Opcode.exec]
        exact hout f hf
      · refine ⟨0, op.exec env dis 0 { e with ip := e.ip + 1 }, fun f _ => ?_,
          exec_progress env dis 0 hother op hop e _ hin, fun _ => hlt⟩
        unfold Think.step IPNEXT
        rw [hm]
        simp only [hd]
        exact exec_fuel env dis op hop f 0 _

/-- A round of the dispatch loop that begins at offset 0 of a module whose first
instruction is `KILL`, `SCRIPT_TERMINATE` or `SCRIPT_SUSPEND` ends the step. -/
theorem trap_ends (env : ACSEnv) (dis : Dispatch) (e : Exec) (hip : e.ip = 0)
    (htrap : ∀ c : Int, e.code[0]? = some c →
      dis.decode c = some Opcode.KILL ∨ dis.decode c = some Opcode.SCRIPT_TERMINATE ∨
        dis.decode c = some Opcode.SCRIPT_SUSPEND) :
    ∃ out : Outcome, out.ends ∧ ∀ f : Nat, Think.step env dis f e = out := by
  refine ⟨Think.step env dis 0 e, ?_, fun f => ?_⟩
  · unfold Think.step IPNEXT
    cases hm : memAt e.code e.ip with
    | none => exact Or.inl rfl
    | some c =>
      have hget := (memAt_range _ _ _ hm).2.2
      rw [hip] at hget
      rcases htrap c hget with hd | hd | hd
      · simp only [hd, Opcode.exec, op_KILL, IPNEXT]
        split
        · split
          · exact Or.inr (Or.inl ⟨_, rfl⟩)
          · exact Or.inl rfl
        · exact Or.inl rfl
      · simp only [hd, Opcode.exec, op_SCRIPT_TERMINATE]
        exact Or.inr (Or.inl ⟨_, rfl⟩)
      · simp only [hd, Opcode.exec, op_SCRIPT_SUSPEND]
        exact Or.inr (Or.inr ⟨_, rfl⟩)
  · unfold Think.step IPNEXT
    cases hm : memAt e.code e.ip with
    | none => rfl
    | some c =>
      have hget := (memAt_range _ _ _ hm).2.2
      rw [hip] at hget
      rcases htrap c hget with hd | hd | hd <;> simp only [hd, Opcode.exec]

theorem loop_of_ends (env : ACSEnv) (dis : Dispatch) (f : Nat) (e : Exec) (out : Outcome)
    (hends : out.ends) (hstep : Think.step env dis f e = out) :
    Think.loop env dis (f + 1) e = out := by
  unfold Think.loop
  rw [hstep]
  rcases hends with h | ⟨e1, h⟩ | ⟨e1, h⟩ <;> rw [h]

theorem loop_of_NEXTOP (env : ACSEnv) (dis : Dispatch) (f : Nat) (e e1 : Exec)
    (hstep : Think.step env dis f e = Outcome.NEXTOP e1) :
    Think.loop env dis (f + 1) e = Think.loop env dis f e1 := by
  conv_lhs => unfold Think.loop
  rw [hstep]

/-- The dispatch loop ends, by induction on the branches that may still be counted,
then on the number of call frames, then on the code that lies ahead. -/
theorem loop_ends (env : ACSEnv) (dis : Dispatch)
    (hother : ∀ (n : Nat) (x : Exec), dis.otherOp n x ≠ Outcome.outOfFuel ∧
      ∀ e1 : Exec, dis.otherOp n x = Outcome.NEXTOP e1 →
        e1.w.codes = x.w.codes ∧ e1.count = x.count ∧
        e1.this.callPtr = x.this.callPtr ∧ e1.ipVM = x.ipVM ∧ x.ip ≤ e1.ip)
    (cs : List (List Int))
    (hwf : ∀ cd ∈ cs, ∀ (j : Nat) (c t : Int), cd[j]? = some c →
      dis.decode c = some Opcode.BRANCH_CASETABLE → cd[j + 1]? = some t → 0 ≤ t)
    (htrap : ∀ cd ∈ cs, ∀ c : Int, cd[0]? = some c →
      dis.decode c = some Opcode.KILL ∨ dis.decode c = some Opcode.SCRIPT_TERMINATE ∨
        dis.decode c = some Opcode.SCRIPT_SUSPEND) :
    ∀ (n1 n2 n3 : Nat) (e : Exec), e.w.codes = cs → (500000 - e.count).toNat = n1 →
      e.this.callPtr = n2 → ((e.code.length : Int) - e.ip).toNat = n3 →
      ∃ (n : Nat) (out : Outcome), out.ends ∧
        ∀ fuel : Nat, n ≤ fuel → Think.loop env dis fuel e = out := by
  have hcode : ∀ e : Exec, e.w.codes = cs → e.code ≠ [] → e.code ∈ cs :=
    fun e hcs hne => hcs ▸ code_mem_codes e hne
  intro n1
  induction n1 using Nat.strong_induction_on with
  | _ n1 ih1 =>
    intro n2
    induction n2 using Nat.strong_induction_on with
    | _ n2 ih2 =>
      intro n3
      induction n3 using Nat.strong_induction_on with
      | _ n3 ih3 =>
        intro e hcs h1 h2 h3
        have hwf1 : ∀ (j : Nat) (c t : Int), e.code[j]? = some c →
            dis.decode c = some Opcode.BRANCH_CASETABLE → e.code[j + 1]? = some t → 0 ≤ t := by
          intro j c t hj
          have hne : e.code ≠ [] := by
            intro hnil
            rw [hnil] at hj
            cases hj
          exact hwf e.code (hcode e hcs hne) j c t hj
        obtain ⟨N, out, hstep, hprog, hrange⟩ := step_progress env dis hother e hwf1
        have hfuel : ∀ fuel : Nat, N + 1 ≤ fuel → ∃ f, fuel = f + 1 ∧ N ≤ f :=
          fun fuel hf => ⟨fuel - 1, by omega, by omega⟩
        have hgo : ∀ e1 : Exec, out = Outcome.NEXTOP e1 →
            (∃ (n : Nat) (out1 : Outcome), out1.ends ∧
              ∀ fuel : Nat, n ≤ fuel → Think.loop env dis fuel e1 = out1) →
            ∃ (n : Nat) (out : Outcome), out.ends ∧
              ∀ fuel : Nat, n ≤ fuel → Think.loop env dis fuel e = out := by
          intro e1 hout ⟨n, out1, hends, hloop⟩
          refine ⟨max N n + 1, out1, hends, fun fuel hf => ?_⟩
          obtain ⟨f, rfl, hf1⟩ : ∃ f, fuel = f + 1 ∧ max N n ≤ f :=
            ⟨fuel - 1, by omega, by omega⟩
          rw [loop_of_NEXTOP env dis f e e1 ((hstep f (by omega)).trans hout)]
          exact hloop f (by omega)
        rcases hprog with hu | ⟨e1, hu⟩ | ⟨e1, hu⟩ | ⟨e1, hu, hcodes, halt⟩
        · refine ⟨N + 1, out, Or.inl hu, fun fuel hf => ?_⟩
          obtain ⟨f, rfl, hf1⟩ := hfuel fuel hf
          exact loop_of_ends env dis f e out (Or.inl hu) (hstep f hf1)
        · refine ⟨N + 1, out, Or.inr (Or.inl ⟨e1, hu⟩), fun fuel hf => ?_⟩
          obtain ⟨f, rfl, hf1⟩ := hfuel fuel hf
          exact loop_of_ends env dis f e out (Or.inr (Or.inl ⟨e1, hu⟩)) (hstep f hf1)
        · refine ⟨N + 1, out, Or.inr (Or.inr ⟨e1, hu⟩), fun fuel hf => ?_⟩
          obtain ⟨f, rfl, hf1⟩ := hfuel fuel hf
          exact loop_of_ends env dis f e out (Or.inr (Or.inr ⟨e1, hu⟩)) (hstep f hf1)
        · have hcs1 : e1.w.codes = cs := hcodes.trans hcs
          rcases halt with ⟨hlt, hc⟩ | ⟨hc, hcp⟩ | ⟨hc, hcp, hvm, hip⟩ | hip0
          · exact hgo e1 hu (ih1 (500000 - e1.count).toNat (by omega) _ _ e1 hcs1 rfl rfl rfl)
          · exact hgo e1 hu (ih2 e1.this.callPtr (by omega) _ e1 hcs1 (by rw [hc]; exact h1)
              rfl rfl)
          · have hlen : e1.code = e.code := code_congr e e1 hcodes hvm
            have hr := hrange ⟨e1, hu⟩
            exact hgo e1 hu (ih3 ((e1.code.length : Int) - e1.ip).toNat
              (by rw [hlen]; omega) e1 hcs1 (by rw [hc]; exact h1) (by rw [hcp]; exact h2) rfl)
          · have htrap1 : ∀ c : Int, e1.code[0]? = some c →
                dis.decode c = some Opcode.KILL ∨ dis.decode c = some Opcode.SCRIPT_TERMINATE ∨
                  dis.decode c = some Opcode.SCRIPT_SUSPEND := by
              intro c hc0
              have hne : e1.code ≠ [] := by
                intro hnil
                rw [hnil] at hc0
                cases hc0
              exact htrap e1.code (hcode e1 hcs1 hne) c hc0
            obtain ⟨out1, hends, hst⟩ := trap_ends env dis e1 hip0 htrap1
            exact hgo e1 hu ⟨1, out1, hends, fun fuel hf => by
              obtain ⟨f, rfl⟩ : ∃ f, fuel = f + 1 := ⟨fuel - 1, by omega⟩
              exact loop_of_ends env dis f e1 out1 hends (hst f)⟩

theorem delayCheck_world (w : ACSWorld) (this : ACSThinker) (k : Nat) (e : Exec)
    (h : Think.delayCheck w this k = ThinkStart.run e) : e.w = w := by
  unfold Think.delayCheck at h
  split at h
  · cases h
  · simp only [ThinkStart.run.injEq] at h
    rw [← h]

/-- The dispatch loop is entered with the statics as they are. -/
theorem begin_world (env : ACSEnv) (w : ACSWorld) (this : ACSThinker) (k : Nat) (e : Exec)
    (h : Think.begin env w this k = ThinkStart.run e) : e.w = w := by
  unfold Think.begin at h
  split at h
  · split at h
    · cases h
    · exact delayCheck_world _ _ _ _ h
    · cases h
  · exact delayCheck_world _ _ _ _ h
  · cases h
  · cases h

/-- C13 as amended: a scheduling step on code of well-formed instructions: every case
table has a count of cases that is not negative, and an instruction that is not
embedded ends the step or goes on to the next instruction with counter, call
frames, module and code as they were and `ip` not moved back. Let the
instruction at offset 0 of every module, where `BRANCH_STACK` sends a jump index
that is not in the jump table, be one that ends the step (`KILL`,
`SCRIPT_TERMINATE` or `SCRIPT_SUSPEND`). Then from every state of the dispatch
loop on that code, and so from the state in which `Think` enters the loop for
any thread, the loop is left after finitely many instructions: given enough
rounds, and however many more, it ends at `action_endscript` or `action_stop`,
or in an access that C leaves undefined, with one and the same result. -/
theorem C13_step_ends (env : ACSEnv) (dis : Dispatch) (w : ACSWorld)
    (hother : ∀ (n : Nat) (x : Exec), dis.otherOp n x ≠ Outcome.outOfFuel ∧
      ∀ e1 : Exec, dis.otherOp n x = Outcome.NEXTOP e1 →
        e1.w.codes = x.w.codes ∧ e1.count = x.count ∧
        e1.this.callPtr = x.this.callPtr ∧ e1.ipVM = x.ipVM ∧ x.ip ≤ e1.ip)
    (hwf : ∀ m ∈ w.acsVMs, ∀ (j : Nat) (c t : Int), m.code[j]? = some c →
      dis.decode c = some Opcode.BRANCH_CASETABLE → m.code[j + 1]? = some t → 0 ≤ t)
    (htrap : ∀ m ∈ w.acsVMs, ∀ c : Int, m.code[0]? = some c →
      dis.decode c = some Opcode.KILL ∨ dis.decode c = some Opcode.SCRIPT_TERMINATE ∨
        dis.decode c = some Opcode.SCRIPT_SUSPEND) :
    (∀ e : Exec, e.w.codes = w.codes →
      ∃ (n : Nat) (out : Outcome), out.ends ∧
        ∀ fuel : Nat, n ≤ fuel → Think.loop env dis fuel e = out) ∧
    (∀ (this : ACSThinker) (k : Nat) (e : Exec),
      Think.begin env w this k = ThinkStart.run e →
      ∃ (n : Nat) (out : Outcome), out.ends ∧
        ∀ fuel : Nat, n ≤ fuel → Think.loop env dis fuel e = out) := by
  have hall : ∀ e : Exec, e.w.codes = w.codes →
      ∃ (n : Nat) (out : Outcome), out.ends ∧
        ∀ fuel : Nat, n ≤ fuel → Think.loop env dis fuel e = out := by
    intro e he
    refine loop_ends env dis hother w.codes ?_ ?_ _ _ _ e he rfl rfl rfl
    · intro cd hcd
      obtain ⟨m, hm, rfl⟩ := List.mem_map.mp hcd
      exact hwf m hm
    · intro cd hcd
      obtain ⟨m, hm, rfl⟩ := List.mem_map.mp hcd
      exact htrap m hm
  exact ⟨hall, fun this k e hb => hall e (by rw [begin_world env w this k e hb])⟩

theorem C13_step_ends_witness :
    ∃ (n : Nat) (out : Outcome), out.ends ∧
      ∀ fuel : Nat, n ≤ fuel →
        Think.loop ACSEnv.small
          (Dispatch.mk
            (fun n =>
              if n = 1 then some Opcode.GET_IMM
              else if n = 2 then some Opcode.BRANCH_STACK
              else if n = 3 then some Opcode.KILL else none)
            (fun _ e => Outcome.NEXTOP e) false) fuel
          { w := { acsVMs := [{ code := [3, 0, 0, 1, 7, 2] }] },
            this := { ip := 3, stack := [0], sreg := ACSState.ACS_STATE_RUNNING }, ip := 3,
            stp := 0, count := 0 } = out :=
  (C13_step_ends ACSEnv.small
    (Dispatch.mk
      (fun n =>
        if n = 1 then some Opcode.GET_IMM
        else if n = 2 then some Opcode.BRANCH_STACK
        else if n = 3 then some Opcode.KILL else none)
      (fun _ e => Outcome.NEXTOP e) false)
    { acsVMs := [{ code := [3, 0, 0, 1, 7, 2] }] }
    (fun _ x => ⟨fun h => Outcome.noConfusion h, fun e1 h =>
      Outcome.NEXTOP.inj h ▸ ⟨rfl, rfl, rfl, rfl, Int.le_refl _⟩⟩)
    (fun m _ j c t _ hd _ => by
      simp only at hd
      split_ifs at hd <;> cases hd)
    (fun m hm c hc => by
      simp only [List.mem_singleton] at hm
      subst hm
      simp only [List.getElem?_cons_zero, Option.some.injEq] at hc
      subst hc
      exact Or.inl rfl)).2
    { ip := 3, stack := [0], sreg := ACSState.ACS_STATE_RUNNING } 0
    { w := { acsVMs := [{ code := [3, 0, 0, 1, 7, 2] }] },
      this := { ip := 3, stack := [0], sreg := ACSState.ACS_STATE_RUNNING }, ip := 3,
      stp := 0, count := 0 } rfl

/-- The step of the witness above ends in its third round, at `action_endscript` by
the `KILL` at offset 0. -/
theorem step_ends_example :
    (Think.loop ACSEnv.small
      (Dispatch.mk
        (fun n =>
          if n = 1 then some Opcode.GET_IMM
          else if n = 2 then some Opcode.BRANCH_STACK
          else if n = 3 then some Opcode.KILL else none)
        (fun _ e => Outcome.NEXTOP e) false) 3
      { w := { acsVMs := [{ code := [3, 0, 0, 1, 7, 2] }] },
        this := { ip := 3, stack := [0], sreg := ACSState.ACS_STATE_RUNNING }, ip := 3,
        stp := 0, count := 0 }).exec?.map (fun e1 => (e1.ip, e1.count, e1.w.printed.length)) =
      some (3, 0, 1) := by
  decide

/-! ## Function calls -/

theorem Z_Realloc_length {α : Type} (junk : Nat → α) (buf : List α) (n : Nat) :
    (Z_Realloc junk buf n).length = n := by
  unfold Z_Realloc
  simp only [List.length_take, List.length_append, List.length_map, List.length_range]
  omega

theorem Z_Realloc_getElem? {α : Type} (junk : Nat → α) (buf : List α) (n j : Nat)
    (hj : j < buf.length) (hn : j < n) : (Z_Realloc junk buf n)[j]? = buf[j]? := by
  unfold Z_Realloc
  rw [List.getElem?_take_of_lt hn, List.getElem?_append_left hj]

theorem window_lt {α : Type} (A M D : List α) (L j : Nat) (hL : L ≤ A.length) (hj : j < L) :
    (A.take L ++ M ++ D)[j]? = A[j]? := by
  rw [List.append_assoc, List.getElem?_append_left (by rw [List.length_take]; omega)]
  rw [List.getElem?_take_of_lt hj]

theorem window_mid {α : Type} (A M D : List α) (L i : Nat) (hL : L ≤ A.length)
    (hi : i < M.length) : (A.take L ++ M ++ D)[L + i]? = M[i]? := by
  rw [List.getElem?_append_left (by rw [List.length_append, List.length_take]; omega)]
  rw [List.getElem?_append_right (by rw [List.length_take]; omega)]
  rw [List.length_take, Nat.min_eq_left hL, Nat.add_sub_cancel_left]

/-- The window that a call sets up: below `locals` the buffer is as before, then come
the `numArgs` stack cells below `stp`, deepest first, then `numVars` zeros. -/
theorem callWindow_spec (stack : List Int) (stp : Int) (localvar : List Int) (locals : Int)
    (numArgs numVars : Nat) (h1 : 0 ≤ stp - numArgs) (h2 : stp ≤ stack.length)
    (h3 : 0 ≤ locals) (h4 : locals + numArgs + numVars ≤ localvar.length) :
    ∃ lv : List Int, callWindow stack stp localvar locals numArgs numVars = some lv ∧
      (∀ j : Int, j < locals → memAt lv j = memAt localvar j) ∧
      (∀ i : Nat, i < numArgs → ∃ v : Int, memAt stack (stp - numArgs + i) = some v ∧
        memAt lv (locals + i) = some v) ∧
      (∀ i : Nat, numArgs ≤ i → i < numArgs + numVars → memAt lv (locals + i) = some 0) := by
  refine ⟨_, by unfold callWindow; rw [if_pos ⟨h1, h2, h3, h4⟩], ?_, ?_, ?_⟩
  · intro j hj
    unfold memAt
    by_cases h0 : 0 ≤ j
    · rw [if_pos h0, if_pos h0]
      exact window_lt _ _ _ _ _ (by omega) (by omega)
    · rw [if_neg h0, if_neg h0]
  · intro i hi
    have hlen : ((List.drop (stp - numArgs).toNat stack).take numArgs).length = numArgs := by
      rw [List.length_take, List.length_drop]; omega
    have hidx : (stp - (numArgs : Int) + (i : Int)).toNat < stack.length := by omega
    refine ⟨stack[(stp - (numArgs : Int) + (i : Int)).toNat], ?_, ?_⟩
    · unfold memAt
      rw [if_pos (by omega), List.getElem?_eq_getElem hidx]
    · unfold memAt
      rw [if_pos (by omega)]
      have ht : (locals + (i : Int)).toNat = locals.toNat + i := by omega
      rw [ht, window_mid _ _ _ _ _ (by omega) (by rw [List.length_append, hlen]; omega)]
      rw [List.getElem?_append_left (by rw [hlen]; exact hi), List.getElem?_take_of_lt hi,
        List.getElem?_drop]
      have hs : (stp - (numArgs : Int)).toNat + i = (stp - (numArgs : Int) + (i : Int)).toNat := by
        omega
      rw [hs, List.getElem?_eq_getElem hidx]
  · intro i hi1 hi2
    have hlen : ((List.drop (stp - numArgs).toNat stack).take numArgs).length = numArgs := by
      rw [List.length_take, List.length_drop]; omega
    unfold memAt
    rw [if_pos (by omega)]
    have ht : (locals + (i : Int)).toNat = locals.toNat + i := by omega
    rw [ht, window_mid _ _ _ _ _ (by omega)
      (by rw [List.length_append, hlen, List.length_replicate]; omega)]
    rw [List.getElem?_append_right (by rw [hlen]; exact hi1), hlen, List.getElem?_replicate]
    rw [if_pos (by omega)]

/-- A call of a valid function below the runaway limit, from the label `acs_op_call`
on. -/
theorem acs_op_call_post (env : ACSEnv) (f : ACSFunc) (opcode : Int) (e : Exec)
    (hcount : e.count + 1 ≤ 500000) (hnc : 0 < env.ACS_NUM_CALLS)
    (hsz : e.stp + env.ACS_NUM_STACK * 2 < 4294967296)
    (hcp : e.this.callPtr ≤ e.this.calls.length)
    (hl0 : 0 ≤ e.this.locals) (hn0 : 0 ≤ e.this.numLocals)
    (hlv : e.this.locals + e.this.numLocals ≤ e.this.localvar.length)
    (hargs : (f.numArgs : Int) ≤ e.stp) (hstp : e.stp ≤ e.this.stack.length) :
    ∃ e' : Exec, acs_op_call env (some f) opcode e = Outcome.NEXTOP e' ∧
      e'.w = e.w ∧ e'.count = e.count + 1 ∧
      e'.this.callPtr = e.this.callPtr + 1 ∧
      e'.this.calls[e.this.callPtr]? =
        some { ip := e.ip, ipVM := e.ipVM, numLocals := e.this.numLocals, vm := e.this.vm } ∧
      (∀ j : Nat, j < e.this.callPtr → e'.this.calls[j]? = e.this.calls[j]?) ∧
      e'.stp = e.stp - f.numArgs ∧
      (∀ j : Int, j < e.stp → memAt e'.this.stack j = memAt e.this.stack j) ∧
      e'.this.locals = e.this.locals + e.this.numLocals ∧
      e'.this.numLocals = (f.numArgs : Int) + f.numVars ∧
      (∀ i : Nat, i < f.numArgs →
        ∃ v : Int, memAt e.this.stack (e.stp - f.numArgs + i) = some v ∧
          memAt e'.this.localvar (e'.this.locals + i) = some v) ∧
      (∀ i : Nat, f.numArgs ≤ i → i < f.numArgs + f.numVars →
        memAt e'.this.localvar (e'.this.locals + i) = some 0) ∧
      (∀ j : Int, j < e.this.locals + e.this.numLocals →
        memAt e'.this.localvar j = memAt e.this.localvar j) ∧
      e'.ip = f.codePtr ∧ e'.ipVM = f.vm ∧ e'.this.vm = f.vm := by
  unfold acs_op_call
  simp only
  unfold BRANCH_COUNT
  rw [if_neg (by omega)]
  simp only
  have h0 : 0 ≤ e.stp := by omega
  have hC : e.this.callPtr <
        (if e.this.callPtr ≥ e.this.calls.length then
            Z_Realloc env.junkCall e.this.calls (e.this.calls.length + env.ACS_NUM_CALLS)
          else e.this.calls).length ∧
      ∀ j : Nat, j < e.this.callPtr →
        (if e.this.callPtr ≥ e.this.calls.length then
            Z_Realloc env.junkCall e.this.calls (e.this.calls.length + env.ACS_NUM_CALLS)
          else e.this.calls)[j]? = e.this.calls[j]? := by
    split
    · exact ⟨by rw [Z_Realloc_length]; omega,
        fun j hj => Z_Realloc_getElem? _ _ _ _ (by omega) (by omega)⟩
    · exact ⟨by omega, fun _ _ => rfl⟩
  have hS : e.stp ≤
        ((if u32 (↑e.this.stack.length - e.stp) < env.ACS_NUM_STACK then
            Z_Realloc env.junk e.this.stack (u32 (e.stp + ↑env.ACS_NUM_STACK * 2))
          else e.this.stack).length : Int) ∧
      ∀ j : Int, j < e.stp →
        memAt (if u32 (↑e.this.stack.length - e.stp) < env.ACS_NUM_STACK then
            Z_Realloc env.junk e.this.stack (u32 (e.stp + ↑env.ACS_NUM_STACK * 2))
          else e.this.stack) j = memAt e.this.stack j := by
    split
    · refine ⟨by rw [Z_Realloc_length]; unfold u32; omega, fun j hj => ?_⟩
      unfold memAt
      by_cases hj0 : 0 ≤ j
      · rw [if_pos hj0, if_pos hj0]
        exact Z_Realloc_getElem? _ _ _ _ (by omega) (by unfold u32; omega)
      · rw [if_neg hj0, if_neg hj0]
    · exact ⟨hstp, fun _ _ => rfl⟩
  have hL : e.this.locals + e.this.numLocals + (f.numArgs : Int) + (f.numVars : Int) ≤
        ((if e.this.locals + e.this.numLocals + ↑(f.numArgs + f.numVars) ≥
              ↑e.this.localvar.length then
            Z_Realloc env.junk e.this.localvar
              (e.this.localvar.length + ((f.numArgs + f.numVars) * 2 + env.ACS_NUM_LOCALVARS))
          else e.this.localvar).length : Int) ∧
      ∀ j : Int, j < e.this.locals + e.this.numLocals →
        memAt (if e.this.locals + e.this.numLocals + ↑(f.numArgs + f.numVars) ≥
              ↑e.this.localvar.length then
            Z_Realloc env.junk e.this.localvar
              (e.this.localvar.length + ((f.numArgs + f.numVars) * 2 + env.ACS_NUM_LOCALVARS))
          else e.this.localvar) j = memAt e.this.localvar j := by
    split
    · refine ⟨by rw [Z_Realloc_length]; omega, fun j hj => ?_⟩
      unfold memAt
      by_cases hj0 : 0 ≤ j
      · rw [if_pos hj0, if_pos hj0]
        exact Z_Realloc_getElem? _ _ _ _ (by omega) (by omega)
      · rw [if_neg hj0, if_neg hj0]
    · exact ⟨by omega, fun _ _ => rfl⟩
  generalize (if e.this.callPtr ≥ e.this.calls.length then
      Z_Realloc env.junkCall e.this.calls (e.this.calls.length + env.ACS_NUM_CALLS)
    else e.this.calls) = calls1 at hC ⊢
  generalize (if u32 (↑e.this.stack.length - e.stp) < env.ACS_NUM_STACK then
      Z_Realloc env.junk e.this.stack (u32 (e.stp + ↑env.ACS_NUM_STACK * 2))
    else e.this.stack) = stack1 at hS ⊢
  generalize (if e.this.locals + e.this.numLocals + ↑(f.numArgs + f.numVars) ≥
        ↑e.this.localvar.length then
      Z_Realloc env.junk e.this.localvar
        (e.this.localvar.length + ((f.numArgs + f.numVars) * 2 + env.ACS_NUM_LOCALVARS))
    else e.this.localvar) = localvar1 at hL ⊢
  obtain ⟨lv, hcw, hw1, hw2, hw3⟩ := callWindow_spec stack1 e.stp localvar1
    (e.this.locals + e.this.numLocals) f.numArgs f.numVars (by omega) hS.1 (by omega) hL.1
  rw [if_pos hC.1, hcw]
  refine ⟨_, rfl, rfl, rfl, rfl, List.getElem?_set_self hC.1, ?_, rfl, hS.2, rfl, ?_, ?_, hw3,
    ?_, rfl, rfl, rfl⟩
  · intro j hj
    show (calls1.set e.this.callPtr _)[j]? = _
    rw [List.getElem?_set_ne (by omega)]
    exact hC.2 j hj
  · show ((f.numVars + f.numArgs : Nat) : Int) = _
    omega
  · intro i hi
    obtain ⟨v, hv1, hv2⟩ := hw2 i hi
    exact ⟨v, by rw [← hS.2 _ (by omega)]; exact hv1, hv2⟩
  · intro j hj
    show memAt lv j = _
    rw [hw1 j hj]
    exact hL.2 j hj

/-- C15 (as stated, refuted): a `BRANCH_CALL_IMM` of the valid function 0 (one argument,
one further local), with one value on the operand stack, executed when 500000 branches
have been counted in the step: the call is the branch that passes the runaway limit, so
the thread goes to `action_endscript` with no frame pushed, nothing popped and the
module as before. -/
theorem C15_counterexample :
    op_BRANCH_CALL_IMM ACSEnv.small
        { w := { acsVMs := [{ code := [0, 0, 9, 9],
                              funcptrs := [some { numArgs := 1, numVars := 1, codePtr := 2 }] }] },
          this := { stack := [5, 0, 0, 0], localvar := [0, 0, 0, 0] },
          ip := 1, stp := 1, count := 500000 } =
      Outcome.action_endscript
        { w := { acsVMs := [{ code := [0, 0, 9, 9],
                              funcptrs := [some { numArgs := 1, numVars := 1, codePtr := 2 }] }],
                 printed := ["ACS Error: terminated runaway script"] },
          this := { stack := [5, 0, 0, 0], localvar := [0, 0, 0, 0] },
          ip := 2, stp := 1, count := 500001 } := by
  decide

/-- C15 (amended): a call, `BRANCH_CALL_IMM` (`imm`) or `BRANCH_CALL`, of a valid
function `f` with `a` arguments and `v` further locals, executed with at least `a` values
on the operand stack (below the function number, for `BRANCH_CALL`) and not as the branch
that passes the runaway limit, goes on at the entry point of `f` with the module of `f`
as current module. The frame at the old `callPtr` holds the return address, the caller's
window size and the caller's module, older frames are kept; the `a` values are off the
stack; the new window starts where the caller's window ends, holds those values (deepest
first) in its locals `0..a-1` and zero in its locals `a..a+v-1`; what lies below it in
the local variables is as before. -/
theorem C15_call (env : ACSEnv) (f : ACSFunc) (opcode : Int) (e : Exec) (vm : ACSModule)
    (imm : Bool) (stp0 ret : Int)
    (hfunc : if imm = true then
        memAt e.code e.ip = some opcode ∧ e.vm = some vm ∧
          vm.funcptrs[u32 opcode]? = some (some f)
      else
        memAt e.this.stack (e.stp - 1) = some opcode ∧
          env.FindFunction e.w (u32 opcode) = some f)
    (hstp0 : stp0 = if imm = true then e.stp else e.stp - 1)
    (hret : ret = if imm = true then e.ip + 1 else e.ip)
    (hcount : e.count + 1 ≤ 500000) (hnc : 0 < env.ACS_NUM_CALLS)
    (hsz : stp0 + env.ACS_NUM_STACK * 2 < 4294967296)
    (hcp : e.this.callPtr ≤ e.this.calls.length)
    (hl0 : 0 ≤ e.this.locals) (hn0 : 0 ≤ e.this.numLocals)
    (hlv : e.this.locals + e.this.numLocals ≤ e.this.localvar.length)
    (hargs : (f.numArgs : Int) ≤ stp0) (hstp : e.stp ≤ e.this.stack.length) :
    ∃ e' : Exec,
      (if imm = true then op_BRANCH_CALL_IMM env e else op_BRANCH_CALL env e)
        = Outcome.NEXTOP e' ∧
      e'.w = e.w ∧ e'.count = e.count + 1 ∧
      e'.this.callPtr = e.this.callPtr + 1 ∧
      e'.this.calls[e.this.callPtr]? =
        some { ip := ret, ipVM := e.ipVM, numLocals := e.this.numLocals, vm := e.this.vm } ∧
      (∀ j : Nat, j < e.this.callPtr → e'.this.calls[j]? = e.this.calls[j]?) ∧
      e'.stp = stp0 - f.numArgs ∧
      (∀ j : Int, j < stp0 → memAt e'.this.stack j = memAt e.this.stack j) ∧
      e'.this.locals = e.this.locals + e.this.numLocals ∧
      e'.this.numLocals = (f.numArgs : Int) + f.numVars ∧
      (∀ i : Nat, i < f.numArgs →
        ∃ v : Int, memAt e.this.stack (stp0 - f.numArgs + i) = some v ∧
          memAt e'.this.localvar (e'.this.locals + i) = some v) ∧
      (∀ i : Nat, f.numArgs ≤ i → i < f.numArgs + f.numVars →
        memAt e'.this.localvar (e'.this.locals + i) = some 0) ∧
      (∀ j : Int, j < e.this.locals + e.this.numLocals →
        memAt e'.this.localvar j = memAt e.this.localvar j) ∧
      e'.ip = f.codePtr ∧ e'.ipVM = f.vm ∧ e'.this.vm = f.vm := by
  cases imm with
  | true =>
    simp only [if_true] at hfunc hstp0 hret ⊢
    obtain ⟨hc, hvm, hf⟩ := hfunc
    subst hstp0 hret
    have hlt : u32 opcode < vm.funcptrs.length := (List.getElem?_eq_some.mp hf).1
    have hop : op_BRANCH_CALL_IMM env e =
        acs_op_call env (some f) opcode { e with ip := e.ip + 1 } := by
      unfold op_BRANCH_CALL_IMM IPNEXT
      rw [hc]
      simp only [Exec.vm] at hvm ⊢
      rw [hvm]
      simp only
      rw [if_pos hlt, hf]
      rfl
    rw [hop]
    exact acs_op_call_post env f opcode { e with ip := e.ip + 1 } hcount hnc hsz hcp hl0 hn0 hlv
      hargs hstp
  | false =>
    simp only [Bool.false_eq_true, if_false] at hfunc hstp0 hret ⊢
    obtain ⟨ht, hf⟩ := hfunc
    subst hstp0 hret
    have hop : op_BRANCH_CALL env e =
        acs_op_call env (some f) opcode { e with stp := e.stp - 1 } := by
      unfold op_BRANCH_CALL POP
      rw [ht]
      simp only
      rw [hf]
    rw [hop]
    exact acs_op_call_post env f opcode { e with stp := e.stp - 1 } hcount hnc hsz hcp hl0 hn0
      hlv hargs (by simp only; omega)

theorem C15_call_witness :
    ∃ e' : Exec,
      (if true = true then
          op_BRANCH_CALL_IMM ACSEnv.small
            { w := { acsVMs := [{ code := [0, 0, 9, 9],
                                  funcptrs := [some { numArgs := 1, numVars := 1,
                                                      codePtr := 2 }] }] },
              this := { stack := [5, 0, 0, 0], localvar := [0, 0, 0, 0] },
              ip := 1, stp := 1, count := 0 }
        else
          op_BRANCH_CALL ACSEnv.small
            { w := { acsVMs := [{ code := [0, 0, 9, 9],
                                  funcptrs := [some { numArgs := 1, numVars := 1,
                                                      codePtr := 2 }] }] },
              this := { stack := [5, 0, 0, 0], localvar := [0, 0, 0, 0] },
              ip := 1, stp := 1, count := 0 }) = Outcome.NEXTOP e' ∧
      e'.this.callPtr = 0 + 1 :=
  (C15_call ACSEnv.small { numArgs := 1, numVars := 1, codePtr := 2 } 0
    { w := { acsVMs := [{ code := [0, 0, 9, 9],
                          funcptrs := [some { numArgs := 1, numVars := 1, codePtr := 2 }] }] },
      this := { stack := [5, 0, 0, 0], localvar := [0, 0, 0, 0] },
      ip := 1, stp := 1, count := 0 }
    { code := [0, 0, 9, 9], funcptrs := [some { numArgs := 1, numVars := 1, codePtr := 2 }] }
    true 1 2 (by decide) (by decide) (by decide) (by decide) (by decide) (by decide)
    (by decide) (by decide) (by decide) (by decide) (by decide) (by decide)).imp
    (fun _ h => ⟨h.1, h.2.2.2.1⟩)

/-! ## Starting a script -/

theorem list_set_self {α : Type} (l : List α) (i : Nat) (a : α) (h : l[i]? = some a) :
    l.set i a = l := by
  apply List.ext_getElem?
  intro j
  by_cases hj : i = j
  · subst hj
    rw [List.getElem?_set_self (List.getElem?_eq_some.mp h).1, h]
  · rw [List.getElem?_set_ne hj]

/-- Storing the thread list that a script already has changes nothing. -/
theorem setThreads_self (w : ACSWorld) (ref : Nat × Nat) (s : ACSScript)
    (h : w.scriptAt ref = some s) : w.setThreads ref s.threads = w := by
  unfold ACSWorld.scriptAt at h
  unfold ACSWorld.setThreads
  cases hm : w.acsVMs[ref.1]? with
  | none => rfl
  | some m =>
    rw [hm] at h
    simp only at h ⊢
    rw [h]
    simp only
    rw [list_set_self m.scripts ref.2 s h, list_set_self w.acsVMs ref.1 m hm]

/-- The first loop of `ACS_ExecuteScript` sets each suspended thread running and leaves
the others; `foundScripts` tells whether there was a suspended one. -/
theorem restart_eq (ts : List ACSThinker) (b : Bool) :
    ACS_ExecuteScript.restart ts b =
      (ts.map (fun t =>
          if t.sreg = ACSState.ACS_STATE_SUSPEND then
            { t with sreg := ACSState.ACS_STATE_RUNNING }
          else t),
        b || ts.any (fun t => decide (t.sreg = ACSState.ACS_STATE_SUSPEND))) := by
  induction ts generalizing b with
  | nil => simp [ACS_ExecuteScript.restart]
  | cons t ts ih =>
    unfold ACS_ExecuteScript.restart
    by_cases h : t.sreg = ACSState.ACS_STATE_SUSPEND
    · rw [if_pos h]
      simp only [ih, List.map_cons, if_pos h, List.any_cons, h, decide_True, Bool.true_or,
        Bool.or_true, if_true]
    · rw [if_neg h]
      simp only [ih, List.map_cons, if_neg h, List.any_cons, h, decide_False, Bool.false_or,
        if_false]

theorem restart_none (ts : List ACSThinker)
    (h : ∀ t ∈ ts, t.sreg ≠ ACSState.ACS_STATE_SUSPEND) :
    ACS_ExecuteScript.restart ts false = (ts, false) := by
  rw [restart_eq]
  congr 1
  · conv_rhs => rw [← List.map_id ts]
    apply List.map_congr_left
    intro t ht
    rw [if_neg (h t ht)]
    rfl
  · simp only [Bool.false_or, List.any_eq_false, decide_eq_true_eq]
    exact h

/-- The argument loop of `ACS_ExecuteScript` inside the buffer: cell `j` of the `n`
cells from `i` on gets `argv[j]`, or 0 when there is no such argument; the other cells
are as before. -/
theorem copyArgs_spec (argv : List Int) (n i : Nat) (lv : List Int) (h : i + n ≤ lv.length) :
    ∃ lv1 : List Int, ACS_ExecuteScript.copyArgs argv n i lv = some lv1 ∧
      lv1.length = lv.length ∧
      (∀ j : Nat, i ≤ j → j < i + n →
        lv1[j]? = some (if j < argv.length then argv.getD j 0 else 0)) ∧
      (∀ j : Nat, (j < i ∨ i + n ≤ j) → lv1[j]? = lv[j]?) := by
  induction n generalizing i lv with
  | zero => exact ⟨lv, rfl, rfl, fun j h1 h2 => by omega, fun _ _ => rfl⟩
  | succ n ih =>
    unfold ACS_ExecuteScript.copyArgs
    have hset : memSet lv (i : Int) (if i < argv.length then argv.getD i 0 else 0) =
        some (lv.set i (if i < argv.length then argv.getD i 0 else 0)) := by
      unfold memSet
      rw [if_pos ⟨by omega, by simp only [Int.toNat_ofNat]; omega⟩]
      simp only [Int.toNat_ofNat]
    rw [hset]
    simp only
    obtain ⟨lv1, h1, h2, h3, h4⟩ :=
      ih (i + 1) (lv.set i (if i < argv.length then argv.getD i 0 else 0))
        (by rw [List.length_set]; omega)
    refine ⟨lv1, h1, by rw [h2, List.length_set], ?_, ?_⟩
    · intro j hj1 hj2
      by_cases hji : j = i
      · subst hji
        rw [h4 j (Or.inl (by omega)), List.getElem?_set_self (by omega)]
      · exact h3 j (by omega) (by omega)
    · intro j hj
      rw [h4 j (by omega), List.getElem?_set_ne (by omega)]

/-- When `ACS_ExecuteScript` gets past its early returns (the 'always' bit is set or the
script has no thread), it creates the thread `t` and puts it at the head of the
script's thread list. -/
theorem ExecuteScript_new (env : ACSEnv) (w : ACSWorld) (ref : Nat × Nat) (s : ACSScript)
    (flags : Nat) (argv : List Int) (trigger line : Option Nat) (lineSide : Int)
    (hs : w.scriptAt ref = some s) (hargs : s.numArgs ≤ s.numVars)
    (hcreate : flags &&& env.ACS_EXECUTE_ALWAYS ≠ 0 ∨ s.threads = []) :
    ∃ (lv : List Int) (t : ACSThinker) (w2 : ACSWorld),
      ACS_ExecuteScript.copyArgs argv s.numArgs 0 (List.replicate s.numVars 0) = some lv ∧
      t = { env.newThinker with
              ip := s.codePtr, ipVM := s.vm,
              stack := List.replicate (env.ACS_NUM_STACK * 2) 0, stackPtr := 0,
              localvar := lv, numLocals := s.numVars, locals := 0,
              line := line, lineSide := lineSide, trigger := trigger,
              script := ref, vm := s.vm,
              sreg := ACSState.ACS_STATE_RUNNING, sdata := 0 } ∧
      w2 = ACS_addThread (w.setThreads ref (ACS_ExecuteScript.restart s.threads false).1) t ∧
      ACS_ExecuteScript env w (some ref) flags argv trigger line lineSide =
        some (if flags &&& env.ACS_EXECUTE_IMMEDIATE ≠ 0 then env.exec w2 ref 0 else w2,
          true, some t) := by
  obtain ⟨lv, hlv, -, -, -⟩ := copyArgs_spec argv s.numArgs 0 (List.replicate s.numVars 0)
    (by rw [List.length_replicate]; omega)
  refine ⟨lv, _, _, hlv, rfl, rfl, ?_⟩
  unfold ACS_ExecuteScript ACS_ExecuteScript.go
  simp only
  rw [hs]
  simp only
  have hc : ¬ (flags &&& env.ACS_EXECUTE_ALWAYS = 0 ∧
      (ACS_ExecuteScript.restart s.threads false).1 ≠ []) := by
    rintro ⟨h1, h2⟩
    rcases hcreate with h | h
    · exact h h1
    · rw [h] at h2
      exact h2 rfl
  rw [if_neg hc, hlv]
  rfl

/-- C16: for a script with at least one thread, none of them suspended, a start request
without the 'always' bit returns false, hands back no thread and leaves the statics as
they are; with the 'always' bit it returns true and hands back the new thread, which has
been put in front of the script's thread list, the threads of every other script being
as before (the statics returned are those after `exec()` ran the new thread, when the
'immediate' bit asks for that). -/
theorem C16_start_running (env : ACSEnv) (w : ACSWorld) (ref : Nat × Nat) (s : ACSScript)
    (flags : Nat) (argv : List Int) (trigger line : Option Nat) (lineSide : Int)
    (hs : w.scriptAt ref = some s) (hne : s.threads ≠ [])
    (hns : ∀ t ∈ s.threads, t.sreg ≠ ACSState.ACS_STATE_SUSPEND)
    (hargs : s.numArgs ≤ s.numVars) :
    (flags &&& env.ACS_EXECUTE_ALWAYS = 0 →
      ACS_ExecuteScript env w (some ref) flags argv trigger line lineSide
        = some (w, false, none)) ∧
    (flags &&& env.ACS_EXECUTE_ALWAYS ≠ 0 →
      ∃ (w2 : ACSWorld) (t : ACSThinker),
        ACS_ExecuteScript env w (some ref) flags argv trigger line lineSide =
          some (if flags &&& env.ACS_EXECUTE_IMMEDIATE ≠ 0 then env.exec w2 ref 0 else w2,
            true, some t) ∧
        w2.threadsOf ref = t :: s.threads ∧
        (∀ ref' : Nat × Nat, ref' ≠ ref → w2.threadsOf ref' = w.threadsOf ref') ∧
        w2.printed = w.printed) := by
  have hr := restart_none s.threads hns
  constructor
  · intro hflag
    unfold ACS_ExecuteScript ACS_ExecuteScript.go
    simp only
    rw [hs]
    simp only
    rw [hr, if_pos ⟨hflag, hne⟩, setThreads_self w ref s hs]
    rfl
  · intro hflag
    obtain ⟨lv, t, w2, -, ht, hw2, hres⟩ := ExecuteScript_new env w ref s flags argv trigger line
      lineSide hs hargs (Or.inl hflag)
    have hscr : t.script = ref := by rw [ht]
    rw [hr, setThreads_self w ref s hs] at hw2
    have hth : w.threadsOf ref = s.threads := by
      unfold ACSWorld.threadsOf; rw [hs]
    unfold ACS_addThread at hw2
    rw [hscr, hth] at hw2
    refine ⟨w2, t, hres, ?_, ?_, ?_⟩
    · rw [hw2, threadsOf_setThreads w ref ref _ s hs, if_pos rfl]
    · intro ref' hne'
      rw [hw2, threadsOf_setThreads w ref ref' _ s hs, if_neg hne']
    · rw [hw2]
      exact (setThreads_frame w ref _).1

theorem C16_start_running_witness :
    ACS_ExecuteScript ACSEnv.small
        { acsVMs := [{ scripts := [{ number := 1, numArgs := 1, numVars := 2, threads :=
            [{ sreg := ACSState.ACS_STATE_RUNNING }] }] }] }
        (some (0, 0)) 0 [5] none none 0 =
      some ({ acsVMs := [{ scripts := [{ number := 1, numArgs := 1, numVars := 2, threads :=
            [{ sreg := ACSState.ACS_STATE_RUNNING }] }] }] }, false, none) :=
  (C16_start_running ACSEnv.small
    { acsVMs := [{ scripts := [{ number := 1, numArgs := 1, numVars := 2, threads :=
        [{ sreg := ACSState.ACS_STATE_RUNNING }] }] }] }
    (0, 0)
    { number := 1, numArgs := 1, numVars := 2, threads := [{ sreg := ACSState.ACS_STATE_RUNNING }] }
    0 [5] none none 0 (by decide) (by decide) (by decide) (by decide)).1 (by decide)

/-- C17: for a script of which at least one thread is suspended, a start request without
the 'always' bit returns true and hands back no thread; in the script's thread list every
suspended thread has become running and every other thread is as before, at its place;
the threads of other scripts and what was put out are as before. -/
theorem C17_start_resumes (env : ACSEnv) (w : ACSWorld) (ref : Nat × Nat) (s : ACSScript)
    (flags : Nat) (argv : List Int) (trigger line : Option Nat) (lineSide : Int)
    (hs : w.scriptAt ref = some s)
    (hsusp : ∃ t ∈ s.threads, t.sreg = ACSState.ACS_STATE_SUSPEND)
    (hflag : flags &&& env.ACS_EXECUTE_ALWAYS = 0) :
    ∃ w1 : ACSWorld,
      ACS_ExecuteScript env w (some ref) flags argv trigger line lineSide
        = some (w1, true, none) ∧
      w1.threadsOf ref = s.threads.map (fun t =>
        if t.sreg = ACSState.ACS_STATE_SUSPEND then
          { t with sreg := ACSState.ACS_STATE_RUNNING }
        else t) ∧
      (∀ ref' : Nat × Nat, ref' ≠ ref → w1.threadsOf ref' = w.threadsOf ref') ∧
      w1.printed = w.printed := by
  obtain ⟨t0, ht0, hst0⟩ := hsusp
  have hany : s.threads.any (fun t => decide (t.sreg = ACSState.ACS_STATE_SUSPEND)) = true := by
    rw [List.any_eq_true]
    exact ⟨t0, ht0, by simpa using hst0⟩
  have hne : s.threads.map (fun t =>
      if t.sreg = ACSState.ACS_STATE_SUSPEND then
        { t with sreg := ACSState.ACS_STATE_RUNNING }
      else t) ≠ [] := by
    intro h
    rw [List.map_eq_nil_iff] at h
    rw [h] at ht0
    cases ht0
  refine ⟨w.setThreads ref (s.threads.map (fun t =>
      if t.sreg = ACSState.ACS_STATE_SUSPEND then
        { t with sreg := ACSState.ACS_STATE_RUNNING }
      else t)), ?_, ?_, ?_, ?_⟩
  · unfold ACS_ExecuteScript ACS_ExecuteScript.go
    simp only
    rw [hs]
    simp only
    rw [restart_eq, hany]
    simp only [Bool.false_or]
    rw [if_pos ⟨hflag, hne⟩]
    rfl
  · rw [threadsOf_setThreads w ref ref _ s hs, if_pos rfl]
  · intro ref' hne'
    rw [threadsOf_setThreads w ref ref' _ s hs, if_neg hne']
  · exact (setThreads_frame w ref _).1

theorem C17_start_resumes_witness :
    ∃ w1 : ACSWorld,
      ACS_ExecuteScript ACSEnv.small
        { acsVMs := [{ scripts := [{ number := 1, threads :=
            [{ sreg := ACSState.ACS_STATE_SUSPEND }, { sreg := ACSState.ACS_STATE_WAITTAG }] }] }] }
        (some (0, 0)) 0 [] none none 0 = some (w1, true, none) ∧
      w1.threadsOf (0, 0) =
        ([{ sreg := ACSState.ACS_STATE_SUSPEND },
          { sreg := ACSState.ACS_STATE_WAITTAG }] : List ACSThinker).map (fun t =>
        if t.sreg = ACSState.ACS_STATE_SUSPEND then
          { t with sreg := ACSState.ACS_STATE_RUNNING }
        else t) :=
  (C17_start_resumes ACSEnv.small
    { acsVMs := [{ scripts := [{ number := 1, threads :=
        [{ sreg := ACSState.ACS_STATE_SUSPEND }, { sreg := ACSState.ACS_STATE_WAITTAG }] }] }] }
    (0, 0)
    { number := 1, threads :=
        [{ sreg := ACSState.ACS_STATE_SUSPEND }, { sreg := ACSState.ACS_STATE_WAITTAG }] }
    0 [] none none 0 (by decide) (by decide) (by decide)).imp (fun _ h => ⟨h.1, h.2.1⟩)

/-- C18: when `ACS_ExecuteScript` creates a thread (the 'always' bit is set or the script
has no thread) for a script with `a` arguments among its variables, it returns true and
the new thread is running with wait datum 0, an empty operand stack, `ip` at the entry
point of the script in the script's module, which is its current module, and a window of
the script's variables from the start of the local variables; local `i` is `argv[i]` for
`i` below `a` and `argc`, 0 for `i` from `argc` on below `a`, and 0 from `a` on, whatever
further arguments were passed. -/
theorem C18_new_thread (env : ACSEnv) (w : ACSWorld) (ref : Nat × Nat) (s : ACSScript)
    (flags : Nat) (argv : List Int) (trigger line : Option Nat) (lineSide : Int)
    (hs : w.scriptAt ref = some s) (hargs : s.numArgs ≤ s.numVars)
    (hcreate : flags &&& env.ACS_EXECUTE_ALWAYS ≠ 0 ∨ s.threads = []) :
    ∃ (w1 : ACSWorld) (t : ACSThinker),
      ACS_ExecuteScript env w (some ref) flags argv trigger line lineSide
        = some (w1, true, some t) ∧
      t.sreg = ACSState.ACS_STATE_RUNNING ∧ t.sdata = 0 ∧
      t.stackPtr = 0 ∧ t.stack = List.replicate (env.ACS_NUM_STACK * 2) 0 ∧
      t.ip = s.codePtr ∧ t.ipVM = s.vm ∧ t.vm = s.vm ∧ t.script = ref ∧
      t.locals = 0 ∧ t.numLocals = s.numVars ∧ t.localvar.length = s.numVars ∧
      t.line = line ∧ t.lineSide = lineSide ∧ t.trigger = trigger ∧
      t.delay = env.newThinker.delay ∧ t.calls = env.newThinker.calls ∧
      t.callPtr = env.newThinker.callPtr ∧
      (∀ i : Nat, i < s.numArgs → i < argv.length →
        memAt t.localvar (t.locals + i) = some (argv.getD i 0)) ∧
      (∀ i : Nat, argv.length ≤ i → i < s.numArgs →
        memAt t.localvar (t.locals + i) = some 0) ∧
      (∀ i : Nat, s.numArgs ≤ i → i < s.numVars →
        memAt t.localvar (t.locals + i) = some 0) := by
  obtain ⟨lv, t, w2, hlv, ht, -, hres⟩ := ExecuteScript_new env w ref s flags argv trigger line
    lineSide hs hargs hcreate
  obtain ⟨lv1, hlv1, hlen, hin, hout⟩ := copyArgs_spec argv s.numArgs 0
    (List.replicate s.numVars 0) (by rw [List.length_replicate]; omega)
  rw [hlv] at hlv1
  cases hlv1
  have hmem : ∀ i : Nat, memAt t.localvar (t.locals + i) = lv[i]? := by
    intro i
    rw [ht]
    unfold memAt
    simp only [zero_add, Int.toNat_ofNat]
    rw [if_pos (by omega)]
  refine ⟨_, t, hres, by rw [ht], by rw [ht], by rw [ht], by rw [ht], by rw [ht], by rw [ht],
    by rw [ht], by rw [ht], by rw [ht], by rw [ht], ?_, by rw [ht], by rw [ht], by rw [ht],
    by rw [ht], by rw [ht], by rw [ht], ?_, ?_, ?_⟩
  · rw [ht]
    simp only
    rw [hlen, List.length_replicate]
  · intro i hi1 hi2
    rw [hmem, hin i (by omega) (by omega), if_pos hi2]
  · intro i hi1 hi2
    rw [hmem, hin i (by omega) (by omega), if_neg (by omega)]
  · intro i hi1 hi2
    rw [hmem, hout i (Or.inr (by omega)), List.getElem?_replicate, if_pos hi2]

theorem C18_new_thread_witness :
    ∃ (w1 : ACSWorld) (t : ACSThinker),
      ACS_ExecuteScript ACSEnv.small
        { acsVMs := [{ scripts := [{ number := 1, codePtr := 4, numArgs := 2, numVars := 3 }] }] }
        (some (0, 0)) 0 [7, 8, 9] none none 0 = some (w1, true, some t) ∧
      t.sreg = ACSState.ACS_STATE_RUNNING :=
  (C18_new_thread ACSEnv.small
    { acsVMs := [{ scripts := [{ number := 1, codePtr := 4, numArgs := 2, numVars := 3 }] }] }
    (0, 0) { number := 1, codePtr := 4, numArgs := 2, numVars := 3 }
    0 [7, 8, 9] none none 0 (by decide) (by decide) (by decide)).imp
    (fun _ h => h.imp (fun _ h => ⟨h.1, h.2.1⟩))

/-! ## Terminating and suspending a script -/

theorem terminate_loop_eq (ts : List ACSThinker) (b : Bool) :
    ACS_TerminateScript.loop ts b =
      (ts.map (fun t =>
          if t.sreg ≠ ACSState.ACS_STATE_STOPPED then
            { t with sreg := ACSState.ACS_STATE_TERMINATE }
          else t),
        b || ts.any (fun t => decide (t.sreg ≠ ACSState.ACS_STATE_STOPPED))) := by
  induction ts generalizing b with
  | nil => simp [ACS_TerminateScript.loop]
  | cons t ts ih =>
    unfold ACS_TerminateScript.loop
    by_cases h : t.sreg ≠ ACSState.ACS_STATE_STOPPED
    · rw [if_pos h]
      simp only [ih, List.map_cons, if_pos h, List.any_cons, decide_eq_true h, Bool.true_or,
        Bool.or_true]
    · rw [if_neg h]
      simp only [ih, List.map_cons, if_neg h, List.any_cons, decide_eq_false h, Bool.false_or]

theorem suspend_loop_eq (ts : List ACSThinker) (b : Bool) :
    ACS_SuspendScript.loop ts b =
      (ts.map (fun t =>
          if t.sreg ≠ ACSState.ACS_STATE_STOPPED ∧ t.sreg ≠ ACSState.ACS_STATE_TERMINATE then
            { t with sreg := ACSState.ACS_STATE_SUSPEND }
          else t),
        b || ts.any (fun t => decide (t.sreg ≠ ACSState.ACS_STATE_STOPPED ∧
          t.sreg ≠ ACSState.ACS_STATE_TERMINATE))) := by
  induction ts generalizing b with
  | nil => simp [ACS_SuspendScript.loop]
  | cons t ts ih =>
    unfold ACS_SuspendScript.loop
    by_cases h : t.sreg ≠ ACSState.ACS_STATE_STOPPED ∧ t.sreg ≠ ACSState.ACS_STATE_TERMINATE
    · rw [if_pos h]
      simp only [ih, List.map_cons, if_pos h, List.any_cons, decide_eq_true h, Bool.true_or,
        Bool.or_true]
    · rw [if_neg h]
      simp only [ih, List.map_cons, if_neg h, List.any_cons, decide_eq_false h, Bool.false_or]

/-- C19: `ACS_TerminateScript` returns false and changes nothing for a null script. For a
script, every thread of it whose state is not stopped gets the state terminate and keeps
its other fields and its place, the stopped ones are as before; the threads of every
other script, the variables, arrays and code and what was put out are as before; and the
result is true exactly when the script had a thread that was not stopped. -/
theorem C19_terminate (w : ACSWorld) (ref : Nat × Nat) (s : ACSScript)
    (hs : w.scriptAt ref = some s) :
    ACS_TerminateScript w none = (w, false) ∧
    (ACS_TerminateScript w (some ref)).1.threadsOf ref = s.threads.map (fun t =>
      if t.sreg ≠ ACSState.ACS_STATE_STOPPED then
        { t with sreg := ACSState.ACS_STATE_TERMINATE }
      else t) ∧
    (∀ ref' : Nat × Nat, ref' ≠ ref →
      (ACS_TerminateScript w (some ref)).1.threadsOf ref' = w.threadsOf ref') ∧
    (ACS_TerminateScript w (some ref)).1.printed = w.printed ∧
    (ACS_TerminateScript w (some ref)).1.ACSworldvars = w.ACSworldvars ∧
    (ACS_TerminateScript w (some ref)).1.ACSworldarrs = w.ACSworldarrs ∧
    (ACS_TerminateScript w (some ref)).1.ACSglobalvars = w.ACSglobalvars ∧
    (ACS_TerminateScript w (some ref)).1.ACSglobalarrs = w.ACSglobalarrs ∧
    (ACS_TerminateScript w (some ref)).1.acsVMs.map (fun m => (m.code, m.mapvars, m.maparrs)) =
      w.acsVMs.map (fun m => (m.code, m.mapvars, m.maparrs)) ∧
    ((ACS_TerminateScript w (some ref)).2 = true ↔
      ∃ t ∈ s.threads, t.sreg ≠ ACSState.ACS_STATE_STOPPED) := by
  have hth : w.threadsOf ref = s.threads := by
    unfold ACSWorld.threadsOf; rw [hs]
  have hf := setThreads_frame w ref (ACS_TerminateScript.loop s.threads false).1
  have h1 : (ACS_TerminateScript w (some ref)).1 =
      w.setThreads ref (ACS_TerminateScript.loop s.threads false).1 := by
    unfold ACS_TerminateScript
    simp only
    rw [hth]
  have h2 : (ACS_TerminateScript w (some ref)).2 = (ACS_TerminateScript.loop s.threads false).2 := by
    unfold ACS_TerminateScript
    simp only
    rw [hth]
  rw [h1, h2]
  refine ⟨rfl, ?_, ?_, hf.1, hf.2.1, hf.2.2.1, hf.2.2.2.1, hf.2.2.2.2.1, hf.2.2.2.2.2, ?_⟩
  · rw [threadsOf_setThreads w ref ref _ s hs, if_pos rfl, terminate_loop_eq]
  · intro ref' hne
    rw [threadsOf_setThreads w ref ref' _ s hs, if_neg hne]
  · rw [terminate_loop_eq]
    simp only [Bool.false_or, List.any_eq_true, decide_eq_true_eq]

theorem C19_terminate_witness :
    (ACS_TerminateScript
        { acsVMs := [{ scripts := [{ number := 1, threads :=
            [{ sreg := ACSState.ACS_STATE_RUNNING }, { sreg := ACSState.ACS_STATE_STOPPED }] }] }] }
        (some (0, 0))).1.threadsOf (0, 0) =
      ([{ sreg := ACSState.ACS_STATE_RUNNING },
        { sreg := ACSState.ACS_STATE_STOPPED }] : List ACSThinker).map (fun t =>
      if t.sreg ≠ ACSState.ACS_STATE_STOPPED then
        { t with sreg := ACSState.ACS_STATE_TERMINATE }
      else t) :=
  (C19_terminate
    { acsVMs := [{ scripts := [{ number := 1, threads :=
        [{ sreg := ACSState.ACS_STATE_RUNNING }, { sreg := ACSState.ACS_STATE_STOPPED }] }] }] }
    (0, 0)
    { number := 1, threads :=
        [{ sreg := ACSState.ACS_STATE_RUNNING }, { sreg := ACSState.ACS_STATE_STOPPED }] }
    (by decide)).2.1

/-- C20: for a script, `ACS_SuspendScript` gives every thread of it whose state is
neither stopped nor terminate the state suspend (its other fields and its place are
kept), and leaves the stopped and the terminating threads as they are; the threads of
every other script and what was put out are as before; and the result is true exactly
when the script had a thread that was neither stopped nor terminating. For a null script
it returns false and changes nothing. -/
theorem C20_suspend (w : ACSWorld) (ref : Nat × Nat) (s : ACSScript)
    (hs : w.scriptAt ref = some s) :
    ACS_SuspendScript w none = (w, false) ∧
    (ACS_SuspendScript w (some ref)).1.threadsOf ref = s.threads.map (fun t =>
      if t.sreg ≠ ACSState.ACS_STATE_STOPPED ∧ t.sreg ≠ ACSState.ACS_STATE_TERMINATE then
        { t with sreg := ACSState.ACS_STATE_SUSPEND }
      else t) ∧
    (∀ ref' : Nat × Nat, ref' ≠ ref →
      (ACS_SuspendScript w (some ref)).1.threadsOf ref' = w.threadsOf ref') ∧
    (ACS_SuspendScript w (some ref)).1.printed = w.printed ∧
    ((ACS_SuspendScript w (some ref)).2 = true ↔
      ∃ t ∈ s.threads, t.sreg ≠ ACSState.ACS_STATE_STOPPED ∧
        t.sreg ≠ ACSState.ACS_STATE_TERMINATE) := by
  have hth : w.threadsOf ref = s.threads := by
    unfold ACSWorld.threadsOf; rw [hs]
  have hf := setThreads_frame w ref (ACS_SuspendScript.loop s.threads false).1
  have h1 : (ACS_SuspendScript w (some ref)).1 =
      w.setThreads ref (ACS_SuspendScript.loop s.threads false).1 := by
    unfold ACS_SuspendScript
    simp only
    rw [hth]
  have h2 : (ACS_SuspendScript w (some ref)).2 = (ACS_SuspendScript.loop s.threads false).2 := by
    unfold ACS_SuspendScript
    simp only
    rw [hth]
  rw [h1, h2]
  refine ⟨rfl, ?_, ?_, hf.1, ?_⟩
  · rw [threadsOf_setThreads w ref ref _ s hs, if_pos rfl, suspend_loop_eq]
  · intro ref' hne
    rw [threadsOf_setThreads w ref ref' _ s hs, if_neg hne]
  · rw [suspend_loop_eq]
    simp only [Bool.false_or, List.any_eq_true, decide_eq_true_eq]

theorem C20_suspend_witness :
    (ACS_SuspendScript
        { acsVMs := [{ scripts := [{ number := 1, threads :=
            [{ sreg := ACSState.ACS_STATE_RUNNING }, { sreg := ACSState.ACS_STATE_TERMINATE },
             { sreg := ACSState.ACS_STATE_STOPPED }] }] }] }
        (some (0, 0))).1.threadsOf (0, 0) =
      ([{ sreg := ACSState.ACS_STATE_RUNNING }, { sreg := ACSState.ACS_STATE_TERMINATE },
        { sreg := ACSState.ACS_STATE_STOPPED }] : List ACSThinker).map (fun t =>
      if t.sreg ≠ ACSState.ACS_STATE_STOPPED ∧ t.sreg ≠ ACSState.ACS_STATE_TERMINATE then
        { t with sreg := ACSState.ACS_STATE_SUSPEND }
      else t) :=
  (C20_suspend
    { acsVMs := [{ scripts := [{ number := 1, threads :=
        [{ sreg := ACSState.ACS_STATE_RUNNING }, { sreg := ACSState.ACS_STATE_TERMINATE },
         { sreg := ACSState.ACS_STATE_STOPPED }] }] }] }
    (0, 0)
    { number := 1, threads :=
        [{ sreg := ACSState.ACS_STATE_RUNNING }, { sreg := ACSState.ACS_STATE_TERMINATE },
         { sreg := ACSState.ACS_STATE_STOPPED }] }
    (by decide)).2.1

/-! ## Completion wake-up; the delay counter -/

theorem wake_eq (G : List ACSString) (number : Int) (name : Option (List Int))
    (th : ACSThinker) :
    ACS_scriptFinished.wake G number name th =
      if (th.sreg = ACSState.ACS_STATE_WAITSCRIPTNUMBER ∧ th.sdata = number) ∨
          (th.sreg = ACSState.ACS_STATE_WAITSCRIPTNAME ∧ name.isSome = true ∧
            strcaseeq (ACSModule.GetString G th.sdata) (name.getD []) = true) then
        { th with sreg := ACSState.ACS_STATE_RUNNING, sdata := 0 }
      else th := by
  unfold ACS_scriptFinished.wake
  by_cases h1 : th.sreg = ACSState.ACS_STATE_WAITSCRIPTNUMBER ∧ th.sdata = number
  · rw [if_pos h1, if_pos (Or.inl h1)]
  · rw [if_neg h1]
    by_cases h2 : th.sreg = ACSState.ACS_STATE_WAITSCRIPTNAME ∧ name.isSome = true ∧
        strcaseeq (ACSModule.GetString G th.sdata) (name.getD []) = true
    · rw [if_pos h2, if_pos (Or.inr h2)]
    · rw [if_neg h2, if_neg (not_or.mpr ⟨h1, h2⟩)]

/-- C21: `ACS_stopScript` of the `k`-th thread of a script `S`. When no thread of `S` is
left after the removal, each thread of each script that waits on a script number with
wait datum the number of `S`, or on a script name with `S` named and the waited string
equal to that name up to case, gets state running and wait datum 0, and every other
thread is as before (all its fields, and its place); when `S` keeps a thread, every
thread but the removed one is as before. -/
theorem C21_completion_wakeup (w : ACSWorld) (thread : ACSThinker) (k : Nat) (s : ACSScript)
    (hs : w.scriptAt thread.script = some s) :
    (s.threads.eraseIdx k = [] →
      ∀ ref : Nat × Nat, (ACS_stopScript w thread k).threadsOf ref =
        (if ref = thread.script then [] else w.threadsOf ref).map (fun th =>
          if (th.sreg = ACSState.ACS_STATE_WAITSCRIPTNUMBER ∧ th.sdata = s.number) ∨
              (th.sreg = ACSState.ACS_STATE_WAITSCRIPTNAME ∧ s.name.isSome = true ∧
                strcaseeq (ACSModule.GetString w.GlobalStrings th.sdata) (s.name.getD [])
                  = true) then
            { th with sreg := ACSState.ACS_STATE_RUNNING, sdata := 0 }
          else th)) ∧
    (s.threads.eraseIdx k ≠ [] →
      ∀ ref : Nat × Nat, (ACS_stopScript w thread k).threadsOf ref =
        if ref = thread.script then s.threads.eraseIdx k else w.threadsOf ref) := by
  have ht := ACS_stopScript_threads w thread k s hs
  constructor
  · intro hlast ref
    rw [ht ref, hlast]
    simp only [if_true]
    apply List.map_congr_left
    intro th _
    exact wake_eq _ _ _ _
  · intro hmore ref
    rw [ht ref]
    simp only [hmore, if_false, List.map_id']

theorem C21_completion_wakeup_witness :
      (ACS_stopScript
        { acsVMs := [{ scripts :=
            [{ number := 1, threads := [{ script := (0, 0),
                                          sreg := ACSState.ACS_STATE_RUNNING }] },
             { number := 2, threads := [{ sreg := ACSState.ACS_STATE_WAITSCRIPTNUMBER,
                                          sdata := 1, script := (0, 1) }] }] }] }
        { script := (0, 0), sreg := ACSState.ACS_STATE_RUNNING } 0).threadsOf (0, 1) =
      (if ((0, 1) : Nat × Nat) = (0, 0) then []
        else ACSWorld.threadsOf
          { acsVMs := [{ scripts :=
            [{ number := 1, threads := [{ script := (0, 0),
                                          sreg := ACSState.ACS_STATE_RUNNING }] },
             { number := 2, threads := [{ sreg := ACSState.ACS_STATE_WAITSCRIPTNUMBER,
                                          sdata := 1, script := (0, 1) }] }] }] } (0, 1)).map
        (fun th =>
          if (th.sreg = ACSState.ACS_STATE_WAITSCRIPTNUMBER ∧ th.sdata = 1) ∨
              (th.sreg = ACSState.ACS_STATE_WAITSCRIPTNAME ∧
                (none : Option (List Int)).isSome = true ∧
                strcaseeq (ACSModule.GetString [] th.sdata) ((none : Option (List Int)).getD [])
                  = true) then
            { th with sreg := ACSState.ACS_STATE_RUNNING, sdata := 0 }
          else th) :=
  (C21_completion_wakeup
    { acsVMs := [{ scripts :=
        [{ number := 1, threads := [{ script := (0, 0),
                                      sreg := ACSState.ACS_STATE_RUNNING }] },
         { number := 2, threads := [{ sreg := ACSState.ACS_STATE_WAITSCRIPTNUMBER,
                                      sdata := 1, script := (0, 1) }] }] }] }
    { script := (0, 0), sreg := ACSState.ACS_STATE_RUNNING } 0
    { number := 1, threads := [{ script := (0, 0), sreg := ACSState.ACS_STATE_RUNNING }] }
    (by decide)).1 (by decide) (0, 1)

/-- C22 (as stated, refuted): a running thread with delay counter 1, whose next
instruction is `SCRIPT_TERMINATE`: the scheduling step returns with the counter at 0 and
the thread otherwise as it was, still in its script's list - the instruction has not
been executed, although the delay is no longer pending after the decrement. -/
theorem C22_counterexample :
    ACSThinker.Think ACSEnv.small
        (Dispatch.mk (fun n => [Opcode.NOP, Opcode.SCRIPT_TERMINATE][n.toNat]?)
          (fun _ e => Outcome.NEXTOP e) false) 10
        { acsVMs := [{ code := [1], scripts := [{ number := 1, threads :=
            [{ sreg := ACSState.ACS_STATE_RUNNING, delay := 1 }] }] }] }
        (0, 0) 0 =
      some { acsVMs := [{ code := [1], scripts := [{ number := 1, threads :=
            [{ sreg := ACSState.ACS_STATE_RUNNING, delay := 0 }] }] }] } := by
  decide

/-- C22 (amended): a scheduling step of a running thread whose delay counter is not 0
takes one off the counter and returns; the thread is otherwise as before and no
instruction is executed, also when the counter has become 0. With the counter at 0 the
step enters the dispatch loop at the thread's `ip` and stack pointer. -/
theorem C22_delay (env : ACSEnv) (dis : Dispatch) (fuel : Nat) (w : ACSWorld)
    (ref : Nat × Nat) (k : Nat) (this : ACSThinker)
    (hthis : (w.threadsOf ref)[k]? = some this)
    (hrun : this.sreg = ACSState.ACS_STATE_RUNNING) :
    (this.delay ≠ 0 →
      ACSThinker.Think env dis fuel w ref k =
        some (w.setThreads this.script
          ((w.threadsOf this.script).set k { this with delay := this.delay - 1 }))) ∧
    (this.delay = 0 →
      ACSThinker.Think env dis fuel w ref k =
        (Think.loop env dis fuel
          { w := w, this := this, thisIdx := k, ip := this.ip, ipVM := this.ipVM,
            stp := this.stackPtr, count := 0 }).finish) := by
  have hb : Think.begin env w this k = Think.delayCheck w this k := by
    unfold Think.begin
    rw [hrun]
  unfold ACSThinker.Think
  rw [hthis]
  simp only
  rw [hb]
  unfold Think.delayCheck
  constructor
  · intro hd
    rw [if_pos hd]
  · intro hd
    rw [if_neg (not_not.mpr hd)]

theorem C22_delay_witness :
    ACSThinker.Think ACSEnv.small
        (Dispatch.mk (fun n => [Opcode.NOP, Opcode.SCRIPT_TERMINATE][n.toNat]?)
          (fun _ e => Outcome.NEXTOP e) false) 10
        { acsVMs := [{ code := [1], scripts := [{ number := 1, threads :=
            [{ sreg := ACSState.ACS_STATE_RUNNING, delay := 3 }] }] }] }
        (0, 0) 0 =
      some (ACSWorld.setThreads
        { acsVMs := [{ code := [1], scripts := [{ number := 1, threads :=
            [{ sreg := ACSState.ACS_STATE_RUNNING, delay := 3 }] }] }] }
        (0, 0)
        ((ACSWorld.threadsOf
          { acsVMs := [{ code := [1], scripts := [{ number := 1, threads :=
            [{ sreg := ACSState.ACS_STATE_RUNNING, delay := 3 }] }] }] } (0, 0)).set 0
          { sreg := ACSState.ACS_STATE_RUNNING, delay := 3 - 1 })) :=
  (C22_delay ACSEnv.small
    (Dispatch.mk (fun n => [Opcode.NOP, Opcode.SCRIPT_TERMINATE][n.toNat]?)
      (fun _ e => Outcome.NEXTOP e) false) 10
    { acsVMs := [{ code := [1], scripts := [{ number := 1, threads :=
        [{ sreg := ACSState.ACS_STATE_RUNNING, delay := 3 }] }] }] }
    (0, 0) 0 { sreg := ACSState.ACS_STATE_RUNNING, delay := 3 } (by decide) (by decide)).1
    (by decide)

/-! ## Waiting on a tag -/

theorem nodup_length_le (l : List Nat) (n : Nat) (hnd : l.Nodup) (hlt : ∀ x ∈ l, x < n) :
    l.length ≤ n := by
  have h1 : l.toFinset ⊆ Finset.range n := by
    intro x hx
    rw [List.mem_toFinset] at hx
    exact Finset.mem_range.mpr (hlt x hx)
  have h2 := Finset.card_le_card h1
  rw [List.toFinset_card_of_nodup hnd, Finset.card_range] at h2
  exact h2

/-- The loop of `ACS_checkTag` along the sectors `chain` that the tag search yields one
after the other: from the `j`-th on, it answers whether none of them has a floor or
ceiling thinker. -/
theorem checkTag_loop (env : ACSEnv) (tag : Int) (chain : List Nat)
    (hfind : ∀ i : Nat, i ≤ chain.length →
      env.P_FindSectorFromTag tag (if i = 0 then -1 else (chain.getD (i - 1) 0 : Int)) =
        if i < chain.length then (chain.getD i 0 : Int) else -1)
    (hvalid : ∀ j ∈ chain, j < env.sectors.length) (n : Nat) :
    ∀ (j fuel : Nat), j + n = chain.length → n + 1 ≤ fuel →
      ACS_checkTag.loop env tag fuel (if j = 0 then -1 else (chain.getD (j - 1) 0 : Int)) =
        some ((chain.drop j).all (fun s =>
          match env.sectors[s]? with
          | some sec => !(sec.floordata.isSome || sec.ceilingdata.isSome)
          | none => true)) := by
  induction n with
  | zero =>
    intro j fuel hj hf
    obtain ⟨m, rfl⟩ : ∃ m, fuel = m + 1 := ⟨fuel - 1, by omega⟩
    unfold ACS_checkTag.loop
    simp only
    rw [hfind j (by omega), if_neg (by omega)]
    rw [List.drop_of_length_le (by omega)]
    rfl
  | succ n ih =>
    intro j fuel hj hf
    obtain ⟨m, rfl⟩ : ∃ m, fuel = m + 1 := ⟨fuel - 1, by omega⟩
    have hjlt : j < chain.length := by omega
    have hget : chain.getD j 0 = chain[j] := by
      rw [List.getD_eq_getElem?_getD, List.getElem?_eq_getElem hjlt]
      rfl
    have hsec : chain[j] < env.sectors.length := hvalid _ (List.getElem_mem _)
    unfold ACS_checkTag.loop
    simp only
    rw [hfind j (by omega), if_pos hjlt, hget]
    rw [if_pos (by omega)]
    simp only [Int.toNat_ofNat]
    rw [List.getElem?_eq_getElem hsec]
    simp only
    have hdrop : chain.drop j = chain[j] :: chain.drop (j + 1) := by
      rw [List.drop_eq_getElem_cons hjlt]
    rw [hdrop, List.all_cons, List.getElem?_eq_getElem hsec]
    simp only
    by_cases hact : env.sectors[chain[j]].floordata.isSome = true ∨
        env.sectors[chain[j]].ceilingdata.isSome = true
    · rw [if_pos hact]
      have : (env.sectors[chain[j]].floordata.isSome ||
          env.sectors[chain[j]].ceilingdata.isSome) = true := by
        simpa using hact
      rw [this]
      rfl
    · rw [if_neg hact]
      have : (env.sectors[chain[j]].floordata.isSome ||
          env.sectors[chain[j]].ceilingdata.isSome) = false := by
        simpa using hact
      rw [this]
      have h := ih (j + 1) m (by omega) (by omega)
      simp only [Nat.add_one_ne_zero, if_false, Nat.add_sub_cancel, hget] at h
      rw [h]
      rfl

/-- C23: a scheduling step of a thread that waits on the tag in its wait datum, the tag
search of the host running through the sectors that carry the tag, each once. While a
sector with the tag has a floor or ceiling thinker, `ACS_checkTag` is false and the
step returns with the statics, the thread among them, as they are and without having
entered the dispatch loop; when there is no such sector, `ACS_checkTag` is true, the
thread gets state running and the step goes on to the delay check with it. -/
theorem C23_tag_wait (env : ACSEnv) (w : ACSWorld) (this : ACSThinker) (k : Nat)
    (chain : List Nat)
    (hwait : this.sreg = ACSState.ACS_STATE_WAITTAG)
    (hfind : ∀ i : Nat, i ≤ chain.length →
      env.P_FindSectorFromTag this.sdata
          (if i = 0 then -1 else (chain.getD (i - 1) 0 : Int)) =
        if i < chain.length then (chain.getD i 0 : Int) else -1)
    (hnodup : chain.Nodup)
    (hmem : ∀ j : Nat, j ∈ chain ↔
      ∃ sec : sector_t, env.sectors[j]? = some sec ∧ sec.tag = this.sdata) :
    ((∃ sec ∈ env.sectors, sec.tag = this.sdata ∧
        (sec.floordata.isSome = true ∨ sec.ceilingdata.isSome = true)) →
      ACS_checkTag env this = some false ∧
      Think.begin env w this k = ThinkStart.returned w) ∧
    ((¬ ∃ sec ∈ env.sectors, sec.tag = this.sdata ∧
        (sec.floordata.isSome = true ∨ sec.ceilingdata.isSome = true)) →
      ACS_checkTag env this = some true ∧
      Think.begin env w this k =
        Think.delayCheck w { this with sreg := ACSState.ACS_STATE_RUNNING } k) := by
  have hvalid : ∀ j ∈ chain, j < env.sectors.length := by
    intro j hj
    obtain ⟨sec, hsec, -⟩ := (hmem j).mp hj
    exact (List.getElem?_eq_some.mp hsec).1
  have hlen := nodup_length_le chain env.sectors.length hnodup hvalid
  have hloop := checkTag_loop env this.sdata chain hfind hvalid chain.length 0
    (env.sectors.length + 1) (by omega) (by omega)
  simp only [if_true, List.drop_zero] at hloop
  constructor
  · rintro ⟨sec, hsec, htag, hact⟩
    obtain ⟨j, hj⟩ := List.mem_iff_getElem?.mp hsec
    have hjc : j ∈ chain := (hmem j).mpr ⟨sec, hj, htag⟩
    have hall : chain.all (fun s =>
        match env.sectors[s]? with
        | some sec => !(sec.floordata.isSome || sec.ceilingdata.isSome)
        | none => true) = false := by
      rw [List.all_eq_false]
      refine ⟨j, hjc, ?_⟩
      rw [hj]
      simp only [Bool.not_eq_true, Bool.not_eq_false', Bool.or_eq_true]
      exact hact
    have hct : ACS_checkTag env this = some false := by
      unfold ACS_checkTag
      rw [hloop, hall]
    refine ⟨hct, ?_⟩
    unfold Think.begin
    rw [hwait]
    simp only
    rw [hct]
  · intro hno
    have hall : chain.all (fun s =>
        match env.sectors[s]? with
        | some sec => !(sec.floordata.isSome || sec.ceilingdata.isSome)
        | none => true) = true := by
      rw [List.all_eq_true]
      intro s hs
      obtain ⟨sec, hsec, htag⟩ := (hmem s).mp hs
      rw [hsec]
      simp only [Bool.not_eq_true', Bool.or_eq_false_iff]
      have hin : sec ∈ env.sectors := List.getElem?_mem hsec
      constructor
      · by_contra hc
        exact hno ⟨sec, hin, htag, Or.inl (by cases hf : sec.floordata <;> simp_all)⟩
      · by_contra hc
        exact hno ⟨sec, hin, htag, Or.inr (by cases hf : sec.ceilingdata <;> simp_all)⟩
    have hct : ACS_checkTag env this = some true := by
      unfold ACS_checkTag
      rw [hloop, hall]
    refine ⟨hct, ?_⟩
    unfold Think.begin
    rw [hwait]
    simp only
    rw [hct]

theorem C23_tag_wait_witness :
    ACS_checkTag
        { ACSEnv.small with
          sectors := [{ tag := 5, floordata := some 1 }]
          P_FindSectorFromTag := fun tag start => if tag = 5 ∧ start < 0 then 0 else -1 }
        { sreg := ACSState.ACS_STATE_WAITTAG, sdata := 5 } = some false ∧
    Think.begin
        { ACSEnv.small with
          sectors := [{ tag := 5, floordata := some 1 }]
          P_FindSectorFromTag := fun tag start => if tag = 5 ∧ start < 0 then 0 else -1 }
        { acsVMs := [{ scripts := [{ number := 1, threads :=
            [{ sreg := ACSState.ACS_STATE_WAITTAG, sdata := 5 }] }] }] }
        { sreg := ACSState.ACS_STATE_WAITTAG, sdata := 5 } 0 =
      ThinkStart.returned
        { acsVMs := [{ scripts := [{ number := 1, threads :=
            [{ sreg := ACSState.ACS_STATE_WAITTAG, sdata := 5 }] }] }] } :=
  (C23_tag_wait
    { ACSEnv.small with
      sectors := [{ tag := 5, floordata := some 1 }]
      P_FindSectorFromTag := fun tag start => if tag = 5 ∧ start < 0 then 0 else -1 }
    { acsVMs := [{ scripts := [{ number := 1, threads :=
        [{ sreg := ACSState.ACS_STATE_WAITTAG, sdata := 5 }] }] }] }
    { sreg := ACSState.ACS_STATE_WAITTAG, sdata := 5 } 0 [0] (by decide) (by decide)
    (by decide) (by intro j; rcases j with _ | j <;> simp)).1 (by decide)

/-! ## Arithmetic on the stack -/

theorem i32_spec (x : Int) :
    -2147483648 ≤ i32 x ∧ i32 x < 2147483648 ∧ (i32 x - x) % 4294967296 = 0 := by
  unfold i32
  omega

theorem tdiv_range (a b : Int) (ha : -2147483648 ≤ a) (ha2 : a < 2147483648) (hb : b ≠ 0)
    (hov : ¬ (a = -2147483648 ∧ b = -1)) :
    -2147483648 ≤ Int.tdiv a b ∧ Int.tdiv a b < 2147483648 := by
  have h : (a.tdiv b).natAbs = a.natAbs / b.natAbs := Int.natAbs_tdiv a b
  have hb1 : 1 ≤ b.natAbs := Int.natAbs_pos.mpr hb
  have hle : a.natAbs / b.natAbs ≤ a.natAbs := Nat.div_le_self _ _
  have ha3 : a.natAbs ≤ 2147483648 := by omega
  by_cases hb2 : b.natAbs = 1
  · rcases Int.natAbs_eq b with hb3 | hb3
    · have : b = 1 := by omega
      subst this
      simp
      omega
    · have : b = -1 := by omega
      subst this
      have : a ≠ -2147483648 := fun h => hov ⟨h, rfl⟩
      simp
      omega
  · have hb3 : 2 ≤ b.natAbs := by omega
    have : a.natAbs / b.natAbs ≤ a.natAbs / 2 := Nat.div_le_div_left hb3 (by omega)
    omega

theorem memSet_of_memAt (buf : List Int) (i x v : Int) (h : memAt buf i = some x) :
    memSet buf i v = some (buf.set i.toNat v) := by
  unfold memAt at h
  unfold memSet
  split at h
  · next h0 =>
    rw [if_pos ⟨h0, (List.getElem?_eq_some.mp h).1⟩]
  · cases h

/-- A stack instruction of the form `temp = POP(); STACK_AT(1) = g(STACK_AT(1))`. -/
theorem stack_binop (d : ACSArrayDims) (e : Exec) (a b : Int) (g : Int → Int → Option Int)
    (v : Int) (ha : memAt e.this.stack (e.stp - 2) = some a)
    (hb : memAt e.this.stack (e.stp - 1) = some b) (hg : g a b = some v) :
    POP e (fun temp e => updateOperand d (fun x => g x temp) OperandForm.STACK e) =
      Outcome.NEXTOP
        { e with stp := e.stp - 1,
                 this := { e.this with stack := e.this.stack.set (e.stp - 2).toNat v } } := by
  unfold POP
  rw [hb]
  simp only [updateOperand, modifyMem]
  have h2 : e.stp - 1 - 1 = e.stp - 2 := by omega
  rw [h2, ha]
  simp only
  rw [hg]
  simp only
  rw [memSet_of_memAt _ _ _ _ ha]

theorem div_stack (d : ACSArrayDims) (FixedDiv : Int → Int → Int) (e : Exec) (a b : Int)
    (ha : memAt e.this.stack (e.stp - 2) = some a)
    (hb : memAt e.this.stack (e.stp - 1) = some b) (hb0 : b ≠ 0) :
    (DivOpcode.DIV OperandForm.STACK).exec d FixedDiv e =
      match c_div a b with
      | some v =>
        Outcome.NEXTOP
          { e with stp := e.stp - 1,
                   this := { e.this with stack := e.this.stack.set (e.stp - 2).toNat v } }
      | none => Outcome.undefined := by
  show DIVOP_GROUP d c_div OperandForm.STACK e = _
  unfold DIVOP_GROUP DIVOP_EQ POP
  rw [hb]
  simp only [DIV_CHECK, if_neg hb0, updateOperand, modifyMem]
  have h2 : e.stp - 1 - 1 = e.stp - 2 := by omega
  rw [h2, ha]
  simp only
  cases hc : c_div a b with
  | none => rfl
  | some v =>
    simp only
    rw [memSet_of_memAt _ _ _ _ ha]

/-- C30 (the code diverges at `DIV_STACK` of -2^31 by -1): with `a` below `b` on top of
the operand stack, `ADD_STACK`, `SUB_STACK` and `MUL_STACK` take `b` off and put the
sum, difference or product, reduced to the signed 32-bit range modulo 2^32, in the place
of `a`, and `NEGATE_STACK` puts the so reduced `-b` in the place of `b`, each going on to
the next instruction; `DIV_STACK` with `b` not 0 does so with the quotient truncated
toward zero, which lies in the signed 32-bit range, unless `a` is -2^31 and `b` is -1:
then the division has no defined result (the quotient 2^31 is no `int32_t`; the
processor's division faults) and nothing is stored. -/
theorem C30_stack_arith (d : ACSArrayDims) (FixedDiv : Int → Int → Int) (e : Exec)
    (a b : Int)
    (ha : memAt e.this.stack (e.stp - 2) = some a)
    (hb : memAt e.this.stack (e.stp - 1) = some b)
    (ha32 : -2147483648 ≤ a ∧ a < 2147483648) :
    (∀ op : BinOp,
      BINOP_GROUP d op OperandForm.STACK e =
        Outcome.NEXTOP
          { e with stp := e.stp - 1,
                   this := { e.this with
                     stack := e.this.stack.set (e.stp - 2).toNat (op.eval a b) } }) ∧
    (BinOp.ADD.eval a b = i32 (a + b) ∧ BinOp.SUB.eval a b = i32 (a - b) ∧
      BinOp.MUL.eval a b = i32 (a * b)) ∧
    op_NEGATE_STACK d e =
      Outcome.NEXTOP
        { e with this := { e.this with stack := e.this.stack.set (e.stp - 1).toNat (i32 (-b)) } } ∧
    (∀ x : Int, -2147483648 ≤ i32 x ∧ i32 x < 2147483648 ∧ (i32 x - x) % 4294967296 = 0) ∧
    (b ≠ 0 → ¬ (a = -2147483648 ∧ b = -1) →
      (DivOpcode.DIV OperandForm.STACK).exec d FixedDiv e =
        Outcome.NEXTOP
          { e with stp := e.stp - 1,
                   this := { e.this with
                     stack := e.this.stack.set (e.stp - 2).toNat (Int.tdiv a b) } } ∧
      -2147483648 ≤ Int.tdiv a b ∧ Int.tdiv a b < 2147483648) ∧
    (a = -2147483648 → b = -1 →
      (DivOpcode.DIV OperandForm.STACK).exec d FixedDiv e = Outcome.undefined) := by
  refine ⟨?_, ⟨rfl, rfl, rfl⟩, ?_, i32_spec, ?_, ?_⟩
  · intro op
    unfold BINOP_GROUP
    exact stack_binop d e a b (fun x temp => some (op.eval x temp)) _ ha hb rfl
  · unfold op_NEGATE_STACK
    simp only [updateOperand, modifyMem]
    rw [hb]
    simp only
    rw [memSet_of_memAt _ _ _ _ hb]
  · intro hb0 hov
    rw [div_stack d FixedDiv e a b ha hb hb0]
    have hc : c_div a b = some (Int.tdiv a b) := by
      unfold c_div
      rw [if_neg (by rintro (h | h); exact hb0 h; exact hov h)]
    rw [hc]
    exact ⟨rfl, tdiv_range a b ha32.1 ha32.2 hb0 hov⟩
  · intro ha1 hb1
    rw [div_stack d FixedDiv e a b ha hb (by omega)]
    have hc : c_div a b = none := by
      unfold c_div
      rw [if_pos (Or.inr ⟨ha1, hb1⟩)]
    rw [hc]

theorem C30_stack_arith_witness :
    (DivOpcode.DIV OperandForm.STACK).exec (ACSArrayDims.mk 256 256 256 256) (fun _ _ => 0)
        { w := {}, this := { stack := [7, -2147483648, -1] }, ip := 0, stp := 3 } =
      Outcome.undefined :=
  (C30_stack_arith (ACSArrayDims.mk 256 256 256 256) (fun _ _ => 0)
    { w := {}, this := { stack := [7, -2147483648, -1] }, ip := 0, stp := 3 }
    (-2147483648) (-1) (by decide) (by decide) (by decide)).2.2.2.2.2 rfl rfl

/-! ## The queue of deferred actions -/

theorem IsDeferredNumber_eq_any (env : ACSEnv) (l : List ACSDeferred) (number mapnum : Int) :
    ACSDeferred.IsDeferredNumber env l number mapnum =
      l.any (fun dacs => decide (dacs.mapnum = mapnum ∧
        dacs.flags &&& env.ACS_EXECUTE_ALWAYS = 0 ∧ dacs.name = none ∧
        dacs.number = number)) := by
  induction l with
  | nil => rfl
  | cons a l ih =>
    unfold ACSDeferred.IsDeferredNumber
    rw [List.any_cons, ih]
    split
    · next h => rw [decide_eq_true h, Bool.true_or]
    · next h => rw [decide_eq_false h, Bool.false_or]

theorem IsDeferredName_eq_any (env : ACSEnv) (l : List ACSDeferred) (name : List Int)
    (mapnum : Int) :
    ACSDeferred.IsDeferredName env l name mapnum =
      l.any (fun dacs => decide (dacs.mapnum = mapnum ∧
        dacs.flags &&& env.ACS_EXECUTE_ALWAYS = 0 ∧ dacs.name.isSome = true ∧
        strcaseeq (dacs.name.getD []) name = true)) := by
  induction l with
  | nil => rfl
  | cons a l ih =>
    unfold ACSDeferred.IsDeferredName
    rw [List.any_cons, ih]
    split
    · next h => rw [decide_eq_true h, Bool.true_or]
    · next h => rw [decide_eq_false h, Bool.false_or]

/-- A pending action without the 'always' bit for the number and the map makes
`IsDeferredNumber` true, wherever it stands. -/
theorem IsDeferredNumber_append (env : ACSEnv) (l : List ACSDeferred) (a : ACSDeferred)
    (number mapnum : Int) (h1 : a.mapnum = mapnum)
    (h2 : a.flags &&& env.ACS_EXECUTE_ALWAYS = 0) (h3 : a.name = none)
    (h4 : a.number = number) :
    ACSDeferred.IsDeferredNumber env (l ++ [a]) number mapnum = true := by
  rw [IsDeferredNumber_eq_any, List.any_append, List.any_cons,
    decide_eq_true (⟨h1, h2, h3, h4⟩ : a.mapnum = mapnum ∧
      a.flags &&& env.ACS_EXECUTE_ALWAYS = 0 ∧ a.name = none ∧ a.number = number)]
  simp

theorem IsDeferredName_append (env : ACSEnv) (l : List ACSDeferred) (a : ACSDeferred)
    (name : List Int) (mapnum : Int) (h1 : a.mapnum = mapnum)
    (h2 : a.flags &&& env.ACS_EXECUTE_ALWAYS = 0) (h3 : a.name.isSome = true)
    (h4 : strcaseeq (a.name.getD []) name = true) :
    ACSDeferred.IsDeferredName env (l ++ [a]) name mapnum = true := by
  rw [IsDeferredName_eq_any, List.any_append, List.any_cons,
    decide_eq_true (⟨h1, h2, h3, h4⟩ : a.mapnum = mapnum ∧
      a.flags &&& env.ACS_EXECUTE_ALWAYS = 0 ∧ a.name.isSome = true ∧
      strcaseeq (a.name.getD []) name = true)]
  simp

/-- C24: a request to defer the start of a script, by number or by name, without the
'always' bit, made when no action without that bit is pending for that script and map:
the call puts one action behind the pending ones and returns true; the same request
made again right after (the name may differ in case, the arguments may differ) returns
false and leaves the statics, the queue among them, as they are. The same holds for the
requests to defer a suspension or a termination. -/
theorem C24_defer_once (env : ACSEnv) (w : ACSWorld) (number mapnum : Int)
    (name name2 : List Int) (flags : Nat) (argv argv2 : List Int)
    (hflag : flags &&& env.ACS_EXECUTE_ALWAYS = 0)
    (hname : strcaseeq name name2 = true) :
    (ACSDeferred.IsDeferredNumber env w.deferred number mapnum = false →
      (ACSDeferred.DeferExecuteNumber env w number mapnum flags argv =
          ({ w with deferred := w.deferred ++
              [{ type := ACSDeferred.Type.EXECUTE_NUMBER, number := number, name := none,
                 mapnum := mapnum, flags := flags, argv := argv }] }, true) ∧
        ACSDeferred.DeferExecuteNumber env
            (ACSDeferred.DeferExecuteNumber env w number mapnum flags argv).1
            number mapnum flags argv2 =
          ((ACSDeferred.DeferExecuteNumber env w number mapnum flags argv).1, false)) ∧
      (ACSDeferred.DeferSuspendNumber env w number mapnum =
          ({ w with deferred := w.deferred ++
              [{ type := ACSDeferred.Type.SUSPEND_NUMBER, number := number, name := none,
                 mapnum := mapnum, flags := 0, argv := [] }] }, true) ∧
        ACSDeferred.DeferSuspendNumber env
            (ACSDeferred.DeferSuspendNumber env w number mapnum).1 number mapnum =
          ((ACSDeferred.DeferSuspendNumber env w number mapnum).1, false)) ∧
      (ACSDeferred.DeferTerminateNumber env w number mapnum =
          ({ w with deferred := w.deferred ++
              [{ type := ACSDeferred.Type.TERMINATE_NUMBER, number := number, name := none,
                 mapnum := mapnum, flags := 0, argv := [] }] }, true) ∧
        ACSDeferred.DeferTerminateNumber env
            (ACSDeferred.DeferTerminateNumber env w number mapnum).1 number mapnum =
          ((ACSDeferred.DeferTerminateNumber env w number mapnum).1, false))) ∧
    (ACSDeferred.IsDeferredName env w.deferred name mapnum = false →
      (ACSDeferred.DeferExecuteName env w name mapnum flags argv =
          ({ w with deferred := w.deferred ++
              [{ type := ACSDeferred.Type.EXECUTE_NAME, number := -1, name := some name,
                 mapnum := mapnum, flags := flags, argv := argv }] }, true) ∧
        ACSDeferred.DeferExecuteName env
            (ACSDeferred.DeferExecuteName env w name mapnum flags argv).1
            name2 mapnum flags argv2 =
          ((ACSDeferred.DeferExecuteName env w name mapnum flags argv).1, false)) ∧
      (ACSDeferred.DeferSuspendName env w name mapnum =
          ({ w with deferred := w.deferred ++
              [{ type := ACSDeferred.Type.SUSPEND_NAME, number := -1, name := some name,
                 mapnum := mapnum, flags := 0, argv := [] }] }, true) ∧
        ACSDeferred.DeferSuspendName env
            (ACSDeferred.DeferSuspendName env w name mapnum).1 name2 mapnum =
          ((ACSDeferred.DeferSuspendName env w name mapnum).1, false)) ∧
      (ACSDeferred.DeferTerminateName env w name mapnum =
          ({ w with deferred := w.deferred ++
              [{ type := ACSDeferred.Type.TERMINATE_NAME, number := -1, name := some name,
                 mapnum := mapnum, flags := 0, argv := [] }] }, true) ∧
        ACSDeferred.DeferTerminateName env
            (ACSDeferred.DeferTerminateName env w name mapnum).1 name2 mapnum =
          ((ACSDeferred.DeferTerminateName env w name mapnum).1, false))) := by
  have h0 : (0 : Nat) &&& env.ACS_EXECUTE_ALWAYS = 0 := Nat.zero_and _
  constructor
  · intro hfresh
    have hE : ACSDeferred.DeferExecuteNumber env w number mapnum flags argv =
        ({ w with deferred := w.deferred ++
            [{ type := ACSDeferred.Type.EXECUTE_NUMBER, number := number, name := none,
               mapnum := mapnum, flags := flags, argv := argv }] }, true) := by
      unfold ACSDeferred.DeferExecuteNumber
      rw [hfresh]
      simp [ACSDeferred.new]
    have hS : ACSDeferred.DeferSuspendNumber env w number mapnum =
        ({ w with deferred := w.deferred ++
            [{ type := ACSDeferred.Type.SUSPEND_NUMBER, number := number, name := none,
               mapnum := mapnum, flags := 0, argv := [] }] }, true) := by
      unfold ACSDeferred.DeferSuspendNumber
      rw [hfresh]
      simp [ACSDeferred.new]
    have hT : ACSDeferred.DeferTerminateNumber env w number mapnum =
        ({ w with deferred := w.deferred ++
            [{ type := ACSDeferred.Type.TERMINATE_NUMBER, number := number, name := none,
               mapnum := mapnum, flags := 0, argv := [] }] }, true) := by
      unfold ACSDeferred.DeferTerminateNumber
      rw [hfresh]
      simp [ACSDeferred.new]
    refine ⟨⟨hE, ?_⟩, ⟨hS, ?_⟩, ⟨hT, ?_⟩⟩
    · rw [hE]
      unfold ACSDeferred.DeferExecuteNumber
      simp only
      rw [IsDeferredNumber_append env w.deferred _ number mapnum rfl hflag rfl rfl]
      rw [if_pos ⟨hflag, rfl⟩]
    · rw [hS]
      unfold ACSDeferred.DeferSuspendNumber
      simp only
      rw [IsDeferredNumber_append env w.deferred _ number mapnum rfl h0 rfl rfl]
      rw [if_pos rfl]
    · rw [hT]
      unfold ACSDeferred.DeferTerminateNumber
      simp only
      rw [IsDeferredNumber_append env w.deferred _ number mapnum rfl h0 rfl rfl]
      rw [if_pos rfl]
  · intro hfresh
    have hE : ACSDeferred.DeferExecuteName env w name mapnum flags argv =
        ({ w with deferred := w.deferred ++
            [{ type := ACSDeferred.Type.EXECUTE_NAME, number := -1, name := some name,
               mapnum := mapnum, flags := flags, argv := argv }] }, true) := by
      unfold ACSDeferred.DeferExecuteName
      rw [hfresh]
      simp [ACSDeferred.new]
    have hS : ACSDeferred.DeferSuspendName env w name mapnum =
        ({ w with deferred := w.deferred ++
            [{ type := ACSDeferred.Type.SUSPEND_NAME, number := -1, name := some name,
               mapnum := mapnum, flags := 0, argv := [] }] }, true) := by
      unfold ACSDeferred.DeferSuspendName
      rw [hfresh]
      simp [ACSDeferred.new]
    have hT : ACSDeferred.DeferTerminateName env w name mapnum =
        ({ w with deferred := w.deferred ++
            [{ type := ACSDeferred.Type.TERMINATE_NAME, number := -1, name := some name,
               mapnum := mapnum, flags := 0, argv := [] }] }, true) := by
      unfold ACSDeferred.DeferTerminateName
      rw [hfresh]
      simp [ACSDeferred.new]
    refine ⟨⟨hE, ?_⟩, ⟨hS, ?_⟩, ⟨hT, ?_⟩⟩
    · rw [hE]
      unfold ACSDeferred.DeferExecuteName
      simp only
      rw [IsDeferredName_append env w.deferred
        { type := ACSDeferred.Type.EXECUTE_NAME, number := -1, name := some name,
          mapnum := mapnum, flags := flags, argv := argv } name2 mapnum rfl hflag rfl hname]
      rw [if_pos ⟨hflag, rfl⟩]
    · rw [hS]
      unfold ACSDeferred.DeferSuspendName
      simp only
      rw [IsDeferredName_append env w.deferred
        { type := ACSDeferred.Type.SUSPEND_NAME, number := -1, name := some name,
          mapnum := mapnum, flags := 0, argv := [] } name2 mapnum rfl h0 rfl hname]
      rw [if_pos rfl]
    · rw [hT]
      unfold ACSDeferred.DeferTerminateName
      simp only
      rw [IsDeferredName_append env w.deferred
        { type := ACSDeferred.Type.TERMINATE_NAME, number := -1, name := some name,
          mapnum := mapnum, flags := 0, argv := [] } name2 mapnum rfl h0 rfl hname]
      rw [if_pos rfl]

theorem C24_defer_once_witness :
    ACSDeferred.DeferExecuteNumber ACSEnv.small
        (ACSDeferred.DeferExecuteNumber ACSEnv.small
          { deferred := [{ number := 4, mapnum := 2 }] } 3 2 0 [7]).1 3 2 0 [8] =
      ((ACSDeferred.DeferExecuteNumber ACSEnv.small
          { deferred := [{ number := 4, mapnum := 2 }] } 3 2 0 [7]).1, false) :=
  ((C24_defer_once ACSEnv.small { deferred := [{ number := 4, mapnum := 2 }] } 3 2
    [97] [65] 0 [7] [8] (by decide) (by decide)).1 (by decide)).1.2

theorem setThreads_deferred (w : ACSWorld) (ref : Nat × Nat) (ts : List ACSThinker) :
    (w.setThreads ref ts).deferred = w.deferred := by
  unfold ACSWorld.setThreads
  cases w.acsVMs[ref.1]? with
  | none => rfl
  | some m =>
    simp only
    cases m.scripts[ref.2]? <;> rfl

/-- Starting a script leaves the queue as it is, when `exec()` does. -/
theorem go_deferred (env : ACSEnv)
    (hexec : ∀ (w : ACSWorld) (ref : Nat × Nat) (k : Nat), (env.exec w ref k).deferred = w.deferred)
    (w : ACSWorld) (script : Option (Nat × Nat)) (flags : Nat) (argv : List Int)
    (trigger line : Option Nat) (lineSide : Int)
    (r : ACSWorld × Bool × Option ACSThinker × Option Nat)
    (h : ACS_ExecuteScript.go env w script flags argv trigger line lineSide = some r) :
    r.1.deferred = w.deferred := by
  unfold ACS_ExecuteScript.go at h
  split at h
  · cases h; rfl
  · split at h
    · cases h
    · simp only at h
      split at h
      · cases h
        exact setThreads_deferred _ _ _
      · split at h
        · cases h
        · cases h
          simp only
          split
          · rw [hexec]
            unfold ACS_addThread
            rw [setThreads_deferred, setThreads_deferred]
          · unfold ACS_addThread
            rw [setThreads_deferred, setThreads_deferred]

theorem setDelay_deferred (env : ACSEnv) (w : ACSWorld) (created : Option ACSThinker)
    (place : Option Nat) : (ACSDeferred.setDelay env w created place).deferred = w.deferred := by
  unfold ACSDeferred.setDelay
  split
  · split
    · exact setThreads_deferred _ _ _
    · rfl
  · rfl

theorem TerminateScript_deferred (w : ACSWorld) (script : Option (Nat × Nat)) :
    (ACS_TerminateScript w script).1.deferred = w.deferred := by
  unfold ACS_TerminateScript
  cases script with
  | none => rfl
  | some ref => exact setThreads_deferred _ _ _

theorem SuspendScript_deferred (w : ACSWorld) (script : Option (Nat × Nat)) :
    (ACS_SuspendScript w script).1.deferred = w.deferred := by
  unfold ACS_SuspendScript
  cases script with
  | none => rfl
  | some ref => exact setThreads_deferred _ _ _

/-- Performing an action for the current map leaves the queue as it is, when `exec()`
does. -/
theorem perform_deferred (env : ACSEnv)
    (hexec : ∀ (w : ACSWorld) (ref : Nat × Nat) (k : Nat), (env.exec w ref k).deferred = w.deferred)
    (w w2 : ACSWorld) (a : ACSDeferred) (hmap : a.mapnum = env.gamemap)
    (h : ACSDeferred.perform env w a = some w2) : w2.deferred = w.deferred := by
  have hm : a.mapnum = 0 ∨ a.mapnum = env.gamemap := Or.inr hmap
  unfold ACSDeferred.perform at h
  split at h
  · unfold ACS_ExecuteScriptNumber at h
    rw [if_pos hm] at h
    split at h
    · next r hr =>
      cases h
      rw [setDelay_deferred]
      exact go_deferred env hexec _ _ _ _ _ _ _ r hr
    · cases h
  · unfold ACS_ExecuteScriptName at h
    rw [if_pos hm] at h
    split at h
    · next r hr =>
      cases h
      rw [setDelay_deferred]
      exact go_deferred env hexec _ _ _ _ _ _ _ r hr
    · cases h
  · cases h
    unfold ACS_SuspendScriptNumber
    rw [if_pos hm]
    exact SuspendScript_deferred _ _
  · cases h
    unfold ACS_SuspendScriptName
    rw [if_pos hm]
    exact SuspendScript_deferred _ _
  · cases h
    unfold ACS_TerminateScriptNumber
    rw [if_pos hm]
    exact TerminateScript_deferred _ _
  · cases h
    unfold ACS_TerminateScriptName
    rw [if_pos hm]
    exact TerminateScript_deferred _ _

/-- On its own map an action does what it asks for. -/
theorem perform_eq_request (env : ACSEnv) (w : ACSWorld) (a : ACSDeferred)
    (hmap : a.mapnum = env.gamemap) :
    ACSDeferred.perform env w a = ACSDeferred.request env w a := by
  have hm : a.mapnum = 0 ∨ a.mapnum = env.gamemap := Or.inr hmap
  unfold ACSDeferred.perform ACSDeferred.request
  cases a.type
  · simp only [ACS_ExecuteScriptNumber, if_pos hm]
    cases ACS_ExecuteScript.go env w (env.FindScriptByNumber w a.number) a.flags a.argv
      none none 0 <;> rfl
  · simp only [ACS_ExecuteScriptName, if_pos hm]
    cases ACS_ExecuteScript.go env w (env.FindScriptByName w (a.name.getD [])) a.flags a.argv
      none none 0 <;> rfl
  · simp only [ACS_SuspendScriptNumber, if_pos hm]
  · simp only [ACS_SuspendScriptName, if_pos hm]
  · simp only [ACS_TerminateScriptNumber, if_pos hm]
  · simp only [ACS_TerminateScriptName, if_pos hm]

/-- The loop of `ExecuteAll` from the `kept.length`-th action on, the actions before
it being for other maps: the actions of `rest` for the current map are consumed
in their order, the first first, and the loop has a result when these
consumptions have; the others stay in the queue. -/
theorem ExecuteAll_consume (env : ACSEnv)
    (hexec : ∀ (w : ACSWorld) (ref : Nat × Nat) (k : Nat), (env.exec w ref k).deferred = w.deferred)
    (rest : List ACSDeferred) :
    ∀ (kept : List ACSDeferred) (w : ACSWorld) (performed : List ACSDeferred) (fuel : Nat),
      w.deferred = kept ++ rest → (∀ a ∈ kept, a.mapnum ≠ env.gamemap) →
      rest.length + 1 ≤ fuel →
      ACSDeferred.ExecuteAll.loop env fuel w kept.length performed =
          (ACSDeferred.consumeAll env
            (rest.filter (fun a => decide (a.mapnum = env.gamemap))) w).map
            (fun wf =>
              (wf, performed ++ rest.filter (fun a => decide (a.mapnum = env.gamemap)))) ∧
        ∀ wf : ACSWorld,
          ACSDeferred.consumeAll env
            (rest.filter (fun a => decide (a.mapnum = env.gamemap))) w = some wf →
          wf.deferred = kept ++ rest.filter (fun a => decide (a.mapnum ≠ env.gamemap)) := by
  induction rest with
  | nil =>
    intro kept w performed fuel hd _ hf
    obtain ⟨m, rfl⟩ : ∃ m, fuel = m + 1 := ⟨fuel - 1, by omega⟩
    unfold ACSDeferred.ExecuteAll.loop
    rw [hd, List.append_nil, List.getElem?_eq_none (Nat.le_refl _)]
    refine ⟨by simp [ACSDeferred.consumeAll], ?_⟩
    intro wf hwf
    simp only [List.filter_nil, ACSDeferred.consumeAll, Option.some.injEq] at hwf
    rw [← hwf]
    simpa using hd
  | cons a rest ih =>
    intro kept w performed fuel hd hkept hf
    obtain ⟨m, rfl⟩ : ∃ m, fuel = m + 1 := ⟨fuel - 1, by omega⟩
    have hget : w.deferred[kept.length]? = some a := by
      rw [hd, List.getElem?_append_right (Nat.le_refl _)]
      simp
    unfold ACSDeferred.ExecuteAll.loop
    rw [hget]
    simp only
    unfold ACSDeferred.execute
    rw [hget]
    simp only
    by_cases hmap : a.mapnum = env.gamemap
    · rw [if_neg (by rw [hmap]; exact fun h => h rfl), List.filter_cons,
        if_pos (decide_eq_true hmap), List.filter_cons, if_neg (by simpa using hmap)]
      unfold ACSDeferred.consumeAll ACSDeferred.consume
      rw [perform_eq_request env w a hmap]
      cases hreq : ACSDeferred.request env w a with
      | none => exact ⟨rfl, fun wf hwf => by cases hwf⟩
      | some w2 =>
        have hdq : w2.deferred = w.deferred :=
          perform_deferred env hexec w w2 a hmap
            ((perform_eq_request env w a hmap).trans hreq)
        have hdel : ACSDeferred.delete w2 kept.length =
            { w2 with deferred := w2.deferred.erase a } := by
          unfold ACSDeferred.delete
          have hnot : a ∉ kept := fun hin => hkept a hin hmap
          rw [hdq, hd, List.eraseIdx_append_of_length_le (Nat.le_refl _),
            List.erase_append_right _ hnot]
          simp
        have hd2 : (ACSDeferred.delete w2 kept.length).deferred = kept ++ rest := by
          unfold ACSDeferred.delete
          simp only
          rw [hdq, hd, List.eraseIdx_append_of_length_le (Nat.le_refl _)]
          simp
        obtain ⟨h1, h2⟩ := ih kept (ACSDeferred.delete w2 kept.length)
          (performed ++ [a]) m hd2 hkept (by simp only [List.length_cons] at hf; omega)
        simp only [Option.map_some']
        rw [← hdel]
        refine ⟨?_, h2⟩
        rw [h1]
        simp
    · rw [if_pos (fun h => hmap h.symm), List.filter_cons,
        if_neg (by simpa using hmap), List.filter_cons, if_pos (by simpa using hmap)]
      simp only
      have hd2 : w.deferred = (kept ++ [a]) ++ rest := by
        rw [hd]; simp
      obtain ⟨h1, h2⟩ := ih (kept ++ [a]) w performed m hd2
        (by
          intro x hx
          rcases List.mem_append.mp hx with hx | hx
          · exact hkept x hx
          · rw [List.mem_singleton.mp hx]; exact hmap)
        (by simp only [List.length_cons] at hf; omega)
      rw [List.length_append, List.length_singleton] at h1
      refine ⟨h1, ?_⟩
      intro wf hwf
      rw [h2 wf hwf]
      simp

/-- Actions put into the queue one after the other stand behind the pending ones, in
the order in which they were put there. -/
theorem new_fold (requests : List ACSDeferred) :
    ∀ w : ACSWorld, (requests.foldl ACSDeferred.new w).deferred = w.deferred ++ requests := by
  induction requests with
  | nil => intro w; simp
  | cons a rest ih =>
    intro w
    rw [List.foldl_cons, ih]
    unfold ACSDeferred.new
    simp

/-- C25: `ExecuteAll` with the pending actions `w.deferred`, `exec()` leaving the queue
alone, the loop given a round for each pending action. The pending actions for
the current map are consumed one after the other in the order in which they
stand in the queue, the first first: each does what it asks for (the script is
started with the delay `TICRATE` for the thread handed back, suspended or
terminated) on the statics as the actions before it have left them, and leaves
the queue; `ExecuteAll` has a result exactly when these consumptions have, and
the actions performed are these, in that order. The order of the queue is the
order of the requests: actions put into the queue one after the other stand
behind the pending ones in that order, and a request that is accepted puts its
action into the queue so. -/
theorem C25_fifo (env : ACSEnv) (w : ACSWorld) (fuel : Nat)
    (hexec : ∀ (w : ACSWorld) (ref : Nat × Nat) (k : Nat), (env.exec w ref k).deferred = w.deferred)
    (hfuel : w.deferred.length + 1 ≤ fuel) :
    ACSDeferred.ExecuteAll env fuel w =
      (ACSDeferred.consumeAll env
        (w.deferred.filter (fun a => decide (a.mapnum = env.gamemap))) w).map
        (fun wf => (wf, w.deferred.filter (fun a => decide (a.mapnum = env.gamemap)))) ∧
    (∀ requests : List ACSDeferred,
      (requests.foldl ACSDeferred.new w).deferred = w.deferred ++ requests) ∧
    (∀ (number mapnum : Int) (flags : Nat) (argv : List Int),
      (ACSDeferred.DeferExecuteNumber env w number mapnum flags argv).2 = true →
      (ACSDeferred.DeferExecuteNumber env w number mapnum flags argv).1.deferred =
        w.deferred ++ [{ type := ACSDeferred.Type.EXECUTE_NUMBER, number := number,
                         name := none, mapnum := mapnum, flags := flags, argv := argv }]) ∧
    (∀ (name : List Int) (mapnum : Int) (flags : Nat) (argv : List Int),
      (ACSDeferred.DeferExecuteName env w name mapnum flags argv).2 = true →
      (ACSDeferred.DeferExecuteName env w name mapnum flags argv).1.deferred =
        w.deferred ++ [{ type := ACSDeferred.Type.EXECUTE_NAME, number := -1,
                         name := some name, mapnum := mapnum, flags := flags,
                         argv := argv }]) ∧
    (∀ number mapnum : Int,
      ((ACSDeferred.DeferSuspendNumber env w number mapnum).2 = true →
        (ACSDeferred.DeferSuspendNumber env w number mapnum).1.deferred =
          w.deferred ++ [{ type := ACSDeferred.Type.SUSPEND_NUMBER, number := number,
                           name := none, mapnum := mapnum, flags := 0, argv := [] }]) ∧
      ((ACSDeferred.DeferTerminateNumber env w number mapnum).2 = true →
        (ACSDeferred.DeferTerminateNumber env w number mapnum).1.deferred =
          w.deferred ++ [{ type := ACSDeferred.Type.TERMINATE_NUMBER, number := number,
                           name := none, mapnum := mapnum, flags := 0, argv := [] }])) ∧
    (∀ (name : List Int) (mapnum : Int),
      ((ACSDeferred.DeferSuspendName env w name mapnum).2 = true →
        (ACSDeferred.DeferSuspendName env w name mapnum).1.deferred =
          w.deferred ++ [{ type := ACSDeferred.Type.SUSPEND_NAME, number := -1,
                           name := some name, mapnum := mapnum, flags := 0, argv := [] }]) ∧
      ((ACSDeferred.DeferTerminateName env w name mapnum).2 = true →
        (ACSDeferred.DeferTerminateName env w name mapnum).1.deferred =
          w.deferred ++ [{ type := ACSDeferred.Type.TERMINATE_NAME, number := -1,
                           name := some name, mapnum := mapnum, flags := 0,
                           argv := [] }])) := by
  refine ⟨?_, ?_, ?_, ?_, ?_, ?_⟩
  · have h := (ExecuteAll_consume env hexec w.deferred [] w [] fuel (by simp)
      (fun a ha => by cases ha) hfuel).1
    unfold ACSDeferred.ExecuteAll
    simpa using h
  · intro requests
    exact new_fold requests w
  · intro number mapnum flags argv
    unfold ACSDeferred.DeferExecuteNumber
    split
    · intro h; cases h
    · intro _; rfl
  · intro name mapnum flags argv
    unfold ACSDeferred.DeferExecuteName
    split
    · intro h; cases h
    · intro _; rfl
  · intro number mapnum
    constructor
    · unfold ACSDeferred.DeferSuspendNumber
      split
      · intro h; cases h
      · intro _; rfl
    · unfold ACSDeferred.DeferTerminateNumber
      split
      · intro h; cases h
      · intro _; rfl
  · intro name mapnum
    constructor
    · unfold ACSDeferred.DeferSuspendName
      split
      · intro h; cases h
      · intro _; rfl
    · unfold ACSDeferred.DeferTerminateName
      split
      · intro h; cases h
      · intro _; rfl

theorem C25_fifo_witness :
    ACSDeferred.ExecuteAll ACSEnv.found 4
        { acsVMs := [{ scripts := [{ number := 1, numArgs := 1, numVars := 1 },
                                   { number := 2 }] }],
          deferred := [{ number := 1, mapnum := 1, argv := [7] },
                       { number := 2, mapnum := 2 },
                       { type := ACSDeferred.Type.TERMINATE_NUMBER, number := 1,
                         mapnum := 1 }] } =
      some
        ({ acsVMs := [{ scripts :=
              [{ number := 1, numArgs := 1, numVars := 1,
                 threads := [{ stack := [0, 0, 0, 0, 0, 0, 0, 0], localvar := [7],
                               numLocals := 1, sreg := ACSState.ACS_STATE_TERMINATE,
                               delay := 35, script := (0, 0) }] },
               { number := 2 }] }],
           deferred := [{ number := 2, mapnum := 2 }] },
         [{ number := 1, mapnum := 1, argv := [7] },
          { type := ACSDeferred.Type.TERMINATE_NUMBER, number := 1, mapnum := 1 }]) :=
  (C25_fifo ACSEnv.found
    { acsVMs := [{ scripts := [{ number := 1, numArgs := 1, numVars := 1 },
                               { number := 2 }] }],
      deferred := [{ number := 1, mapnum := 1, argv := [7] },
                   { number := 2, mapnum := 2 },
                   { type := ACSDeferred.Type.TERMINATE_NUMBER, number := 1,
                     mapnum := 1 }] }
    4 (fun _ _ _ => rfl) (by decide)).1.trans (by decide)

/-- C26: `ExecuteAll` under the conditions of C25, the consumption of the pending
actions for the current map, one after the other, having the result `wf`. Then
`ExecuteAll` returns with the statics `wf`: each pending action for the current
map has been consumed, once, and nothing else has been done. The queue then
holds the actions that were pending for other maps, as they were and in their
order, and no action for the current map; the actions performed are the pending
actions for the current map, each entry of the queue once, and no other; and
with no action pending for the current map the statics are as before. -/
theorem C26_drain (env : ACSEnv) (w wf : ACSWorld) (fuel : Nat)
    (hexec : ∀ (w : ACSWorld) (ref : Nat × Nat) (k : Nat), (env.exec w ref k).deferred = w.deferred)
    (hdef : ACSDeferred.consumeAll env
      (w.deferred.filter (fun a => decide (a.mapnum = env.gamemap))) w = some wf)
    (hfuel : w.deferred.length + 1 ≤ fuel) :
    ∃ performed : List ACSDeferred,
      ACSDeferred.ExecuteAll env fuel w = some (wf, performed) ∧
      wf.deferred = w.deferred.filter (fun a => decide (a.mapnum ≠ env.gamemap)) ∧
      (∀ a ∈ wf.deferred, a.mapnum ≠ env.gamemap) ∧
      List.Sublist wf.deferred w.deferred ∧
      performed = w.deferred.filter (fun a => decide (a.mapnum = env.gamemap)) ∧
      (∀ a ∈ performed, a.mapnum = env.gamemap) ∧
      performed.length + wf.deferred.length = w.deferred.length ∧
      ((∀ a ∈ w.deferred, a.mapnum ≠ env.gamemap) → wf = w) := by
  obtain ⟨h1, h2⟩ := ExecuteAll_consume env hexec w.deferred [] w [] fuel (by simp)
    (fun a ha => by cases ha) hfuel
  have h2 := h2 wf hdef
  simp only [List.nil_append, List.length_nil] at h1 h2
  rw [hdef] at h1
  refine ⟨_, h1, h2, ?_, ?_, rfl, ?_, ?_, ?_⟩
  · intro a ha
    rw [h2, List.mem_filter] at ha
    simpa using ha.2
  · rw [h2]
    exact List.filter_sublist _
  · intro a ha
    rw [List.mem_filter] at ha
    simpa using ha.2
  · rw [h2]
    have h := List.length_eq_length_filter_add (l := w.deferred)
      (fun a => decide (a.mapnum = env.gamemap))
    have h3 : w.deferred.filter (fun a => decide (a.mapnum ≠ env.gamemap)) =
        w.deferred.filter (fun a => !decide (a.mapnum = env.gamemap)) := by
      congr 1
      funext a
      simp
    rw [h3]
    omega
  · intro hall
    have hnil : w.deferred.filter (fun a => decide (a.mapnum = env.gamemap)) = [] := by
      rw [List.filter_eq_nil_iff]
      intro a ha
      simpa using hall a ha
    rw [hnil] at hdef
    simp only [ACSDeferred.consumeAll, Option.some.injEq] at hdef
    exact hdef.symm

theorem C26_drain_witness :
    ∃ performed : List ACSDeferred,
      ACSDeferred.ExecuteAll ACSEnv.found 6
          { acsVMs := [{ scripts :=
              [{ number := 1,
                 threads := [{ sreg := ACSState.ACS_STATE_RUNNING, delay := 3 }] },
               { number := 2 }] }],
            deferred := [{ type := ACSDeferred.Type.SUSPEND_NUMBER, number := 2, mapnum := 3 },
                         { number := 2, mapnum := 1, flags := 1 },
                         { number := 2, mapnum := 1, flags := 1 },
                         { type := ACSDeferred.Type.SUSPEND_NUMBER, number := 1, mapnum := 1 },
                         { number := 1, mapnum := 2 }] } =
        some
          ({ acsVMs := [{ scripts :=
              [{ number := 1,
                 threads := [{ sreg := ACSState.ACS_STATE_SUSPEND, delay := 3 }] },
               { number := 2,
                 threads := [{ stack := [0, 0, 0, 0, 0, 0, 0, 0],
                               sreg := ACSState.ACS_STATE_RUNNING, delay := 35,
                               script := (0, 1) },
                             { stack := [0, 0, 0, 0, 0, 0, 0, 0],
                               sreg := ACSState.ACS_STATE_RUNNING, delay := 35,
                               script := (0, 1) }] }] }],
             deferred := [{ type := ACSDeferred.Type.SUSPEND_NUMBER, number := 2,
                            mapnum := 3 },
                          { number := 1, mapnum := 2 }] }, performed) ∧
      performed = [{ number := 2, mapnum := 1, flags := 1 },
                   { number := 2, mapnum := 1, flags := 1 },
                   { type := ACSDeferred.Type.SUSPEND_NUMBER, number := 1, mapnum := 1 }] :=
  (C26_drain ACSEnv.found
    { acsVMs := [{ scripts :=
        [{ number := 1, threads := [{ sreg := ACSState.ACS_STATE_RUNNING, delay := 3 }] },
         { number := 2 }] }],
      deferred := [{ type := ACSDeferred.Type.SUSPEND_NUMBER, number := 2, mapnum := 3 },
                   { number := 2, mapnum := 1, flags := 1 },
                   { number := 2, mapnum := 1, flags := 1 },
                   { type := ACSDeferred.Type.SUSPEND_NUMBER, number := 1, mapnum := 1 },
                   { number := 1, mapnum := 2 }] }
    { acsVMs := [{ scripts :=
        [{ number := 1, threads := [{ sreg := ACSState.ACS_STATE_SUSPEND, delay := 3 }] },
         { number := 2,
           threads := [{ stack := [0, 0, 0, 0, 0, 0, 0, 0],
                         sreg := ACSState.ACS_STATE_RUNNING, delay := 35, script := (0, 1) },
                       { stack := [0, 0, 0, 0, 0, 0, 0, 0],
                         sreg := ACSState.ACS_STATE_RUNNING, delay := 35,
                         script := (0, 1) }] }] }],
      deferred := [{ type := ACSDeferred.Type.SUSPEND_NUMBER, number := 2, mapnum := 3 },
                   { number := 1, mapnum := 2 }] }
    6 (fun _ _ _ => rfl) (by decide) (by decide)).imp
    (fun _ h => ⟨h.1, h.2.2.2.2.1.trans (by decide)⟩)

/-! ## Archiving an array -/

theorem getD_set_eq {α : Type} (l : List α) (i j : Nat) (x dflt : α) (hi : i < l.length) :
    (l.set i x).getD j dflt = if j = i then x else l.getD j dflt := by
  rw [List.getD_eq_getElem?_getD, List.getD_eq_getElem?_getD, List.getElem?_set]
  by_cases h : i = j
  · subst h
    simp [hi]
  · rw [if_neg h, if_neg (fun h' => h h'.symm)]

/-- Loading what was saved from a table, slot by slot from slot `k` on: the table ends
up as the saved one, when archiving a slot gives back the slot that was saved. -/
theorem archiveTable_roundtrip {α : Type} (fs : α → List SaveItem)
    (fl : α → List SaveItem → Option (α × List SaveItem)) (dflt : α) (n : Nat)
    (table table0 : List α) (hlen : table.length = n)
    (hslot : ∀ i : Nat, i < n → ∀ rest : List SaveItem,
      fl (table0.getD i dflt) (fs (table.getD i dflt) ++ rest) = some (table.getD i dflt, rest))
    (m : Nat) :
    ∀ (k : Nat) (cur : List α) (rest : List SaveItem), k + m = n → cur.length = n →
      (∀ i : Nat, i < k → cur.getD i dflt = table.getD i dflt) →
      (∀ i : Nat, k ≤ i → cur.getD i dflt = table0.getD i dflt) →
      archiveTable.load fl dflt (List.range' k m) cur
        (archiveTable.save fs dflt (List.range' k m) table ++ rest) = some (table, rest) := by
  induction m with
  | zero =>
    intro k cur rest hk hcur hlow _
    simp only [List.range'_zero, archiveTable.load, archiveTable.save, List.nil_append]
    congr 2
    apply List.ext_getElem?
    intro i
    by_cases hi : i < n
    · have h := hlow i (by omega)
      rw [List.getD_eq_getElem?_getD, List.getD_eq_getElem?_getD,
        List.getElem?_eq_getElem (by omega), List.getElem?_eq_getElem (by omega)] at h
      rw [List.getElem?_eq_getElem (by omega), List.getElem?_eq_getElem (by omega)]
      simpa using h
    · rw [List.getElem?_eq_none (by omega), List.getElem?_eq_none (by omega)]
  | succ m ih =>
    intro k cur rest hk hcur hlow hhigh
    simp only [List.range'_succ, archiveTable.load, archiveTable.save, List.append_assoc]
    rw [hhigh k (Nat.le_refl _), hslot k (by omega)]
    simp only
    apply ih (k + 1) (cur.set k (table.getD k dflt)) rest (by omega)
      (by rw [List.length_set]; exact hcur)
    · intro i hi
      rw [getD_set_eq _ _ _ _ _ (by omega)]
      by_cases h : i = k
      · rw [if_pos h, h]
      · rw [if_neg h]
        exact hlow i (by omega)
    · intro i hi
      rw [getD_set_eq _ _ _ _ _ (by omega), if_neg (by omega)]
      exact hhigh i (by omega)

theorem archiveTable_roundtrip_range {α : Type} (fs : α → List SaveItem)
    (fl : α → List SaveItem → Option (α × List SaveItem)) (dflt : α) (n : Nat)
    (table table0 : List α) (hlen : table.length = n) (hlen0 : table0.length = n)
    (hslot : ∀ i : Nat, i < n → ∀ rest : List SaveItem,
      fl (table0.getD i dflt) (fs (table.getD i dflt) ++ rest) = some (table.getD i dflt, rest))
    (rest : List SaveItem) :
    archiveTable.load fl dflt (List.range n) table0
      (archiveTable.save fs dflt (List.range n) table ++ rest) = some (table, rest) := by
  rw [List.range_eq_range']
  exact archiveTable_roundtrip fs fl dflt n table table0 hlen hslot n 0 table0 rest (by omega)
    hlen0 (fun i hi => by omega) (fun _ _ => rfl)

theorem archivePage_roundtrip (d : ACSArrayDims) (page page0 : page_t)
    (hlen : page.length = d.ACS_PAGESIZE) (hlen0 : page0.length = d.ACS_PAGESIZE)
    (rest : List SaveItem) :
    ACSArray.archivePage.load d page0 (ACSArray.archivePage.save d page ++ rest) =
      some (page, rest) := by
  unfold ACSArray.archivePage.load ACSArray.archivePage.save
  exact archiveTable_roundtrip_range _ _ 0 _ page page0 hlen hlen0 (fun i _ rest => rfl) rest

theorem getD_replicate_none {α : Type} (n i : Nat) :
    (List.replicate n (none : Option α)).getD i none = none := by
  rw [List.getD_eq_getElem?_getD, List.getElem?_replicate]
  split <;> rfl

theorem archiveBlock_roundtrip (d : ACSArrayDims) (block : block_t)
    (hok : blockOk d block = true) (rest : List SaveItem) :
    ACSArray.archiveBlock.load d (allocBlock d) (ACSArray.archiveBlock.save d block ++ rest) =
      some (block, rest) := by
  unfold ACSArray.archiveBlock.load ACSArray.archiveBlock.save
  refine archiveTable_roundtrip_range _ _ none _ block (allocBlock d) (blockOk_length hok)
    (by simp [allocBlock]) ?_ rest
  intro i _ rest
  rw [allocBlock, getD_replicate_none]
  cases hs : block.getD i none with
  | none => rfl
  | some page =>
    simp only [List.cons_append, SaveItem.readFlag]
    rw [archivePage_roundtrip d page (allocPage d) (pageOk_length (ok_page hok hs))
      (by simp [allocPage]) rest]

theorem archiveRegion_roundtrip (d : ACSArrayDims) (region : region_t)
    (hok : regionOk d region = true) (rest : List SaveItem) :
    ACSArray.archiveRegion.load d (allocRegion d)
        (ACSArray.archiveRegion.save d region ++ rest) = some (region, rest) := by
  unfold ACSArray.archiveRegion.load ACSArray.archiveRegion.save
  refine archiveTable_roundtrip_range _ _ none _ region (allocRegion d) (regionOk_length hok)
    (by simp [allocRegion]) ?_ rest
  intro i _ rest
  rw [allocRegion, getD_replicate_none]
  cases hs : region.getD i none with
  | none => rfl
  | some block =>
    simp only [List.cons_append, SaveItem.readFlag]
    rw [archiveBlock_roundtrip d block (ok_block hok hs) rest]

/-- C29: an array of the shape that its C type gives it is archived in saving mode, and
the items are archived in loading mode into any array (of the length of the top-level
table), other items following or none: the loaded array is the saved one, with the same
regions, blocks and pages allocated and the same values in them, so that it reads the
same value at every index; and exactly the items of the array are taken from the
archive. -/
theorem C29_archive_roundtrip (d : ACSArrayDims) (a target : ACSArray)
    (hok : a.ok d = true) (htarget : target.arrdata.length = d.ACS_ARRDATASIZE)
    (rest : List SaveItem) :
    ACSArray.archive.load d target (ACSArray.archive.save d a ++ rest) = some (a, rest) ∧
    ∀ a1 : ACSArray,
      ACSArray.archive.load d target (ACSArray.archive.save d a ++ rest) = some (a1, rest) →
      a1.arrdata = a.arrdata ∧ ∀ i : Nat, a1.peek d i = a.peek d i := by
  have hload : ACSArray.archive.load d target (ACSArray.archive.save d a ++ rest) =
      some (a, rest) := by
    unfold ACSArray.archive.load ACSArray.archive.save
    rw [clear_eq_empty htarget]
    unfold ACSArray.archiveArrdata.load ACSArray.archiveArrdata.save ACSArray.empty
    have h := archiveTable_roundtrip_range
      (fun regionItr : Option region_t =>
        match regionItr with
        | some region => SaveItem.flag true :: ACSArray.archiveRegion.save d region
        | none => [SaveItem.flag false])
      (fun (regionItr : Option region_t) s =>
        match SaveItem.readFlag s with
        | some (true, s1) =>
          match ACSArray.archiveRegion.load d (allocRegion d) s1 with
          | some (region, s2) => some (some region, s2)
          | none => none
        | some (false, s1) => some (regionItr, s1)
        | none => none)
      none d.ACS_ARRDATASIZE a.arrdata (List.replicate d.ACS_ARRDATASIZE none)
      (ok_length hok) (by simp) ?_ rest
    · rw [h]
    · intro i _ rest
      rw [getD_replicate_none]
      cases hs : a.arrdata.getD i none with
      | none => rfl
      | some region =>
        simp only [List.cons_append, SaveItem.readFlag]
        rw [archiveRegion_roundtrip d region (ok_region hok hs) rest]
  refine ⟨hload, ?_⟩
  intro a1 h1
  rw [hload] at h1
  cases h1
  exact ⟨rfl, fun _ => rfl⟩

theorem C29_archive_roundtrip_witness :
    ACSArray.archive.load (ACSArrayDims.mk 2 2 2 2)
        { arrdata := [some [some [some [7, 8], none], none], none] }
        (ACSArray.archive.save (ACSArrayDims.mk 2 2 2 2)
          { arrdata := [none, some [none, some [none, some [0, 5]]]] } ++ [SaveItem.word 9]) =
      some ({ arrdata := [none, some [none, some [none, some [0, 5]]]] }, [SaveItem.word 9]) :=
  (C29_archive_roundtrip (ACSArrayDims.mk 2 2 2 2)
    { arrdata := [none, some [none, some [none, some [0, 5]]]] }
    { arrdata := [some [some [some [7, 8], none], none], none] }
    (by decide) (by decide) [SaveItem.word 9]).1


/-! ## Saving and loading a thread (C27, C28) -/

theorem u32_of_range (x : Int) (h0 : 0 ≤ x) (h1 : x < 4294967296) : ((u32 x : Nat) : Int) = x := by
  unfold u32
  rw [Int.emod_eq_of_lt h0 h1]
  exact Int.toNat_of_nonneg h0

theorem u32_natCast (n : Nat) (h : n < 4294967296) : u32 (n : Int) = n := by
  unfold u32
  rw [Int.emod_eq_of_lt (by omega) (by omega)]
  exact Int.toNat_ofNat n

/-- Saving `count` cells and loading them again into any buffer of `count` cells
at least gives the saved cells, then the cells of that buffer beyond them, when
the elements round-trip. -/
theorem forCells_roundtrip {α : Type} (fs : α → Option (List SaveItem))
    (fl : α → List SaveItem → Option (α × List SaveItem)) (P : α → Prop)
    (h : ∀ x, P x → ∃ it, fs x = some it ∧ ∀ y rest, fl y (it ++ rest) = some (x, rest)) :
    ∀ (n : Nat) (buf : List α), n ≤ buf.length → (∀ x ∈ buf.take n, P x) →
      ∃ items, forCells.save fs n buf = some items ∧
        ∀ (tgt : List α) (rest : List SaveItem), n ≤ tgt.length →
          forCells.load fl n tgt (items ++ rest) = some (buf.take n ++ tgt.drop n, rest) := by
  intro n
  induction n with
  | zero =>
    intro buf _ _
    refine ⟨[], by simp [forCells.save], ?_⟩
    intro tgt rest _
    simp [forCells.load]
  | succ n ih =>
    intro buf hlen hP
    cases buf with
    | nil => simp at hlen
    | cons x bs =>
      obtain ⟨it, hit, hfl⟩ := h x (hP x (by simp))
      obtain ⟨items, hsave, hload⟩ := ih bs (by simpa using hlen)
        (fun y hy => hP y (by simp [hy]))
      refine ⟨it ++ items, by simp [forCells.save, hit, hsave], ?_⟩
      intro tgt rest htgt
      cases tgt with
      | nil => simp at htgt
      | cons y ts =>
        simp [forCells.load, List.append_assoc, hfl, hload ts rest (by simpa using htgt)]

theorem word_cells_roundtrip (n : Nat) (buf : List Int) (hn : n ≤ buf.length) :
    ∃ items, forCells.save (fun x => some [SaveItem.word x]) n buf = some items ∧
      ∀ (tgt : List Int) (rest : List SaveItem), n ≤ tgt.length →
        forCells.load (fun _ s => SaveItem.readWord s) n tgt (items ++ rest)
          = some (buf.take n ++ tgt.drop n, rest) :=
  forCells_roundtrip _ _ (fun _ => True)
    (by intro x _; exact ⟨[SaveItem.word x], rfl, fun _ _ => rfl⟩) n buf hn (by simp)

theorem print_cells_roundtrip (n : Nat) (buf : List (Option (List Int))) (hn : n ≤ buf.length)
    (hP : ∀ p ∈ buf.take n, p ≠ none) :
    ∃ items, forCells.save qstring.archive.save n buf = some items ∧
      ∀ (tgt : List (Option (List Int))) (rest : List SaveItem), n ≤ tgt.length →
        forCells.load qstring.archive.load n tgt (items ++ rest)
          = some (buf.take n ++ tgt.drop n, rest) :=
  forCells_roundtrip _ _ (fun p => p ≠ none)
    (by
      intro p hp
      cases p with
      | none => exact absurd rfl hp
      | some chars => exact ⟨[SaveItem.text chars], rfl, fun _ _ => rfl⟩) n buf hn hP

/-- The pointer to a module round-trips when the `id` of every module is its
index in `acsVMs`. -/
theorem archivePtr_roundtrip (w : ACSWorld)
    (hid : ∀ (v : Nat) (m : ACSModule), w.acsVMs[v]? = some m → m.id = v)
    (hlen : w.acsVMs.length ≤ 4294967296) (vm : Nat) (hvm : vm < w.acsVMs.length) :
    ACSModule.archivePtr.save w vm = some [SaveItem.word (vm : Int)] ∧
      ∀ rest, ACSModule.archivePtr.load w (SaveItem.word (vm : Int) :: rest)
        = some (vm, rest) := by
  constructor
  · unfold ACSModule.archivePtr.save
    rw [List.getElem?_eq_getElem hvm]
    have := hid vm _ (List.getElem?_eq_getElem hvm)
    simp [this]
  · intro rest
    simp [ACSModule.archivePtr.load, SaveItem.readWord, u32_natCast vm (by omega), hvm]

theorem call_cells_roundtrip (w : ACSWorld)
    (hid : ∀ (v : Nat) (m : ACSModule), w.acsVMs[v]? = some m → m.id = v)
    (hlen : w.acsVMs.length ≤ 4294967296) (n : Nat) (buf : List acs_call_t)
    (hn : n ≤ buf.length)
    (hP : ∀ c ∈ buf.take n,
      c.ipVM = c.vm ∧ 0 ≤ c.ip ∧ c.ip < 4294967296 ∧ c.vm < w.acsVMs.length) :
    ∃ items, forCells.save (acs_call_t.archive.save w) n buf = some items ∧
      ∀ (tgt : List acs_call_t) (rest : List SaveItem), n ≤ tgt.length →
        forCells.load (acs_call_t.archive.load w) n tgt (items ++ rest)
          = some (buf.take n ++ tgt.drop n, rest) :=
  forCells_roundtrip _ _
    (fun c => c.ipVM = c.vm ∧ 0 ≤ c.ip ∧ c.ip < 4294967296 ∧ c.vm < w.acsVMs.length)
    (by
      rintro ⟨ip, ipVM, numLocals, vm⟩ ⟨h1, h2, h3, h4⟩
      simp only at h1 h2 h3 h4
      subst h1
      obtain ⟨hs, hl⟩ := archivePtr_roundtrip w hid hlen ipVM h4
      refine ⟨[SaveItem.word (u32 ip), SaveItem.word numLocals, SaveItem.word (ipVM : Int)],
        by simp [acs_call_t.archive.save, hs], ?_⟩
      intro y rest
      simp [acs_call_t.archive.load, SaveItem.readWord, hl, u32_of_range ip h2 h3,
        u32_natCast (u32 ip) (by unfold u32; omega)]) n buf hn hP

theorem scriptAt_vm_lt (w : ACSWorld) (ref : Nat × Nat)
    (h : (w.scriptAt ref).isSome = true) : ref.1 < w.acsVMs.length := by
  unfold ACSWorld.scriptAt at h
  by_contra hc
  rw [List.getElem?_eq_none (by omega)] at h
  simp at h

theorem readWord_cons (v : Int) (s : List SaveItem) :
    SaveItem.readWord (SaveItem.word v :: s) = some (v, s) := rfl

theorem readState_cons (v : ACSState) (s : List SaveItem) :
    SaveItem.readState (SaveItem.state v :: s) = some (v, s) := rfl

/-- Saving a well-formed thread whose script is one of the current module and
loading the items again gives the thread `th`, added to the list of its script,
with the fields that are listed; its `printBuffer` is null. -/
theorem serialize_roundtrip (env : ACSEnv) (w : ACSWorld) (this this0 : ACSThinker)
    (rest : List SaveItem)
    (hsuper : ∀ (t : ACSThinker) (r : List SaveItem),
      env.SuperLoad (env.SuperSave t ++ r) = some r)
    (hid : ∀ (v : Nat) (m : ACSModule), w.acsVMs[v]? = some m → m.id = v)
    (hwf : this.wellFormed env w)
    (hscript : this.script.1 = this.vm) (hip : this.ipVM = this.vm)
    (hframes : ∀ c ∈ this.calls.take this.callPtr, c.ipVM = c.vm)
    (hprints : ∀ p ∈ this.printStack.take this.printPtr, p ≠ none) :
    ∃ saved items, ACSThinker.serialize.save env w this = some (saved, items) ∧
      ∃ th, ACSThinker.serialize.load env w this0 (items ++ rest)
        = some (ACS_addThread w th, th, rest) ∧
      (th.ip = this.ip ∧ th.ipVM = this.ipVM ∧ th.script = this.script ∧ th.vm = this.vm) ∧
      (th.stackPtr = this.stackPtr ∧
        th.stack = this.stack.take this.stackPtr.toNat ++ List.replicate env.ACS_NUM_STACK 0) ∧
      (th.localvar = this.localvar ∧ th.locals = this.locals ∧
        th.numLocals = this.numLocals) ∧
      (th.calls = this.calls.take this.callPtr ∧ th.callPtr = this.callPtr) ∧
      (th.printStack = this.printStack.take this.printPtr ∧ th.printPtr = this.printPtr) ∧
      (th.sreg = this.sreg ∧ th.sdata = this.sdata ∧ th.delay = this.delay) ∧
      (th.line = this.line ∧ th.lineSide = this.lineSide) ∧
      th.printBuffer = none := by
  obtain ⟨⟨hip0, hip1⟩, ⟨hsp0, hsp1, hsp2⟩, ⟨hl0, hl1⟩, ⟨hcp0, hcp1⟩, ⟨hpp0, hpp1⟩,
    ⟨hsc0, hsc1⟩, hline, hlen, hfr⟩ := hwf
  have hvm : this.vm < w.acsVMs.length := hscript ▸ scriptAt_vm_lt w this.script hsc1
  have hsceq : (this.vm, this.script.2) = this.script := by rw [← hscript]
  obtain ⟨sc, hsc⟩ := Option.isSome_iff_exists.mp hsc1
  obtain ⟨hvs, hvl⟩ := archivePtr_roundtrip w hid hlen this.vm hvm
  obtain ⟨si, hs1, hs2⟩ := word_cells_roundtrip this.stackPtr.toNat this.stack hsp1
  obtain ⟨li, hl1', hl2⟩ := word_cells_roundtrip this.localvar.length this.localvar le_rfl
  obtain ⟨ci, hc1, hc2⟩ := call_cells_roundtrip w hid hlen this.callPtr this.calls hcp0
    (fun c hc => ⟨hframes c hc, hfr c hc⟩)
  obtain ⟨pi, hp1, hp2⟩ := print_cells_roundtrip this.printPtr this.printStack hpp0 hprints
  have hnum : u32 (this.stackPtr + env.ACS_NUM_STACK) = this.stackPtr.toNat + env.ACS_NUM_STACK := by
    unfold u32
    rw [Int.emod_eq_of_lt (by omega) hsp2]
    omega
  have hs3 := hs2 (List.replicate (u32 (this.stackPtr + env.ACS_NUM_STACK)) 0)
    (li ++ (ci ++ (pi ++ rest))) (by rw [List.length_replicate, hnum]; omega)
  have hl3 := hl2 (List.replicate this.localvar.length 0) (ci ++ (pi ++ rest)) (by simp)
  have hc3 := hc2 (List.replicate this.callPtr ({} : acs_call_t)) (pi ++ rest) (by simp)
  have hp3 := hp2 (List.replicate this.printPtr none) rest (by simp)
  simp only [ACSThinker.serialize.save, if_pos hscript, if_pos hip, P_ArchiveArray.save,
    hvs, hs1, hl1', u32_natCast _ hcp1, hc1, hp1]
  refine ⟨_, _, rfl, ?_⟩
  simp only [ACSThinker.serialize.load, P_ArchiveArray.load, List.append_assoc,
    List.cons_append, List.nil_append, hsuper, readWord_cons, readState_cons, hvl,
    u32_natCast _ hcp1, u32_natCast _ hpp1, u32_natCast _ hsc0, Int.toNat_ofNat,
    hs3, hl3, hc3, hp3, hsceq, hsc]
  refine ⟨_, rfl, ?_⟩
  have hln : (if u32 (match this.line with
        | some l => ((u32 ((l : Int) + 1) : Nat) : Int)
        | none => 0) ≠ 0 then
      some (u32 (match this.line with
        | some l => ((u32 ((l : Int) + 1) : Nat) : Int)
        | none => 0) - 1) else none) = this.line := by
    cases hl : this.line with
    | none => simp [u32]
    | some l =>
      have h1 : u32 ((l : Int) + 1) = l + 1 := by
        have := hline l hl
        unfold u32
        rw [Int.emod_eq_of_lt (by omega) (by omega)]
        omega
      simp only [h1, u32_natCast (l + 1) (hline l hl)]
      simp
  simp only [hln, u32_of_range _ hip0 hip1, u32_of_range _ hl0 hl1, hip, hsceq, hnum,
    List.drop_replicate, Nat.sub_self, List.replicate_zero, List.append_nil,
    Nat.add_sub_cancel_left, List.take_length, and_self, true_and]
  split
  · next hp => rw [List.getElem?_replicate, if_pos (by omega)]
  · rfl

/-- C27 (the code misses the thread that runs in another module): let the thread be
any well-formed thread with a buffer in every print slot in use; the `id` of a
module is its index in `acsVMs`, and `Super::serialize` reads what it has
written. If the thread runs in the module of its script, with `ip` and the saved
`ip` of every frame pointing into the code of the module kept with it,
`ACSThinker::serialize` in saving mode, then in loading mode on the saved items
(whatever follows them in the archive, whatever thinker `this0` they are loaded
into), yields a thread with the same offset of `ip`, the same stack pointer and
stack cells below it, the same buffer `localvar` with the same window offset
`locals` and size `numLocals`, the same call frames below `callPtr` (saved `ip`,
`numLocals` and module of each), the same print buffers below `printPtr`, and the
same `sreg`, `sdata` and `delay`. If its current module `vm` is not the module of
its script, as after a call of a function of another module, saving has no
defined result (`script - vm->scripts` on pointers into two tables), so there
are no saved items that loading could turn into the thread. -/
theorem C27_thread_roundtrip (env : ACSEnv) (w : ACSWorld) (this this0 : ACSThinker)
    (rest : List SaveItem)
    (hsuper : ∀ (t : ACSThinker) (r : List SaveItem),
      env.SuperLoad (env.SuperSave t ++ r) = some r)
    (hid : ∀ (v : Nat) (m : ACSModule), w.acsVMs[v]? = some m → m.id = v)
    (hwf : this.wellFormed env w)
    (hprints : ∀ p ∈ this.printStack.take this.printPtr, p ≠ none) :
    (this.script.1 = this.vm → this.ipVM = this.vm →
      (∀ c ∈ this.calls.take this.callPtr, c.ipVM = c.vm) →
      ∃ saved items, ACSThinker.serialize.save env w this = some (saved, items) ∧
        ∃ w1 th, ACSThinker.serialize.load env w this0 (items ++ rest) = some (w1, th, rest) ∧
          (th.ip = this.ip ∧ th.ipVM = this.ipVM) ∧
          (th.stackPtr = this.stackPtr ∧
            th.stack.take th.stackPtr.toNat = this.stack.take this.stackPtr.toNat) ∧
          (th.localvar = this.localvar ∧ th.locals = this.locals ∧
            th.numLocals = this.numLocals) ∧
          (th.callPtr = this.callPtr ∧
            th.calls.take th.callPtr = this.calls.take this.callPtr) ∧
          (th.printPtr = this.printPtr ∧
            th.printStack.take th.printPtr = this.printStack.take this.printPtr) ∧
          (th.sreg = this.sreg ∧ th.sdata = this.sdata ∧ th.delay = this.delay)) ∧
    (this.script.1 ≠ this.vm →
      0 < this.stackPtr → 0 < this.callPtr → 0 < this.printPtr →
        ACSThinker.serialize.save env w this = none) := by
  constructor
  · intro hscript hip hframes
    obtain ⟨saved, items, hsave, th, hload, ⟨h1, h2, _, _⟩, ⟨h3, h4⟩, h5, ⟨h6, h7⟩, ⟨h8, h9⟩,
      h10, _⟩ := serialize_roundtrip env w this this0 rest hsuper hid hwf hscript hip hframes
        hprints
    have hsp : this.stackPtr.toNat ≤ this.stack.length := hwf.2.1.2.1
    refine ⟨saved, items, hsave, _, th, hload, ⟨h1, h2⟩, ⟨h3, ?_⟩, h5, ⟨h7, ?_⟩, ⟨h9, ?_⟩, h10⟩
    · rw [h3, h4, List.take_append_of_le_length (by simp [hsp]), List.take_take, min_self]
    · rw [h7, h6, List.take_take, min_self]
    · rw [h9, h8, List.take_take, min_self]
  · intro hne _ _ _
    unfold ACSThinker.serialize.save
    rw [if_neg hne]

theorem C27_thread_roundtrip_witness :
    (∃ saved items, ACSThinker.serialize.save ACSEnv.small
        { acsVMs := [{ id := 0, scripts := [{ number := 1 }] }, { id := 1 }] }
        { ip := 3, stack := [5, 6, 0], stackPtr := 2, localvar := [1, 2, 3], locals := 1,
          numLocals := 2, sreg := ACSState.ACS_STATE_WAITTAG, sdata := 9, delay := 4,
          script := (0, 0), vm := 0, ipVM := 0,
          calls := [{ ip := 2, ipVM := 0, numLocals := 1, vm := 0 },
                    { ip := 7, ipVM := 1, numLocals := 2, vm := 1 }],
          callPtr := 2, printStack := [some [72, 105]], printPtr := 1,
          printBuffer := some 0 } = some (saved, items) ∧
      ∃ w1 th, ACSThinker.serialize.load ACSEnv.small
          { acsVMs := [{ id := 0, scripts := [{ number := 1 }] }, { id := 1 }] } {}
          (items ++ []) = some (w1, th, []) ∧
        (th.ip = 3 ∧ th.ipVM = 0) ∧
        (th.stackPtr = 2 ∧ th.stack.take th.stackPtr.toNat = [5, 6]) ∧
        (th.localvar = [1, 2, 3] ∧ th.locals = 1 ∧ th.numLocals = 2) ∧
        (th.callPtr = 2 ∧
          th.calls.take th.callPtr = [{ ip := 2, ipVM := 0, numLocals := 1, vm := 0 },
                                      { ip := 7, ipVM := 1, numLocals := 2, vm := 1 }]) ∧
        (th.printPtr = 1 ∧ th.printStack.take th.printPtr = [some [72, 105]]) ∧
        (th.sreg = ACSState.ACS_STATE_WAITTAG ∧ th.sdata = 9 ∧ th.delay = 4)) ∧
    ACSThinker.serialize.save ACSEnv.small
        { acsVMs := [{ id := 0, scripts := [{ number := 1 }] }, { id := 1 }] }
        { ip := 3, stack := [5, 6, 0], stackPtr := 2, localvar := [1, 2, 3], locals := 1,
          numLocals := 2, sreg := ACSState.ACS_STATE_RUNNING, sdata := 9, delay := 4,
          script := (0, 0), vm := 1, ipVM := 1,
          calls := [{ ip := 2, ipVM := 0, numLocals := 1, vm := 0 }],
          callPtr := 1, printStack := [some [72, 105]], printPtr := 1,
          printBuffer := some 0 } = none :=
  ⟨(C27_thread_roundtrip ACSEnv.small
      { acsVMs := [{ id := 0, scripts := [{ number := 1 }] }, { id := 1 }] }
      { ip := 3, stack := [5, 6, 0], stackPtr := 2, localvar := [1, 2, 3], locals := 1,
        numLocals := 2, sreg := ACSState.ACS_STATE_WAITTAG, sdata := 9, delay := 4,
        script := (0, 0), vm := 0, ipVM := 0,
        calls := [{ ip := 2, ipVM := 0, numLocals := 1, vm := 0 },
                  { ip := 7, ipVM := 1, numLocals := 2, vm := 1 }],
        callPtr := 2, printStack := [some [72, 105]], printPtr := 1,
        printBuffer := some 0 } {} []
      (fun _ _ => rfl)
      (by
        intro v m h
        match v, h with
        | 0, h => cases h; rfl
        | 1, h => cases h; rfl)
      (by simp [ACSThinker.wellFormed, ACSEnv.small, ACSWorld.scriptAt])
      (by simp)).1 rfl rfl (by simp),
   (C27_thread_roundtrip ACSEnv.small
      { acsVMs := [{ id := 0, scripts := [{ number := 1 }] }, { id := 1 }] }
      { ip := 3, stack := [5, 6, 0], stackPtr := 2, localvar := [1, 2, 3], locals := 1,
        numLocals := 2, sreg := ACSState.ACS_STATE_RUNNING, sdata := 9, delay := 4,
        script := (0, 0), vm := 1, ipVM := 1,
        calls := [{ ip := 2, ipVM := 0, numLocals := 1, vm := 0 }],
        callPtr := 1, printStack := [some [72, 105]], printPtr := 1,
        printBuffer := some 0 } {} []
      (fun _ _ => rfl)
      (by
        intro v m h
        match v, h with
        | 0, h => cases h; rfl
        | 1, h => cases h; rfl)
      (by simp [ACSThinker.wellFormed, ACSEnv.small, ACSWorld.scriptAt])
      (by simp)).2 (by decide) (by decide) (by decide) (by decide)⟩

/-- C28 (the code misses the thread that runs in another module): for a
well-formed thread that runs in the module of its script, saving and loading
reproduces `script` and `vm` and puts the loaded thread first in the thread list
of that script. For a thread whose current module `vm` is not the module of its
script, as after a call of a function of another module, saving computes
`script - vm->scripts` from pointers into two different tables: the script index
that is written has no defined value and `serialize` has no defined result. -/
theorem C28_script_index (env : ACSEnv) (w : ACSWorld) (this this0 : ACSThinker)
    (rest : List SaveItem)
    (hsuper : ∀ (t : ACSThinker) (r : List SaveItem),
      env.SuperLoad (env.SuperSave t ++ r) = some r)
    (hid : ∀ (v : Nat) (m : ACSModule), w.acsVMs[v]? = some m → m.id = v)
    (hwf : this.wellFormed env w) (hip : this.ipVM = this.vm)
    (hframes : ∀ c ∈ this.calls.take this.callPtr, c.ipVM = c.vm)
    (hprints : ∀ p ∈ this.printStack.take this.printPtr, p ≠ none) :
    (this.script.1 = this.vm →
      ∃ saved items, ACSThinker.serialize.save env w this = some (saved, items) ∧
        ∃ th, ACSThinker.serialize.load env w this0 (items ++ rest)
            = some (ACS_addThread w th, th, rest) ∧
          th.script = this.script ∧ th.vm = this.vm ∧
          (ACS_addThread w th).threadsOf this.script = th :: w.threadsOf this.script) ∧
    (this.script.1 ≠ this.vm → ACSThinker.serialize.save env w this = none) := by
  constructor
  · intro hscript
    obtain ⟨saved, items, hsave, th, hload, ⟨_, _, h1, h2⟩, _⟩ :=
      serialize_roundtrip env w this this0 rest hsuper hid hwf hscript hip hframes hprints
    refine ⟨saved, items, hsave, th, hload, h1, h2, ?_⟩
    obtain ⟨sc, hsc⟩ := Option.isSome_iff_exists.mp hwf.2.2.2.2.2.1.2
    unfold ACS_addThread
    rw [h1, threadsOf_setThreads w this.script this.script _ sc hsc, if_pos rfl]
  · intro hne
    unfold ACSThinker.serialize.save
    rw [if_neg hne]

theorem C28_script_index_witness :
    (∃ saved items, ACSThinker.serialize.save ACSEnv.small
        { acsVMs := [{ id := 0, scripts := [{ number := 1 }] }, { id := 1 }] }
        { ip := 3, stack := [5], stackPtr := 1, script := (0, 0), vm := 0, ipVM := 0 }
          = some (saved, items) ∧
      ∃ th, ACSThinker.serialize.load ACSEnv.small
          { acsVMs := [{ id := 0, scripts := [{ number := 1 }] }, { id := 1 }] } {}
          (items ++ [])
          = some (ACS_addThread
              { acsVMs := [{ id := 0, scripts := [{ number := 1 }] }, { id := 1 }] } th,
            th, []) ∧
        th.script = (0, 0) ∧ th.vm = 0 ∧
        (ACS_addThread
          { acsVMs := [{ id := 0, scripts := [{ number := 1 }] }, { id := 1 }] }
          th).threadsOf (0, 0) = th :: []) ∧
    ACSThinker.serialize.save ACSEnv.small
        { acsVMs := [{ id := 0, scripts := [{ number := 1 }] }, { id := 1 }] }
        { ip := 3, stack := [5], stackPtr := 1, script := (0, 0), vm := 1, ipVM := 1,
          calls := [{ ip := 2, ipVM := 0, numLocals := 1, vm := 0 }], callPtr := 1 }
      = none :=
  ⟨(C28_script_index ACSEnv.small
      { acsVMs := [{ id := 0, scripts := [{ number := 1 }] }, { id := 1 }] }
      { ip := 3, stack := [5], stackPtr := 1, script := (0, 0), vm := 0, ipVM := 0 } {} []
      (fun _ _ => rfl)
      (by
        intro v m h
        match v, h with
        | 0, h => cases h; rfl
        | 1, h => cases h; rfl)
      (by simp [ACSThinker.wellFormed, ACSEnv.small, ACSWorld.scriptAt])
      rfl (by simp) (by simp)).1 rfl,
   (C28_script_index ACSEnv.small
      { acsVMs := [{ id := 0, scripts := [{ number := 1 }] }, { id := 1 }] }
      { ip := 3, stack := [5], stackPtr := 1, script := (0, 0), vm := 1, ipVM := 1,
        calls := [{ ip := 2, ipVM := 0, numLocals := 1, vm := 0 }], callPtr := 1 } {} []
      (fun _ _ => rfl)
      (by
        intro v m h
        match v, h with
        | 0, h => cases h; rfl
        | 1, h => cases h; rfl)
      (by simp [ACSThinker.wellFormed, ACSEnv.small, ACSWorld.scriptAt])
      rfl (by simp) (by simp)).2 (by decide)⟩


/-! ## The duplicate check of the deferred queue (C38) -/

theorem IsDeferredNumber_iff (env : ACSEnv) (l : List ACSDeferred) (number mapnum : Int) :
    ACSDeferred.IsDeferredNumber env l number mapnum = true ↔
      ∃ a ∈ l, a.mapnum = mapnum ∧ a.flags &&& env.ACS_EXECUTE_ALWAYS = 0 ∧
        a.name = none ∧ a.number = number := by
  rw [IsDeferredNumber_eq_any, List.any_eq_true]
  constructor
  · rintro ⟨a, ha, h⟩
    exact ⟨a, ha, of_decide_eq_true h⟩
  · rintro ⟨a, ha, h⟩
    exact ⟨a, ha, decide_eq_true h⟩

theorem IsDeferredName_iff (env : ACSEnv) (l : List ACSDeferred) (name : List Int)
    (mapnum : Int) :
    ACSDeferred.IsDeferredName env l name mapnum = true ↔
      ∃ a ∈ l, a.mapnum = mapnum ∧ a.flags &&& env.ACS_EXECUTE_ALWAYS = 0 ∧
        a.name.isSome = true ∧ strcaseeq (a.name.getD []) name = true := by
  rw [IsDeferredName_eq_any, List.any_eq_true]
  constructor
  · rintro ⟨a, ha, h⟩
    exact ⟨a, ha, of_decide_eq_true h⟩
  · rintro ⟨a, ha, h⟩
    exact ⟨a, ha, decide_eq_true h⟩

/-- C38: `DeferExecuteNumber(number, mapnum, flags, argv, argc)` returns false and
leaves the statics, the queue among them, as they are when `flags` lacks the
'always' bit and a pending action has the map `mapnum`, lacks the 'always' bit,
has no name and has the number `number`, of whatever type that action is; in
every other case, so whenever `flags` has the 'always' bit, it puts one action
of type `EXECUTE_NUMBER` with the number, the map, the flags and the arguments
behind the pending ones and returns true; so it returns false exactly in the
first case. `DeferSuspendNumber` and `DeferTerminateNumber` make the same check.
A queue of named actions only suppresses no request by number, a queue of
numbered actions only suppresses no request by name. -/
theorem C38_deferred_check (env : ACSEnv) (w : ACSWorld) (number mapnum : Int) (flags : Nat)
    (argv : List Int) (name : List Int) :
    ((flags &&& env.ACS_EXECUTE_ALWAYS = 0 ∧
        ∃ a ∈ w.deferred, a.mapnum = mapnum ∧ a.flags &&& env.ACS_EXECUTE_ALWAYS = 0 ∧
          a.name = none ∧ a.number = number) →
      ACSDeferred.DeferExecuteNumber env w number mapnum flags argv = (w, false)) ∧
    (¬ (flags &&& env.ACS_EXECUTE_ALWAYS = 0 ∧
        ∃ a ∈ w.deferred, a.mapnum = mapnum ∧ a.flags &&& env.ACS_EXECUTE_ALWAYS = 0 ∧
          a.name = none ∧ a.number = number) →
      ACSDeferred.DeferExecuteNumber env w number mapnum flags argv =
        ({ w with deferred := w.deferred ++
            [{ type := ACSDeferred.Type.EXECUTE_NUMBER, number := number, name := none,
               mapnum := mapnum, flags := flags, argv := argv }] }, true)) ∧
    ((ACSDeferred.DeferExecuteNumber env w number mapnum flags argv).2 = false ↔
      (flags &&& env.ACS_EXECUTE_ALWAYS = 0 ∧
        ∃ a ∈ w.deferred, a.mapnum = mapnum ∧ a.flags &&& env.ACS_EXECUTE_ALWAYS = 0 ∧
          a.name = none ∧ a.number = number)) ∧
    (flags &&& env.ACS_EXECUTE_ALWAYS ≠ 0 →
      ACSDeferred.DeferExecuteNumber env w number mapnum flags argv =
        ({ w with deferred := w.deferred ++
            [{ type := ACSDeferred.Type.EXECUTE_NUMBER, number := number, name := none,
               mapnum := mapnum, flags := flags, argv := argv }] }, true)) ∧
    ((ACSDeferred.DeferSuspendNumber env w number mapnum).2 = false ↔
      ∃ a ∈ w.deferred, a.mapnum = mapnum ∧ a.flags &&& env.ACS_EXECUTE_ALWAYS = 0 ∧
        a.name = none ∧ a.number = number) ∧
    ((ACSDeferred.DeferTerminateNumber env w number mapnum).2 = false ↔
      ∃ a ∈ w.deferred, a.mapnum = mapnum ∧ a.flags &&& env.ACS_EXECUTE_ALWAYS = 0 ∧
        a.name = none ∧ a.number = number) ∧
    ((∀ a ∈ w.deferred, a.name.isSome = true) →
      (ACSDeferred.DeferExecuteNumber env w number mapnum flags argv).2 = true ∧
      (ACSDeferred.DeferSuspendNumber env w number mapnum).2 = true ∧
      (ACSDeferred.DeferTerminateNumber env w number mapnum).2 = true) ∧
    ((∀ a ∈ w.deferred, a.name = none) →
      (ACSDeferred.DeferExecuteName env w name mapnum flags argv).2 = true ∧
      (ACSDeferred.DeferSuspendName env w name mapnum).2 = true ∧
      (ACSDeferred.DeferTerminateName env w name mapnum).2 = true) := by
  have hP := IsDeferredNumber_iff env w.deferred number mapnum
  have hpos : (flags &&& env.ACS_EXECUTE_ALWAYS = 0 ∧
        ∃ a ∈ w.deferred, a.mapnum = mapnum ∧ a.flags &&& env.ACS_EXECUTE_ALWAYS = 0 ∧
          a.name = none ∧ a.number = number) →
      ACSDeferred.DeferExecuteNumber env w number mapnum flags argv = (w, false) := by
    intro h
    unfold ACSDeferred.DeferExecuteNumber
    rw [if_pos ⟨h.1, hP.mpr h.2⟩]
  have hneg : ¬ (flags &&& env.ACS_EXECUTE_ALWAYS = 0 ∧
        ∃ a ∈ w.deferred, a.mapnum = mapnum ∧ a.flags &&& env.ACS_EXECUTE_ALWAYS = 0 ∧
          a.name = none ∧ a.number = number) →
      ACSDeferred.DeferExecuteNumber env w number mapnum flags argv =
        ({ w with deferred := w.deferred ++
            [{ type := ACSDeferred.Type.EXECUTE_NUMBER, number := number, name := none,
               mapnum := mapnum, flags := flags, argv := argv }] }, true) := by
    intro h
    unfold ACSDeferred.DeferExecuteNumber
    rw [if_neg (fun hc => h ⟨hc.1, hP.mp hc.2⟩)]
    rfl
  have hnoNum : (∀ a ∈ w.deferred, a.name.isSome = true) →
      ¬ ∃ a ∈ w.deferred, a.mapnum = mapnum ∧ a.flags &&& env.ACS_EXECUTE_ALWAYS = 0 ∧
        a.name = none ∧ a.number = number := by
    rintro h ⟨a, ha, _, _, hn, _⟩
    have := h a ha
    rw [hn] at this
    cases this
  have hnoName : (∀ a ∈ w.deferred, a.name = none) →
      ACSDeferred.IsDeferredName env w.deferred name mapnum ≠ true := by
    intro h hc
    obtain ⟨a, ha, _, _, hn, _⟩ := (IsDeferredName_iff env w.deferred name mapnum).mp hc
    rw [h a ha] at hn
    cases hn
  have hsusp : (ACSDeferred.DeferSuspendNumber env w number mapnum).2 = false ↔
      ∃ a ∈ w.deferred, a.mapnum = mapnum ∧ a.flags &&& env.ACS_EXECUTE_ALWAYS = 0 ∧
        a.name = none ∧ a.number = number := by
    unfold ACSDeferred.DeferSuspendNumber
    rw [← hP]
    split <;> simp_all
  have hterm : (ACSDeferred.DeferTerminateNumber env w number mapnum).2 = false ↔
      ∃ a ∈ w.deferred, a.mapnum = mapnum ∧ a.flags &&& env.ACS_EXECUTE_ALWAYS = 0 ∧
        a.name = none ∧ a.number = number := by
    unfold ACSDeferred.DeferTerminateNumber
    rw [← hP]
    split <;> simp_all
  refine ⟨hpos, hneg, ?_, fun h => hneg (fun hc => h hc.1), hsusp, hterm, ?_, ?_⟩
  · constructor
    · intro h
      by_contra hc
      rw [hneg hc] at h
      cases h
    · intro h
      rw [hpos h]
  · intro h
    refine ⟨?_, ?_, ?_⟩
    · rw [hneg (fun hc => hnoNum h hc.2)]
    · cases hb : (ACSDeferred.DeferSuspendNumber env w number mapnum).2 with
      | true => rfl
      | false => exact absurd (hsusp.mp hb) (hnoNum h)
    · cases hb : (ACSDeferred.DeferTerminateNumber env w number mapnum).2 with
      | true => rfl
      | false => exact absurd (hterm.mp hb) (hnoNum h)
  · intro h
    have hn := hnoName h
    refine ⟨?_, ?_, ?_⟩
    · unfold ACSDeferred.DeferExecuteName
      rw [if_neg (fun hc => hn hc.2)]
    · unfold ACSDeferred.DeferSuspendName
      rw [if_neg hn]
    · unfold ACSDeferred.DeferTerminateName
      rw [if_neg hn]


/-! ## Requests for the current map and for another map (C32) -/

theorem DeferExecuteNumber_acsVMs (env : ACSEnv) (w : ACSWorld) (number mapnum : Int)
    (flags : Nat) (argv : List Int) :
    (ACSDeferred.DeferExecuteNumber env w number mapnum flags argv).1.acsVMs = w.acsVMs := by
  unfold ACSDeferred.DeferExecuteNumber
  split <;> rfl

theorem DeferExecuteName_acsVMs (env : ACSEnv) (w : ACSWorld) (name : List Int) (mapnum : Int)
    (flags : Nat) (argv : List Int) :
    (ACSDeferred.DeferExecuteName env w name mapnum flags argv).1.acsVMs = w.acsVMs := by
  unfold ACSDeferred.DeferExecuteName
  split <;> rfl

theorem DeferSuspendNumber_acsVMs (env : ACSEnv) (w : ACSWorld) (number mapnum : Int) :
    (ACSDeferred.DeferSuspendNumber env w number mapnum).1.acsVMs = w.acsVMs := by
  unfold ACSDeferred.DeferSuspendNumber
  split <;> rfl

theorem DeferSuspendName_acsVMs (env : ACSEnv) (w : ACSWorld) (name : List Int) (mapnum : Int) :
    (ACSDeferred.DeferSuspendName env w name mapnum).1.acsVMs = w.acsVMs := by
  unfold ACSDeferred.DeferSuspendName
  split <;> rfl

theorem DeferTerminateNumber_acsVMs (env : ACSEnv) (w : ACSWorld) (number mapnum : Int) :
    (ACSDeferred.DeferTerminateNumber env w number mapnum).1.acsVMs = w.acsVMs := by
  unfold ACSDeferred.DeferTerminateNumber
  split <;> rfl

theorem DeferTerminateName_acsVMs (env : ACSEnv) (w : ACSWorld) (name : List Int)
    (mapnum : Int) :
    (ACSDeferred.DeferTerminateName env w name mapnum).1.acsVMs = w.acsVMs := by
  unfold ACSDeferred.DeferTerminateName
  split <;> rfl

/-- C32: a request to start, suspend or terminate a script by number or by name.
With `mapnum` 0 or the current map it is `ACS_ExecuteScript`, `ACS_SuspendScript`
or `ACS_TerminateScript` on the script found, and the queue of deferred actions
is afterwards as before (`exec()` of a thread started at once leaving it alone).
With any other `mapnum` the modules with their scripts and threads are as
before, no thread is handed back, and statics and returned `bool` are those of
`DeferExecuteNumber`, `DeferExecuteName`, `DeferSuspendNumber`,
`DeferSuspendName`, `DeferTerminateNumber` or `DeferTerminateName`. -/
theorem C32_map_dispatch (env : ACSEnv)
    (hexec : ∀ (w : ACSWorld) (ref : Nat × Nat) (k : Nat), (env.exec w ref k).deferred = w.deferred)
    (w : ACSWorld) (number mapnum : Int) (name : List Int) (flags : Nat) (argv : List Int)
    (trigger line : Option Nat) (lineSide : Int) :
    ((mapnum = 0 ∨ mapnum = env.gamemap) →
      (ACS_ExecuteScriptNumber env w number mapnum flags argv trigger line lineSide =
          ACS_ExecuteScript.go env w (env.FindScriptByNumber w number) flags argv trigger line
            lineSide ∧
        ∀ r, ACS_ExecuteScriptNumber env w number mapnum flags argv trigger line lineSide
          = some r → r.1.deferred = w.deferred) ∧
      (ACS_ExecuteScriptName env w name mapnum flags argv trigger line lineSide =
          ACS_ExecuteScript.go env w (env.FindScriptByName w name) flags argv trigger line
            lineSide ∧
        ∀ r, ACS_ExecuteScriptName env w name mapnum flags argv trigger line lineSide
          = some r → r.1.deferred = w.deferred) ∧
      (ACS_SuspendScriptNumber env w number mapnum =
          ACS_SuspendScript w (env.FindScriptByNumber w number) ∧
        (ACS_SuspendScriptNumber env w number mapnum).1.deferred = w.deferred) ∧
      (ACS_SuspendScriptName env w name mapnum =
          ACS_SuspendScript w (env.FindScriptByName w name) ∧
        (ACS_SuspendScriptName env w name mapnum).1.deferred = w.deferred) ∧
      (ACS_TerminateScriptNumber env w number mapnum =
          ACS_TerminateScript w (env.FindScriptByNumber w number) ∧
        (ACS_TerminateScriptNumber env w number mapnum).1.deferred = w.deferred) ∧
      (ACS_TerminateScriptName env w name mapnum =
          ACS_TerminateScript w (env.FindScriptByName w name) ∧
        (ACS_TerminateScriptName env w name mapnum).1.deferred = w.deferred)) ∧
    (¬ (mapnum = 0 ∨ mapnum = env.gamemap) →
      (ACS_ExecuteScriptNumber env w number mapnum flags argv trigger line lineSide =
          some ((ACSDeferred.DeferExecuteNumber env w number mapnum flags argv).1,
            (ACSDeferred.DeferExecuteNumber env w number mapnum flags argv).2, none, none) ∧
        (ACSDeferred.DeferExecuteNumber env w number mapnum flags argv).1.acsVMs = w.acsVMs) ∧
      (ACS_ExecuteScriptName env w name mapnum flags argv trigger line lineSide =
          some ((ACSDeferred.DeferExecuteName env w name mapnum flags argv).1,
            (ACSDeferred.DeferExecuteName env w name mapnum flags argv).2, none, none) ∧
        (ACSDeferred.DeferExecuteName env w name mapnum flags argv).1.acsVMs = w.acsVMs) ∧
      (ACS_SuspendScriptNumber env w number mapnum =
          ACSDeferred.DeferSuspendNumber env w number mapnum ∧
        (ACS_SuspendScriptNumber env w number mapnum).1.acsVMs = w.acsVMs) ∧
      (ACS_SuspendScriptName env w name mapnum =
          ACSDeferred.DeferSuspendName env w name mapnum ∧
        (ACS_SuspendScriptName env w name mapnum).1.acsVMs = w.acsVMs) ∧
      (ACS_TerminateScriptNumber env w number mapnum =
          ACSDeferred.DeferTerminateNumber env w number mapnum ∧
        (ACS_TerminateScriptNumber env w number mapnum).1.acsVMs = w.acsVMs) ∧
      (ACS_TerminateScriptName env w name mapnum =
          ACSDeferred.DeferTerminateName env w name mapnum ∧
        (ACS_TerminateScriptName env w name mapnum).1.acsVMs = w.acsVMs)) := by
  constructor
  · intro hm
    have e1 : ACS_ExecuteScriptNumber env w number mapnum flags argv trigger line lineSide =
        ACS_ExecuteScript.go env w (env.FindScriptByNumber w number) flags argv trigger line
          lineSide := by
      unfold ACS_ExecuteScriptNumber
      rw [if_pos hm]
    have e2 : ACS_ExecuteScriptName env w name mapnum flags argv trigger line lineSide =
        ACS_ExecuteScript.go env w (env.FindScriptByName w name) flags argv trigger line
          lineSide := by
      unfold ACS_ExecuteScriptName
      rw [if_pos hm]
    have e3 : ACS_SuspendScriptNumber env w number mapnum =
        ACS_SuspendScript w (env.FindScriptByNumber w number) := by
      unfold ACS_SuspendScriptNumber
      rw [if_pos hm]
    have e4 : ACS_SuspendScriptName env w name mapnum =
        ACS_SuspendScript w (env.FindScriptByName w name) := by
      unfold ACS_SuspendScriptName
      rw [if_pos hm]
    have e5 : ACS_TerminateScriptNumber env w number mapnum =
        ACS_TerminateScript w (env.FindScriptByNumber w number) := by
      unfold ACS_TerminateScriptNumber
      rw [if_pos hm]
    have e6 : ACS_TerminateScriptName env w name mapnum =
        ACS_TerminateScript w (env.FindScriptByName w name) := by
      unfold ACS_TerminateScriptName
      rw [if_pos hm]
    refine ⟨⟨e1, ?_⟩, ⟨e2, ?_⟩, ⟨e3, ?_⟩, ⟨e4, ?_⟩, ⟨e5, ?_⟩, ⟨e6, ?_⟩⟩
    · intro r hr
      rw [e1] at hr
      exact go_deferred env hexec w _ flags argv trigger line lineSide r hr
    · intro r hr
      rw [e2] at hr
      exact go_deferred env hexec w _ flags argv trigger line lineSide r hr
    · rw [e3]; exact SuspendScript_deferred w _
    · rw [e4]; exact SuspendScript_deferred w _
    · rw [e5]; exact TerminateScript_deferred w _
    · rw [e6]; exact TerminateScript_deferred w _
  · intro hm
    have e3 : ACS_SuspendScriptNumber env w number mapnum =
        ACSDeferred.DeferSuspendNumber env w number mapnum := by
      unfold ACS_SuspendScriptNumber
      rw [if_neg hm]
    have e4 : ACS_SuspendScriptName env w name mapnum =
        ACSDeferred.DeferSuspendName env w name mapnum := by
      unfold ACS_SuspendScriptName
      rw [if_neg hm]
    have e5 : ACS_TerminateScriptNumber env w number mapnum =
        ACSDeferred.DeferTerminateNumber env w number mapnum := by
      unfold ACS_TerminateScriptNumber
      rw [if_neg hm]
    have e6 : ACS_TerminateScriptName env w name mapnum =
        ACSDeferred.DeferTerminateName env w name mapnum := by
      unfold ACS_TerminateScriptName
      rw [if_neg hm]
    refine ⟨⟨?_, DeferExecuteNumber_acsVMs ..⟩, ⟨?_, DeferExecuteName_acsVMs ..⟩,
      ⟨e3, ?_⟩, ⟨e4, ?_⟩, ⟨e5, ?_⟩, ⟨e6, ?_⟩⟩
    · unfold ACS_ExecuteScriptNumber
      rw [if_neg hm]
    · unfold ACS_ExecuteScriptName
      rw [if_neg hm]
    · rw [e3]; exact DeferSuspendNumber_acsVMs ..
    · rw [e4]; exact DeferSuspendName_acsVMs ..
    · rw [e5]; exact DeferTerminateNumber_acsVMs ..
    · rw [e6]; exact DeferTerminateName_acsVMs ..

theorem C32_map_dispatch_witness :
    (ACS_TerminateScriptNumber ACSEnv.small
        { acsVMs := [{ scripts := [{ number := 5, threads :=
            [{ sreg := ACSState.ACS_STATE_RUNNING }] }] }] } 5 2 =
      ACSDeferred.DeferTerminateNumber ACSEnv.small
        { acsVMs := [{ scripts := [{ number := 5, threads :=
            [{ sreg := ACSState.ACS_STATE_RUNNING }] }] }] } 5 2 ∧
      (ACS_TerminateScriptNumber ACSEnv.small
        { acsVMs := [{ scripts := [{ number := 5, threads :=
            [{ sreg := ACSState.ACS_STATE_RUNNING }] }] }] } 5 2).1.acsVMs =
        [{ scripts := [{ number := 5, threads :=
            [{ sreg := ACSState.ACS_STATE_RUNNING }] }] }]) :=
  ((C32_map_dispatch ACSEnv.small (fun _ _ _ => rfl)
    { acsVMs := [{ scripts := [{ number := 5, threads :=
        [{ sreg := ACSState.ACS_STATE_RUNNING }] }] }] } 5 2 [] 0 [] none none 0).2
    (by decide)).2.2.2.2.1


/-! ## Suspended and terminating threads (C33, C34) -/

theorem threadsOf_setThreads_ne (w : ACSWorld) (ref ref' : Nat × Nat) (ts : List ACSThinker)
    (hne : ref' ≠ ref) : (w.setThreads ref ts).threadsOf ref' = w.threadsOf ref' := by
  unfold ACSWorld.threadsOf
  rw [scriptAt_setThreads_other w ref ref' ts hne]

theorem scriptAt_of_thread (w : ACSWorld) (ref : Nat × Nat) (k : Nat) (this : ACSThinker)
    (h : (w.threadsOf ref)[k]? = some this) :
    ∃ s, w.scriptAt ref = some s ∧ w.threadsOf ref = s.threads := by
  unfold ACSWorld.threadsOf at h ⊢
  cases hs : w.scriptAt ref with
  | none => rw [hs] at h; simp at h
  | some s => exact ⟨s, rfl, rfl⟩

/-- The thread lists after `ACS_TerminateScript`. -/
theorem TerminateScript_threads (w : ACSWorld) (script : Option (Nat × Nat))
    (ref : Nat × Nat) (s : ACSScript) (hs : w.scriptAt ref = some s) :
    (ACS_TerminateScript w script).1.threadsOf ref =
      if script = some ref then
        (w.threadsOf ref).map (fun t =>
          if t.sreg ≠ ACSState.ACS_STATE_STOPPED then
            { t with sreg := ACSState.ACS_STATE_TERMINATE }
          else t)
      else w.threadsOf ref := by
  unfold ACS_TerminateScript
  cases script with
  | none => simp
  | some ref' =>
    simp only [terminate_loop_eq]
    by_cases h : ref' = ref
    · subst h
      rw [if_pos rfl, threadsOf_setThreads w ref' ref' _ s hs, if_pos rfl]
    · rw [if_neg (fun hc => h (Option.some.inj hc)),
        threadsOf_setThreads_ne w ref' ref _ (fun hc => h hc.symm)]

/-- The thread lists after `ACS_SuspendScript`. -/
theorem SuspendScript_threads (w : ACSWorld) (script : Option (Nat × Nat))
    (ref : Nat × Nat) (s : ACSScript) (hs : w.scriptAt ref = some s) :
    (ACS_SuspendScript w script).1.threadsOf ref =
      if script = some ref then
        (w.threadsOf ref).map (fun t =>
          if t.sreg ≠ ACSState.ACS_STATE_STOPPED ∧ t.sreg ≠ ACSState.ACS_STATE_TERMINATE then
            { t with sreg := ACSState.ACS_STATE_SUSPEND }
          else t)
      else w.threadsOf ref := by
  unfold ACS_SuspendScript
  cases script with
  | none => simp
  | some ref' =>
    simp only [suspend_loop_eq]
    by_cases h : ref' = ref
    · subst h
      rw [if_pos rfl, threadsOf_setThreads w ref' ref' _ s hs, if_pos rfl]
    · rw [if_neg (fun hc => h (Option.some.inj hc)),
        threadsOf_setThreads_ne w ref' ref _ (fun hc => h hc.symm)]

/-- The thread lists after `ACS_ExecuteScript` of the script `ref1`, the new thread
not being run at once: the list of `ref1` is the old one with the suspended
threads set running, behind the new thread when one was created (the thread
handed back); the other lists are as before. -/
theorem go_threads (env : ACSEnv) (w : ACSWorld) (ref1 : Nat × Nat) (flags : Nat)
    (argv : List Int) (trigger line : Option Nat) (lineSide : Int)
    (r : ACSWorld × Bool × Option ACSThinker × Option Nat)
    (hflag : flags &&& env.ACS_EXECUTE_IMMEDIATE = 0)
    (h : ACS_ExecuteScript.go env w (some ref1) flags argv trigger line lineSide = some r) :
    ∀ ref : Nat × Nat,
      r.1.threadsOf ref =
        if ref = ref1 then
          r.2.2.1.toList ++ (w.threadsOf ref1).map (fun t =>
            if t.sreg = ACSState.ACS_STATE_SUSPEND then
              { t with sreg := ACSState.ACS_STATE_RUNNING }
            else t)
        else w.threadsOf ref := by
  unfold ACS_ExecuteScript.go at h
  simp only at h
  cases hs : w.scriptAt ref1 with
  | none => rw [hs] at h; cases h
  | some s =>
    have hth : w.threadsOf ref1 = s.threads := by
      unfold ACSWorld.threadsOf; rw [hs]
    rw [hs] at h
    simp only [restart_eq] at h
    split at h
    · cases h
      intro ref
      simp only [Option.toList, List.nil_append]
      rw [threadsOf_setThreads w ref1 ref _ s hs, hth]
    · split at h
      · cases h
      · next lv hlv =>
        cases h
        simp only [if_neg (not_not.mpr hflag)]
        intro ref
        unfold ACS_addThread
        simp only [Option.toList]
        rw [threadsOf_setThreads _ ref1 ref _ _ (scriptAt_setThreads_same w ref1 _ s hs),
          threadsOf_setThreads w ref1 ref1 _ s hs, if_pos rfl,
          threadsOf_setThreads w ref1 ref _ s hs, hth]
        by_cases hr : ref = ref1
        · rw [if_pos hr, if_pos hr]
          rfl
        · rw [if_neg hr, if_neg hr, if_neg hr]

/-- A thread other than the one removed is still in the list of its script after
`ACS_stopScript`, as it is, when the completion wake-up does not change it. -/
theorem stopScript_keeps (w : ACSWorld) (ref : Nat × Nat) (k : Nat) (this : ACSThinker)
    (hthis : (w.threadsOf ref)[k]? = some this)
    (hwake : ∀ (G : List ACSString) (number : Int) (name : Option (List Int)),
      ACS_scriptFinished.wake G number name this = this)
    (thread : ACSThinker) (j : Nat) (hne : ¬ (thread.script = ref ∧ j = k)) :
    this ∈ (ACS_stopScript w thread j).threadsOf ref := by
  cases hs : w.scriptAt thread.script with
  | none =>
    have h1 : ACS_stopScript w thread j = w := by
      unfold ACS_stopScript ACS_removeThread ACS_scriptFinished
      have h2 : w.setThreads thread.script ((w.threadsOf thread.script).eraseIdx j) = w := by
        unfold ACSWorld.scriptAt at hs
        unfold ACSWorld.setThreads
        cases hm : w.acsVMs[thread.script.1]? with
        | none => rfl
        | some m =>
          rw [hm] at hs
          simp only at hs ⊢
          rw [hs]
      rw [h2, hs]
    rw [h1]
    exact List.getElem?_mem hthis
  | some s =>
    rw [ACS_stopScript_threads w thread j s hs ref]
    apply List.mem_map.mpr
    refine ⟨this, ?_, ?_⟩
    · by_cases hr : ref = thread.script
      · rw [if_pos hr]
        have hth : w.threadsOf ref = s.threads := by
          unfold ACSWorld.threadsOf; rw [hr, hs]
        rw [hth] at hthis
        exact List.mem_eraseIdx_iff_getElem?.mpr
          ⟨k, fun hc => hne ⟨hr.symm, hc.symm⟩, hthis⟩
      · rw [if_neg hr]
        exact List.getElem?_mem hthis
    · split
      · exact hwake _ _ _
      · rfl

/-- C33: a suspended thread, the `k`-th of the script `ref`. A scheduling step on it
returns with the statics, the thread among them, as they are, without entering
the dispatch loop; the completion wake-up leaves it as it is, so it is still in
the list of its script, suspended, after `ACS_stopScript` of any other thread; a
request to suspend any script leaves it as it is and in its place; a request to
terminate its script sets its state to terminate, one for another script leaves
it; a request to start another script (the new thread not run at once) leaves
it as it is and in its place, and only a request to start its own script sets
its state to running (it then stands behind the new thread, when one is
created). -/
theorem C33_suspended (env : ACSEnv) (dis : Dispatch) (fuel : Nat) (w : ACSWorld)
    (ref : Nat × Nat) (k : Nat) (this : ACSThinker)
    (hthis : (w.threadsOf ref)[k]? = some this)
    (hs : this.sreg = ACSState.ACS_STATE_SUSPEND) :
    (ACSThinker.Think env dis fuel w ref k = some w ∧
      Think.begin env w this k = ThinkStart.returned w) ∧
    ((∀ (G : List ACSString) (number : Int) (name : Option (List Int)),
        ACS_scriptFinished.wake G number name this = this) ∧
      ∀ (thread : ACSThinker) (j : Nat), ¬ (thread.script = ref ∧ j = k) →
        this ∈ (ACS_stopScript w thread j).threadsOf ref) ∧
    (∀ script : Option (Nat × Nat),
      ((ACS_SuspendScript w script).1.threadsOf ref)[k]? = some this) ∧
    (∀ script : Option (Nat × Nat),
      ((ACS_TerminateScript w script).1.threadsOf ref)[k]? =
        some (if script = some ref then
          { this with sreg := ACSState.ACS_STATE_TERMINATE } else this)) ∧
    (∀ (ref1 : Nat × Nat) (flags : Nat) (argv : List Int) (trigger line : Option Nat)
        (lineSide : Int) (r : ACSWorld × Bool × Option ACSThinker × Option Nat),
      flags &&& env.ACS_EXECUTE_IMMEDIATE = 0 →
      ACS_ExecuteScript.go env w (some ref1) flags argv trigger line lineSide = some r →
      (r.1.threadsOf ref)[(if ref = ref1 then r.2.2.1.toList.length else 0) + k]? =
        some (if ref = ref1 then
          { this with sreg := ACSState.ACS_STATE_RUNNING } else this)) := by
  obtain ⟨s, hsc, hth⟩ := scriptAt_of_thread w ref k this hthis
  have hbegin : Think.begin env w this k = ThinkStart.returned w := by
    unfold Think.begin
    rw [hs]
  have hwake : ∀ (G : List ACSString) (number : Int) (name : Option (List Int)),
      ACS_scriptFinished.wake G number name this = this := by
    intro G number name
    rw [wake_eq, if_neg]
    rw [hs]
    rintro (⟨h, _⟩ | ⟨h, _⟩) <;> cases h
  refine ⟨⟨?_, hbegin⟩, ⟨hwake, stopScript_keeps w ref k this hthis hwake⟩, ?_, ?_, ?_⟩
  · unfold ACSThinker.Think
    rw [hthis]
    simp only [hbegin]
  · intro script
    rw [SuspendScript_threads w script ref s hsc]
    split
    · rw [List.getElem?_map, hthis, Option.map_some', if_pos (by rw [hs]; decide)]
      congr 1
      cases this
      simp only at hs
      subst hs
      rfl
    · exact hthis
  · intro script
    rw [TerminateScript_threads w script ref s hsc]
    split
    · rw [List.getElem?_map, hthis, Option.map_some', if_pos (by rw [hs]; decide)]
    · exact hthis
  · intro ref1 flags argv trigger line lineSide r hflag hr
    rw [go_threads env w ref1 flags argv trigger line lineSide r hflag hr ref]
    by_cases h : ref = ref1
    · subst h
      simp only [if_true]
      rw [List.getElem?_append_right (by omega), Nat.add_sub_cancel_left, List.getElem?_map,
        hthis, Option.map_some', if_pos hs]
    · simp only [if_neg h, Nat.zero_add]
      exact hthis

theorem C33_suspended_witness :
    (ACSThinker.Think ACSEnv.small
        (Dispatch.mk (fun n => [Opcode.NOP, Opcode.SCRIPT_TERMINATE][n.toNat]?)
          (fun _ e => Outcome.NEXTOP e) false) 10
        { acsVMs := [{ code := [1], scripts := [{ number := 1, threads :=
            [{ sreg := ACSState.ACS_STATE_SUSPEND, delay := 3, script := (0, 0) }] }] }] }
        (0, 0) 0 =
      some { acsVMs := [{ code := [1], scripts := [{ number := 1, threads :=
            [{ sreg := ACSState.ACS_STATE_SUSPEND, delay := 3, script := (0, 0) }] }] }] } ∧
      Think.begin ACSEnv.small
        { acsVMs := [{ code := [1], scripts := [{ number := 1, threads :=
            [{ sreg := ACSState.ACS_STATE_SUSPEND, delay := 3, script := (0, 0) }] }] }] }
        { sreg := ACSState.ACS_STATE_SUSPEND, delay := 3, script := (0, 0) } 0 =
      ThinkStart.returned
        { acsVMs := [{ code := [1], scripts := [{ number := 1, threads :=
            [{ sreg := ACSState.ACS_STATE_SUSPEND, delay := 3, script := (0, 0) }] }] }] }) :=
  (C33_suspended ACSEnv.small
    (Dispatch.mk (fun n => [Opcode.NOP, Opcode.SCRIPT_TERMINATE][n.toNat]?)
      (fun _ e => Outcome.NEXTOP e) false) 10
    { acsVMs := [{ code := [1], scripts := [{ number := 1, threads :=
        [{ sreg := ACSState.ACS_STATE_SUSPEND, delay := 3, script := (0, 0) }] }] }] }
    (0, 0) 0 { sreg := ACSState.ACS_STATE_SUSPEND, delay := 3, script := (0, 0) }
    (by decide) rfl).1

/-- C34: a thread in state terminate, the `k`-th of its script `ref`. The
completion wake-up leaves it as it is, so it is still in the list of its script
after `ACS_stopScript` of any other thread; a request to suspend or to
terminate any script leaves it as it is and in its place; so does a request to
start any script (the new thread not run at once; it then stands behind the
new thread, when one is created for its script). Its scheduling step does not
enter the dispatch loop: it is `ACS_stopScript` of the thread, after which the
thread is out of the list of its script, the other threads are in their lists,
and, when no thread of the script is left, those that wait on the script have
been woken. -/
theorem C34_terminating (env : ACSEnv) (dis : Dispatch) (fuel : Nat) (w : ACSWorld)
    (ref : Nat × Nat) (k : Nat) (this : ACSThinker)
    (hthis : (w.threadsOf ref)[k]? = some this)
    (hscript : this.script = ref)
    (hs : this.sreg = ACSState.ACS_STATE_TERMINATE) :
    ((∀ (G : List ACSString) (number : Int) (name : Option (List Int)),
        ACS_scriptFinished.wake G number name this = this) ∧
      ∀ (thread : ACSThinker) (j : Nat), ¬ (thread.script = ref ∧ j = k) →
        this ∈ (ACS_stopScript w thread j).threadsOf ref) ∧
    (∀ script : Option (Nat × Nat),
      ((ACS_SuspendScript w script).1.threadsOf ref)[k]? = some this ∧
      ((ACS_TerminateScript w script).1.threadsOf ref)[k]? = some this) ∧
    (∀ (ref1 : Nat × Nat) (flags : Nat) (argv : List Int) (trigger line : Option Nat)
        (lineSide : Int) (r : ACSWorld × Bool × Option ACSThinker × Option Nat),
      flags &&& env.ACS_EXECUTE_IMMEDIATE = 0 →
      ACS_ExecuteScript.go env w (some ref1) flags argv trigger line lineSide = some r →
      (r.1.threadsOf ref)[(if ref = ref1 then r.2.2.1.toList.length else 0) + k]? =
        some this) ∧
    (ACSThinker.Think env dis fuel w ref k = some (ACS_stopScript w this k) ∧
      Think.begin env w this k = ThinkStart.returned (ACS_stopScript w this k)) ∧
    (∃ s : ACSScript, w.scriptAt ref = some s ∧
      ∀ ref1 : Nat × Nat, (ACS_stopScript w this k).threadsOf ref1 =
        (if ref1 = ref then s.threads.eraseIdx k else w.threadsOf ref1).map
          (fun th =>
            if s.threads.eraseIdx k = [] then
              ACS_scriptFinished.wake w.GlobalStrings s.number s.name th
            else th)) := by
  obtain ⟨s, hsc, hth⟩ := scriptAt_of_thread w ref k this hthis
  have hbegin : Think.begin env w this k = ThinkStart.returned (ACS_stopScript w this k) := by
    unfold Think.begin
    rw [hs]
  have hwake : ∀ (G : List ACSString) (number : Int) (name : Option (List Int)),
      ACS_scriptFinished.wake G number name this = this := by
    intro G number name
    rw [wake_eq, if_neg]
    rw [hs]
    rintro (⟨h, _⟩ | ⟨h, _⟩) <;> cases h
  have heta : ({ this with sreg := ACSState.ACS_STATE_TERMINATE } : ACSThinker) = this := by
    cases this
    simp only at hs
    subst hs
    rfl
  refine ⟨⟨hwake, stopScript_keeps w ref k this hthis hwake⟩, ?_, ?_, ⟨?_, hbegin⟩, ?_⟩
  · intro script
    constructor
    · rw [SuspendScript_threads w script ref s hsc]
      split
      · rw [List.getElem?_map, hthis, Option.map_some',
          if_neg (by rw [hs]; exact fun h => h.2 rfl)]
      · exact hthis
    · rw [TerminateScript_threads w script ref s hsc]
      split
      · rw [List.getElem?_map, hthis, Option.map_some', if_pos (by rw [hs]; decide), heta]
      · exact hthis
  · intro ref1 flags argv trigger line lineSide r hflag hr
    rw [go_threads env w ref1 flags argv trigger line lineSide r hflag hr ref]
    by_cases h : ref = ref1
    · subst h
      simp only [if_true]
      rw [List.getElem?_append_right (by omega), Nat.add_sub_cancel_left, List.getElem?_map,
        hthis, Option.map_some', if_neg (by rw [hs]; decide)]
    · simp only [if_neg h, Nat.zero_add]
      exact hthis
  · unfold ACSThinker.Think
    rw [hthis]
    simp only [hbegin]
  · refine ⟨s, hsc, fun ref1 => ?_⟩
    rw [ACS_stopScript_threads w this k s (hscript ▸ hsc) ref1, hscript]

theorem C34_terminating_witness :
    (ACSThinker.Think ACSEnv.small
        (Dispatch.mk (fun n => [Opcode.NOP, Opcode.SCRIPT_TERMINATE][n.toNat]?)
          (fun _ e => Outcome.NEXTOP e) false) 10
        { acsVMs := [{ code := [0], scripts :=
            [{ number := 1, threads :=
                [{ sreg := ACSState.ACS_STATE_TERMINATE, delay := 3, script := (0, 0) }] },
             { number := 2, threads :=
                [{ sreg := ACSState.ACS_STATE_WAITSCRIPTNUMBER, sdata := 1,
                   script := (0, 1) }] }] }] }
        (0, 0) 0 =
      some (ACS_stopScript
        { acsVMs := [{ code := [0], scripts :=
            [{ number := 1, threads :=
                [{ sreg := ACSState.ACS_STATE_TERMINATE, delay := 3, script := (0, 0) }] },
             { number := 2, threads :=
                [{ sreg := ACSState.ACS_STATE_WAITSCRIPTNUMBER, sdata := 1,
                   script := (0, 1) }] }] }] }
        { sreg := ACSState.ACS_STATE_TERMINATE, delay := 3, script := (0, 0) } 0) ∧
      Think.begin ACSEnv.small
        { acsVMs := [{ code := [0], scripts :=
            [{ number := 1, threads :=
                [{ sreg := ACSState.ACS_STATE_TERMINATE, delay := 3, script := (0, 0) }] },
             { number := 2, threads :=
                [{ sreg := ACSState.ACS_STATE_WAITSCRIPTNUMBER, sdata := 1,
                   script := (0, 1) }] }] }] }
        { sreg := ACSState.ACS_STATE_TERMINATE, delay := 3, script := (0, 0) } 0 =
      ThinkStart.returned (ACS_stopScript
        { acsVMs := [{ code := [0], scripts :=
            [{ number := 1, threads :=
                [{ sreg := ACSState.ACS_STATE_TERMINATE, delay := 3, script := (0, 0) }] },
             { number := 2, threads :=
                [{ sreg := ACSState.ACS_STATE_WAITSCRIPTNUMBER, sdata := 1,
                   script := (0, 1) }] }] }] }
        { sreg := ACSState.ACS_STATE_TERMINATE, delay := 3, script := (0, 0) } 0)) :=
  (C34_terminating ACSEnv.small
    (Dispatch.mk (fun n => [Opcode.NOP, Opcode.SCRIPT_TERMINATE][n.toNat]?)
      (fun _ e => Outcome.NEXTOP e) false) 10
    { acsVMs := [{ code := [0], scripts :=
        [{ number := 1, threads :=
            [{ sreg := ACSState.ACS_STATE_TERMINATE, delay := 3, script := (0, 0) }] },
         { number := 2, threads :=
            [{ sreg := ACSState.ACS_STATE_WAITSCRIPTNUMBER, sdata := 1,
               script := (0, 1) }] }] }] }
    (0, 0) 0 { sreg := ACSState.ACS_STATE_TERMINATE, delay := 3, script := (0, 0) }
    (by decide) rfl rfl).2.2.2.1


/-! ## The code translations (C39) -/

/-- C39 (the code registers two numbers inside a reserved range): no number is
registered twice by the calls of `addCodeDataACS0`. The numbers 292 (for
`GetThingCeilZ`) and 293 (for `SetThingPos`) are registered, between the calls
for 281 and 288, and lie in the range 291-325 that the comment after the call
for 289 reserves as 'ACSVM internal codes'; every other registered number lies
in no range that a comment reserves; and the numbers 282 and 283 are neither
registered nor reserved. -/
theorem C39_code_table :
    (ACSEnvironment.codeDataACS0.map (fun c => c.code)).Nodup ∧
    (∀ n ∈ ACSEnvironment.codeDataACS0.map (fun c => c.code),
      ACSEnvironment.isReserved n = true ↔ (n = 292 ∨ n = 293)) ∧
    ((ACSEnvironment.codeDataACS0.map (fun c => c.code)).drop 71 =
      [280, 281, 292, 293, 288, 289, 328, 329, 331, 332, 334, 335, 338, 339, 340, 342, 343,
        347, 348]) ∧
    (ACSEnvironment.codeDataACS0.filter (fun c => decide (c.code = 292 ∨ c.code = 293))).map
        (fun c => (c.code, c.stackArgC)) = [(292, 1), (293, 5)] ∧
    CodeRange.mk 291 325 CodeRange.Kind.internal ∈ ACSEnvironment.reservedCodes ∧
    (∀ n ∈ [282, 283], n ∉ ACSEnvironment.codeDataACS0.map (fun c => c.code) ∧
      ACSEnvironment.isReserved n = false) := by
  refine ⟨by decide, by decide, by decide, by decide, by decide, by decide⟩


/-! ## The current print buffer (C37) -/

/-- C37 (the code leaves `printBuffer` null after loading): for a thread whose
`printPtr` lies within `printStack`, with a buffer in every slot below it.
`pushPrint` raises `printPtr` by one, makes the buffer of the new top slot the
current print buffer, that buffer being empty, and leaves the slots below as
they are. `popPrint` from a depth of 2 or more lowers `printPtr` by one and
makes the buffer of the new top slot the current print buffer, the slots as
they are. But `serialize` in loading mode, on what `serialize` has saved of the
thread at a depth of 1 or more, yields a thread with that depth and those
buffers whose `printBuffer` is null: it is read from the top slot right after
the array was allocated zeroed, before the loop creates the buffers. -/
theorem C37_print_buffer (ACS_NUM_PRINTS : Nat) (this : ACSThinker)
    (hnum : 0 < ACS_NUM_PRINTS)
    (hpp : this.printPtr ≤ this.printStack.length) (hpp1 : this.printPtr < 4294967296)
    (hprints : ∀ p ∈ this.printStack.take this.printPtr, p ≠ none) :
    (∃ th : ACSThinker, this.pushPrint ACS_NUM_PRINTS = some th ∧
      th.printPtr = this.printPtr + 1 ∧
      th.printBuffer = some (th.printPtr - 1) ∧
      th.printStack[th.printPtr - 1]? = some (some []) ∧
      ∀ i : Nat, i < this.printPtr → th.printStack[i]? = this.printStack[i]?) ∧
    (2 ≤ this.printPtr →
      ∃ th : ACSThinker, this.popPrint = some th ∧
        th.printPtr = this.printPtr - 1 ∧
        th.printBuffer = some (th.printPtr - 1) ∧
        th.printStack = this.printStack) ∧
    (1 ≤ this.printPtr →
      ∀ (env : ACSEnv) (w : ACSWorld) (this0 : ACSThinker) (rest : List SaveItem),
        (∀ (t : ACSThinker) (r : List SaveItem),
          env.SuperLoad (env.SuperSave t ++ r) = some r) →
        (∀ (v : Nat) (m : ACSModule), w.acsVMs[v]? = some m → m.id = v) →
        this.wellFormed env w → this.script.1 = this.vm → this.ipVM = this.vm →
        (∀ c ∈ this.calls.take this.callPtr, c.ipVM = c.vm) →
        ∃ saved items, ACSThinker.serialize.save env w this = some (saved, items) ∧
          ∃ w1 th, ACSThinker.serialize.load env w this0 (items ++ rest)
              = some (w1, th, rest) ∧
            th.printPtr = this.printPtr ∧
            th.printStack = this.printStack.take this.printPtr ∧
            th.printStack[th.printPtr - 1]? ≠ some none ∧
            th.printBuffer = none) := by
  refine ⟨?_, ?_, ?_⟩
  · have hu : u32 (this.printPtr : Int) = this.printPtr := u32_natCast _ hpp1
    have hlt : this.printPtr <
        (if u32 (this.printPtr : Int) = this.printStack.length then
          this.printStack ++ List.replicate ACS_NUM_PRINTS none
        else this.printStack).length := by
      rw [hu]
      split
      · rw [List.length_append, List.length_replicate]; omega
      · omega
    have hlow : ∀ i : Nat, i < this.printPtr →
        (if u32 (this.printPtr : Int) = this.printStack.length then
          this.printStack ++ List.replicate ACS_NUM_PRINTS none
        else this.printStack)[i]? = this.printStack[i]? := by
      intro i hi
      split
      · rw [List.getElem?_append_left (by omega)]
      · rfl
    unfold ACSThinker.pushPrint
    simp only
    generalize (if u32 (this.printPtr : Int) = this.printStack.length then
        this.printStack ++ List.replicate ACS_NUM_PRINTS none
      else this.printStack) = printStack1 at hlt hlow ⊢
    rw [List.getElem?_eq_getElem hlt]
    refine ⟨_, rfl, rfl, rfl, ?_, ?_⟩
    · show (printStack1.set this.printPtr (some []))[this.printPtr + 1 - 1]? = _
      rw [Nat.add_sub_cancel, List.getElem?_set_self hlt]
    · intro i hi
      show (printStack1.set this.printPtr (some []))[i]? = _
      rw [List.getElem?_set_ne (by omega)]
      exact hlow i hi
  · intro h2
    have hslot : ∃ buf : List Int, this.printStack[this.printPtr - 1 - 1]? = some (some buf) := by
      have hlt : this.printPtr - 1 - 1 < this.printStack.length := by omega
      have hmem : this.printStack[this.printPtr - 1 - 1] ∈
          this.printStack.take this.printPtr := by
        rw [List.mem_take_iff_getElem]
        exact ⟨this.printPtr - 1 - 1, by rw [Nat.min_eq_left hpp]; omega, rfl⟩
      have hne := hprints _ hmem
      rw [List.getElem?_eq_getElem hlt]
      cases hq : this.printStack[this.printPtr - 1 - 1] with
      | none => exact absurd hq hne
      | some buf => exact ⟨buf, rfl⟩
    obtain ⟨buf, hbuf⟩ := hslot
    unfold ACSThinker.popPrint
    rw [if_pos (by omega)]
    simp only
    rw [if_pos (by omega)]
    unfold ACSThinker.readPrintSlot
    simp only [hbuf]
    exact ⟨_, rfl, rfl, rfl, rfl⟩
  · intro h1 env w this0 rest hsuper hid hwf hscript hip hframes
    obtain ⟨saved, items, hsave, th, hload, _, _, _, _, ⟨h8, h9⟩, _, _, hpb⟩ :=
      serialize_roundtrip env w this this0 rest hsuper hid hwf hscript hip hframes hprints
    refine ⟨saved, items, hsave, _, th, hload, h9, h8, ?_, hpb⟩
    rw [h8, h9]
    intro hc
    have hmem : (none : Option (List Int)) ∈ this.printStack.take this.printPtr :=
      List.getElem?_mem hc
    exact hprints none hmem rfl

theorem C37_print_buffer_witness :
    ∃ saved items, ACSThinker.serialize.save ACSEnv.small
        { acsVMs := [{ id := 0, scripts := [{ number := 1 }] }] }
        { script := (0, 0), printStack := [some [72, 105]], printPtr := 1,
          printBuffer := some 0 } = some (saved, items) ∧
      ∃ w1 th, ACSThinker.serialize.load ACSEnv.small
          { acsVMs := [{ id := 0, scripts := [{ number := 1 }] }] } {} (items ++ [])
            = some (w1, th, []) ∧
        th.printPtr = 1 ∧
        th.printStack = [some [72, 105]] ∧
        th.printStack[th.printPtr - 1]? ≠ some none ∧
        th.printBuffer = none :=
  (C37_print_buffer 4
    { script := (0, 0), printStack := [some [72, 105]], printPtr := 1, printBuffer := some 0 }
    (by decide) (by decide) (by decide) (by simp)).2.2 (by decide) ACSEnv.small
    { acsVMs := [{ id := 0, scripts := [{ number := 1 }] }] } {} []
    (fun _ _ => rfl)
    (by
      intro v m h
      match v, h with
      | 0, h => cases h; rfl)
    (by simp [ACSThinker.wellFormed, ACSEnv.small, ACSWorld.scriptAt])
    rfl rfl (by simp)


/-! ## Call and return (C35, C36) -/

theorem memAt_some_range (buf : List Int) (i v : Int) (h : memAt buf i = some v) :
    0 ≤ i ∧ i < buf.length := by
  unfold memAt at h
  split at h
  · next h0 =>
    have := (List.getElem?_eq_some.mp h).1
    exact ⟨h0, by omega⟩
  · cases h

/-- Both forms of the call reach the label `acs_op_call` with the function found:
`BRANCH_CALL_IMM` past its operand, `BRANCH_CALL` with the function number off
the stack. -/
theorem call_label (env : ACSEnv) (f : ACSFunc) (opcode : Int) (e : Exec) (vm : ACSModule)
    (imm : Bool)
    (hfunc : if imm = true then
        memAt e.code e.ip = some opcode ∧ e.vm = some vm ∧
          vm.funcptrs[u32 opcode]? = some (some f)
      else
        memAt e.this.stack (e.stp - 1) = some opcode ∧
          env.FindFunction e.w (u32 opcode) = some f) :
    (if imm = true then op_BRANCH_CALL_IMM env e else op_BRANCH_CALL env e) =
      acs_op_call env (some f) opcode
        (if imm = true then { e with ip := e.ip + 1 } else { e with stp := e.stp - 1 }) := by
  cases imm with
  | true =>
    simp only [if_true] at hfunc ⊢
    obtain ⟨hc, hvm, hf⟩ := hfunc
    have hlt : u32 opcode < vm.funcptrs.length := (List.getElem?_eq_some.mp hf).1
    unfold op_BRANCH_CALL_IMM IPNEXT
    rw [hc]
    simp only [Exec.vm] at hvm ⊢
    rw [hvm]
    simp only
    rw [if_pos hlt, hf]
    rfl
  | false =>
    simp only [Bool.false_eq_true, if_false] at hfunc ⊢
    obtain ⟨ht, hf⟩ := hfunc
    unfold op_BRANCH_CALL POP
    rw [ht]
    simp only
    rw [hf]

theorem take_succ_of_getElem? {α : Type} (l l1 : List α) (n : Nat) (x : α)
    (hx : l1[n]? = some x) (hlow : ∀ j : Nat, j < n → l1[j]? = l[j]?) (hn : n ≤ l.length) :
    l1.take (n + 1) = l.take n ++ [x] := by
  have hlen : n < l1.length := (List.getElem?_eq_some.mp hx).1
  apply List.ext_getElem?
  intro j
  by_cases hj : j < n
  · rw [List.getElem?_take_of_lt (by omega), hlow j hj,
      List.getElem?_append_left (by rw [List.length_take]; omega),
      List.getElem?_take_of_lt hj]
  · by_cases hj2 : j = n
    · subst hj2
      rw [List.getElem?_take_of_lt (by omega), hx,
        List.getElem?_append_right (by rw [List.length_take]; omega), List.length_take,
        Nat.min_eq_left hn, Nat.sub_self]
      rfl
    · rw [List.getElem?_eq_none (by rw [List.length_take]; omega),
        List.getElem?_eq_none (by
          rw [List.length_append, List.length_take, List.length_singleton]; omega)]

theorem copyArgs_length (argv : List Int) (n i : Nat) (lv lv1 : List Int)
    (h : ACS_ExecuteScript.copyArgs argv n i lv = some lv1) : lv1.length = lv.length := by
  induction n generalizing i lv with
  | zero =>
    unfold ACS_ExecuteScript.copyArgs at h
    cases h
    rfl
  | succ n ih =>
    unfold ACS_ExecuteScript.copyArgs at h
    split at h
    · next lv2 hset =>
      have h2 := ih (i + 1) lv2 h
      unfold memSet at hset
      split at hset
      · cases hset
        rw [h2, List.length_set]
      · cases hset
    · cases h

/-- The state after a call of a valid function from a thread whose window lies in
its buffer: the window of the callee lies in the buffer, and the frames hold the
window sizes of the callers. -/
theorem call_window (env : ACSEnv) (f : ACSFunc) (opcode : Int) (e : Exec)
    (hcount : e.count + 1 ≤ 500000) (hnc : 0 < env.ACS_NUM_CALLS)
    (hsz : e.stp + env.ACS_NUM_STACK * 2 < 4294967296)
    (hargs : (f.numArgs : Int) ≤ e.stp) (hstp : e.stp ≤ e.this.stack.length)
    (hw : e.this.windowOk) (hf : e.this.framesOk) :
    ∃ e1 : Exec, acs_op_call env (some f) opcode e = Outcome.NEXTOP e1 ∧
      e1.this.windowOk ∧ e1.this.framesOk ∧ 0 ≤ e1.this.locals ∧
      e1.this.locals + f.numArgs + f.numVars ≤ e1.this.localvar.length := by
  obtain ⟨hlv, hcp⟩ := hw
  obtain ⟨hn0, hfr, hsum⟩ := hf
  have hl0 : 0 ≤ e.this.locals := by
    rw [hsum]
    apply List.sum_nonneg
    intro x hx
    obtain ⟨c, hc, rfl⟩ := List.mem_map.mp hx
    exact hfr c hc
  obtain ⟨e1, hcall, -, -, hcp1, hframe, hlow, -, -, hloc, hnl, hargs1, hzero, hkeep, -, -, -⟩ :=
    acs_op_call_post env f opcode e hcount hnc hsz hcp hl0 hn0 hlv hargs hstp
  have htake := take_succ_of_getElem? e.this.calls e1.this.calls e.this.callPtr _ hframe hlow hcp
  have hlen : e1.this.locals + f.numArgs + f.numVars ≤ e1.this.localvar.length := by
    by_cases hv : 0 < f.numVars
    · have h1 := hzero (f.numArgs + f.numVars - 1) (by omega) (by omega)
      have h2 := (memAt_some_range _ _ _ h1).2
      omega
    · by_cases ha : 0 < f.numArgs
      · obtain ⟨v, -, h1⟩ := hargs1 (f.numArgs - 1) (by omega)
        have h2 := (memAt_some_range _ _ _ h1).2
        omega
      · by_cases hL : 0 < e.this.locals + e.this.numLocals
        · have h1 := hkeep (e.this.locals + e.this.numLocals - 1) (by omega)
          have hin : (e.this.locals + e.this.numLocals - 1).toNat < e.this.localvar.length := by
            omega
          have h3 : memAt e.this.localvar (e.this.locals + e.this.numLocals - 1) =
              some (e.this.localvar[(e.this.locals + e.this.numLocals - 1).toNat]) := by
            unfold memAt
            rw [if_pos (by omega), List.getElem?_eq_getElem hin]
          rw [h3] at h1
          have h2 := (memAt_some_range _ _ _ h1).2
          omega
        · omega
  refine ⟨e1, hcall, ⟨?_, ?_⟩, ⟨?_, ?_, ?_⟩, by omega, hlen⟩
  · omega
  · have := (List.getElem?_eq_some.mp hframe).1
    omega
  · omega
  · rw [hcp1, htake]
    intro c hc
    rcases List.mem_append.mp hc with h | h
    · exact hfr c h
    · rw [List.mem_singleton] at h
      rw [h]
      exact hn0
  · rw [hcp1, htake, List.map_append, List.sum_append, ← hsum, hloc]
    simp

/-- A return from a thread with a call frame, whose window lies in its buffer. -/
theorem return_window (e : Exec) (hcp0 : e.this.callPtr ≠ 0)
    (hw : e.this.windowOk) (hf : e.this.framesOk) :
    ∃ (e1 : Exec) (frame : acs_call_t), e.this.calls[e.this.callPtr - 1]? = some frame ∧
      op_BRANCH_RETURN e = Outcome.NEXTOP e1 ∧
      e1.this.windowOk ∧ e1.this.framesOk ∧
      e1.ip = frame.ip ∧ e1.ipVM = frame.ipVM ∧ e1.this.vm = frame.vm ∧
      e1.this.numLocals = frame.numLocals ∧
      e1.this.locals = e.this.locals - frame.numLocals ∧
      e1.this.callPtr = e.this.callPtr - 1 ∧
      e1.this.localvar = e.this.localvar ∧ e1.this.calls = e.this.calls := by
  obtain ⟨hlv, hcp⟩ := hw
  obtain ⟨hn0, hfr, hsum⟩ := hf
  have hlt : e.this.callPtr - 1 < e.this.calls.length := by omega
  have htake : e.this.calls.take e.this.callPtr =
      e.this.calls.take (e.this.callPtr - 1) ++ [e.this.calls[e.this.callPtr - 1]] := by
    have := take_succ_of_getElem? e.this.calls e.this.calls (e.this.callPtr - 1) _
      (List.getElem?_eq_getElem hlt) (fun _ _ => rfl) (by omega)
    rw [Nat.sub_add_cancel (by omega)] at this
    exact this
  have hfn : 0 ≤ (e.this.calls[e.this.callPtr - 1]).numLocals :=
    hfr _ (by rw [htake]; exact List.mem_append_right _ (List.mem_singleton.mpr rfl))
  refine ⟨{ e with ip := (e.this.calls[e.this.callPtr - 1]).ip,
                   ipVM := (e.this.calls[e.this.callPtr - 1]).ipVM,
                   this := { e.this with
                     callPtr := e.this.callPtr - 1,
                     numLocals := (e.this.calls[e.this.callPtr - 1]).numLocals,
                     vm := (e.this.calls[e.this.callPtr - 1]).vm,
                     locals := e.this.locals -
                       (e.this.calls[e.this.callPtr - 1]).numLocals } },
    e.this.calls[e.this.callPtr - 1], List.getElem?_eq_getElem hlt, ?_, ⟨?_, ?_⟩,
    ⟨?_, ?_, ?_⟩, rfl, rfl, rfl, rfl, rfl, rfl, rfl, rfl⟩
  · unfold op_BRANCH_RETURN
    rw [if_neg hcp0, List.getElem?_eq_getElem hlt]
  · dsimp only
    omega
  · dsimp only
    omega
  · exact hfn
  · intro c hc
    exact hfr c (by rw [htake]; exact List.mem_append_left _ hc)
  · dsimp only
    rw [hsum, htake, List.map_append, List.sum_append]
    simp

/-- C35: a call, `BRANCH_CALL_IMM` (`imm`) or `BRANCH_CALL`, of a valid function
with enough values on the stack for its arguments, not as the branch that
passes the runaway limit, from a thread whose window and `callPtr` lie in their
buffers, and `BRANCH_RETURN` right after it: `ip` is behind the call again
(behind its operand, for `BRANCH_CALL_IMM`) in the same code, the offset and the
size of the window, the current module and `callPtr` are those of before the
call, and so are the cells of the buffer of local variables up to the end of
the window, and the older call frames. Nothing is assumed on the sizes of the
buffers, so the buffers that are too small are grown in the call. -/
theorem C35_call_return (env : ACSEnv) (f : ACSFunc) (opcode : Int) (e : Exec)
    (vm : ACSModule) (imm : Bool) (stp0 ret : Int)
    (hfunc : if imm = true then
        memAt e.code e.ip = some opcode ∧ e.vm = some vm ∧
          vm.funcptrs[u32 opcode]? = some (some f)
      else
        memAt e.this.stack (e.stp - 1) = some opcode ∧
          env.FindFunction e.w (u32 opcode) = some f)
    (hstp0 : stp0 = if imm = true then e.stp else e.stp - 1)
    (hret : ret = if imm = true then e.ip + 1 else e.ip)
    (hcount : e.count + 1 ≤ 500000) (hnc : 0 < env.ACS_NUM_CALLS)
    (hsz : stp0 + env.ACS_NUM_STACK * 2 < 4294967296)
    (hcp : e.this.callPtr ≤ e.this.calls.length)
    (hl0 : 0 ≤ e.this.locals) (hn0 : 0 ≤ e.this.numLocals)
    (hlv : e.this.locals + e.this.numLocals ≤ e.this.localvar.length)
    (hargs : (f.numArgs : Int) ≤ stp0) (hstp : e.stp ≤ e.this.stack.length) :
    ∃ e1 e2 : Exec,
      (if imm = true then op_BRANCH_CALL_IMM env e else op_BRANCH_CALL env e)
        = Outcome.NEXTOP e1 ∧
      op_BRANCH_RETURN e1 = Outcome.NEXTOP e2 ∧
      e2.ip = ret ∧ e2.ipVM = e.ipVM ∧
      e2.this.locals = e.this.locals ∧ e2.this.numLocals = e.this.numLocals ∧
      e2.this.vm = e.this.vm ∧ e2.this.callPtr = e.this.callPtr ∧
      (∀ j : Int, j < e.this.locals + e.this.numLocals →
        memAt e2.this.localvar j = memAt e.this.localvar j) ∧
      (∀ j : Nat, j < e.this.callPtr → e2.this.calls[j]? = e.this.calls[j]?) := by
  rw [call_label env f opcode e vm imm hfunc]
  have key : ∀ e0 : Exec, e0.this = e.this → e0.stp = stp0 → e0.ip = ret →
      e0.ipVM = e.ipVM → e0.count = e.count →
      ∃ e1 e2 : Exec, acs_op_call env (some f) opcode e0 = Outcome.NEXTOP e1 ∧
        op_BRANCH_RETURN e1 = Outcome.NEXTOP e2 ∧
        e2.ip = ret ∧ e2.ipVM = e.ipVM ∧
        e2.this.locals = e.this.locals ∧ e2.this.numLocals = e.this.numLocals ∧
        e2.this.vm = e.this.vm ∧ e2.this.callPtr = e.this.callPtr ∧
        (∀ j : Int, j < e.this.locals + e.this.numLocals →
          memAt e2.this.localvar j = memAt e.this.localvar j) ∧
        (∀ j : Nat, j < e.this.callPtr → e2.this.calls[j]? = e.this.calls[j]?) := by
    intro e0 hthis hstp1 hip hipVM hcnt
    have hstp2 : e0.stp ≤ e0.this.stack.length := by
      rw [hthis, hstp1, hstp0]
      split <;> omega
    obtain ⟨e1, hcall, -, -, hcp1, hframe, hlow, -, -, hloc, hnl, -, -, hkeep, -, -, -⟩ :=
      acs_op_call_post env f opcode e0 (by omega) hnc (by rw [hstp1]; exact hsz)
        (by rw [hthis]; exact hcp) (by rw [hthis]; exact hl0) (by rw [hthis]; exact hn0)
        (by rw [hthis]; exact hlv) (by rw [hstp1]; exact hargs) hstp2
    rw [hthis] at hcp1 hframe hlow hloc hkeep
    rw [hip, hipVM] at hframe
    have hget : e1.this.calls[e1.this.callPtr - 1]? =
        some { ip := ret, ipVM := e.ipVM, numLocals := e.this.numLocals, vm := e.this.vm } := by
      rw [hcp1, Nat.add_sub_cancel]
      exact hframe
    refine ⟨e1, { e1 with ip := ret, ipVM := e.ipVM,
                          this := { e1.this with callPtr := e1.this.callPtr - 1,
                                                 numLocals := e.this.numLocals,
                                                 vm := e.this.vm,
                                                 locals := e1.this.locals - e.this.numLocals } },
      hcall, ?_, ?_⟩
    · unfold op_BRANCH_RETURN
      rw [if_neg (by omega), hget]
    · refine ⟨rfl, rfl, ?_, rfl, rfl, ?_, hkeep, hlow⟩
      · dsimp only
        omega
      · dsimp only
        omega
  cases imm with
  | true =>
    simp only [if_true] at hstp0 hret ⊢
    exact key _ rfl hstp0.symm hret.symm rfl rfl
  | false =>
    simp only [Bool.false_eq_true, if_false] at hstp0 hret ⊢
    exact key _ rfl hstp0.symm hret.symm rfl rfl

theorem C35_call_return_witness :
    ∃ e1 e2 : Exec,
      (if true = true then
          op_BRANCH_CALL_IMM ACSEnv.small
            { w := { acsVMs := [{ code := [0, 0, 9, 9],
                                  funcptrs := [some { numArgs := 1, numVars := 1,
                                                      codePtr := 2 }] }] },
              this := { stack := [5], localvar := [7, 8], numLocals := 2 },
              ip := 1, stp := 1, count := 0 }
        else
          op_BRANCH_CALL ACSEnv.small
            { w := { acsVMs := [{ code := [0, 0, 9, 9],
                                  funcptrs := [some { numArgs := 1, numVars := 1,
                                                      codePtr := 2 }] }] },
              this := { stack := [5], localvar := [7, 8], numLocals := 2 },
              ip := 1, stp := 1, count := 0 }) = Outcome.NEXTOP e1 ∧
      op_BRANCH_RETURN e1 = Outcome.NEXTOP e2 ∧
      e2.ip = 2 ∧ e2.ipVM = 0 ∧ e2.this.locals = 0 ∧ e2.this.numLocals = 2 ∧
      e2.this.vm = 0 ∧ e2.this.callPtr = 0 ∧
      (∀ j : Int, j < 0 + 2 → memAt e2.this.localvar j = memAt [7, 8] j) ∧
      (∀ j : Nat, j < 0 → e2.this.calls[j]? = ([] : List acs_call_t)[j]?) :=
  C35_call_return ACSEnv.small { numArgs := 1, numVars := 1, codePtr := 2 } 0
    { w := { acsVMs := [{ code := [0, 0, 9, 9],
                          funcptrs := [some { numArgs := 1, numVars := 1, codePtr := 2 }] }] },
      this := { stack := [5], localvar := [7, 8], numLocals := 2 },
      ip := 1, stp := 1, count := 0 }
    { code := [0, 0, 9, 9], funcptrs := [some { numArgs := 1, numVars := 1, codePtr := 2 }] }
    true 1 2 (by decide) (by decide) (by decide) (by decide) (by decide) (by decide)
    (by decide) (by decide) (by decide) (by decide) (by decide) (by decide)

/-- C36: the window of local variables ends inside its buffer and `callPtr` lies
within the allocated call frames (`windowOk`), together with the frames holding
the window sizes of the callers (`framesOk`, by which the window also begins
inside the buffer), for every thread that `ACS_ExecuteScript` creates, the
constructor leaving no call frame in use; after every call of a valid function
with its arguments on the stack, below the runaway limit, from a thread for
which it holds, where the window of the callee, its arguments and its further
locals, lies inside the buffer; and after every return to a call frame from a
thread for which it holds. -/
theorem C36_window_invariant (env : ACSEnv) (hnc : 0 < env.ACS_NUM_CALLS)
    (hnew : env.newThinker.callPtr = 0) :
    (∀ (w : ACSWorld) (script : Option (Nat × Nat)) (flags : Nat) (argv : List Int)
        (trigger line : Option Nat) (lineSide : Int)
        (r : ACSWorld × Bool × Option ACSThinker) (t : ACSThinker),
      ACS_ExecuteScript env w script flags argv trigger line lineSide = some r →
      r.2.2 = some t → t.windowOk ∧ t.framesOk) ∧
    (∀ (f : ACSFunc) (opcode : Int) (e : Exec) (vm : ACSModule) (imm : Bool) (stp0 : Int),
      (if imm = true then
        memAt e.code e.ip = some opcode ∧ e.vm = some vm ∧
          vm.funcptrs[u32 opcode]? = some (some f)
      else
        memAt e.this.stack (e.stp - 1) = some opcode ∧
          env.FindFunction e.w (u32 opcode) = some f) →
      stp0 = (if imm = true then e.stp else e.stp - 1) →
      e.count + 1 ≤ 500000 → stp0 + env.ACS_NUM_STACK * 2 < 4294967296 →
      (f.numArgs : Int) ≤ stp0 → e.stp ≤ e.this.stack.length →
      e.this.windowOk → e.this.framesOk →
      ∃ e1 : Exec,
        (if imm = true then op_BRANCH_CALL_IMM env e else op_BRANCH_CALL env e)
          = Outcome.NEXTOP e1 ∧
        e1.this.windowOk ∧ e1.this.framesOk ∧ 0 ≤ e1.this.locals ∧
        e1.this.locals + f.numArgs + f.numVars ≤ e1.this.localvar.length) ∧
    (∀ e : Exec, e.this.callPtr ≠ 0 → e.this.windowOk → e.this.framesOk →
      ∃ e1 : Exec, op_BRANCH_RETURN e = Outcome.NEXTOP e1 ∧
        e1.this.windowOk ∧ e1.this.framesOk) := by
  refine ⟨?_, ?_, ?_⟩
  · intro w script flags argv trigger line lineSide r t hr ht
    unfold ACS_ExecuteScript at hr
    cases hgo : ACS_ExecuteScript.go env w script flags argv trigger line lineSide with
    | none => rw [hgo] at hr; cases hr
    | some g =>
      rw [hgo] at hr
      simp only [Option.map_some', Option.some.injEq] at hr
      subst hr
      simp only at ht
      unfold ACS_ExecuteScript.go at hgo
      split at hgo
      · cases hgo; cases ht
      · split at hgo
        · cases hgo
        · next ref s hs =>
          simp only at hgo
          split at hgo
          · cases hgo; cases ht
          · split at hgo
            · cases hgo
            · next lv hlv =>
              cases hgo
              simp only [Option.some.injEq] at ht
              subst ht
              have hlen := copyArgs_length _ _ _ _ _ hlv
              rw [List.length_replicate] at hlen
              refine ⟨⟨?_, ?_⟩, ⟨?_, ?_, ?_⟩⟩
              · dsimp only
                rw [hlen]
                omega
              · dsimp only
                rw [hnew]
                exact Nat.zero_le _
              · dsimp only
                omega
              · dsimp only
                rw [hnew]
                intro c hc
                simp at hc
              · dsimp only
                rw [hnew]
                rfl
  · intro f opcode e vm imm stp0 hfunc hstp0 hcount hsz hargs hstp hw hf
    rw [call_label env f opcode e vm imm hfunc]
    cases imm with
    | true =>
      simp only [if_true] at hstp0 ⊢
      subst hstp0
      exact call_window env f opcode _ hcount hnc hsz hargs hstp hw hf
    | false =>
      simp only [Bool.false_eq_true, if_false] at hstp0 ⊢
      subst hstp0
      exact call_window env f opcode _ hcount hnc hsz hargs (by dsimp only; omega) hw hf
  · intro e hcp0 hw hf
    obtain ⟨e1, frame, -, hret, hw1, hf1, -⟩ := return_window e hcp0 hw hf
    exact ⟨e1, hret, hw1, hf1⟩

theorem C36_window_invariant_witness :
    ∃ e1 : Exec,
      op_BRANCH_RETURN
        { w := {}, this := { localvar := [7, 8, 5, 0], locals := 2, numLocals := 2,
                             calls := [{ ip := 2, numLocals := 2 }, {}], callPtr := 1 },
          ip := 3, stp := 0 } = Outcome.NEXTOP e1 ∧
      e1.this.windowOk ∧ e1.this.framesOk :=
  (C36_window_invariant ACSEnv.small (by decide) rfl).2.2
    { w := {}, this := { localvar := [7, 8, 5, 0], locals := 2, numLocals := 2,
                         calls := [{ ip := 2, numLocals := 2 }, {}], callPtr := 1 },
      ip := 3, stp := 0 }
    (by decide) ⟨by decide, by decide⟩ ⟨by decide, by simp, by decide⟩


/-! ## The names in a lump named LOADACS (C40) -/

/-- The pieces between the chars that satisfy `p`: the first piece is what comes
before the first such char, the other pieces are those of what comes behind
it. -/
theorem splitOnP_eq (p : Int → Bool) (l : List Int) :
    l.splitOnP p = l.takeWhile (fun c => !p c) ::
      (match l.dropWhile (fun c => !p c) with
       | [] => []
       | _ :: r => r.splitOnP p) := by
  induction l with
  | nil => rfl
  | cons x xs ih =>
    rw [List.splitOnP_cons]
    by_cases hx : p x = true
    · rw [if_pos hx]
      simp [List.takeWhile_cons, List.dropWhile_cons, hx]
    · rw [if_neg hx, ih]
      simp [List.takeWhile_cons, List.dropWhile_cons, hx, List.modifyHead]

theorem maximalRuns_nil (isSpace : Int → Bool) : maximalRuns isSpace [] = [] := by
  unfold maximalRuns
  simp

theorem maximalRuns_space (isSpace : Int → Bool) (c : Int) (l : List Int)
    (hc : isSpace c = true) : maximalRuns isSpace (c :: l) = maximalRuns isSpace l := by
  unfold maximalRuns
  rw [List.splitOnP_cons, if_pos hc, List.filter_cons]
  simp

theorem maximalRuns_dropWhile (isSpace : Int → Bool) (l : List Int) :
    maximalRuns isSpace (l.dropWhile isSpace) = maximalRuns isSpace l := by
  induction l with
  | nil => rfl
  | cons c l ih =>
    rw [List.dropWhile_cons]
    by_cases hc : isSpace c = true
    · rw [if_pos hc, ih, maximalRuns_space isSpace c l hc]
    · rw [if_neg hc]

/-- A lump that begins with a char that is no whitespace: its first run is what
comes before the first whitespace char, its other runs are those of the rest. -/
theorem maximalRuns_cons (isSpace : Int → Bool) (c : Int) (l : List Int)
    (hc : isSpace c = false) :
    maximalRuns isSpace (c :: l) =
      (c :: l).takeWhile (fun c => !isSpace c) ::
        maximalRuns isSpace ((c :: l).dropWhile (fun c => !isSpace c)) := by
  have hne : (c :: l).takeWhile (fun c => !isSpace c) ≠ [] := by
    rw [List.takeWhile_cons]
    simp [hc]
  conv_lhs => unfold maximalRuns
  rw [splitOnP_eq, List.filter_cons, if_pos (by simpa using hne)]
  congr 1
  cases hd : (c :: l).dropWhile (fun c => !isSpace c) with
  | nil => simp [maximalRuns_nil]
  | cons y r =>
    simp only
    have hy : isSpace y = true := by
      have h1 := List.head_dropWhile_not (fun c => !isSpace c) (c :: l) (by rw [hd]; simp)
      simp only [hd, List.head_cons] at h1
      simpa using h1
    rw [maximalRuns_space isSpace y r hy]
    rfl

theorem readName_eq (isSpace : Int → Bool) (room : Nat) (l : List Int) :
    (ACS_loadModules.readName isSpace room l).1 =
        (l.takeWhile (fun c => !isSpace c)).take room ∧
      (ACS_loadModules.readName isSpace room l).2.dropWhile (fun c => !isSpace c) =
        l.dropWhile (fun c => !isSpace c) := by
  induction room generalizing l with
  | zero => exact ⟨by simp [ACS_loadModules.readName], rfl⟩
  | succ n ih =>
    cases l with
    | nil => exact ⟨rfl, rfl⟩
    | cons c rest =>
      unfold ACS_loadModules.readName
      by_cases hc : isSpace c = true
      · rw [if_pos hc]
        simp [List.takeWhile_cons, hc]
      · rw [if_neg hc]
        obtain ⟨h1, h2⟩ := ih rest
        simp only [h1, h2]
        simp [List.takeWhile_cons, List.dropWhile_cons, hc]

theorem length_dropWhile_le (p : Int → Bool) (l : List Int) :
    (l.dropWhile p).length ≤ l.length := by
  induction l with
  | nil => exact Nat.le_refl _
  | cons c l ih =>
    rw [List.dropWhile_cons]
    split
    · exact Nat.le_succ_of_le ih
    · exact Nat.le_refl _

/-- The NUL that ends the array `lumpname` ends its C string, if no NUL stands before
it. -/
theorem cstr_terminated (l : List Int) : cstr (l ++ [0]) = cstr l := by
  unfold cstr
  induction l with
  | nil => rfl
  | cons c l ih =>
    rw [List.cons_append, List.takeWhile_cons, List.takeWhile_cons, ih]

/-- The chars of a run are chars of the lump. -/
theorem maximalRuns_mem (isSpace : Int → Bool) (n : Nat) :
    ∀ l : List Int, l.length ≤ n → ∀ run ∈ maximalRuns isSpace l, ∀ c ∈ run, c ∈ l := by
  induction n with
  | zero =>
    intro l hl run hrun
    have hnil : l = [] := List.length_eq_zero.mp (Nat.le_zero.mp hl)
    rw [hnil, maximalRuns_nil] at hrun
    cases hrun
  | succ n ih =>
    intro l hl run hrun c hc
    cases l with
    | nil =>
      rw [maximalRuns_nil] at hrun
      cases hrun
    | cons x xs =>
      have hxs : xs.length ≤ n := by
        rw [List.length_cons] at hl
        omega
      by_cases hx : isSpace x = true
      · rw [maximalRuns_space isSpace x xs hx] at hrun
        exact List.mem_cons_of_mem _ (ih xs hxs run hrun c hc)
      · have hx0 : isSpace x = false := by simpa using hx
        rw [maximalRuns_cons isSpace x xs hx0, List.mem_cons] at hrun
        rcases hrun with hrun | hrun
        · rw [hrun] at hc
          exact ( List.takeWhile_prefix _).subset hc
        · have hlen : ((x :: xs).dropWhile (fun c => !isSpace c)).length ≤ n := by
            rw [List.dropWhile_cons]
            simp only [hx0, Bool.not_false, if_true]
            exact Nat.le_trans (length_dropWhile_le _ xs) hxs
          exact (List.dropWhile_suffix _).subset (ih _ hlen run hrun c hc)

/-- In a lump without NUL the C string in the first 8 chars of a run is these
chars. -/
theorem cstr_runs (isSpace : Int → Bool) (content : List Int) (h0 : ∀ c ∈ content, c ≠ 0) :
    (maximalRuns isSpace content).map (fun run => cstr (run.take 8)) =
      (maximalRuns isSpace content).map (fun run => run.take 8) := by
  apply List.map_congr_left
  intro run hrun
  unfold cstr
  rw [List.takeWhile_eq_self_iff]
  intro c hc
  have hmem := maximalRuns_mem isSpace content.length content (Nat.le_refl _) run hrun c
    (List.mem_of_mem_take hc)
  simpa using h0 c hmem

/-- The loop of `ACS_loadModules`, given more rounds than the lump has chars, ends,
having called `load` with the C string in the first 8 chars of each maximal run
of non-whitespace chars, in order. -/
theorem loadModules_loop {σ : Type} (isSpace : Int → Bool) (load : σ → List Int → σ) :
    ∀ (fuel : Nat) (content : List Int) (st : σ), content.length < fuel →
      ACS_loadModules.loop isSpace load fuel content st =
        some (((maximalRuns isSpace content).map (fun run => cstr (run.take 8))).foldl
          load st) := by
  intro fuel
  induction fuel with
  | zero => intro content st h; omega
  | succ fuel ih =>
    intro content st hlen
    unfold ACS_loadModules.loop
    simp only
    rw [← maximalRuns_dropWhile isSpace content]
    have hle := length_dropWhile_le isSpace content
    cases hd : content.dropWhile isSpace with
    | nil =>
      rw [if_pos rfl, maximalRuns_nil]
      rfl
    | cons c t =>
      rw [if_neg (by simp)]
      have hc : isSpace c = false := by
        have h1 := List.head_dropWhile_not isSpace content (by rw [hd]; simp)
        simpa [hd] using h1
      obtain ⟨h1, h2⟩ := readName_eq isSpace 8 (c :: t)
      rw [h2, h1, cstr_terminated, maximalRuns_cons isSpace c t hc, List.map_cons,
        List.foldl_cons]
      apply ih
      have h3 : ((c :: t).dropWhile (fun c => !isSpace c)).length ≤ t.length := by
        rw [List.dropWhile_cons]
        simp only [hc, Bool.not_false, if_true]
        exact length_dropWhile_le _ t
      rw [hd, List.length_cons] at hle
      omega

/-- The scan on the lump "AB  LONGNAME12 C" followed by a line feed, with space and
line feed as whitespace: three names, the second cut to 8 chars. -/
theorem loadModules_example :
    ACS_loadModules.loop (fun c => c == 32 || c == 10)
        (fun (log : List (List Int)) lumpname => log ++ [lumpname]) 18
        [65, 66, 32, 32, 76, 79, 78, 71, 78, 65, 77, 69, 49, 50, 32, 67, 10] [] =
      some [[65, 66], [76, 79, 78, 71, 78, 65, 77, 69], [67]] ∧
    maximalRuns (fun c => c == 32 || c == 10)
        [65, 66, 32, 32, 76, 79, 78, 71, 78, 65, 77, 69, 49, 50, 32, 67, 10] =
      [[65, 66], [76, 79, 78, 71, 78, 65, 77, 69, 49, 50], [67]] := by
  decide

theorem foldl_log {α : Type} (xs log : List α) :
    xs.foldl (fun log x => log ++ [x]) log = log ++ xs := by
  induction xs generalizing log with
  | nil => simp
  | cons x xs ih => rw [List.foldl_cons, ih, List.append_assoc]; rfl

/-- C40, counterexample: the lump of the four bytes 'A', NUL, 'B', line feed, with
space and line feed as whitespace. Its one run of non-whitespace chars is 'A',
NUL, 'B', but the name requested is "A", not the three chars of the run: logged
by the loop, and as `ACS_loadModules` hands it to `ACS_loadModule` (the lump
named "A" has the number 3 here). -/
theorem C40_counterexample :
    maximalRuns (fun c => c == 32 || c == 10) [65, 0, 66, 10] = [[65, 0, 66]] ∧
    ACS_loadModules.loop (fun c => c == 32 || c == 10)
        (fun (log : List (List Int)) lumpname => log ++ [lumpname]) 5 [65, 0, 66, 10] [] =
      some [[65]] ∧
    ACS_loadModules
        { SIZE_MAX := 65535, gamemap := 1, TICRATE := 35,
          isSpace := fun c => c == 32 || c == 10,
          checkNumForName := fun _ str => if str = [65] then 3 else -1,
          loadacs := fun _ => [[65, 0, 66, 10]],
          getMapScope := fun _ _ => {},
          readBytecode := fun env _ => (env, none),
          addModules := fun map ms => { map with modules := map.modules ++ ms },
          scriptStartType := fun map => map }
        ({ dir := some 0 }, []) [65, 0, 66, 10] =
      some ({ dir := some 0, loaded := [{ s := [65], p := some 0, i := 3 }] },
        [{ s := [65], p := some 0, i := 3 }]) ∧
    ([65] : List Int) ≠ ([65, 0, 66] : List Int).take 8 := by
  decide

/-- C40 as amended: the loop of `ACS_loadModules` on the content of a lump,
whatever the content, ends within one round more than there are chars, and has
then requested, by `ACS_loadModule(modules, ACSenv.getModuleName(lumpname))`,
one module for each maximal run of non-whitespace chars, in the order of the
runs, the name being the C string in the first 8 chars of the run, that is,
these chars up to the first NUL among them: so for requests that are logged,
for `ACS_loadModules` itself, and for whatever else is done with a name. For a
lump without NUL the names are the first 8 chars of the runs. A lump of
whitespace chars only, or without chars, has no run, and no module is
requested. -/
theorem C40_loadacs_names (h : LoadHost) (content : List Int) :
    ACS_loadModules.loop h.isSpace (fun (log : List (List Int)) lumpname => log ++ [lumpname])
        (content.length + 1) content [] =
      some ((maximalRuns h.isSpace content).map (fun run => cstr (run.take 8))) ∧
    (∀ st : ACSEnvironment × List ModuleName,
      ACS_loadModules h st content =
        some (((maximalRuns h.isSpace content).map (fun run => cstr (run.take 8))).foldl
          (fun st lumpname =>
            ACS_loadModule h st (ACSEnvironment.getModuleName h st.1 lumpname)) st)) ∧
    (∀ (σ : Type) (load : σ → List Int → σ) (st : σ),
      ACS_loadModules.loop h.isSpace load (content.length + 1) content st =
        some (((maximalRuns h.isSpace content).map (fun run => cstr (run.take 8))).foldl
          load st)) ∧
    ((∀ c ∈ content, c ≠ 0) →
      (maximalRuns h.isSpace content).map (fun run => cstr (run.take 8)) =
        (maximalRuns h.isSpace content).map (fun run => run.take 8) ∧
      ACS_loadModules.loop h.isSpace
          (fun (log : List (List Int)) lumpname => log ++ [lumpname])
          (content.length + 1) content [] =
        some ((maximalRuns h.isSpace content).map (fun run => run.take 8))) ∧
    ((∀ c ∈ content, h.isSpace c = true) →
      maximalRuns h.isSpace content = [] ∧
      ∀ st : ACSEnvironment × List ModuleName, ACS_loadModules h st content = some st) := by
  have hgen : ∀ (σ : Type) (load : σ → List Int → σ) (st : σ),
      ACS_loadModules.loop h.isSpace load (content.length + 1) content st =
        some (((maximalRuns h.isSpace content).map (fun run => cstr (run.take 8))).foldl
          load st) :=
    fun σ load st => loadModules_loop h.isSpace load _ content st (Nat.lt_succ_self _)
  have hlog : ACS_loadModules.loop h.isSpace
        (fun (log : List (List Int)) lumpname => log ++ [lumpname])
        (content.length + 1) content [] =
      some ((maximalRuns h.isSpace content).map (fun run => cstr (run.take 8))) := by
    rw [hgen, foldl_log, List.nil_append]
  refine ⟨hlog, fun st => hgen _ _ st, hgen, ?_, ?_⟩
  · intro h0
    have hruns := cstr_runs h.isSpace content h0
    exact ⟨hruns, by rw [hlog, hruns]⟩
  · intro hall
    have hnil : maximalRuns h.isSpace content = [] := by
      rw [← maximalRuns_dropWhile, List.dropWhile_eq_nil_iff.mpr hall, maximalRuns_nil]
    refine ⟨hnil, fun st => ?_⟩
    unfold ACS_loadModules
    rw [hgen, hnil]
    rfl

theorem C40_loadacs_names_witness :
    ACS_loadModules.loop (fun c => c == 32 || c == 10)
        (fun (log : List (List Int)) lumpname => log ++ [lumpname]) 18
        [65, 66, 32, 32, 76, 79, 78, 71, 78, 65, 77, 69, 49, 50, 32, 67, 10] [] =
      some ((maximalRuns (fun c => c == 32 || c == 10)
        [65, 66, 32, 32, 76, 79, 78, 71, 78, 65, 77, 69, 49, 50, 32, 67, 10]).map
          (fun run => run.take 8)) :=
  ((C40_loadacs_names
    { SIZE_MAX := 65535, gamemap := 1, TICRATE := 35,
      isSpace := fun c => c == 32 || c == 10,
      checkNumForName := fun _ _ => -1,
      loadacs := fun _ => [],
      getMapScope := fun _ _ => {},
      readBytecode := fun env _ => (env, none),
      addModules := fun map _ => map,
      scriptStartType := fun map => map }
    [65, 66, 32, 32, 76, 79, 78, 71, 78, 65, 77, 69, 49, 50, 32, 67, 10]).2.2.2.1
      (by decide)).2


/-! ## Errors while the modules of a level are loaded (C31) -/

/-- What `ACSEnvironment::loadModule` does to the count of errors, the directory and
the map scope, `readBytecode` not lowering the count and leaving the other
two. -/
theorem loadModule_frame (h : LoadHost)
    (hmono : ∀ env m, env.errors ≤ (h.readBytecode env m).1.errors)
    (hframe : ∀ env m, (h.readBytecode env m).1.dir = env.dir ∧
      (h.readBytecode env m).1.map = env.map)
    (env : ACSEnvironment) (m : ModuleName) :
    env.errors ≤ (ACSEnvironment.loadModule h env m).1.errors ∧
    (ACSEnvironment.loadModule h env m).1.dir = env.dir ∧
    (ACSEnvironment.loadModule h env m).1.map = env.map := by
  unfold ACSEnvironment.loadModule
  split
  · exact ⟨Nat.le_refl _, rfl, rfl⟩
  · have h1 := hmono env m
    have h2 := hframe env m
    split
    · next env1 heq =>
      rw [heq] at h1 h2
      exact ⟨h1, h2.1, h2.2⟩
    · next env1 what heq =>
      rw [heq] at h1 h2
      exact ⟨Nat.le_succ_of_le h1, h2.1, h2.2⟩

theorem loadModule_one_frame (h : LoadHost)
    (hmono : ∀ env m, env.errors ≤ (h.readBytecode env m).1.errors)
    (hframe : ∀ env m, (h.readBytecode env m).1.dir = env.dir ∧
      (h.readBytecode env m).1.map = env.map)
    (st : ACSEnvironment × List ModuleName) (m : ModuleName) :
    st.1.errors ≤ (ACS_loadModule h st m).1.errors ∧
    (ACS_loadModule h st m).1.dir = st.1.dir ∧
    (ACS_loadModule h st m).1.map = st.1.map := by
  have hl := loadModule_frame h hmono hframe st.1 m
  unfold ACS_loadModule ACSEnvironment.getModule
  split
  · next env1 module heq =>
    split at heq
    · cases heq
      exact ⟨Nat.le_refl _, rfl, rfl⟩
    · split at heq
      · next env2 hl2 =>
        cases heq
        rw [hl2] at hl
        exact hl
      · cases heq
  · next env1 heq =>
    split at heq
    · cases heq
    · split at heq
      · cases heq
      · next env2 what hl2 =>
        cases heq
        rw [hl2] at hl
        exact hl

theorem loadModule_fold_frame (h : LoadHost)
    (hmono : ∀ env m, env.errors ≤ (h.readBytecode env m).1.errors)
    (hframe : ∀ env m, (h.readBytecode env m).1.dir = env.dir ∧
      (h.readBytecode env m).1.map = env.map)
    (names : List ModuleName) (st : ACSEnvironment × List ModuleName) :
    st.1.errors ≤ (names.foldl (ACS_loadModule h) st).1.errors ∧
    (names.foldl (ACS_loadModule h) st).1.dir = st.1.dir ∧
    (names.foldl (ACS_loadModule h) st).1.map = st.1.map := by
  induction names generalizing st with
  | nil => exact ⟨Nat.le_refl _, rfl, rfl⟩
  | cons m names ih =>
    rw [List.foldl_cons]
    obtain ⟨h1, h2, h3⟩ := loadModule_one_frame h hmono hframe st m
    obtain ⟨h4, h5, h6⟩ := ih (ACS_loadModule h st m)
    exact ⟨Nat.le_trans h1 h4, h5.trans h2, h6.trans h3⟩

theorem getModuleName_dir (h : LoadHost) (env : ACSEnvironment) (dir : Nat) (str : List Int)
    (hd : env.dir = some dir) :
    ACSEnvironment.getModuleName h env str =
      ACSEnvironment.getModuleName h { dir := some dir } str := by
  unfold ACSEnvironment.getModuleName
  rw [hd]

theorem loadModules_fold (h : LoadHost)
    (hmono : ∀ env m, env.errors ≤ (h.readBytecode env m).1.errors)
    (hframe : ∀ env m, (h.readBytecode env m).1.dir = env.dir ∧
      (h.readBytecode env m).1.map = env.map)
    (dir : Nat) (names : List (List Int)) (st : ACSEnvironment × List ModuleName)
    (hd : st.1.dir = some dir) :
    names.foldl
        (fun st lumpname => ACS_loadModule h st (ACSEnvironment.getModuleName h st.1 lumpname))
        st =
      (names.map (fun lumpname =>
        ACSEnvironment.getModuleName h { dir := some dir } lumpname)).foldl
        (ACS_loadModule h) st := by
  induction names generalizing st with
  | nil => rfl
  | cons n names ih =>
    rw [List.foldl_cons, List.map_cons, List.foldl_cons, getModuleName_dir h st.1 dir n hd]
    exact ih _ ((loadModule_one_frame h hmono hframe st _).2.1.trans hd)

/-- The loads of `ACS_LoadLevelScript` are `ACS_loadModule` on the names requested,
one after the other. -/
theorem loadacs_fold (h : LoadHost)
    (hmono : ∀ env m, env.errors ≤ (h.readBytecode env m).1.errors)
    (hframe : ∀ env m, (h.readBytecode env m).1.dir = env.dir ∧
      (h.readBytecode env m).1.map = env.map)
    (dir : Nat) (lumps : List (List Int)) (st : ACSEnvironment × List ModuleName)
    (hd : st.1.dir = some dir) :
    ACS_LoadLevelScript.loadacs h lumps st =
      some (((lumps.map (fun content =>
        (maximalRuns h.isSpace content).map (fun run =>
          ACSEnvironment.getModuleName h { dir := some dir } (cstr (run.take 8))))).flatten).foldl
        (ACS_loadModule h) st) := by
  induction lumps generalizing st with
  | nil => rfl
  | cons content lumps ih =>
    unfold ACS_LoadLevelScript.loadacs
    have h1 : ACS_loadModules h st content =
        some (((maximalRuns h.isSpace content).map (fun run =>
          ACSEnvironment.getModuleName h { dir := some dir } (cstr (run.take 8)))).foldl
          (ACS_loadModule h) st) := by
      unfold ACS_loadModules
      rw [loadModules_loop h.isSpace _ _ content st (Nat.lt_succ_self _),
        loadModules_fold h hmono hframe dir _ st hd, List.map_map]
      rfl
    rw [h1]
    simp only
    rw [ih _ ((loadModule_fold_frame h hmono hframe _ st).2.1.trans hd), List.map_cons,
      List.flatten_cons, List.foldl_append]

theorem load_eq_requests (h : LoadHost)
    (hmono : ∀ env m, env.errors ≤ (h.readBytecode env m).1.errors)
    (hframe : ∀ env m, (h.readBytecode env m).1.dir = env.dir ∧
      (h.readBytecode env m).1.map = env.map)
    (env : ACSEnvironment) (dir : Nat) (lump : Int) :
    ACS_LoadLevelScript.load h env dir lump =
      some ((ACS_LoadLevelScript.requests h dir lump).foldl (ACS_loadModule h)
        (ACS_LoadLevelScript.enter h env dir, [])) := by
  unfold ACS_LoadLevelScript.load ACS_LoadLevelScript.requests
  simp only
  have he : (ACS_LoadLevelScript.enter h env dir).dir = some dir := rfl
  by_cases hl : lump ≠ -1
  · rw [if_pos hl, if_pos hl, loadacs_fold h hmono hframe dir _ _
      ((loadModule_one_frame h hmono hframe _ _).2.1.trans he)]
    rfl
  · rw [if_neg hl, if_neg hl, loadacs_fold h hmono hframe dir _ _ he]
    rfl

/-- A request whose read fails: `ACS_loadModule` adds nothing to `modules`, and the
environment is that after `readBytecode` with one more error and the message;
the library does not hold the module as loaded because of it. -/
theorem loadModule_fail (h : LoadHost) (st : ACSEnvironment × List ModuleName)
    (name : ModuleName) (what : String)
    (hnl : name ∉ st.1.loaded) (hi : name.i ≠ h.SIZE_MAX)
    (hfail : (h.readBytecode st.1 name).2 = some what) :
    ACS_loadModule h st name =
      ({ (h.readBytecode st.1 name).1 with
          errors := (h.readBytecode st.1 name).1.errors + 1,
          printed := (h.readBytecode st.1 name).1.printed ++
            [{ name := name.s, what := what }] }, st.2) := by
  unfold ACS_loadModule ACSEnvironment.getModule ACSEnvironment.loadModule
  rw [if_neg hnl, if_neg hi]
  cases hr : h.readBytecode st.1 name with
  | mk env1 res =>
    rw [hr] at hfail
    simp only at hfail
    subst hfail
    rfl

/-- C31: `ACS_LoadLevelScript(dir, lump)`, with `readBytecode` never lowering the
count of errors and leaving the directory and the map scope of the environment
alone. Let the `k`-th request for a module, after the loads before it, reach
`readBytecode` (the module is not held as loaded, and it has a lump) and let
`readBytecode` throw `ReadError`. Then that request leaves the collection
`modules` as it is, so the module is not added, and counts an error; and the
function returns with a count of errors that is not 0, the environment being as
the loads have left it and its map scope as it was fetched and set active:
`addModules` and `scriptStartType` have not been called. -/
theorem C31_load_error (h : LoadHost)
    (hmono : ∀ env m, env.errors ≤ (h.readBytecode env m).1.errors)
    (hframe : ∀ env m, (h.readBytecode env m).1.dir = env.dir ∧
      (h.readBytecode env m).1.map = env.map)
    (env : ACSEnvironment) (dir : Nat) (lump : Int) (k : Nat) (name : ModuleName)
    (st : ACSEnvironment × List ModuleName) (what : String)
    (hk : (ACS_LoadLevelScript.requests h dir lump)[k]? = some name)
    (hst : st = ((ACS_LoadLevelScript.requests h dir lump).take k).foldl (ACS_loadModule h)
      (ACS_LoadLevelScript.enter h env dir, []))
    (hnl : name ∉ st.1.loaded) (hi : name.i ≠ h.SIZE_MAX)
    (hfail : (h.readBytecode st.1 name).2 = some what) :
    ((ACS_loadModule h st name).2 = st.2 ∧
      (ACS_loadModule h st name).1.errors = (h.readBytecode st.1 name).1.errors + 1 ∧
      (ACS_loadModule h st name).1.loaded = (h.readBytecode st.1 name).1.loaded) ∧
    ∃ (envF : ACSEnvironment) (modules : List ModuleName),
      ACS_LoadLevelScript.load h env dir lump = some (envF, modules) ∧
      ACS_LoadLevelScript h env dir lump = some envF ∧
      envF.errors ≠ 0 ∧
      envF.map = { h.getMapScope { env with dir := some dir } h.gamemap with active := true } := by
  have hone := loadModule_fail h st name what hnl hi hfail
  refine ⟨by rw [hone]; exact ⟨rfl, rfl, rfl⟩, ?_⟩
  have hload := load_eq_requests h hmono hframe env dir lump
  have hsplit : ACS_LoadLevelScript.requests h dir lump =
      (ACS_LoadLevelScript.requests h dir lump).take k ++
        name :: (ACS_LoadLevelScript.requests h dir lump).drop (k + 1) := by
    have hlt : k < (ACS_LoadLevelScript.requests h dir lump).length :=
      (List.getElem?_eq_some.mp hk).1
    have hget : (ACS_LoadLevelScript.requests h dir lump)[k] = name :=
      (List.getElem?_eq_some.mp hk).2
    conv_lhs => rw [← List.take_append_drop k (ACS_LoadLevelScript.requests h dir lump)]
    rw [List.drop_eq_getElem_cons hlt, hget]
  have hfold : (ACS_LoadLevelScript.requests h dir lump).foldl (ACS_loadModule h)
        (ACS_LoadLevelScript.enter h env dir, []) =
      ((ACS_LoadLevelScript.requests h dir lump).drop (k + 1)).foldl (ACS_loadModule h)
        (ACS_loadModule h st name) := by
    conv_lhs => rw [hsplit]
    rw [List.foldl_append, List.foldl_cons, ← hst]
  have herr : 1 ≤ ((ACS_LoadLevelScript.requests h dir lump).foldl (ACS_loadModule h)
      (ACS_LoadLevelScript.enter h env dir, [])).1.errors := by
    rw [hfold]
    have h1 := (loadModule_fold_frame h hmono hframe
      ((ACS_LoadLevelScript.requests h dir lump).drop (k + 1)) (ACS_loadModule h st name)).1
    have h2 : 1 ≤ (ACS_loadModule h st name).1.errors := by
      rw [hone]
      exact Nat.le_add_left 1 _
    exact Nat.le_trans h2 h1
  have hmap := (loadModule_fold_frame h hmono hframe
    (ACS_LoadLevelScript.requests h dir lump) (ACS_LoadLevelScript.enter h env dir, [])).2.2
  refine ⟨_, _, hload, ?_, by omega, hmap⟩
  unfold ACS_LoadLevelScript
  rw [hload]
  simp only
  rw [if_pos (by omega)]

theorem C31_load_error_witness :
    ∃ (envF : ACSEnvironment) (modules : List ModuleName),
      ACS_LoadLevelScript.load
        { SIZE_MAX := 65535, gamemap := 1, TICRATE := 35,
          isSpace := fun c => c == 32 || c == 10,
          checkNumForName := fun _ str => if str = [65] then 3 else if str = [66] then 4 else -1,
          loadacs := fun _ => [[65, 32, 66, 10]],
          getMapScope := fun _ _ => {},
          readBytecode := fun env m => (env, if m.i = 3 then some "bad header" else none),
          addModules := fun map ms => { map with modules := map.modules ++ ms },
          scriptStartType := fun map => { map with threadActive := [{}] } }
        {} 0 (-1) = some (envF, modules) ∧
      ACS_LoadLevelScript
        { SIZE_MAX := 65535, gamemap := 1, TICRATE := 35,
          isSpace := fun c => c == 32 || c == 10,
          checkNumForName := fun _ str => if str = [65] then 3 else if str = [66] then 4 else -1,
          loadacs := fun _ => [[65, 32, 66, 10]],
          getMapScope := fun _ _ => {},
          readBytecode := fun env m => (env, if m.i = 3 then some "bad header" else none),
          addModules := fun map ms => { map with modules := map.modules ++ ms },
          scriptStartType := fun map => { map with threadActive := [{}] } }
        {} 0 (-1) = some envF ∧
      envF.errors ≠ 0 ∧
      envF.map = { ({} : MapScope) with active := true } :=
  (C31_load_error
    { SIZE_MAX := 65535, gamemap := 1, TICRATE := 35,
      isSpace := fun c => c == 32 || c == 10,
      checkNumForName := fun _ str => if str = [65] then 3 else if str = [66] then 4 else -1,
      loadacs := fun _ => [[65, 32, 66, 10]],
      getMapScope := fun _ _ => {},
      readBytecode := fun env m => (env, if m.i = 3 then some "bad header" else none),
      addModules := fun map ms => { map with modules := map.modules ++ ms },
      scriptStartType := fun map => { map with threadActive := [{}] } }
    (fun _ _ => Nat.le_refl _) (fun _ _ => ⟨rfl, rfl⟩)
    {} 0 (-1) 0 { s := [65], p := some 0, i := 3 }
    ({ dir := some 0, map := { active := true } }, []) "bad header"
    (by decide) (by decide) (by decide) (by decide) (by decide)).2

end ACS
